import Mathlib

/-! Congestion-aware analytical network topologies: routing and addressing.

A shallow embedding of the routing engine of the congestion-aware analytical
network backend (`Ring.cpp`, `Mesh.cpp`, `FullyConnected.cpp`, `Switch.cpp`,
`Mesh2D.cpp`, `Torus2D.cpp`, `KingMesh2D.cpp`, `MultiDimTopology.cpp`) together with
theorems about it.

Conventions of the embedding:

* a C++ `int` is a Lean `Int`; `/` and `%` on `int` are `Int.tdiv` and
  `Int.tmod` (truncation towards zero);
* a `Route` (a `std::list` of shared device pointers) is the list of the ids
  of its devices, `devices.at(i)` being the device whose id is `i`;
* a `double` (bandwidth, latency, link health) of a topology is a rational number; the
  bandwidths and the latencies that the parser reads from the configuration and validates are
  values of `Double`, which has the infinities and NaN as well;
* a function that can stop the process returns `Except Abort`: a failed
  `assert`, an out-of-range `std::vector::at`, undefined behaviour, a call of
  `std::exit`, and, for the loops and recursions whose termination is not
  structural, the exhaustion of an explicit fuel.
-/

namespace NetworkAnalyticalCongestionAware

/-! ## Common types -/

/-- Reasons for which the C++ code stops without returning a value. -/
inductive Abort where
  /-- An `assert` failed. -/
  | assertion
  /-- An `std::vector::at` index was out of range (the exception escapes a `noexcept` function). -/
  | out_of_range
  /-- Undefined behaviour: unchecked indexing out of range, division by zero, `front()` of an empty list. -/
  | undefined
  /-- The code called `std::exit(-1)`. -/
  | exited
  /-- The fuel of a loop or of a recursion ran out: the model did not see the code return. -/
  | out_of_fuel
  /-- A conversion `as<int>()` of a YAML scalar failed (the exception escapes a `noexcept` function). -/
  | bad_conversion
deriving DecidableEq, Repr

deriving instance DecidableEq for Except

abbrev DeviceId := Int

/-- A route: the ids of the devices it goes through, in order. -/
abbrev Route := List DeviceId

/-- An address in a multi-dimensional topology: one coordinate per dimension. -/
abbrev MultiDimAddress := List Int

/-- A connection policy `(src, dst)`. -/
abbrev ConnectionPolicy := Int × Int

/-- The fault list: tuples `(src, dst, health)`. -/
abbrev FaultyLinks := List (Int × Int × Rat)

/-- The C++ `assert(c)`. -/
def cassert (c : Prop) [Decidable c] : Except Abort Unit :=
  if c then .ok () else .error .assertion

/-- The C++ `v.at(i)` for a non-negative index. -/
def vector_at {α : Type} (v : List α) (i : Nat) : Except Abort α :=
  match v[i]? with
  | some x => .ok x
  | none => .error .out_of_range

/-- The C++ `v.at(i) = x` for a non-negative index. -/
def vector_set {α : Type} (v : List α) (i : Nat) (x : α) : Except Abort (List α) :=
  if i < v.length then .ok (v.set i x) else .error .out_of_range

/-- The device `devices.at(i)` of a topology with `devices_count` devices, device `i` having id `i`. -/
def devices_at (devices_count : Int) (i : Int) : Except Abort DeviceId :=
  if 0 ≤ i ∧ i < devices_count then .ok i else .error .out_of_range

/-- The device `devices[i]` (unchecked indexing) of a topology with `devices_count` devices. -/
def devices_index (devices_count : Int) (i : Int) : Except Abort DeviceId :=
  if 0 ≤ i ∧ i < devices_count then .ok i else .error .undefined

/-- The scan of the fault list shared by `Ring::fault_derate`, `Mesh::fault_derate`,
`FullyConnected::fault_derate`, `Switch::fault_derate`, `KingMesh2D::fault_derate` and
`MultiDimTopology::fault_derate`, whose bodies are the same: the health of the first
entry matching the pair in either direction, `1` when there is none. -/
def fault_derate : FaultyLinks → Int → Int → Rat
  | [], _, _ => 1
  | (a, b, health) :: rest, src, dst =>
    if (a = src ∧ b = dst) ∨ (a = dst ∧ b = src) then health else fault_derate rest src dst

/-- The kinds of basic topology (`TopologyBuildingBlock`). -/
inductive TopologyBuildingBlock where
  | Undefined
  | Ring
  | FullyConnected
  | Switch
  | Mesh
  | Mesh2D
  | Torus2D
  | KingMesh2D
  | Bus
  | BinaryTree
  | DoubleBinaryTree
  | HyperCube
deriving DecidableEq, Repr

/-- What `MultiDimTopology` uses of a `BasicTopology`: its counts, its link parameters and its
two virtual functions. -/
structure BasicTopology where
  basic_topology_type : TopologyBuildingBlock
  npus_count : Int
  devices_count : Int
  bandwidth : Rat
  latency : Rat
  route : DeviceId → DeviceId → Except Abort Route
  get_connection_policies : List ConnectionPolicy

/-! ## Ring -/

namespace Ring

/-- The wrap-around of `Ring::route`: `+ npus_count` below zero, `- npus_count` from
`npus_count` on. -/
def wrap_around (npus_count current : Int) : Int :=
  if current < 0 then current + npus_count
  else if current ≥ npus_count then current - npus_count
  else current

/-- The `while (current != dest)` loop of `Ring::route`, followed by the push of `dest`. -/
def route_loop (npus_count : Int) (dest : DeviceId) (step : Int) : Nat → DeviceId → Except Abort Route
  | 0, _ => .error .out_of_fuel
  | fuel + 1, current =>
    if current ≠ dest then do
      let device ← devices_at npus_count current
      let rest ← route_loop npus_count dest step fuel (wrap_around npus_count (current + step))
      pure (device :: rest)
    else do
      let device ← devices_at npus_count dest
      pure [device]

/-- The direction `Ring::route` chooses: `-1` (anticlockwise) when the ring is bidirectional
and the anticlockwise distance is strictly smaller, `1` (clockwise) otherwise. -/
def route_step (npus_count : Int) (bidirectional : Bool) (src dest : DeviceId) : Int :=
  if bidirectional then
    let clockwise_dist := if dest - src < 0 then dest - src + npus_count else dest - src
    let anticlockwise_dist := npus_count - clockwise_dist
    if anticlockwise_dist < clockwise_dist then -1 else 1
  else 1

/-- The function `Ring::route`, its loop running on `fuel`. -/
def route_fuel (npus_count : Int) (bidirectional : Bool) (fuel : Nat) (src dest : DeviceId) :
    Except Abort Route := do
  cassert (0 ≤ src ∧ src < npus_count)
  cassert (0 ≤ dest ∧ dest < npus_count)
  route_loop npus_count dest (route_step npus_count bidirectional src dest) fuel src

/-- The function `Ring::route` with as much fuel as the ring has devices, which is enough
for every loop that ends (`Ring.route_fuel_spec`). -/
def route (npus_count : Int) (bidirectional : Bool) (src dest : DeviceId) : Except Abort Route :=
  route_fuel npus_count bidirectional npus_count.toNat src dest

/-- The function `Ring::get_connection_policies`. -/
def get_connection_policies (npus_count : Int) (bidirectional : Bool) : List ConnectionPolicy :=
  (List.range npus_count.toNat).map (fun (i : Nat) => ((i : Int), Int.tmod ((i : Int) + 1) npus_count))
  ++ (if bidirectional then
        (List.range npus_count.toNat).map
          (fun (i : Nat) => (Int.tmod ((i : Int) + 1) npus_count, (i : Int)))
      else [])

/-- A ring seen as a dimension of a larger topology. -/
def topology (npus_count : Int) (bandwidth latency : Rat) (bidirectional : Bool) : BasicTopology where
  basic_topology_type := .Ring
  npus_count := npus_count
  devices_count := npus_count
  bandwidth := bandwidth
  latency := latency
  route := route npus_count bidirectional
  get_connection_policies := get_connection_policies npus_count bidirectional

end Ring

/-! ## FullyConnected -/

namespace FullyConnected

/-- The function `FullyConnected::route`. -/
def route (npus_count : Int) (src dest : DeviceId) : Except Abort Route := do
  cassert (0 ≤ src ∧ src < npus_count)
  cassert (0 ≤ dest ∧ dest < npus_count)
  let first ← devices_index npus_count src
  let second ← devices_index npus_count dest
  pure [first, second]

/-- The function `FullyConnected::get_connection_policies`. -/
def get_connection_policies (npus_count : Int) : List ConnectionPolicy :=
  (List.range npus_count.toNat).flatMap (fun (src : Nat) =>
    ((List.range npus_count.toNat).filter (fun (dest : Nat) => src ≠ dest)).map
      (fun (dest : Nat) => ((src : Int), (dest : Int))))

/-- A fully connected topology seen as a dimension of a larger topology. -/
def topology (npus_count : Int) (bandwidth latency : Rat) : BasicTopology where
  basic_topology_type := .FullyConnected
  npus_count := npus_count
  devices_count := npus_count
  bandwidth := bandwidth
  latency := latency
  route := route npus_count
  get_connection_policies := get_connection_policies npus_count

end FullyConnected

/-! ## Mesh (1D) -/

namespace Mesh

/-- The ascending loop `for (i = src; i <= dest; i++)` of `Mesh::route`, `count` iterations
from `i` on. -/
def route_up (npus_count : Int) : Nat → Int → Except Abort Route
  | 0, _ => pure []
  | count + 1, i => do
    let device ← devices_index npus_count i
    let rest ← route_up npus_count count (i + 1)
    pure (device :: rest)

/-- The descending loop `for (i = src; i >= dest; i--)` of `Mesh::route`, `count` iterations
from `i` on. -/
def route_down (npus_count : Int) : Nat → Int → Except Abort Route
  | 0, _ => pure []
  | count + 1, i => do
    let device ← devices_index npus_count i
    let rest ← route_down npus_count count (i - 1)
    pure (device :: rest)

/-- The function `Mesh::route`. -/
def route (npus_count : Int) (src dest : DeviceId) : Except Abort Route := do
  cassert (0 ≤ src ∧ src < npus_count)
  cassert (0 ≤ dest ∧ dest < npus_count)
  cassert (src ≠ dest)
  if dest > src then route_up npus_count (dest - src + 1).toNat src
  else route_down npus_count (src - dest + 1).toNat src

/-- The function `Mesh::get_connection_policies`. -/
def get_connection_policies (npus_count : Int) : List ConnectionPolicy :=
  (List.range (npus_count - 1).toNat).flatMap (fun (i : Nat) =>
    [((i : Int), (i : Int) + 1), ((i : Int) + 1, (i : Int))])

/-- A mesh seen as a dimension of a larger topology. -/
def topology (npus_count : Int) (bandwidth latency : Rat) : BasicTopology where
  basic_topology_type := .Mesh
  npus_count := npus_count
  devices_count := npus_count
  bandwidth := bandwidth
  latency := latency
  route := route npus_count
  get_connection_policies := get_connection_policies npus_count

end Mesh

/-! ## MultiDimTopology -/

/-- A link as `connect(src, dest, bandwidth, latency, false)` installs it. -/
structure Link where
  src : DeviceId
  dest : DeviceId
  bandwidth : Rat
  latency : Rat
deriving DecidableEq, Repr

/-- The state of a `MultiDimTopology`. The `devices` are kept as the list of their ids. The
switch translation unit, whose class is not part of these sources, is the function
`translate_address_to_id` it provides. The links are not part of this state: the functions
that install them return the list of their `connect` calls. -/
structure MultiDimTopology where
  npus_count : Int
  devices_count : Int
  dims_count : Nat
  npus_count_per_dim : List Int
  bandwidth_per_dim : List Rat
  m_topology_per_dim : List BasicTopology
  faulty_links : FaultyLinks
  m_non_recursive_topo : List Int
  m_cluster : Bool
  devices : List DeviceId
  m_switch_translation_unit : Option (MultiDimAddress → Except Abort DeviceId)

namespace MultiDimTopology

/-- The constructor `MultiDimTopology::MultiDimTopology`; the index `size() - 1` of an empty
mask is out of range. -/
def create (faulty_links : FaultyLinks) (non_recursive_topo : List Int) :
    Except Abort MultiDimTopology := do
  let last ← vector_at non_recursive_topo (non_recursive_topo.length - 1)
  pure {
    npus_count := 1
    devices_count := 1
    dims_count := 0
    npus_count_per_dim := []
    bandwidth_per_dim := []
    m_topology_per_dim := []
    faulty_links := faulty_links
    m_non_recursive_topo := non_recursive_topo
    m_cluster := decide (last = 1)
    devices := []
    m_switch_translation_unit := none }

/-- The function `MultiDimTopology::append_dimension`. -/
def append_dimension (t : MultiDimTopology) (topology : BasicTopology) :
    Except Abort MultiDimTopology := do
  cassert (topology.basic_topology_type ≠ TopologyBuildingBlock.Undefined)
  pure { t with
    dims_count := t.dims_count + 1
    npus_count := t.npus_count * topology.npus_count
    devices_count := t.devices_count * topology.devices_count
    bandwidth_per_dim := t.bandwidth_per_dim ++ [topology.bandwidth]
    m_topology_per_dim := t.m_topology_per_dim ++ [topology]
    npus_count_per_dim := t.npus_count_per_dim ++ [topology.npus_count] }

/-- The product `std::accumulate(first, last, 1, std::multiplies)`. -/
def accumulate_product (l : List Int) : Int := l.foldl (fun acc n => acc * n) 1

/-- The product `partial_product.at(i)` of `get_total_num_devices`: the NPU counts of the
dimensions above `i`. -/
def product_above (t : MultiDimTopology) (i : Nat) : Int :=
  accumulate_product (t.npus_count_per_dim.drop (i + 1))

/-- The loop of `get_total_num_devices` that counts the switches, over the dimensions below
`i`: one switch per combination of the coordinates above a switch dimension. -/
def total_switch_device (t : MultiDimTopology) : Nat → Except Abort Int
  | 0 => pure 0
  | i + 1 => do
    let below ← total_switch_device t i
    let topology ← vector_at t.m_topology_per_dim i
    pure (if topology.basic_topology_type = TopologyBuildingBlock.Switch
      then below + product_above t i else below)

/-- The function `MultiDimTopology::get_total_num_devices`. -/
def get_total_num_devices (t : MultiDimTopology) : Except Abort Int := do
  cassert (t.npus_count_per_dim.length = t.dims_count)
  if t.dims_count = 0 then throw Abort.out_of_range
  let first ← vector_at t.npus_count_per_dim 0
  cassert (t.npus_count = product_above t 0 * first)
  let switches ← total_switch_device t t.dims_count
  pure (t.npus_count + switches)

/-- The function `MultiDimTopology::initialize_all_devices`. -/
def initialize_all_devices (t : MultiDimTopology) : Except Abort MultiDimTopology := do
  let total_num_devices ← get_total_num_devices t
  pure { t with
    devices := t.devices ++ (List.range total_num_devices.toNat).map (fun (i : Nat) => (i : Int)) }

/-- The function `MultiDimTopology::build_switch_length_mapping`; `switch_translation_unit`
is the constructor of the translation unit, from the NPU counts and the switch mask to its
`translate_address_to_id`. -/
def build_switch_length_mapping
    (switch_translation_unit : List Int → List Bool → MultiDimAddress → Except Abort DeviceId)
    (t : MultiDimTopology) : MultiDimTopology :=
  match t.m_switch_translation_unit with
  | some _ => t
  | none =>
    let is_switch_dim := t.m_topology_per_dim.map
      (fun topology => decide (topology.basic_topology_type = TopologyBuildingBlock.Switch))
    let translation_unit := switch_translation_unit t.npus_count_per_dim is_switch_dim
    { t with m_switch_translation_unit := some translation_unit }

/-- The loop of `translate_address`, from dimension `dim - 1` down to `0`. -/
def translate_address_loop (t : MultiDimTopology) :
    Nat → Int → Int → MultiDimAddress → Except Abort MultiDimAddress
  | 0, _, _, multi_dim_address => pure multi_dim_address
  | dim + 1, leftover, denominator, multi_dim_address => do
    let n ← vector_at t.npus_count_per_dim dim
    if n = 0 then throw Abort.undefined
    let denominator := Int.tdiv denominator n
    if denominator = 0 then throw Abort.undefined
    let quotient := Int.tdiv leftover denominator
    let leftover := Int.tmod leftover denominator
    let multi_dim_address ← vector_set multi_dim_address dim quotient
    translate_address_loop t dim leftover denominator multi_dim_address

/-- The range assertions at the end of `translate_address`, for the dimensions below `i`. -/
def translate_address_check (t : MultiDimTopology) (multi_dim_address : MultiDimAddress) :
    Nat → Except Abort Unit
  | 0 => pure ()
  | i + 1 => do
    translate_address_check t multi_dim_address i
    let a ← vector_at multi_dim_address i
    cassert (0 ≤ a)
    let n ← vector_at t.npus_count_per_dim i
    cassert (a < n)

/-- The function `MultiDimTopology::translate_address`. -/
def translate_address (t : MultiDimTopology) (npu_id : DeviceId) : Except Abort MultiDimAddress := do
  let multi_dim_address ←
    translate_address_loop t t.dims_count npu_id t.npus_count (List.replicate t.dims_count (-1))
  translate_address_check t multi_dim_address t.dims_count
  pure multi_dim_address

/-- The loop of `translate_address_back`, from dimension `top_dim - 1` down to `0`. -/
def translate_address_back_loop (t : MultiDimTopology) (multi_dim_address : MultiDimAddress) :
    Nat → DeviceId → Except Abort DeviceId
  | 0, device_id => pure device_id
  | top_dim + 1, device_id => do
    if top_dim > t.npus_count_per_dim.length then throw Abort.undefined
    let total_npus_in_group := accumulate_product (t.npus_count_per_dim.take top_dim)
    let a ← vector_at multi_dim_address top_dim
    translate_address_back_loop t multi_dim_address top_dim (device_id + total_npus_in_group * a)

/-- The function `MultiDimTopology::translate_address_back`. -/
def translate_address_back (t : MultiDimTopology) (multi_dim_address : MultiDimAddress) :
    Except Abort DeviceId := do
  cassert (multi_dim_address.length = t.dims_count)
  translate_address_back_loop t multi_dim_address t.dims_count 0

/-- The function `MultiDimTopology::is_switch`: some coordinate is not below the NPU count
of its dimension. -/
def is_switch (t : MultiDimTopology) (address : MultiDimAddress) : Except Abort Bool := do
  cassert (address.length = t.npus_count_per_dim.length)
  pure ((List.zip t.npus_count_per_dim address).any (fun ra => decide (¬ ra.2 < ra.1)))

/-- The function `MultiDimTopology::fault_derate`. -/
def fault_derate (t : MultiDimTopology) (src dst : Int) : Rat :=
  NetworkAnalyticalCongestionAware.fault_derate t.faulty_links src dst

/-- The translation of one device of an internal route to the device of the whole topology
(the body of the loop over `internal_route` in `routeHelper`). -/
def global_device (t : MultiDimTopology) (last_dest_address : MultiDimAddress)
    (dim_to_transfer : Nat) (internal_device_number : DeviceId) : Except Abort DeviceId := do
  let internal_device_address ← vector_set last_dest_address dim_to_transfer internal_device_number
  let switch ← is_switch t internal_device_address
  let global_device_id ←
    if switch then
      match t.m_switch_translation_unit with
      | some translate_address_to_id => translate_address_to_id internal_device_address
      | none => throw Abort.exited
    else translate_address_back t internal_device_address
  cassert (0 ≤ global_device_id ∧ global_device_id < t.devices_count)
  vector_at t.devices global_device_id.toNat

/-- The loop of `routeHelper` over `internal_route`: the devices of the whole topology the
internal route goes through. -/
def global_route (t : MultiDimTopology) (last_dest_address : MultiDimAddress)
    (dim_to_transfer : Nat) : Route → Except Abort Route
  | [] => pure []
  | internal_device_number :: rest => do
    let device ← global_device t last_dest_address dim_to_transfer internal_device_number
    let others ← global_route t last_dest_address dim_to_transfer rest
    pure (device :: others)

/-- The scan of a segment for its first link of derate zero: the segment, cut after the
device before that link, and whether a fault was met. -/
def fault_scan (faulty_links : FaultyLinks) : List DeviceId → List DeviceId × Bool
  | a :: b :: rest =>
    if NetworkAnalyticalCongestionAware.fault_derate faulty_links a b = 0 then ([a], true)
    else
      let scanned := fault_scan faulty_links (b :: rest)
      (a :: scanned.1, scanned.2)
  | route_id => (route_id, false)

/-- The exchange `std::swap(v.at(i), v.at(j))`. -/
def vector_swap (v : List Nat) (i j : Nat) : Except Abort (List Nat) := do
  let x ← vector_at v i
  let y ← vector_at v j
  pure ((v.set i y).set j x)

/-- The loop of `routeHelper` over the routing dimensions that remain, `route` and
`last_dest_address` being its state; `recurse` is `routeHelper` itself, called on a fault. -/
def routeHelper_loop (t : MultiDimTopology)
    (recurse : DeviceId → DeviceId → List Nat → Except Abort Route)
    (src dest : DeviceId) (src_address dest_address : MultiDimAddress)
    (routing_dimensions : List Nat) :
    List Nat → Route → MultiDimAddress → Except Abort Route
  | [], route, _ => do
    match route.head?, route.getLast? with
    | some front, some back =>
      cassert (front = src ∧ back = dest)
      pure route
    | _, _ => throw Abort.undefined
  | dim_to_transfer :: remaining, route, last_dest_address => do
    let src_coordinate ← vector_at src_address dim_to_transfer
    let dest_coordinate ← vector_at dest_address dim_to_transfer
    if src_coordinate ≠ dest_coordinate then
      let next_dim_dest_address ← vector_set last_dest_address dim_to_transfer dest_coordinate
      let topology ← vector_at t.m_topology_per_dim dim_to_transfer
      let internal_src ← vector_at last_dest_address dim_to_transfer
      let internal_dest ← vector_at next_dim_dest_address dim_to_transfer
      let internal_route ← topology.route internal_src internal_dest
      let route_id ← global_route t last_dest_address dim_to_transfer internal_route
      let scanned := fault_scan t.faulty_links route_id
      let route_id := scanned.1
      let meet_fault := scanned.2
      let route_in_dim := if route ≠ [] ∧ route_id ≠ [] then route_id.tail else route_id
      let route := route ++ route_in_dim
      if meet_fault then
        let last_id ← match route_id.getLast? with
          | some last_id => pure last_id
          | none => throw Abort.undefined
        let last_device_addr ← translate_address t last_id
        if last_device_addr.length = 0 then throw Abort.undefined
        let next_dim := (dim_to_transfer + 1) % last_device_addr.length
        let coordinate ← vector_at last_device_addr next_dim
        let n ← vector_at t.npus_count_per_dim next_dim
        if n = 0 then throw Abort.undefined
        let new_dest_addr ← vector_set last_device_addr next_dim (Int.tmod (coordinate + 1) n)
        let new_dest ← translate_address_back t new_dest_addr
        let swapped_dim :=
          if dim_to_transfer = 0 then routing_dimensions.length - 1 else dim_to_transfer - 1
        let new_routing_dimension ← vector_swap routing_dimensions dim_to_transfer swapped_dim
        let new_route ← recurse new_dest dest new_routing_dimension
        pure (route ++ new_route)
      else
        let _ ← translate_address_back t next_dim_dest_address
        routeHelper_loop t recurse src dest src_address dest_address routing_dimensions
          remaining route next_dim_dest_address
    else
      routeHelper_loop t recurse src dest src_address dest_address routing_dimensions
        remaining route last_dest_address

/-- The function `MultiDimTopology::routeHelper`; every call of itself takes one unit of
`fuel`. -/
def routeHelper (t : MultiDimTopology) :
    Nat → DeviceId → DeviceId → List Nat → Except Abort Route
  | 0, _, _, _ => throw Abort.out_of_fuel
  | fuel + 1, src, dest, routing_dimensions => do
    cassert (0 ≤ src ∧ src < t.npus_count)
    cassert (0 ≤ dest ∧ dest < t.npus_count)
    let src_address ← translate_address t src
    let dest_address ← translate_address t dest
    routeHelper_loop t (routeHelper t fuel) src dest src_address dest_address routing_dimensions
      routing_dimensions [] src_address

/-- The routing dimensions from the highest down to zero. -/
def normal_routing_dimensions (t : MultiDimTopology) : List Nat :=
  (List.range t.dims_count).reverse

/-- The routing dimensions from zero up to the highest. -/
def reverse_routing_dimensions (t : MultiDimTopology) : List Nat :=
  List.range t.dims_count

/-- The function `MultiDimTopology::routeNormal`. -/
def routeNormal (t : MultiDimTopology) (fuel : Nat) (src dest : DeviceId) : Except Abort Route :=
  routeHelper t fuel src dest (normal_routing_dimensions t)

/-- The loop of `routeCluster` that zeroes the coordinates of the source from dimension `dim`
up, until the first dimension whose mask entry is not zero. -/
def zero_recursive_dims (t : MultiDimTopology) :
    Nat → Nat → MultiDimAddress → Except Abort MultiDimAddress
  | 0, _, src_cluster_agent_addr => pure src_cluster_agent_addr
  | count + 1, dim, src_cluster_agent_addr => do
    let entry ← vector_at t.m_non_recursive_topo dim
    if entry = 0 then
      let src_cluster_agent_addr ← vector_set src_cluster_agent_addr dim 0
      zero_recursive_dims t count (dim + 1) src_cluster_agent_addr
    else pure src_cluster_agent_addr

/-- The address of the source's cluster agent in `routeCluster`. -/
def src_cluster_agent_addr (t : MultiDimTopology) (src_addr : MultiDimAddress) :
    Except Abort MultiDimAddress :=
  zero_recursive_dims t t.dims_count 0 src_addr

/-- The address of the top cluster agent in `routeCluster`. -/
def top_cluster_agent_addr (t : MultiDimTopology) (src_addr : MultiDimAddress) :
    Except Abort MultiDimAddress := do
  cassert ((List.replicate t.dims_count (0 : Int)).length = t.dims_count)
  if t.dims_count = 0 then throw Abort.out_of_range
  else do
    let top ← vector_at src_addr (t.dims_count - 1)
    vector_set (List.replicate t.dims_count (0 : Int)) (t.dims_count - 1) top

/-- The concatenation of two segments of `routeCluster`, the head of the second one being
dropped when both are non-empty. -/
def splice_segment (final_route segment : Route) : Route :=
  if segment ≠ [] then
    (if final_route ≠ [] then final_route ++ segment.tail else final_route ++ segment)
  else final_route

/-- The function `MultiDimTopology::routeCluster`. -/
def routeCluster (t : MultiDimTopology) (fuel : Nat) (src dest : DeviceId) :
    Except Abort Route := do
  let src_addr ← translate_address t src
  let agent_addr ← src_cluster_agent_addr t src_addr
  let src_cluster_agent_id ← translate_address_back t agent_addr
  let top_addr ← top_cluster_agent_addr t src_addr
  let top_cluster_agent_id ← translate_address_back t top_addr
  let route_to_agent ←
    (if src ≠ src_cluster_agent_id then
      routeHelper t fuel src src_cluster_agent_id (normal_routing_dimensions t)
    else pure [])
  let cluster_route ←
    (if src_cluster_agent_id ≠ top_cluster_agent_id then
      routeHelper t fuel src_cluster_agent_id top_cluster_agent_id (reverse_routing_dimensions t)
    else pure [])
  let agent_to_dest ←
    (if top_cluster_agent_id ≠ dest then
      routeHelper t fuel top_cluster_agent_id dest (normal_routing_dimensions t)
    else pure [])
  pure (splice_segment (splice_segment route_to_agent cluster_route) agent_to_dest)

/-- The function `MultiDimTopology::route`. -/
def route (t : MultiDimTopology) (fuel : Nat) (src dest : DeviceId) : Except Abort Route :=
  if t.m_cluster then routeCluster t fuel src dest else routeNormal t fuel src dest

/-- The addresses whose coordinate in every dimension is taken from the choices of that
dimension, the first dimension varying slowest. -/
def cartesian_addresses : List (List Int) → List MultiDimAddress
  | [] => [[]]
  | choices :: rest => choices.flatMap (fun c => (cartesian_addresses rest).map (fun a => c :: a))

/-- Modelled from the spec: `generateAddressPairs` (declared in `Helper.h`, not part of these
sources). For a connection policy of dimension `dim` and every choice of the coordinates in
the other dimensions (the full Cartesian product of the NPU counts of the other dimensions),
the pair of the addresses having the policy's source and the policy's destination as
coordinate `dim`. -/
def generateAddressPairs (npus_count_per_dim : List Int) (policy : ConnectionPolicy) (dim : Nat) :
    List (MultiDimAddress × MultiDimAddress) :=
  let choices := (List.range npus_count_per_dim.length).map (fun (j : Nat) =>
    if j = dim then [0]
    else (List.range (npus_count_per_dim.getD j 0).toNat).map (fun (c : Nat) => (c : Int)))
  (cartesian_addresses choices).map (fun a => (a.set dim policy.1, a.set dim policy.2))

/-- The device id of an address in `make_connections`: the switch translation unit for a
switch, `translate_address_back` otherwise. The unit is there: `make_connections` exits at
its first line otherwise. -/
def address_to_id (t : MultiDimTopology) (address : MultiDimAddress) : Except Abort DeviceId := do
  let switch ← is_switch t address
  if switch then
    match t.m_switch_translation_unit with
    | some translate_address_to_id => translate_address_to_id address
    | none => throw Abort.out_of_range
  else translate_address_back t address

/-- The link `make_connections` installs for one address pair of dimension `dim`. -/
def connect_address_pair (t : MultiDimTopology) (dim : Nat) (topology : BasicTopology)
    (address_pair : MultiDimAddress × MultiDimAddress) : Except Abort Link := do
  let src ← address_to_id t address_pair.1
  let dest ← address_to_id t address_pair.2
  cassert (0 ≤ src ∧ src < t.devices_count)
  cassert (0 ≤ dest ∧ dest < t.devices_count)
  let bandwidth ← vector_at t.bandwidth_per_dim dim
  let latency := topology.latency
  if fault_derate t src dest ≠ 0 then
    pure { src := src, dest := dest, bandwidth := bandwidth * fault_derate t src dest, latency := latency }
  else
    pure { src := src, dest := dest, bandwidth := bandwidth, latency := latency }

/-- The links installed for a list of address pairs, in order. -/
def connect_address_pairs (t : MultiDimTopology) (dim : Nat) (topology : BasicTopology) :
    List (MultiDimAddress × MultiDimAddress) → Except Abort (List Link)
  | [] => pure []
  | address_pair :: rest => do
    let link ← connect_address_pair t dim topology address_pair
    let links ← connect_address_pairs t dim topology rest
    pure (link :: links)

/-- The links installed for a list of connection policies of dimension `dim`, in order;
`pairs_of` generates the address pairs of a policy. -/
def connect_policies (t : MultiDimTopology) (dim : Nat) (topology : BasicTopology)
    (pairs_of : ConnectionPolicy → List (MultiDimAddress × MultiDimAddress)) :
    List ConnectionPolicy → Except Abort (List Link)
  | [] => pure []
  | policy :: rest => do
    let links ← connect_address_pairs t dim topology (pairs_of policy)
    let others ← connect_policies t dim topology pairs_of rest
    pure (links ++ others)

/-- The body of the loop of `make_non_recursive_connections` for the dimension `dim`: the
links it installs. Both branches on the mask entry generate the address pairs with
`generateAddressPairs`. -/
def non_recursive_connections_of_dim (t : MultiDimTopology) (dim : Nat) :
    Except Abort (List Link) := do
  let topology ← vector_at t.m_topology_per_dim dim
  let policies := topology.get_connection_policies
  cassert (policies ≠ [])
  let entry ← vector_at t.m_non_recursive_topo dim
  let recursive_dim := decide (entry = 1)
  connect_policies t dim topology
    (fun policy =>
      if ¬ recursive_dim then generateAddressPairs t.npus_count_per_dim policy dim
      else generateAddressPairs t.npus_count_per_dim policy dim)
    policies

/-- The body of the loop of `make_connections` for the dimension `dim`: the links it
installs (its flag `non_recursive` is never set). -/
def connections_of_dim (t : MultiDimTopology) (dim : Nat) : Except Abort (List Link) := do
  let topology ← vector_at t.m_topology_per_dim dim
  let policies := topology.get_connection_policies
  cassert (policies ≠ [])
  connect_policies t dim topology
    (fun policy => generateAddressPairs t.npus_count_per_dim policy dim) policies

/-- The links installed by the dimensions from `dim` on, `count` of them, in order. -/
def connections_from (of_dim : Nat → Except Abort (List Link)) :
    Nat → Nat → Except Abort (List Link)
  | 0, _ => pure []
  | count + 1, dim => do
    let links ← of_dim dim
    let others ← connections_from of_dim count (dim + 1)
    pure (links ++ others)

/-- The function `MultiDimTopology::make_connections`: the `connect` calls it makes, in
order. -/
def make_connections (t : MultiDimTopology) : Except Abort (List Link) :=
  if t.m_switch_translation_unit.isNone then throw Abort.exited
  else connections_from (connections_of_dim t) t.dims_count 0

/-- The function `MultiDimTopology::make_non_recursive_connections`: the `connect` calls it
makes, in order. -/
def make_non_recursive_connections (t : MultiDimTopology) : Except Abort (List Link) :=
  if t.m_switch_translation_unit.isNone then throw Abort.exited
  else connections_from (non_recursive_connections_of_dim t) t.dims_count 0

/-- The calls of `append_dimension`, one per dimension, in order. -/
def append_dimensions (t : MultiDimTopology) : List BasicTopology → Except Abort MultiDimTopology
  | [] => pure t
  | topology :: rest => do
    let t ← append_dimension t topology
    append_dimensions t rest

/-- Modelled from the spec: the first steps of the assembly of a multi-dimensional topology
(the builder of `Helper.cpp` is not part of these sources), following the lifecycle of the
spec: the constructor, `append_dimension` for each dimension, `initialize_all_devices`,
`build_switch_length_mapping`. -/
def assemble
    (switch_translation_unit : List Int → List Bool → MultiDimAddress → Except Abort DeviceId)
    (faulty_links : FaultyLinks) (non_recursive_topo : List Int)
    (dimensions : List BasicTopology) : Except Abort MultiDimTopology := do
  let t ← create faulty_links non_recursive_topo
  let t ← append_dimensions t dimensions
  let t ← initialize_all_devices t
  pure (build_switch_length_mapping switch_translation_unit t)

/-- Modelled from the spec: the assembly of a multi-dimensional topology, following the
lifecycle of the spec: the steps of `assemble`, then `make_non_recursive_connections` in
cluster mode and `make_connections` otherwise. The result is the topology and its links. -/
def construct
    (switch_translation_unit : List Int → List Bool → MultiDimAddress → Except Abort DeviceId)
    (faulty_links : FaultyLinks) (non_recursive_topo : List Int)
    (dimensions : List BasicTopology) : Except Abort (MultiDimTopology × List Link) := do
  let t ← assemble switch_translation_unit faulty_links non_recursive_topo dimensions
  let links ← (if t.m_cluster then make_non_recursive_connections t else make_connections t)
  pure (t, links)

end MultiDimTopology

end NetworkAnalyticalCongestionAware

/-! ## Definitions used to state the theorems -/

namespace NetworkAnalyticalCongestionAware

namespace MultiDimTopology

/-- The number of NPUs in a group of the first `k` dimensions: the product of the first `k`
NPU counts. -/
def group_size (counts : List Int) (k : Nat) : Int := (counts.take k).prod

/-- The mixed-radix value of an address, dimension 0 being the least significant: the sum
over the first `k` dimensions `i` of `a[i]` times the product of the NPU counts below `i`. -/
def address_value (counts : List Int) (a : MultiDimAddress) (k : Nat) : Int :=
  Finset.sum (Finset.range k) (fun i => a.getD i 0 * group_size counts i)

/-- The mixed-radix digits of `id` for the first `k` dimensions. -/
def address_digits (counts : List Int) (id : Int) (k : Nat) : MultiDimAddress :=
  (List.range k).map (fun d => (id % group_size counts (d + 1)) / group_size counts d)

/-- An address is valid when it has one coordinate per dimension, each within the NPU count of
its dimension. -/
def ValidAddress (counts : List Int) (a : MultiDimAddress) : Prop :=
  a.length = counts.length ∧ ∀ d, d < counts.length → 0 ≤ a.getD d 0 ∧ a.getD d 0 < counts.getD d 0

end MultiDimTopology

end NetworkAnalyticalCongestionAware

namespace NetworkAnalyticalCongestionAware

/-- A dimension without switch: a ring, a mesh or a fully connected topology, of at least one
NPU (the constructors assert `npus_count > 0`). -/
def PlainDimension (topology : BasicTopology) : Prop :=
  ∃ (n : Int) (bandwidth latency : Rat), 1 ≤ n ∧
    ((∃ bidirectional, topology = Ring.topology n bandwidth latency bidirectional) ∨
      topology = Mesh.topology n bandwidth latency ∨
      topology = FullyConnected.topology n bandwidth latency)

namespace MultiDimTopology

/-- A hop of dimension `d` from the device `a` to the device `b`: both are NPUs, their
addresses differ in the coordinate `d` and in no other, and the pair of their coordinates `d`
is a connection policy of the topology of dimension `d`. -/
def IsHop (t : MultiDimTopology) (d : Nat) (a b : DeviceId) : Prop :=
  (0 ≤ a ∧ a < t.npus_count) ∧ (0 ≤ b ∧ b < t.npus_count) ∧
  ∃ (addr_a addr_b : MultiDimAddress) (topology : BasicTopology),
    translate_address t a = Except.ok addr_a ∧ translate_address t b = Except.ok addr_b ∧
    t.m_topology_per_dim[d]? = some topology ∧
    addr_a.getD d 0 ≠ addr_b.getD d 0 ∧
    (addr_a.getD d 0, addr_b.getD d 0) ∈ topology.get_connection_policies ∧
    addr_b = addr_a.set d (addr_b.getD d 0)

/-- A route that moves along the dimensions `dims`, in order: its `i`-th consecutive pair is a
hop of dimension `dims[i]`. -/
def RouteAlong (t : MultiDimTopology) : List Nat → Route → Prop
  | [], [_] => True
  | d :: dims, a :: b :: rest => IsHop t d a b ∧ RouteAlong t dims (b :: rest)
  | _, _ => False

end MultiDimTopology

end NetworkAnalyticalCongestionAware

namespace NetworkAnalyticalCongestionAware

/-- A basic topology of `n` NPUs routes along its connection policies: between two different
NPUs its route starts at the first, ends at the second, stays among the NPUs and every
consecutive pair is a connection policy between different NPUs. -/
def RoutesByPolicy (topology : BasicTopology) (n : Int) : Prop :=
  ∀ x y : Int, 0 ≤ x → x < n → 0 ≤ y → y < n → x ≠ y →
    ∃ r, topology.route x y = Except.ok r ∧ r.head? = some x ∧ r.getLast? = some y ∧
      (∀ c ∈ r, 0 ≤ c ∧ c < n) ∧
      List.Chain' (fun a b => a ≠ b ∧ (a, b) ∈ topology.get_connection_policies) r

end NetworkAnalyticalCongestionAware

namespace NetworkAnalyticalCongestionAware

/-- The state of a topology assembled from dimensions without switch, as far as the address
translation and the routing read it. -/
structure MultiDimTopology.WellFormed (t : MultiDimTopology) : Prop where
  length_eq : t.npus_count_per_dim.length = t.dims_count
  npus_count_eq : t.npus_count = MultiDimTopology.accumulate_product t.npus_count_per_dim
  counts_pos : ∀ n ∈ t.npus_count_per_dim, 1 ≤ n
  devices_count_eq : t.devices_count = t.npus_count
  devices_eq : t.devices = (List.range t.npus_count.toNat).map (fun (i : Nat) => (i : Int))
  topology_length : t.m_topology_per_dim.length = t.dims_count
  routes : ∀ d topology, t.m_topology_per_dim[d]? = some topology →
    RoutesByPolicy topology (t.npus_count_per_dim.getD d 0)

end NetworkAnalyticalCongestionAware

namespace NetworkAnalyticalCongestionAware

/-- The device id of an address of NPU: its mixed-radix value. -/
def MultiDimTopology.device_of_address (t : MultiDimTopology) (a : MultiDimAddress) : DeviceId :=
  MultiDimTopology.address_value t.npus_count_per_dim a t.dims_count

end NetworkAnalyticalCongestionAware

namespace NetworkAnalyticalCongestionAware

/-- A link from the device `a` to the device `b` is among the installed links. -/
def Installed (links : List Link) (a b : DeviceId) : Prop :=
  ∃ link ∈ links, link.src = a ∧ link.dest = b

end NetworkAnalyticalCongestionAware

/-! ## Example topologies -/

namespace NetworkAnalyticalCongestionAware

/-- A switch translation unit for topologies without switch: it is never called. -/
def no_switch_translation_unit : List Int → List Bool → MultiDimAddress → Except Abort DeviceId :=
  fun _ _ _ => Except.error Abort.undefined

/-- The recursive topology of the comment of `translate_address`: three rings of 2, 8 and 4
NPUs, as `assemble` builds it. -/
def topology_2_8_4 : MultiDimTopology where
  npus_count := 64
  devices_count := 64
  dims_count := 3
  npus_count_per_dim := [2, 8, 4]
  bandwidth_per_dim := [1, 1, 1]
  m_topology_per_dim := [Ring.topology 2 1 1 true, Ring.topology 8 1 1 true, Ring.topology 4 1 1 true]
  faulty_links := []
  m_non_recursive_topo := [0, 0, 0]
  m_cluster := false
  devices := (List.range 64).map (fun (i : Nat) => (i : Int))
  m_switch_translation_unit := some (no_switch_translation_unit [2, 8, 4] [false, false, false])

end NetworkAnalyticalCongestionAware

namespace NetworkAnalyticalCongestionAware

/-- The dimensions of the two-dimensional example of the spec: two bidirectional rings of 4
NPUs. -/
def dimensions_ring_4_4 : List BasicTopology :=
  [Ring.topology 4 1 1 true, Ring.topology 4 1 1 true]

/-- The state of the topology of two rings of 4 NPUs, as `assemble` builds it from a fault
list and a mask. -/
def topology_ring_4_4 (faulty_links : FaultyLinks) (mask : List Int) (cluster : Bool) :
    MultiDimTopology where
  npus_count := 16
  devices_count := 16
  dims_count := 2
  npus_count_per_dim := [4, 4]
  bandwidth_per_dim := [1, 1]
  m_topology_per_dim := dimensions_ring_4_4
  faulty_links := faulty_links
  m_non_recursive_topo := mask
  m_cluster := cluster
  devices := (List.range 16).map (fun (i : Nat) => (i : Int))
  m_switch_translation_unit := some (no_switch_translation_unit [4, 4] [false, false])

end NetworkAnalyticalCongestionAware

namespace NetworkAnalyticalCongestionAware

/-- A segment of `routeCluster` from the device `a` to the device `b`: empty when the two are
the same device (the segment is skipped), otherwise a route from `a` to `b` whose every
consecutive pair is a hop of one dimension. -/
def MultiDimTopology.Segment (t : MultiDimTopology) (a b : DeviceId) (r : Route) : Prop :=
  (a = b ∧ r = []) ∨
    (r.head? = some a ∧ r.getLast? = some b ∧ ∃ dims, MultiDimTopology.RouteAlong t dims r)

/-- The topology of two rings of 4 NPUs in cluster mode, the mask being `[0, 1]`. -/
def topology_ring_4_4_cluster : MultiDimTopology := topology_ring_4_4 [] [0, 1] true

end NetworkAnalyticalCongestionAware

namespace NetworkAnalyticalCongestionAware

/-- Two fully broken links of the two rings of 4 NPUs: the link between the devices 0 and 4
(dimension 1) and the link between the devices 0 and 1 (dimension 0). -/
def faulty_links_0_4_and_0_1 : FaultyLinks := [(0, 4, 0), (0, 1, 0)]

/-- Two meshes of 3 NPUs. -/
def dimensions_mesh_3_3 : List BasicTopology := [Mesh.topology 3 1 1, Mesh.topology 3 1 1]

/-- The state of the recursive topology of two meshes of 3 NPUs, as `assemble` builds it from
a fault list. -/
def topology_mesh_3_3 (faulty_links : FaultyLinks) : MultiDimTopology where
  npus_count := 9
  devices_count := 9
  dims_count := 2
  npus_count_per_dim := [3, 3]
  bandwidth_per_dim := [1, 1]
  m_topology_per_dim := dimensions_mesh_3_3
  faulty_links := faulty_links
  m_non_recursive_topo := [0, 0]
  m_cluster := false
  devices := (List.range 9).map (fun (i : Nat) => (i : Int))
  m_switch_translation_unit := some (no_switch_translation_unit [3, 3] [false, false])

/-- Two bidirectional rings of 3 NPUs. -/
def dimensions_ring_3_3 : List BasicTopology :=
  [Ring.topology 3 1 1 true, Ring.topology 3 1 1 true]

/-- Two fully broken links of the two rings of 3 NPUs, both at the device 4: the link between
the devices 4 and 5 (dimension 0) and the link between the devices 4 and 7 (dimension 1). -/
def faulty_links_4_5_and_4_7 : FaultyLinks := [(4, 5, 0), (4, 7, 0)]

/-- The state of the recursive topology of two rings of 3 NPUs, as `assemble` builds it from a
fault list. -/
def topology_ring_3_3 (faulty_links : FaultyLinks) : MultiDimTopology where
  npus_count := 9
  devices_count := 9
  dims_count := 2
  npus_count_per_dim := [3, 3]
  bandwidth_per_dim := [1, 1]
  m_topology_per_dim := dimensions_ring_3_3
  faulty_links := faulty_links
  m_non_recursive_topo := [0, 0]
  m_cluster := false
  devices := (List.range 9).map (fun (i : Nat) => (i : Int))
  m_switch_translation_unit := some (no_switch_translation_unit [3, 3] [false, false])

end NetworkAnalyticalCongestionAware

namespace NetworkAnalyticalCongestionAware

/-! ## Switch -/

namespace Switch

/-- The member `switch_id`, which the constructor sets to `npus_count`. -/
def switch_id (npus_count : Int) : DeviceId := npus_count

/-- The number of devices of a switch topology: the constructor passes `npus_count + 1` to
`BasicTopology`. -/
def devices_count (npus_count : Int) : Int := npus_count + 1

/-- The function `Switch::route`. -/
def route (npus_count : Int) (src dest : DeviceId) : Except Abort Route := do
  cassert (0 ≤ src ∧ src < npus_count)
  cassert (0 ≤ dest ∧ dest < npus_count)
  let first ← devices_index (devices_count npus_count) src
  let second ← devices_index (devices_count npus_count) (switch_id npus_count)
  let third ← devices_index (devices_count npus_count) dest
  pure [first, second, third]

/-- The function `Switch::get_connection_policies`. -/
def get_connection_policies (npus_count : Int) : List ConnectionPolicy :=
  (List.range npus_count.toNat).flatMap (fun (i : Nat) =>
    [((i : Int), switch_id npus_count), (switch_id npus_count, (i : Int))])

/-- A switch seen as a dimension of a larger topology. -/
def topology (npus_count : Int) (bandwidth latency : Rat) : BasicTopology where
  basic_topology_type := .Switch
  npus_count := npus_count
  devices_count := devices_count npus_count
  bandwidth := bandwidth
  latency := latency
  route := route npus_count
  get_connection_policies := get_connection_policies npus_count

end Switch

/-! ## The two-dimensional grids -/

/-- The value `static_cast<int>(std::sqrt(npus_count))` of a non-negative `npus_count`: the
greatest `k` with `k * k ≤ npus_count`. -/
def int_sqrt (npus_count : Int) : Int :=
  (Nat.findGreatest (fun k => k * k ≤ npus_count.toNat) npus_count.toNat : Nat)

/-- The loop `while (cur != dest) { ..; route.push_back(devices.at(next)); cur = next; }` of
`Mesh2D::route`, `Torus2D::route` and `KingMesh2D::route`, which differ in the body that
chooses `next`: `next_device cur` is that body, `none` when it leaves the loop by `break`.
The result is the list of the devices pushed from `cur` on. -/
def grid_route_loop (npus_count : Int) (next_device : DeviceId → Except Abort (Option DeviceId))
    (dest : DeviceId) : Nat → DeviceId → Except Abort Route
  | 0, _ => .error .out_of_fuel
  | fuel + 1, cur =>
    if cur ≠ dest then
      match next_device cur with
      | .error e => .error e
      | .ok none => .ok []
      | .ok (some next) =>
        match devices_at npus_count next with
        | .error e => .error e
        | .ok device =>
          match grid_route_loop npus_count next_device dest fuel next with
          | .error e => .error e
          | .ok rest => .ok (device :: rest)
    else .ok []

/-! ## Mesh2D -/

namespace Mesh2D

/-- The function `Mesh2D::fault_derate`: its loop returns in both branches of its first
iteration, so only the first entry of the fault list is looked at. -/
def fault_derate : FaultyLinks → Int → Int → Rat
  | [], _, _ => 1
  | (a, b, health) :: _, src, dst =>
    if (a = src ∧ b = dst) ∨ (a = dst ∧ b = src) then health else 1

/-- The body of the loop of `Mesh2D::route`: the device after `cur`, `none` for `break`. -/
def next_device (dim : Int) (faulty_links : FaultyLinks) (dest cur : DeviceId) : Option DeviceId :=
  let dx := Int.tmod dest dim
  let dy := Int.tdiv dest dim
  let cx := Int.tmod cur dim
  let cy := Int.tdiv cur dim
  let step_x : Int := if cx ≠ dx then (if dx > cx then 1 else -1) else 0
  let step_y : Int := if cx ≠ dx then 0 else if cy ≠ dy then (if dy > cy then 1 else -1) else 0
  if step_x ≠ 0 then
    let nx := cx + step_x
    if nx ≥ 0 ∧ nx < dim then
      let next := cy * dim + nx
      if fault_derate faulty_links cur next = 0 then
        let ny_up := cy + 1
        let ny_down := cy - 1
        if ny_up < dim ∧ fault_derate faulty_links cur (ny_up * dim + cx) ≠ 0 then
          some (ny_up * dim + cx)
        else if ny_down ≥ 0 ∧ fault_derate faulty_links cur (ny_down * dim + cx) ≠ 0 then
          some (ny_down * dim + cx)
        else none
      else some next
    else none
  else if step_y ≠ 0 then
    let ny := cy + step_y
    if ny ≥ 0 ∧ ny < dim then
      let next := ny * dim + cx
      if fault_derate faulty_links cur next = 0 then
        let nx_right := cx + 1
        let nx_left := cx - 1
        if nx_right < dim ∧ fault_derate faulty_links cur (cy * dim + nx_right) ≠ 0 then
          some (cy * dim + nx_right)
        else if nx_left ≥ 0 ∧ fault_derate faulty_links cur (cy * dim + nx_left) ≠ 0 then
          some (cy * dim + nx_left)
        else none
      else some next
    else none
  else none

/-- The loop of `Mesh2D::route`. -/
def route_loop (npus_count dim : Int) (faulty_links : FaultyLinks) (dest : DeviceId) :
    Nat → DeviceId → Except Abort Route :=
  grid_route_loop npus_count (fun cur => .ok (next_device dim faulty_links dest cur)) dest

/-- The function `Mesh2D::route`, its loop running on `fuel`. A `dim` of zero makes the
first `%` undefined. -/
def route_fuel (npus_count : Int) (faulty_links : FaultyLinks) (fuel : Nat) (src dest : DeviceId) :
    Except Abort Route :=
  let dim := int_sqrt npus_count
  if dim = 0 then .error .undefined
  else do
    let first ← devices_at npus_count src
    let rest ← route_loop npus_count dim faulty_links dest fuel src
    pure (first :: rest)

end Mesh2D

end NetworkAnalyticalCongestionAware

namespace NetworkAnalyticalCongestionAware

/-! ## Torus2D -/

namespace Torus2D

/-- The function `Torus2D::fault_derate`: as in `Mesh2D`, its loop returns in both branches
of its first iteration, so only the first entry of the fault list is looked at. -/
def fault_derate : FaultyLinks → Int → Int → Rat
  | [], _, _ => 1
  | (a, b, health) :: _, src, dst =>
    if (a = src ∧ b = dst) ∨ (a = dst ∧ b = src) then health else 1

/-- The body of the loop of `Torus2D::route`: the device after `cur`. When neither step is
set the code reads `next` without having assigned it. -/
def next_device (dim : Int) (faulty_links : FaultyLinks) (dest cur : DeviceId) :
    Except Abort DeviceId :=
  let dx := Int.tmod dest dim
  let dy := Int.tdiv dest dim
  let cx := Int.tmod cur dim
  let cy := Int.tdiv cur dim
  let step_x : Int :=
    if cx ≠ dx then (if Int.tmod (dx - cx + dim) dim > Int.tdiv dim 2 then -1 else 1) else 0
  let step_y : Int :=
    if cx ≠ dx then 0
    else if cy ≠ dy then (if Int.tmod (dy - cy + dim) dim > Int.tdiv dim 2 then -1 else 1)
    else 0
  if step_x ≠ 0 then
    let nx := Int.tmod (cx + step_x + dim) dim
    let next := cy * dim + nx
    if fault_derate faulty_links cur next = 0 then
      let ny := Int.tmod (cy + 1) dim
      .ok (ny * dim + cx)
    else .ok next
  else if step_y ≠ 0 then
    let ny := Int.tmod (cy + step_y + dim) dim
    let next := ny * dim + cx
    if fault_derate faulty_links cur next = 0 then
      let nx := Int.tmod (cx + 1) dim
      .ok (cy * dim + nx)
    else .ok next
  else .error .undefined

/-- The loop of `Torus2D::route`, which has no `break`. -/
def route_loop (npus_count dim : Int) (faulty_links : FaultyLinks) (dest : DeviceId) :
    Nat → DeviceId → Except Abort Route :=
  grid_route_loop npus_count
    (fun cur => (next_device dim faulty_links dest cur).map some) dest

/-- The function `Torus2D::route`, its loop running on `fuel`. A `dim` of zero makes the
first `%` undefined. -/
def route_fuel (npus_count : Int) (faulty_links : FaultyLinks) (fuel : Nat) (src dest : DeviceId) :
    Except Abort Route :=
  let dim := int_sqrt npus_count
  if dim = 0 then .error .undefined
  else do
    let first ← devices_at npus_count src
    let rest ← route_loop npus_count dim faulty_links dest fuel src
    pure (first :: rest)

end Torus2D

/-! ## KingMesh2D -/

namespace KingMesh2D

/-- The constant `npus_count_x` of `KingMesh2D.cpp`. -/
def npus_count_x : Int := 8

/-- The constant `npus_count_y` of `KingMesh2D.cpp`. -/
def npus_count_y : Int := 2

/-- The function `KingMesh2D::fault_derate`. -/
def fault_derate (faulty_links : FaultyLinks) (src dst : Int) : Rat :=
  NetworkAnalyticalCongestionAware.fault_derate faulty_links src dst

/-- The block of the loop of `KingMesh2D::route` that prefers a diagonal move: the value of
`next` after it (`-1` when it is not set), `none` for `break`. -/
def diagonal_move (faulty_links : FaultyLinks) (cur cx cy step_x step_y : Int) : Option Int :=
  let dim_x := npus_count_x
  let dim_y := npus_count_y
  if step_x ≠ 0 ∧ step_y ≠ 0 then
    let nx := cx + step_x
    let ny := cy + step_y
    if nx ≥ 0 ∧ nx < dim_x ∧ ny ≥ 0 ∧ ny < dim_y then
      let next := ny * dim_x + nx
      if fault_derate faulty_links cur next = 0 then
        let nx_alt := cx + step_x
        let ny_alt := cy + step_y
        if (nx_alt ≥ 0 ∧ nx_alt < dim_x) ∧ fault_derate faulty_links cur (cy * dim_x + nx_alt) ≠ 0 then
          some (cy * dim_x + nx_alt)
        else if (ny_alt ≥ 0 ∧ ny_alt < dim_y) ∧ fault_derate faulty_links cur (ny_alt * dim_x + cx) ≠ 0 then
          some (ny_alt * dim_x + cx)
        else none
      else some next
    else some (-1)
  else some (-1)

/-- The block of the loop of `KingMesh2D::route` that moves along one axis, entered when
`next` is `-1`: the value of `next` after it, `none` for `break`. -/
def axis_move (faulty_links : FaultyLinks) (cur cx cy step_x step_y : Int) : Option Int :=
  let dim_x := npus_count_x
  let dim_y := npus_count_y
  if step_x ≠ 0 then
    let nx := cx + step_x
    if nx ≥ 0 ∧ nx < dim_x then
      let next := cy * dim_x + nx
      if fault_derate faulty_links cur next = 0 then
        let ny_up := cy + 1
        let ny_down := cy - 1
        if ny_up < dim_y ∧ fault_derate faulty_links cur (ny_up * dim_x + cx) ≠ 0 then
          some (ny_up * dim_x + cx)
        else if ny_down ≥ 0 ∧ fault_derate faulty_links cur (ny_down * dim_x + cx) ≠ 0 then
          some (ny_down * dim_x + cx)
        else none
      else some next
    else some (-1)
  else if step_y ≠ 0 then
    let ny := cy + step_y
    if ny ≥ 0 ∧ ny < dim_y then
      let next := ny * dim_x + cx
      if fault_derate faulty_links cur next = 0 then
        let nx_right := cx + 1
        let nx_left := cx - 1
        if nx_right < dim_x ∧ fault_derate faulty_links cur (cy * dim_x + nx_right) ≠ 0 then
          some (cy * dim_x + nx_right)
        else if nx_left ≥ 0 ∧ fault_derate faulty_links cur (cy * dim_x + nx_left) ≠ 0 then
          some (cy * dim_x + nx_left)
        else none
      else some next
    else some (-1)
  else some (-1)

/-- The body of the loop of `KingMesh2D::route`: the device after `cur`, `none` for `break`
(one of the three `break`s of the detours, or the final `if (next == -1) break`). -/
def next_device (faulty_links : FaultyLinks) (dest cur : DeviceId) : Option DeviceId :=
  let dim_x := npus_count_x
  let dx := Int.tmod dest dim_x
  let dy := Int.tdiv dest dim_x
  let cx := Int.tmod cur dim_x
  let cy := Int.tdiv cur dim_x
  let step_x : Int := if cx < dx then 1 else if cx > dx then -1 else 0
  let step_y : Int := if cy < dy then 1 else if cy > dy then -1 else 0
  match diagonal_move faulty_links cur cx cy step_x step_y with
  | none => none
  | some diagonal =>
    match (if diagonal = -1 then axis_move faulty_links cur cx cy step_x step_y
           else some diagonal) with
    | none => none
    | some next => if next = -1 then none else some next

/-- The loop of `KingMesh2D::route`. -/
def route_loop (npus_count : Int) (faulty_links : FaultyLinks) (dest : DeviceId) :
    Nat → DeviceId → Except Abort Route :=
  grid_route_loop npus_count (fun cur => .ok (next_device faulty_links dest cur)) dest

/-- The function `KingMesh2D::route`, its loop running on `fuel`. -/
def route_fuel (npus_count : Int) (faulty_links : FaultyLinks) (fuel : Nat) (src dest : DeviceId) :
    Except Abort Route := do
  cassert (npus_count_x * npus_count_y = npus_count)
  let first ← devices_at npus_count src
  let rest ← route_loop npus_count faulty_links dest fuel src
  pure (first :: rest)

end KingMesh2D

/-! ## The fault lookups of the one-dimensional topologies -/

/-- The function `Ring::fault_derate`. -/
def Ring.fault_derate (faulty_links : FaultyLinks) (src dst : Int) : Rat :=
  NetworkAnalyticalCongestionAware.fault_derate faulty_links src dst

/-- The function `Mesh::fault_derate`. -/
def Mesh.fault_derate (faulty_links : FaultyLinks) (src dst : Int) : Rat :=
  NetworkAnalyticalCongestionAware.fault_derate faulty_links src dst

/-- The function `FullyConnected::fault_derate`. -/
def FullyConnected.fault_derate (faulty_links : FaultyLinks) (src dst : Int) : Rat :=
  NetworkAnalyticalCongestionAware.fault_derate faulty_links src dst

/-- The function `Switch::fault_derate`. -/
def Switch.fault_derate (faulty_links : FaultyLinks) (src dst : Int) : Rat :=
  NetworkAnalyticalCongestionAware.fault_derate faulty_links src dst

end NetworkAnalyticalCongestionAware

namespace NetworkAnalyticalCongestionAware

/-- The lookup in the fault list as the specification words it: the health of the first
entry `(a, b, h)` of the list with `(a, b) = (u, v)` or `(a, b) = (v, u)`, and `1` when no
entry matches. -/
def first_match_health (faulty_links : FaultyLinks) (u v : Int) : Rat :=
  match faulty_links.find? (fun entry =>
      decide ((entry.1, entry.2.1) = (u, v) ∨ (entry.1, entry.2.1) = (v, u))) with
  | some entry => entry.2.2
  | none => 1

end NetworkAnalyticalCongestionAware

namespace NetworkAnalyticalCongestionAware

/-- The loop of a grid route walks from the device `cur` to the device `last` through the
devices of `r`: every device but `last` differs from the destination, the body of the loop
chooses the next device of `r` after it, and `devices.at` finds that device. -/
def GridWalk (n : Int) (next_device : DeviceId → Except Abort (Option DeviceId))
    (dest : DeviceId) : DeviceId → Route → DeviceId → Prop
  | cur, [], last => cur = last
  | cur, b :: rest, last =>
    cur ≠ dest ∧ next_device cur = Except.ok (some b) ∧ (0 ≤ b ∧ b < n) ∧
      GridWalk n next_device dest b rest last

/-- The devices `start + step, start + 2 * step, .., start + count * step`. -/
def arithmetic_walk (start step : Int) : Nat → Route
  | 0 => []
  | count + 1 => (start + step) :: arithmetic_walk (start + step) step count

/-- Every two consecutive devices of a route satisfy `p`. -/
def consecutive_all (p : DeviceId → DeviceId → Bool) : Route → Bool
  | [] => true
  | [_] => true
  | a :: b :: rest => p a b && consecutive_all p (b :: rest)

/-- In the 8 x 2 grid, the coordinates of a device being `(id mod 8, id / 8)`: when the device
`a` differs from the destination `dst` in both coordinates, the hop from `a` to `b` is
diagonal, it changes both coordinates by one. -/
def KingMesh2D.DiagonalWhenNeeded (dst a b : Int) : Prop :=
  a % 8 ≠ dst % 8 → a / 8 ≠ dst / 8 →
    (b % 8 - a % 8).natAbs = 1 ∧ (b / 8 - a / 8).natAbs = 1

instance (dst a b : Int) : Decidable (KingMesh2D.DiagonalWhenNeeded dst a b) :=
  inferInstanceAs (Decidable (a % 8 ≠ dst % 8 → a / 8 ≠ dst / 8 →
    (b % 8 - a % 8).natAbs = 1 ∧ (b / 8 - a / 8).natAbs = 1))

/-- The route of `KingMesh2D` between two devices of the 8 x 2 grid, on the fuel 8, starts at
`src`, ends at `dst`, has as many devices as the Chebyshev distance plus one, and its hops are
diagonal when they have to be. -/
def KingMesh2D.route_check (src dst : Int) : Bool :=
  match KingMesh2D.route_fuel 16 [] 8 src dst with
  | .ok r =>
    decide (r.head? = some src) && decide (r.getLast? = some dst) &&
      decide (r.length = max (dst % 8 - src % 8).natAbs (dst / 8 - src / 8).natAbs + 1) &&
      consecutive_all (fun a b => decide (KingMesh2D.DiagonalWhenNeeded dst a b)) r
  | .error _ => false

end NetworkAnalyticalCongestionAware

namespace NetworkAnalyticalCongestionAware

/-- The distance from the coordinate `x` to the coordinate `target` around a ring of `d`
positions: `min(e, d - e)` where `e = (target - x) mod d`. -/
def torus_distance (d x target : Int) : Nat :=
  (min ((target - x) % d) (d - (target - x) % d)).toNat

end NetworkAnalyticalCongestionAware

namespace NetworkAnalyticalCongestionAware

/-- Two devices of a square grid of side `d`, the coordinates of a device being
`(id mod d, id / d)`, are neighbours: in the same row and in adjacent columns, or in the same
column and in adjacent rows. -/
def GridNeighbours (d a b : Int) : Prop :=
  (a / d = b / d ∧ (b % d - a % d).natAbs = 1) ∨ (a % d = b % d ∧ (b / d - a / d).natAbs = 1)

/-- The pair `(a, b)` is the link between `u` and `v`, in one direction or the other. -/
def IsLink (u v a b : Int) : Prop :=
  (u = a ∧ v = b) ∨ (u = b ∧ v = a)

instance (u v a b : Int) : Decidable (IsLink u v a b) :=
  inferInstanceAs (Decidable ((u = a ∧ v = b) ∨ (u = b ∧ v = a)))

/-- The hop from `a` to `b` is the hop of a route to `dst` in a `Mesh2D` of side `d` whose
link between `u` and `v` is broken: while the column of `a` differs from that of `dst` the hop
goes one column towards `dst`, unless that link is the broken one, in which case it detours to
the next row (`a + d`) when there is one and to the previous row (`a - d`) otherwise; once in
the column of `dst` the hop goes one row towards `dst`. -/
def Mesh2D.DetourHop (d u v dst a b : Int) : Prop :=
  if a % d ≠ dst % d then
    (if IsLink u v a (a + (if dst % d > a % d then 1 else -1)) then
      b = (if a / d + 1 < d then a + d else a - d)
    else b = a + (if dst % d > a % d then 1 else -1))
  else b = a + (if dst / d > a / d then d else -d)

end NetworkAnalyticalCongestionAware

namespace NetworkAnalyticalCongestionAware

/-! ## NetworkParser -/

/-- A bandwidth or a latency as the parser reads it from the configuration, a C++
floating-point value: a number, an infinity (`.inf`, `-.inf` in YAML) or NaN (`.nan`). The
header that names the types `Bandwidth` and `Latency` is not part of these sources. -/
inductive Double where
  | number (value : Rat)
  | infinity
  | minus_infinity
  | nan
deriving DecidableEq

instance (n : Nat) : OfNat Double n := ⟨Double.number (n : Rat)⟩

/-- The comparison `x <= 0` of C++: false for NaN. -/
def Double.le_zero : Double → Bool
  | .number value => decide (value ≤ 0)
  | .infinity => false
  | .minus_infinity => true
  | .nan => false

/-- The comparison `x < 0` of C++: false for NaN. -/
def Double.lt_zero : Double → Bool
  | .number value => decide (value < 0)
  | .infinity => false
  | .minus_infinity => true
  | .nan => false

/-- The comparison `x > 0` of C++: false for NaN. -/
def Double.gt_zero : Double → Bool
  | .number value => decide (value > 0)
  | .infinity => true
  | .minus_infinity => false
  | .nan => false

/-- The comparison `x >= 0` of C++: false for NaN. -/
def Double.ge_zero : Double → Bool
  | .number value => decide (value ≥ 0)
  | .infinity => true
  | .minus_infinity => false
  | .nan => false

/-- A node of the sequence `faulty_links` of the configuration, as far as the parser looks at
it: a sequence of numbers, or anything else. -/
inductive YamlNode where
  | sequence (elements : List Rat)
  | other
deriving DecidableEq

/-- The configuration file, as far as `parse_network_config_yml` reads it. The vectors are
what `parse_vector` (declared in `NetworkParser.h`, not part of these sources) returns for the
keys of the same name; an optional key is `none` when the file does not have it. -/
structure NetworkConfig where
  topology : List String
  npus_count : List Int
  bandwidth : List Double
  latency : List Double
  non_recursive_from : Option Int
  non_recursive_topology : Option (List Int)
  faulty_links : Option (List YamlNode)

/-- The state of a `NetworkParser`. -/
structure NetworkParser where
  dims_count : Int
  npus_count_per_dim : List Int
  bandwidth_per_dim : List Double
  latency_per_dim : List Double
  topology_per_dim : List TopologyBuildingBlock
  faulty_links : FaultyLinks
  non_recursive_topo : List Int

namespace NetworkParser

/-- The function `NetworkParser::parse_topology_name`. -/
def parse_topology_name (topology_name : String) : Except Abort TopologyBuildingBlock := do
  cassert (topology_name ≠ "")
  if topology_name = "Ring" then pure TopologyBuildingBlock.Ring
  else if topology_name = "FullyConnected" then pure TopologyBuildingBlock.FullyConnected
  else if topology_name = "Switch" then pure TopologyBuildingBlock.Switch
  else if topology_name = "Bus" then pure TopologyBuildingBlock.Bus
  else if topology_name = "BinaryTree" then pure TopologyBuildingBlock.BinaryTree
  else if topology_name = "DoubleBinaryTree" then pure TopologyBuildingBlock.DoubleBinaryTree
  else if topology_name = "Mesh" then pure TopologyBuildingBlock.Mesh
  else if topology_name = "HyperCube" then pure TopologyBuildingBlock.HyperCube
  else if topology_name = "Torus2D" then pure TopologyBuildingBlock.Torus2D
  else if topology_name = "Mesh2D" then pure TopologyBuildingBlock.Mesh2D
  else if topology_name = "KingMesh2D" then pure TopologyBuildingBlock.KingMesh2D
  else throw Abort.exited

/-- The loop of `parse_network_config_yml` over the topology names. -/
def parse_topology_names : List String → Except Abort (List TopologyBuildingBlock)
  | [] => pure []
  | topology_name :: rest => do
    let topology_dim ← parse_topology_name topology_name
    let others ← parse_topology_names rest
    pure (topology_dim :: others)

/-- One of the three loops of `check_validity` over the entries of a vector: the process exits
at the first entry that is `bad`. -/
def check_entries {α : Type} (bad : α → Bool) : List α → Except Abort Unit
  | [] => pure ()
  | entry :: rest => if bad entry then throw Abort.exited else check_entries bad rest

/-- The loop of `check_validity` over the mask, `seen_one` being its state. -/
def check_mask_values : Bool → List Int → Except Abort Unit
  | _, [] => pure ()
  | seen_one, v :: rest =>
    if v ≠ 0 ∧ v ≠ 1 then throw Abort.exited
    else if seen_one = true ∧ v = 0 then throw Abort.exited
    else check_mask_values (if v = 1 then true else seen_one) rest

/-- The function `NetworkParser::check_validity`. The comparisons of `dims_count` with the
sizes of the vectors are made on integers; the comparisons `bandwidth <= 0` and `latency < 0`
are those of C++ doubles. -/
def check_validity (p : NetworkParser) : Except Abort Unit :=
  if p.dims_count ≠ (p.npus_count_per_dim.length : Int) then throw Abort.exited
  else if p.dims_count ≠ (p.bandwidth_per_dim.length : Int) then throw Abort.exited
  else if p.dims_count ≠ (p.latency_per_dim.length : Int) then throw Abort.exited
  else do
    check_entries (fun (npus_count : Int) => decide (npus_count ≤ 1)) p.npus_count_per_dim
    check_entries (fun (bandwidth : Double) => bandwidth.le_zero) p.bandwidth_per_dim
    check_entries (fun (latency : Double) => latency.lt_zero) p.latency_per_dim
    (if p.non_recursive_topo ≠ [] then
      (if (p.non_recursive_topo.length : Int) ≠ p.dims_count then throw Abort.exited
      else check_mask_values false p.non_recursive_topo)
    else pure ())

/-- The part of `parse_network_config_yml` that sets the mask `non_recursive_topo`, which is
empty before: from the crossover index `non_recursive_from`, from the explicit array
`non_recursive_topology`, or all zeros. -/
def parse_non_recursive_topo (dims_count : Int) (non_recursive_from : Option Int)
    (non_recursive_topology : Option (List Int)) : Except Abort (List Int) :=
  match non_recursive_from with
  | some crossover =>
    if crossover < 0 ∨ crossover > dims_count then throw Abort.exited
    else
      pure ((List.range dims_count.toNat).map (fun (d : Nat) =>
        if crossover ≤ (d : Int) then (1 : Int) else 0))
  | none =>
    match non_recursive_topology with
    | some mask => pure mask
    | none => pure (List.replicate dims_count.toNat 0)

/-- The conversion `as<int>()` of a number of the configuration. -/
def as_int (value : Rat) : Except Abort Int :=
  if value.den = 1 then pure value.num else throw Abort.bad_conversion

/-- The body of the loop of `parse_network_config_yml` over the nodes of `faulty_links`: the
entry the node adds to the fault list, `none` when the node is skipped with a warning. -/
def parse_faulty_link (link_node : YamlNode) : Except Abort (Option (Int × Int × Rat)) :=
  match link_node with
  | .sequence elements =>
    if elements.length ≥ 3 then do
      let src ← as_int (elements.getD 0 0)
      let dst ← as_int (elements.getD 1 0)
      let reliability := elements.getD 2 0
      pure (some (src, dst, reliability))
    else pure none
  | .other => pure none

/-- The loop of `parse_network_config_yml` over the nodes of `faulty_links`. -/
def parse_faulty_links : List YamlNode → Except Abort FaultyLinks
  | [] => pure []
  | link_node :: rest => do
    let entry ← parse_faulty_link link_node
    let others ← parse_faulty_links rest
    match entry with
    | some link => pure (link :: others)
    | none => pure others

/-- The function `NetworkParser::parse_network_config_yml`, from the state the constructor
sets (empty vectors): the state of the parser after it. -/
def parse_network_config_yml (network_config : NetworkConfig) : Except Abort NetworkParser := do
  let topology_per_dim ← parse_topology_names network_config.topology
  let dims_count : Int := (topology_per_dim.length : Int)
  let non_recursive_topo ← parse_non_recursive_topo dims_count network_config.non_recursive_from
    network_config.non_recursive_topology
  let p : NetworkParser := {
    dims_count := dims_count
    npus_count_per_dim := network_config.npus_count
    bandwidth_per_dim := network_config.bandwidth
    latency_per_dim := network_config.latency
    topology_per_dim := topology_per_dim
    faulty_links := []
    non_recursive_topo := non_recursive_topo }
  check_validity p
  let faulty_links ←
    (match network_config.faulty_links with
    | some nodes => parse_faulty_links nodes
    | none => pure [])
  pure { p with faulty_links := faulty_links }

end NetworkParser

/-- The mask is a block of zeros followed by a block of ones: every entry is 0 or 1 and no 0
occurs after a 1. -/
def ZerosThenOnes (mask : List Int) : Prop :=
  (∀ v ∈ mask, v = 0 ∨ v = 1) ∧ mask.Pairwise (fun a b => ¬ (a = 1 ∧ b = 0))

/-- What the configuration has to satisfy besides its mask: the vectors of the NPU counts, of
the bandwidths and of the latencies have length `dims_count`, every NPU count is above 1,
every bandwidth is above 0 (`bandwidth > 0` holds) and every latency is at least 0
(`latency >= 0` holds). -/
def NetworkParser.ValidDimensions (p : NetworkParser) : Prop :=
  ((p.npus_count_per_dim.length : Int) = p.dims_count ∧
    (p.bandwidth_per_dim.length : Int) = p.dims_count ∧
    (p.latency_per_dim.length : Int) = p.dims_count) ∧
  (∀ npus_count ∈ p.npus_count_per_dim, npus_count > 1) ∧
  (∀ bandwidth ∈ p.bandwidth_per_dim, bandwidth.gt_zero = true) ∧
  (∀ latency ∈ p.latency_per_dim, latency.ge_zero = true)

/-- What `NetworkParser::check_validity` tests besides the mask: the vectors of the NPU
counts, of the bandwidths and of the latencies have length `dims_count`, every NPU count is
above 1, and the tests `bandwidth <= 0` and `latency < 0` of the code fail for every
bandwidth and for every latency. -/
def NetworkParser.AcceptedDimensions (p : NetworkParser) : Prop :=
  ((p.npus_count_per_dim.length : Int) = p.dims_count ∧
    (p.bandwidth_per_dim.length : Int) = p.dims_count ∧
    (p.latency_per_dim.length : Int) = p.dims_count) ∧
  (∀ npus_count ∈ p.npus_count_per_dim, npus_count > 1) ∧
  (∀ bandwidth ∈ p.bandwidth_per_dim, bandwidth.le_zero = false) ∧
  (∀ latency ∈ p.latency_per_dim, latency.lt_zero = false)

end NetworkAnalyticalCongestionAware

namespace NetworkAnalyticalCongestionAware

/-- A parsed configuration of two dimensions whose mask is the mask `mask`. -/
def parser_two_dimensions (mask : List Int) : NetworkParser where
  dims_count := 2
  npus_count_per_dim := [4, 4]
  bandwidth_per_dim := [1, 1]
  latency_per_dim := [1, 1]
  topology_per_dim := [TopologyBuildingBlock.Ring, TopologyBuildingBlock.Ring]
  faulty_links := []
  non_recursive_topo := mask

/-- A configuration file of two rings of 4 NPUs whose first bandwidth is NaN
(`bandwidth: [.nan, 1]`); it gives no mask. -/
def config_two_rings_nan_bandwidth : NetworkConfig where
  topology := ["Ring", "Ring"]
  npus_count := [4, 4]
  bandwidth := [Double.nan, 1]
  latency := [1, 1]
  non_recursive_from := none
  non_recursive_topology := none
  faulty_links := none

/-- The parsed configuration of two rings whose first bandwidth is NaN, with the mask
`[0, 0]`. -/
def parser_nan_bandwidth : NetworkParser where
  dims_count := 2
  npus_count_per_dim := [4, 4]
  bandwidth_per_dim := [Double.nan, 1]
  latency_per_dim := [1, 1]
  topology_per_dim := [TopologyBuildingBlock.Ring, TopologyBuildingBlock.Ring]
  faulty_links := []
  non_recursive_topo := [0, 0]

/-- A parsed configuration of two rings whose second latency is NaN, with the mask
`[0, 0]`. -/
def parser_nan_latency : NetworkParser where
  dims_count := 2
  npus_count_per_dim := [4, 4]
  bandwidth_per_dim := [1, 1]
  latency_per_dim := [1, Double.nan]
  topology_per_dim := [TopologyBuildingBlock.Ring, TopologyBuildingBlock.Ring]
  faulty_links := []
  non_recursive_topo := [0, 0]

/-- A configuration file of two rings of 4 NPUs that gives the mask as the empty array
`non_recursive_topology: []`. -/
def config_two_rings_empty_mask : NetworkConfig where
  topology := ["Ring", "Ring"]
  npus_count := [4, 4]
  bandwidth := [1, 1]
  latency := [1, 1]
  non_recursive_from := none
  non_recursive_topology := some []
  faulty_links := none

end NetworkAnalyticalCongestionAware

namespace NetworkAnalyticalCongestionAware

/-! ## The constructors of the basic topologies -/

/-- The values `0, 1, .., n - 1` of the counter of a loop `for (int i = 0; i < n; i++)`. -/
def loop_range (n : Int) : List Int :=
  (List.range n.toNat).map (fun (i : Nat) => (i : Int))

/-- Modelled from the spec: `Topology::connect(src, dest, bandwidth, latency, bidirectional)`
(the class `Topology` is not part of these sources). It installs the directed link from `src`
to `dest` and, when `bidirectional`, the directed link from `dest` to `src`, with the bandwidth
and the latency given; a link installed later for the same ordered pair replaces the earlier
one. The result is the list of the links of one call. -/
def connect (src dest : DeviceId) (bandwidth latency : Rat) (bidirectional : Bool) : List Link :=
  { src := src, dest := dest, bandwidth := bandwidth, latency := latency } ::
    (if bidirectional then
      [{ src := dest, dest := src, bandwidth := bandwidth, latency := latency }]
    else [])

namespace Ring

/-- The constructor `Ring::Ring`: the links of its `connect` calls, in order (its parameter
`non_recursive_topo` is only stored). -/
def create (npus_count : Int) (bandwidth latency : Rat) (bidirectional is_multi_dim : Bool)
    (faulty_links : FaultyLinks) : Except Abort (List Link) := do
  cassert (npus_count > 0)
  cassert (bandwidth > 0)
  cassert (latency ≥ 0)
  if is_multi_dim = false then
    let scale_factor : Rat := 2
    pure ((loop_range (npus_count - 1)).flatMap (fun i =>
        if fault_derate faulty_links i (i + 1) ≠ 0 then
          connect i (i + 1) (bandwidth * fault_derate faulty_links i (i + 1) * scale_factor)
            latency bidirectional
        else connect i (i + 1) (bandwidth * scale_factor) latency bidirectional)
      ++ (if fault_derate faulty_links (npus_count - 1) 0 ≠ 0 then
          connect (npus_count - 1) 0
            (bandwidth * fault_derate faulty_links (npus_count - 1) 0 * scale_factor)
            latency bidirectional
        else connect (npus_count - 1) 0 (bandwidth * scale_factor) latency bidirectional))
  else pure []

end Ring

namespace Mesh

/-- The constructor `Mesh::Mesh`: the links of its `connect` calls, in order. It has no
branch for a link whose derate is zero, and it connects in both directions whatever its
parameter `bidirectional` is. -/
def create (npus_count : Int) (bandwidth latency : Rat) (_bidirectional is_multi_dim : Bool)
    (faulty_links : FaultyLinks) : Except Abort (List Link) := do
  cassert (npus_count > 0)
  cassert (bandwidth > 0)
  cassert (latency ≥ 0)
  if is_multi_dim = false then
    pure ((loop_range (npus_count - 1)).flatMap (fun i =>
      if fault_derate faulty_links i (i + 1) ≠ 0 then
        connect i (i + 1) (bandwidth * fault_derate faulty_links i (i + 1)) latency true
      else []))
  else pure []

end Mesh

namespace FullyConnected

/-- The constructor `FullyConnected::FullyConnected`: the links of its `connect` calls, in
order. Every call is unidirectional, whatever the parameter `bidirectional`. -/
def create (npus_count : Int) (bandwidth latency : Rat) (_bidirectional is_multi_dim : Bool)
    (faulty_links : FaultyLinks) : Except Abort (List Link) := do
  cassert (npus_count > 0)
  cassert (bandwidth > 0)
  cassert (latency ≥ 0)
  if is_multi_dim = false then
    pure ((loop_range npus_count).flatMap (fun src =>
      (loop_range npus_count).flatMap (fun dest =>
        if src ≠ dest then
          (if fault_derate faulty_links src dest ≠ 0 then
            connect src dest (bandwidth * fault_derate faulty_links src dest) latency false
          else connect src dest bandwidth latency false)
        else [])))
  else pure []

end FullyConnected

namespace Switch

/-- The constructor `Switch::Switch`: the links of its `connect` calls, in order. -/
def create (npus_count : Int) (bandwidth latency : Rat) (bidirectional is_multi_dim : Bool)
    (faulty_links : FaultyLinks) : Except Abort (List Link) := do
  cassert (npus_count > 0)
  cassert (bandwidth > 0)
  cassert (latency ≥ 0)
  if is_multi_dim = false then
    pure ((loop_range npus_count).flatMap (fun i =>
      if fault_derate faulty_links i (switch_id npus_count) ≠ 0 then
        connect i (switch_id npus_count)
          (bandwidth * fault_derate faulty_links i (switch_id npus_count)) latency bidirectional
      else connect i (switch_id npus_count) bandwidth latency bidirectional))
  else pure []

end Switch

end NetworkAnalyticalCongestionAware

namespace NetworkAnalyticalCongestionAware

namespace Mesh2D

/-- The constructor `Mesh2D::Mesh2D`: the links of its `connect` calls, in order. As a
dimension of a larger topology it falls back to the chain of a one-dimensional mesh. -/
def create (npus_count : Int) (bandwidth latency : Rat) (bidirectional is_multi_dim : Bool)
    (faulty_links : FaultyLinks) : Except Abort (List Link) := do
  cassert (npus_count > 0)
  cassert (bandwidth > 0)
  cassert (latency ≥ 0)
  if is_multi_dim = false then
    let dim := int_sqrt npus_count
    cassert (dim * dim = npus_count)
    pure ((loop_range dim).flatMap (fun row =>
      (loop_range dim).flatMap (fun col =>
        let current := row * dim + col
        (if col + 1 < dim then
          (if fault_derate faulty_links current (row * dim + (col + 1)) ≠ 0 then
            connect current (row * dim + (col + 1))
              (bandwidth * fault_derate faulty_links current (row * dim + (col + 1)))
              latency bidirectional
          else connect current (row * dim + (col + 1)) bandwidth latency bidirectional)
        else []) ++
        (if row + 1 < dim then
          (if fault_derate faulty_links current ((row + 1) * dim + col) ≠ 0 then
            connect current ((row + 1) * dim + col)
              (bandwidth * fault_derate faulty_links current ((row + 1) * dim + col))
              latency bidirectional
          else connect current ((row + 1) * dim + col) bandwidth latency bidirectional)
        else []))))
  else
    pure ((loop_range (npus_count - 1)).flatMap (fun i =>
      connect i (i + 1) bandwidth latency bidirectional))

/-- The function `Mesh2D::get_connection_policies`. -/
def get_connection_policies (npus_count : Int) (bidirectional : Bool) :
    Except Abort (List ConnectionPolicy) := do
  let dim := int_sqrt npus_count
  cassert (dim * dim = npus_count)
  pure ((loop_range dim).flatMap (fun row =>
      (loop_range dim).flatMap (fun col =>
        let current := row * dim + col
        (if col + 1 < dim then [(current, row * dim + (col + 1))] else []) ++
        (if row + 1 < dim then [(current, (row + 1) * dim + col)] else [])))
    ++ (if bidirectional then
      (loop_range dim).flatMap (fun row =>
        (loop_range dim).flatMap (fun col =>
          let current := row * dim + col
          (if col - 1 ≥ 0 then [(current, row * dim + (col - 1))] else []) ++
          (if row - 1 ≥ 0 then [(current, (row - 1) * dim + col)] else [])))
    else []))

end Mesh2D

namespace Torus2D

/-- The constructor `Torus2D::Torus2D`: the links of its `connect` calls, in order. The
bandwidth of a link to the bottom neighbour is derated by the health of the link to the right
neighbour. As a dimension of a larger topology the constructor exits. -/
def create (npus_count : Int) (bandwidth latency : Rat) (bidirectional is_multi_dim : Bool)
    (faulty_links : FaultyLinks) : Except Abort (List Link) := do
  cassert (npus_count > 0)
  cassert (bandwidth > 0)
  cassert (latency ≥ 0)
  if is_multi_dim = false then
    let dim := int_sqrt npus_count
    cassert (dim * dim = npus_count)
    pure ((loop_range dim).flatMap (fun row =>
      (loop_range dim).flatMap (fun col =>
        let current := row * dim + col
        let right := row * dim + Int.tmod (col + 1) dim
        let down := Int.tmod (row + 1) dim * dim + col
        (if fault_derate faulty_links current right ≠ 0 then
          connect current right (bandwidth * fault_derate faulty_links current right)
            latency bidirectional
        else connect current right bandwidth latency bidirectional) ++
        (if fault_derate faulty_links current down ≠ 0 then
          connect current down (bandwidth * fault_derate faulty_links current right)
            latency bidirectional
        else connect current down bandwidth latency bidirectional))))
  else throw Abort.exited

/-- The function `Torus2D::get_connection_policies`. -/
def get_connection_policies (npus_count : Int) (bidirectional : Bool) :
    Except Abort (List ConnectionPolicy) := do
  let dim := int_sqrt npus_count
  cassert (dim * dim = npus_count)
  pure ((loop_range dim).flatMap (fun row =>
      (loop_range dim).flatMap (fun col =>
        let current := row * dim + col
        [(current, row * dim + Int.tmod (col + 1) dim),
          (current, Int.tmod (row + 1) dim * dim + col)]))
    ++ (if bidirectional then
      (loop_range dim).flatMap (fun row =>
        (loop_range dim).flatMap (fun col =>
          let current := row * dim + col
          [(current, row * dim + Int.tmod (col - 1 + dim) dim),
            (current, Int.tmod (row - 1 + dim) dim * dim + col)]))
    else []))

end Torus2D

namespace KingMesh2D

/-- The constructor `KingMesh2D::KingMesh2D`: the links of its `connect` calls, in order. A
link to the bottom neighbour has no branch for a derate of zero, and the two diagonal links
are guarded by the health of the link to the bottom neighbour. As a dimension of a larger
topology the constructor falls back to the chain of a one-dimensional mesh. -/
def create (npus_count : Int) (bandwidth latency : Rat) (bidirectional is_multi_dim : Bool)
    (faulty_links : FaultyLinks) : Except Abort (List Link) := do
  cassert (npus_count > 0)
  cassert (bandwidth > 0)
  cassert (latency ≥ 0)
  if is_multi_dim = false then
    let dim_x := npus_count_x
    let dim_y := npus_count_y
    cassert (dim_x * dim_y = npus_count)
    pure ((loop_range dim_y).flatMap (fun row =>
      (loop_range dim_x).flatMap (fun col =>
        let current := row * dim_x + col
        (if col + 1 < dim_x then
          (if fault_derate faulty_links current (row * dim_x + (col + 1)) ≠ 0 then
            connect current (row * dim_x + (col + 1))
              (bandwidth * fault_derate faulty_links current (row * dim_x + (col + 1)))
              latency bidirectional
          else connect current (row * dim_x + (col + 1)) bandwidth latency bidirectional)
        else []) ++
        (if row + 1 < dim_y then
          let down := (row + 1) * dim_x + col
          (if fault_derate faulty_links current down ≠ 0 then
            connect current down (bandwidth * fault_derate faulty_links current down)
              latency bidirectional
          else []) ++
          (if col + 1 < dim_x then
            (if fault_derate faulty_links current down ≠ 0 then
              connect current ((row + 1) * dim_x + (col + 1))
                (bandwidth * fault_derate faulty_links current ((row + 1) * dim_x + (col + 1)))
                latency bidirectional
            else [])
          else []) ++
          (if col > 0 then
            (if fault_derate faulty_links current down ≠ 0 then
              connect current ((row + 1) * dim_x + (col - 1))
                (bandwidth * fault_derate faulty_links current ((row + 1) * dim_x + (col - 1)))
                latency bidirectional
            else [])
          else [])
        else []))))
  else
    pure ((loop_range (npus_count - 1)).flatMap (fun i =>
      connect i (i + 1) bandwidth latency bidirectional))

/-- The function `KingMesh2D::get_connection_policies`. -/
def get_connection_policies (npus_count : Int) (bidirectional : Bool) :
    Except Abort (List ConnectionPolicy) := do
  let dim_x := npus_count_x
  let dim_y := npus_count_y
  cassert (dim_x * dim_y = npus_count)
  let policies := (loop_range dim_y).flatMap (fun row =>
    (loop_range dim_x).flatMap (fun col =>
      let current := row * dim_x + col
      ([-1, 0, 1] : List Int).flatMap (fun dy =>
        ([-1, 0, 1] : List Int).flatMap (fun dx =>
          if dx = 0 ∧ dy = 0 then []
          else
            let new_row := row + dy
            let new_col := col + dx
            if new_row ≥ 0 ∧ new_row < dim_y ∧ new_col ≥ 0 ∧ new_col < dim_x then
              [(current, new_row * dim_x + new_col)]
            else []))))
  pure (policies ++
    (if bidirectional then policies.map (fun p => (p.2, p.1)) else []))

end KingMesh2D

end NetworkAnalyticalCongestionAware

namespace NetworkAnalyticalCongestionAware

instance (links : List Link) (a b : DeviceId) : Decidable (Installed links a b) :=
  inferInstanceAs (Decidable (∃ link ∈ links, link.src = a ∧ link.dest = b))

end NetworkAnalyticalCongestionAware

namespace NetworkAnalyticalCongestionAware

/-- A configuration file of two rings of 4 NPUs, with the optional keys given. -/
def config_two_rings (non_recursive_from : Option Int)
    (non_recursive_topology : Option (List Int)) (faulty_links : Option (List YamlNode)) :
    NetworkConfig where
  topology := ["Ring", "Ring"]
  npus_count := [4, 4]
  bandwidth := [1, 1]
  latency := [1, 1]
  non_recursive_from := non_recursive_from
  non_recursive_topology := non_recursive_topology
  faulty_links := faulty_links

end NetworkAnalyticalCongestionAware

namespace NetworkAnalyticalCongestionAware

/-- The entry a node of `faulty_links` adds to the fault list: a sequence of at least three
numbers gives the entry of its first three numbers, whatever the third is and whatever
follows it; every other node gives none. -/
def stored_fault_entry : YamlNode → Option (Int × Int × Rat)
  | .sequence (src :: dst :: health :: _) => some (src.num, dst.num, health)
  | _ => none

/-- The two end points of the nodes that add an entry are integers. -/
def IntegerEndPoints (nodes : List YamlNode) : Prop :=
  ∀ src dst health rest, YamlNode.sequence (src :: dst :: health :: rest) ∈ nodes →
    src.den = 1 ∧ dst.den = 1

end NetworkAnalyticalCongestionAware

namespace NetworkAnalyticalCongestionAware

/-- The run of a route on `fuel` reads no device out of range: either its loop is still
running when the fuel is used up, or it returns a route whose every device index is in
`[0, n)`. -/
def StaysInRange (n : Int) (result : Except Abort Route) : Prop :=
  result = Except.error Abort.out_of_fuel ∨
    ∃ r, result = Except.ok r ∧ ∀ c ∈ r, 0 ≤ c ∧ c < n

end NetworkAnalyticalCongestionAware

namespace NetworkAnalyticalCongestionAware

/-- Two bidirectional rings of 4 NPUs whose link parameters differ: bandwidth 1 and latency 1
in dimension 0, bandwidth 2 and latency 3 in dimension 1. -/
def dimensions_ring_4_4_two_bandwidths : List BasicTopology :=
  [Ring.topology 4 1 1 true, Ring.topology 4 2 3 true]

/-- The state of the recursive topology of these two rings, as `assemble` builds it from a
fault list. -/
def topology_ring_4_4_two_bandwidths (faulty_links : FaultyLinks) : MultiDimTopology where
  npus_count := 16
  devices_count := 16
  dims_count := 2
  npus_count_per_dim := [4, 4]
  bandwidth_per_dim := [1, 2]
  m_topology_per_dim := dimensions_ring_4_4_two_bandwidths
  faulty_links := faulty_links
  m_non_recursive_topo := [0, 0]
  m_cluster := false
  devices := (List.range 16).map (fun (i : Nat) => (i : Int))
  m_switch_translation_unit := some (no_switch_translation_unit [4, 4] [false, false])

end NetworkAnalyticalCongestionAware

/-! # Theorems -/

namespace NetworkAnalyticalCongestionAware

/-! ## Reasoning about `Except` -/

@[simp] theorem ok_bind {ε α β : Type} (a : α) (f : α → Except ε β) :
    (Except.ok a >>= f) = f a := rfl

@[simp] theorem error_bind {ε α β : Type} (e : ε) (f : α → Except ε β) :
    ((Except.error e : Except ε α) >>= f) = Except.error e := rfl

@[simp] theorem pure_eq_ok {ε α : Type} (a : α) : (pure a : Except ε α) = Except.ok a := rfl

@[simp] theorem throw_eq_error {ε α : Type} (e : ε) : (throw e : Except ε α) = Except.error e := rfl

theorem cassert_ok {c : Prop} [Decidable c] (h : c) : cassert c = Except.ok () := by
  simp [cassert, h]

theorem devices_at_ok {n i : Int} (h0 : 0 ≤ i) (h1 : i < n) : devices_at n i = Except.ok i := by
  simp [devices_at, h0, h1]

theorem devices_index_ok {n i : Int} (h0 : 0 ≤ i) (h1 : i < n) :
    devices_index n i = Except.ok i := by
  simp [devices_index, h0, h1]

/-! ## FullyConnected -/

theorem FullyConnected.route_eq (n src dst : Int) (hs0 : 0 ≤ src) (hs : src < n)
    (hd0 : 0 ≤ dst) (hd : dst < n) : FullyConnected.route n src dst = Except.ok [src, dst] := by
  simp [FullyConnected.route, cassert_ok, devices_index_ok, hs0, hs, hd0, hd]

/-! ## Ring -/

namespace Ring

theorem emod_sub_of_le {n a b : Int} (ha0 : 0 ≤ a) (hb : b < n) (hab : a ≤ b) :
    (b - a) % n = b - a :=
  Int.emod_eq_of_lt (by omega) (by omega)

theorem emod_sub_of_lt {n a b : Int} (hb0 : 0 ≤ b) (ha : a < n) (hab : b < a) :
    (b - a) % n = b - a + n := by
  rw [← Int.add_emod_self]
  exact Int.emod_eq_of_lt (by omega) (by omega)

end Ring

namespace Ring

theorem wrap_around_succ {n cur : Int} (hc0 : 0 ≤ cur) (hc : cur < n) :
    wrap_around n (cur + 1) = if cur + 1 = n then 0 else cur + 1 := by
  unfold wrap_around
  split_ifs <;> omega

theorem wrap_around_pred {n cur : Int} (hc0 : 0 ≤ cur) (hc : cur < n) :
    wrap_around n (cur + -1) = if cur = 0 then n - 1 else cur - 1 := by
  unfold wrap_around
  split_ifs <;> omega

theorem succ_emod {n cur : Int} (hc0 : 0 ≤ cur) (hc : cur < n) :
    (cur + 1) % n = if cur + 1 = n then 0 else cur + 1 := by
  split_ifs with h
  · rw [h, Int.emod_self]
  · exact Int.emod_eq_of_lt (by omega) (by omega)

theorem pred_emod {n cur : Int} (hc0 : 0 ≤ cur) (hc : cur < n) :
    (cur - 1) % n = if cur = 0 then n - 1 else cur - 1 := by
  split_ifs with h
  · have h1 : (0 - 1 + n) % n = 0 - 1 + n := Int.emod_eq_of_lt (by omega) (by omega)
    rw [h, ← Int.add_emod_self, h1]
    omega
  · exact Int.emod_eq_of_lt (by omega) (by omega)

theorem route_loop_arrived (n dest step : Int) (fuel : Nat) (hd0 : 0 ≤ dest) (hd : dest < n) :
    route_loop n dest step (fuel + 1) dest = Except.ok [dest] := by
  simp [route_loop, devices_at_ok hd0 hd]

theorem route_loop_move (n dest step cur : Int) (fuel : Nat) (hc0 : 0 ≤ cur) (hc : cur < n)
    (hne : cur ≠ dest) :
    route_loop n dest step (fuel + 1) cur =
      (route_loop n dest step fuel (wrap_around n (cur + step)) >>=
        fun rest => Except.ok (cur :: rest)) := by
  simp [route_loop, devices_at_ok hc0 hc, hne]

/-- The clockwise loop: from `cur`, at clockwise distance `k` of `dest`. -/
theorem route_loop_clockwise (n dest : Int) (hd0 : 0 ≤ dest) (hd : dest < n) :
    ∀ (k : Nat) (cur : Int), 0 ≤ cur → cur < n → (dest - cur) % n = k →
      ∃ r, (∀ fuel, k + 1 ≤ fuel → route_loop n dest 1 fuel cur = Except.ok r) ∧
        r.length = k + 1 ∧
        r.head? = some cur ∧ r.getLast? = some dest ∧
        List.Chain' (fun a b => b = (a + 1) % n) r ∧ ∀ x ∈ r, 0 ≤ x ∧ x < n := by
  intro k
  induction k with
  | zero =>
    intro cur hc0 hc hk
    have hcd : cur = dest := by
      rcases le_or_lt cur dest with h | h
      · rw [emod_sub_of_le hc0 hd h] at hk; push_cast at hk; omega
      · rw [emod_sub_of_lt hd0 hc h] at hk; push_cast at hk; omega
    subst hcd
    refine ⟨[cur], ?_, rfl, rfl, rfl, List.chain'_singleton _, ?_⟩
    · intro fuel hf
      obtain ⟨f, rfl⟩ : ∃ f, fuel = f + 1 := ⟨fuel - 1, by omega⟩
      exact route_loop_arrived n cur 1 f hc0 hc
    intro x hx
    simp at hx
    subst hx
    exact ⟨hc0, hc⟩
  | succ k ih =>
    intro cur hc0 hc hk
    have hne : cur ≠ dest := by
      rintro rfl
      simp at hk
      omega
    have hw := wrap_around_succ hc0 hc
    have hdist : (dest - wrap_around n (cur + 1)) % n = k := by
      rw [hw]
      rcases le_or_lt cur dest with h | h
      · rw [emod_sub_of_le hc0 hd h] at hk
        push_cast at hk
        rw [if_neg (by omega), emod_sub_of_le (by omega) hd (by omega)]
        omega
      · rw [emod_sub_of_lt hd0 hc h] at hk
        push_cast at hk
        split_ifs with h2
        · rw [emod_sub_of_le (by omega) hd (by omega)]; omega
        · rw [emod_sub_of_lt hd0 (by omega) (by omega)]; omega
    obtain ⟨r, hr, hlen, hhead, hlast, hchain, hrange⟩ :=
      ih (wrap_around n (cur + 1)) (by rw [hw]; split_ifs <;> omega)
        (by rw [hw]; split_ifs <;> omega) hdist
    refine ⟨cur :: r, ?_, by simp [hlen], rfl, ?_, ?_, ?_⟩
    · intro fuel hf
      obtain ⟨f, rfl⟩ : ∃ f, fuel = f + 1 := ⟨fuel - 1, by omega⟩
      rw [route_loop_move n dest 1 cur f hc0 hc hne, hr f (by omega)]
      rfl
    · cases r with
      | nil => simp at hlen
      | cons a r => simpa [List.getLast?_cons_cons] using hlast
    · cases r with
      | nil => simp at hlen
      | cons a r =>
        simp only [List.head?_cons, Option.some.injEq] at hhead
        refine List.Chain'.cons ?_ hchain
        rw [hhead, hw, succ_emod hc0 hc]
    · intro x hx
      rcases List.mem_cons.1 hx with rfl | hx
      · exact ⟨hc0, hc⟩
      · exact hrange x hx

/-- The anticlockwise loop: from `cur`, at anticlockwise distance `k` of `dest`. -/
theorem route_loop_anticlockwise (n dest : Int) (hd0 : 0 ≤ dest) (hd : dest < n) :
    ∀ (k : Nat) (cur : Int), 0 ≤ cur → cur < n → (cur - dest) % n = k →
      ∃ r, (∀ fuel, k + 1 ≤ fuel → route_loop n dest (-1) fuel cur = Except.ok r) ∧
        r.length = k + 1 ∧
        r.head? = some cur ∧ r.getLast? = some dest ∧
        List.Chain' (fun a b => b = (a - 1) % n) r ∧ ∀ x ∈ r, 0 ≤ x ∧ x < n := by
  intro k
  induction k with
  | zero =>
    intro cur hc0 hc hk
    have hcd : cur = dest := by
      rcases le_or_lt dest cur with h | h
      · rw [emod_sub_of_le hd0 hc h] at hk; push_cast at hk; omega
      · rw [emod_sub_of_lt hc0 hd h] at hk; push_cast at hk; omega
    subst hcd
    refine ⟨[cur], ?_, rfl, rfl, rfl, List.chain'_singleton _, ?_⟩
    · intro fuel hf
      obtain ⟨f, rfl⟩ : ∃ f, fuel = f + 1 := ⟨fuel - 1, by omega⟩
      exact route_loop_arrived n cur (-1) f hc0 hc
    intro x hx
    simp at hx
    subst hx
    exact ⟨hc0, hc⟩
  | succ k ih =>
    intro cur hc0 hc hk
    have hne : cur ≠ dest := by
      rintro rfl
      simp at hk
      omega
    have hw := wrap_around_pred hc0 hc
    have hdist : (wrap_around n (cur + -1) - dest) % n = k := by
      rw [hw]
      rcases le_or_lt dest cur with h | h
      · rw [emod_sub_of_le hd0 hc h] at hk
        push_cast at hk
        rw [if_neg (by omega), emod_sub_of_le hd0 (by omega) (by omega)]
        omega
      · rw [emod_sub_of_lt hc0 hd h] at hk
        push_cast at hk
        split_ifs with h2
        · rw [emod_sub_of_le hd0 (by omega) (by omega)]; omega
        · rw [emod_sub_of_lt (by omega) hd (by omega)]; omega
    obtain ⟨r, hr, hlen, hhead, hlast, hchain, hrange⟩ :=
      ih (wrap_around n (cur + -1)) (by rw [hw]; split_ifs <;> omega)
        (by rw [hw]; split_ifs <;> omega) hdist
    refine ⟨cur :: r, ?_, by simp [hlen], rfl, ?_, ?_, ?_⟩
    · intro fuel hf
      obtain ⟨f, rfl⟩ : ∃ f, fuel = f + 1 := ⟨fuel - 1, by omega⟩
      rw [route_loop_move n dest (-1) cur f hc0 hc hne, hr f (by omega)]
      rfl
    · cases r with
      | nil => simp at hlen
      | cons a r => simpa [List.getLast?_cons_cons] using hlast
    · cases r with
      | nil => simp at hlen
      | cons a r =>
        simp only [List.head?_cons, Option.some.injEq] at hhead
        refine List.Chain'.cons ?_ hchain
        rw [hhead, hw, pred_emod hc0 hc]
    · intro x hx
      rcases List.mem_cons.1 hx with rfl | hx
      · exact ⟨hc0, hc⟩
      · exact hrange x hx

end Ring

namespace Ring

/-- The clockwise distance the code computes is the residue of `dest - src`. -/
theorem clockwise_dist_eq {n src dest : Int} (hs0 : 0 ≤ src) (hs : src < n) (hd0 : 0 ≤ dest)
    (hd : dest < n) :
    (if dest - src < 0 then dest - src + n else dest - src) = (dest - src) % n := by
  split_ifs with h
  · rw [emod_sub_of_lt hd0 hs (by omega)]
  · rw [emod_sub_of_le hs0 hd (by omega)]

/-- The direction chosen on a bidirectional ring. -/
theorem route_step_bidirectional {n src dest : Int} (hs0 : 0 ≤ src) (hs : src < n)
    (hd0 : 0 ≤ dest) (hd : dest < n) :
    route_step n true src dest = if n - (dest - src) % n < (dest - src) % n then -1 else 1 := by
  simp only [route_step, if_true, clockwise_dist_eq hs0 hs hd0 hd]

/-- The anticlockwise distance is the complement of the clockwise one between different devices. -/
theorem anticlockwise_dist_eq {n src dest : Int} (hs0 : 0 ≤ src) (hs : src < n) (hd0 : 0 ≤ dest)
    (hd : dest < n) (hne : src ≠ dest) : (src - dest) % n = n - (dest - src) % n := by
  rcases lt_or_le src dest with h | h
  · rw [emod_sub_of_lt hs0 hd h, emod_sub_of_le hs0 hd (by omega)]; omega
  · rw [emod_sub_of_le hd0 hs h, emod_sub_of_lt hd0 hs (by omega)]; omega

theorem dist_nonneg_lt (n src dest : Int) (hn : 0 < n) :
    0 ≤ (dest - src) % n ∧ (dest - src) % n < n :=
  ⟨Int.emod_nonneg _ (by omega), Int.emod_lt_of_pos _ hn⟩

theorem route_fuel_eq_loop (n : Int) (bidirectional : Bool) (fuel : Nat) (src dest : Int)
    (hs0 : 0 ≤ src) (hs : src < n) (hd0 : 0 ≤ dest) (hd : dest < n) :
    route_fuel n bidirectional fuel src dest =
      route_loop n dest (route_step n bidirectional src dest) fuel src := by
  simp [route_fuel, cassert_ok, hs0, hs, hd0, hd]

/-- What `Ring::route` returns, whatever the fuel from the size of the ring on. -/
theorem route_fuel_spec (n : Int) (bidirectional : Bool) (src dest : Int) (hs0 : 0 ≤ src)
    (hs : src < n) (hd0 : 0 ≤ dest) (hd : dest < n) :
    ∃ r, (∀ fuel, n.toNat ≤ fuel → route_fuel n bidirectional fuel src dest = Except.ok r) ∧
      (r.length : Int) = 1 + (if bidirectional
        then min ((dest - src) % n) (n - (dest - src) % n) else (dest - src) % n) ∧
      r.head? = some src ∧ r.getLast? = some dest ∧
      (route_step n bidirectional src dest = 1 → List.Chain' (fun a b => b = (a + 1) % n) r) ∧
      (route_step n bidirectional src dest = -1 → List.Chain' (fun a b => b = (a - 1) % n) r) ∧
      ∀ x ∈ r, 0 ≤ x ∧ x < n := by
  obtain ⟨hc0, hc1⟩ := dist_nonneg_lt n src dest (by omega)
  have hstep : (route_step n bidirectional src dest = 1 ∧
        (bidirectional = true → ¬ (n - (dest - src) % n < (dest - src) % n))) ∨
      (route_step n bidirectional src dest = -1 ∧ bidirectional = true ∧
        n - (dest - src) % n < (dest - src) % n) := by
    cases bidirectional with
    | false => left; simp [route_step]
    | true =>
      rw [route_step_bidirectional hs0 hs hd0 hd]
      by_cases h : n - (dest - src) % n < (dest - src) % n
      · right; simp [h]
      · left; simp [h]
  rcases hstep with ⟨h1, hnot⟩ | ⟨h1, hb, hlt⟩
  · obtain ⟨k, hk⟩ : ∃ k : Nat, (dest - src) % n = k := ⟨((dest - src) % n).toNat, by omega⟩
    obtain ⟨r, hr, hlen, hhead, hlast, hchain, hrange⟩ :=
      route_loop_clockwise n dest hd0 hd k src hs0 hs hk
    refine ⟨r, ?_, ?_, hhead, hlast, fun _ => hchain, ?_, hrange⟩
    · intro fuel hfuel
      rw [route_fuel_eq_loop n bidirectional fuel src dest hs0 hs hd0 hd, h1]
      exact hr fuel (by omega)
    · rw [hlen]
      cases bidirectional with
      | false => simp; omega
      | true =>
        have := hnot rfl
        simp only [if_true]
        rw [min_eq_left (by omega)]
        push_cast
        omega
    · intro h; rw [h1] at h; omega
  · have hne : src ≠ dest := by
      rintro rfl
      simp at hlt
      omega
    obtain ⟨k, hk⟩ : ∃ k : Nat, (src - dest) % n = k := by
      refine ⟨((src - dest) % n).toNat, ?_⟩
      have := dist_nonneg_lt n dest src (by omega)
      omega
    obtain ⟨r, hr, hlen, hhead, hlast, hchain, hrange⟩ :=
      route_loop_anticlockwise n dest hd0 hd k src hs0 hs hk
    have hanti := anticlockwise_dist_eq hs0 hs hd0 hd hne
    refine ⟨r, ?_, ?_, hhead, hlast, ?_, fun _ => hchain, hrange⟩
    · intro fuel hfuel
      rw [route_fuel_eq_loop n bidirectional fuel src dest hs0 hs hd0 hd, h1]
      exact hr fuel (by omega)
    · rw [hlen, hb]
      simp only [if_true]
      rw [min_eq_right (by omega)]
      push_cast
      omega
    · intro h; rw [h1] at h; omega

/-- Every clockwise hop is a connection policy of the ring. -/
theorem clockwise_policy (n : Int) (bidirectional : Bool) (a : Int) (ha0 : 0 ≤ a) (ha : a < n) :
    (a, (a + 1) % n) ∈ get_connection_policies n bidirectional := by
  unfold get_connection_policies
  have hmem : a.toNat ∈ List.range n.toNat := List.mem_range.2 (by omega)
  refine List.mem_append_left _ ?_
  rw [List.mem_map]
  refine ⟨a.toNat, hmem, ?_⟩
  have h : ((a.toNat : Nat) : Int) = a := Int.toNat_of_nonneg ha0
  rw [h, Int.tmod_eq_emod (by omega) (by omega)]

/-- Every anticlockwise hop is a connection policy of the bidirectional ring. -/
theorem anticlockwise_policy (n : Int) (a : Int) (ha0 : 0 ≤ a) (ha : a < n) :
    (a, (a - 1) % n) ∈ get_connection_policies n true := by
  unfold get_connection_policies
  have hb := dist_nonneg_lt n 1 a (by omega)
  refine List.mem_append_right _ ?_
  simp only [if_true]
  have hmem : ((a - 1) % n).toNat ∈ List.range n.toNat := List.mem_range.2 (by omega)
  rw [List.mem_map]
  refine ⟨((a - 1) % n).toNat, hmem, ?_⟩
  have h : ((((a - 1) % n).toNat : Nat) : Int) = (a - 1) % n := Int.toNat_of_nonneg hb.1
  rw [h, Int.tmod_eq_emod (by omega) (by omega), succ_emod hb.1 hb.2, pred_emod ha0 ha]
  congr 1
  split_ifs <;> omega

end Ring

/-- C10. For every fully connected topology of `n` NPUs and every `src`, `dst` in `[0, n)`,
`FullyConnected::route(src, dst)` is exactly `[src, dst]`, of length 2. -/
theorem FullyConnected_route_is_one_hop (n src dst : Int) (hs0 : 0 ≤ src) (hs : src < n)
    (hd0 : 0 ≤ dst) (hd : dst < n) :
    FullyConnected.route n src dst = Except.ok [src, dst] ∧
      ∃ r, FullyConnected.route n src dst = Except.ok r ∧ r.length = 2 :=
  ⟨FullyConnected.route_eq n src dst hs0 hs hd0 hd,
    [src, dst], FullyConnected.route_eq n src dst hs0 hs hd0 hd, rfl⟩

/-- Witness of C10: in `FullyConnected(4)`, `route(2, 0) = [2, 0]`. -/
theorem FullyConnected_route_is_one_hop_witness :
    FullyConnected.route 4 2 0 = Except.ok [2, 0] :=
  (FullyConnected_route_is_one_hop 4 2 0 (by decide) (by decide) (by decide) (by decide)).1

/-- C8. For every ring of size `n` and every `src`, `dst` in `[0, n)`, `Ring::route(src, dst)`
returns (with any fuel from `n` on, and so with the fuel `n` of `Ring.route`) a route of
exactly `1 + min(c, n - c)` devices when the ring is bidirectional and `1 + c` devices
otherwise, where `c = (dst - src) mod n`; its first element is `src`, its last is `dst`. -/
theorem Ring_route_length (n : Int) (bidirectional : Bool) (src dst : Int) (hs0 : 0 ≤ src)
    (hs : src < n) (hd0 : 0 ≤ dst) (hd : dst < n) :
    ∃ r, (∀ fuel, n.toNat ≤ fuel → Ring.route_fuel n bidirectional fuel src dst = Except.ok r) ∧
      Ring.route n bidirectional src dst = Except.ok r ∧
      (r.length : Int) = 1 + (if bidirectional
        then min ((dst - src) % n) (n - (dst - src) % n) else (dst - src) % n) ∧
      r.head? = some src ∧ r.getLast? = some dst := by
  obtain ⟨r, hr, hlen, hhead, hlast, -⟩ :=
    Ring.route_fuel_spec n bidirectional src dst hs0 hs hd0 hd
  exact ⟨r, hr, hr _ le_rfl, hlen, hhead, hlast⟩

/-- Witness of C8: the bidirectional ring of size 5 from 0 to 4, two devices. -/
theorem Ring_route_length_witness :
    ∃ r, (∀ fuel, (5 : Int).toNat ≤ fuel → Ring.route_fuel 5 true fuel 0 4 = Except.ok r) ∧
      Ring.route 5 true 0 4 = Except.ok r ∧
      (r.length : Int) = 1 + (if true
        then min (((4 : Int) - 0) % 5) (5 - ((4 : Int) - 0) % 5) else ((4 : Int) - 0) % 5) ∧
      r.head? = some 0 ∧ r.getLast? = some 4 :=
  Ring_route_length 5 true 0 4 (by decide) (by decide) (by decide) (by decide)

/-- C9. On a bidirectional ring of size `n`, for `src ≠ dst` in range, `Ring::route` goes
anticlockwise (direction `-1`, every next device being `(cur - 1) mod n`) when the
anticlockwise distance `n - c` is strictly smaller than the clockwise distance
`c = (dst - src) mod n`, and clockwise (direction `1`, every next device being
`(cur + 1) mod n`) otherwise, a tie included; every consecutive pair of the route is a
connection policy of the ring. -/
theorem Ring_route_direction (n src dst : Int) (hs0 : 0 ≤ src) (hs : src < n) (hd0 : 0 ≤ dst)
    (hd : dst < n) (hne : src ≠ dst) :
    ∃ r, Ring.route n true src dst = Except.ok r ∧ 2 ≤ r.length ∧
      (n - (dst - src) % n < (dst - src) % n →
        Ring.route_step n true src dst = -1 ∧ List.Chain' (fun a b => b = (a - 1) % n) r) ∧
      (¬ (n - (dst - src) % n < (dst - src) % n) →
        Ring.route_step n true src dst = 1 ∧ List.Chain' (fun a b => b = (a + 1) % n) r) ∧
      List.Chain' (fun a b => (a, b) ∈ Ring.get_connection_policies n true) r := by
  obtain ⟨r, hr, hlen, hhead, hlast, hcw, hacw, hrange⟩ :=
    Ring.route_fuel_spec n true src dst hs0 hs hd0 hd
  have hstep := @Ring.route_step_bidirectional n src dst hs0 hs hd0 hd
  have hlen2 : 2 ≤ r.length := by
    match r, hhead, hlast with
    | [], hh, _ => simp at hh
    | [a], hh, hl =>
      simp only [List.head?_cons, Option.some.injEq] at hh
      simp only [List.getLast?_singleton, Option.some.injEq] at hl
      exact absurd (hh.symm.trans hl) hne
    | _ :: _ :: _, _, _ => simp
  refine ⟨r, hr _ le_rfl, hlen2, ?_, ?_, ?_⟩
  · intro h
    rw [if_pos h] at hstep
    exact ⟨hstep, hacw hstep⟩
  · intro h
    rw [if_neg h] at hstep
    exact ⟨hstep, hcw hstep⟩
  · by_cases h : n - (dst - src) % n < (dst - src) % n
    · rw [if_pos h] at hstep
      refine (List.Chain'.iff_mem.1 (hacw hstep)).imp ?_
      rintro a b ⟨ha, -, rfl⟩
      exact Ring.anticlockwise_policy n a (hrange a ha).1 (hrange a ha).2
    · rw [if_neg h] at hstep
      refine (List.Chain'.iff_mem.1 (hcw hstep)).imp ?_
      rintro a b ⟨ha, -, rfl⟩
      exact Ring.clockwise_policy n true a (hrange a ha).1 (hrange a ha).2

/-- Witness of C9: in `Ring(4)`, `route(0, 3) = [0, 3]` is anticlockwise and
`route(0, 2) = [0, 1, 2]`, a tie, is clockwise. -/
theorem Ring_route_direction_witness :
    (Ring.route 4 true 0 3 = Except.ok [0, 3] ∧
      List.Chain' (fun a b => b = (a - 1) % 4) ([0, 3] : List Int)) ∧
    (Ring.route 4 true 0 2 = Except.ok [0, 1, 2] ∧
      List.Chain' (fun a b => b = (a + 1) % 4) ([0, 1, 2] : List Int)) := by
  constructor
  · obtain ⟨r, hr, -, hanti, -, -⟩ :=
      Ring_route_direction 4 0 3 (by decide) (by decide) (by decide) (by decide) (by decide)
    have h : Ring.route 4 true 0 3 = Except.ok [0, 3] := by decide
    have hr' : r = [0, 3] := by
      rw [h] at hr
      exact (Except.ok.inj hr).symm
    subst hr'
    exact ⟨h, (hanti (by decide)).2⟩
  · obtain ⟨r, hr, -, -, hcw, -⟩ :=
      Ring_route_direction 4 0 2 (by decide) (by decide) (by decide) (by decide) (by decide)
    have h : Ring.route 4 true 0 2 = Except.ok [0, 1, 2] := by decide
    have hr' : r = [0, 1, 2] := by
      rw [h] at hr
      exact (Except.ok.inj hr).symm
    subst hr'
    exact ⟨h, (hcw (by decide)).2⟩

/-! ## Address translation -/

namespace MultiDimTopology

theorem vector_at_eq_ok {α : Type} {v : List α} {i : Nat} {x : α} (h : v[i]? = some x) :
    vector_at v i = Except.ok x := by
  simp [vector_at, h]

theorem vector_at_getD {v : List Int} {i : Nat} (h : i < v.length) (d : Int) :
    vector_at v i = Except.ok (v.getD i d) := by
  apply vector_at_eq_ok
  rw [List.getD_eq_getElem?_getD, List.getElem?_eq_getElem h]
  rfl

theorem vector_set_ok {α : Type} {v : List α} {i : Nat} (x : α) (h : i < v.length) :
    vector_set v i x = Except.ok (v.set i x) := by
  simp [vector_set, h]

theorem accumulate_product_eq (l : List Int) : accumulate_product l = l.prod := by
  unfold accumulate_product
  rw [List.prod_eq_foldl]

theorem group_size_zero (counts : List Int) : group_size counts 0 = 1 := by
  simp [group_size]

theorem group_size_succ (counts : List Int) (k : Nat) (hk : k < counts.length) :
    group_size counts (k + 1) = group_size counts k * counts.getD k 0 := by
  unfold group_size
  rw [List.take_succ, List.prod_append, List.getD_eq_getElem?_getD,
    List.getElem?_eq_getElem hk]
  simp

theorem group_size_length (counts : List Int) : group_size counts counts.length = counts.prod := by
  simp [group_size]

theorem getD_pos {counts : List Int} (hpos : ∀ n ∈ counts, 1 ≤ n) {k : Nat}
    (hk : k < counts.length) : 1 ≤ counts.getD k 0 := by
  rw [List.getD_eq_getElem?_getD, List.getElem?_eq_getElem hk]
  exact hpos _ (List.getElem_mem hk)

theorem group_size_pos {counts : List Int} (hpos : ∀ n ∈ counts, 1 ≤ n) :
    ∀ k, k ≤ counts.length → 0 < group_size counts k := by
  intro k
  induction k with
  | zero => intro _; rw [group_size_zero]; exact Int.one_pos
  | succ k ih =>
    intro hk
    rw [group_size_succ counts k hk]
    exact Int.mul_pos (ih (by omega)) (by have := getD_pos hpos hk; omega)

theorem group_size_dvd (counts : List Int) (j : Nat) :
    ∀ k, j ≤ k → k ≤ counts.length → group_size counts j ∣ group_size counts k := by
  intro k
  induction k with
  | zero =>
    intro hj _
    have : j = 0 := by omega
    subst this
    exact dvd_rfl
  | succ k ih =>
    intro hj hk
    rcases Nat.eq_or_lt_of_le hj with h | h
    · subst h; exact dvd_rfl
    · rw [group_size_succ counts k hk]
      exact Dvd.dvd.mul_right (ih (by omega) (by omega)) _

end MultiDimTopology

namespace MultiDimTopology

theorem translate_address_back_loop_eq (t : MultiDimTopology) (a : MultiDimAddress) :
    ∀ (k : Nat) (acc : Int), k ≤ a.length → k ≤ t.npus_count_per_dim.length + 1 →
      translate_address_back_loop t a k acc =
        Except.ok (acc + address_value t.npus_count_per_dim a k) := by
  intro k
  induction k with
  | zero =>
    intro acc _ _
    simp [translate_address_back_loop, address_value]
  | succ k ih =>
    intro acc hk hk'
    have hguard : ¬ (k > t.npus_count_per_dim.length) := by omega
    rw [translate_address_back_loop, if_neg hguard]
    simp only [pure_eq_ok, ok_bind, vector_at_getD (show k < a.length by omega) 0]
    rw [ih _ (by omega) (by omega), accumulate_product_eq]
    unfold address_value
    rw [Finset.sum_range_succ]
    unfold group_size
    congr 1
    ring

/-- The value `translate_address_back` returns for an address of the right length. -/
theorem translate_address_back_eq (t : MultiDimTopology) (a : MultiDimAddress)
    (hlen : t.npus_count_per_dim.length = t.dims_count) (ha : a.length = t.dims_count) :
    translate_address_back t a =
      Except.ok (address_value t.npus_count_per_dim a t.dims_count) := by
  unfold translate_address_back
  rw [cassert_ok ha]
  simp only [ok_bind]
  rw [translate_address_back_loop_eq t a _ 0 (by omega) (by omega)]
  simp

theorem address_digits_length (counts : List Int) (id : Int) (k : Nat) :
    (address_digits counts id k).length = k := by
  simp [address_digits]

theorem address_digits_getD (counts : List Int) (id : Int) (k d : Nat) (hd : d < k) :
    (address_digits counts id k).getD d 0 =
      (id % group_size counts (d + 1)) / group_size counts d := by
  unfold address_digits
  rw [List.getD_eq_getElem?_getD, List.getElem?_map, List.getElem?_range hd]
  rfl

theorem address_digits_succ (counts : List Int) (id : Int) (k : Nat) :
    address_digits counts id (k + 1) =
      address_digits counts id k ++ [(id % group_size counts (k + 1)) / group_size counts k] := by
  simp [address_digits, List.range_succ]

theorem address_digits_emod (counts : List Int) (id : Int) (k : Nat) (hk : k ≤ counts.length) :
    address_digits counts (id % group_size counts k) k = address_digits counts id k := by
  unfold address_digits
  apply List.map_congr_left
  intro d hd
  have hd' : d < k := List.mem_range.1 hd
  rw [Int.emod_emod_of_dvd _ (group_size_dvd counts (d + 1) k (by omega) hk)]

theorem drop_set_self {α : Type} (l : List α) (k : Nat) (x : α) (hk : k < l.length) :
    (l.set k x).drop k = x :: l.drop (k + 1) := by
  induction l generalizing k with
  | nil => simp at hk
  | cons a l ih =>
    cases k with
    | zero => simp
    | succ k =>
      simp only [List.set_cons_succ, List.drop_succ_cons]
      exact ih k (by simpa using hk)

theorem translate_address_loop_eq (t : MultiDimTopology)
    (hpos : ∀ n ∈ t.npus_count_per_dim, 1 ≤ n) :
    ∀ (k : Nat) (leftover : Int) (addr : MultiDimAddress), k ≤ t.npus_count_per_dim.length →
      k ≤ addr.length → 0 ≤ leftover → leftover < group_size t.npus_count_per_dim k →
      translate_address_loop t k leftover (group_size t.npus_count_per_dim k) addr =
        Except.ok (address_digits t.npus_count_per_dim leftover k ++ addr.drop k) := by
  intro k
  induction k with
  | zero =>
    intro leftover addr _ _ _ _
    simp [translate_address_loop, address_digits]
  | succ k ih =>
    intro leftover addr hk hka h0 hlt
    have hn := getD_pos hpos hk
    have hg := group_size_pos hpos k (by omega)
    have hsucc := group_size_succ t.npus_count_per_dim k hk
    have hden : Int.tdiv (group_size t.npus_count_per_dim (k + 1))
        (t.npus_count_per_dim.getD k 0) = group_size t.npus_count_per_dim k := by
      rw [hsucc, Int.tdiv_eq_ediv (Int.mul_nonneg (by omega) (by omega)) (by omega)]
      exact Int.mul_ediv_cancel _ (by omega)
    rw [translate_address_loop]
    simp only [vector_at_getD hk 0, ok_bind, pure_eq_ok]
    rw [if_neg (by omega)]
    simp only [hden, ok_bind, pure_eq_ok]
    rw [if_neg (by omega)]
    simp only [ok_bind, pure_eq_ok, vector_set_ok _ (show k < addr.length by omega)]
    rw [Int.tmod_eq_emod h0 (by omega), Int.tdiv_eq_ediv h0 (by omega)]
    rw [ih _ _ (by omega) (by simp; omega) (Int.emod_nonneg _ (by omega))
      (Int.emod_lt_of_pos _ hg)]
    rw [address_digits_emod _ _ _ (by omega), address_digits_succ,
      drop_set_self _ _ _ (by omega), Int.emod_eq_of_lt h0 hlt]
    simp

end MultiDimTopology

namespace MultiDimTopology

theorem translate_address_check_ok (t : MultiDimTopology) (a : MultiDimAddress) :
    ∀ k, k ≤ a.length → k ≤ t.npus_count_per_dim.length →
      (∀ d, d < k → 0 ≤ a.getD d 0 ∧ a.getD d 0 < t.npus_count_per_dim.getD d 0) →
      translate_address_check t a k = Except.ok () := by
  intro k
  induction k with
  | zero => intro _ _ _; rfl
  | succ k ih =>
    intro hka hk h
    rw [translate_address_check, ih (by omega) (by omega) (fun d hd => h d (by omega))]
    simp only [ok_bind, vector_at_getD (show k < a.length by omega) 0,
      vector_at_getD (show k < t.npus_count_per_dim.length by omega) 0,
      cassert_ok (h k (by omega)).1, cassert_ok (h k (by omega)).2]

theorem address_digits_valid {counts : List Int} (hpos : ∀ n ∈ counts, 1 ≤ n) (id : Int) :
    ValidAddress counts (address_digits counts id counts.length) := by
  refine ⟨address_digits_length _ _ _, fun d hd => ?_⟩
  rw [address_digits_getD _ _ _ _ hd]
  have hg := group_size_pos hpos d (by omega)
  have hg1 := group_size_pos hpos (d + 1) (by omega)
  constructor
  · exact Int.ediv_nonneg (Int.emod_nonneg _ (by omega)) (by omega)
  · apply Int.ediv_lt_of_lt_mul hg
    rw [mul_comm, ← group_size_succ counts d hd]
    exact Int.emod_lt_of_pos _ hg1

/-- The address `translate_address` returns for an NPU. -/
theorem translate_address_eq (t : MultiDimTopology)
    (hlen : t.npus_count_per_dim.length = t.dims_count)
    (hprod : t.npus_count = accumulate_product t.npus_count_per_dim)
    (hpos : ∀ n ∈ t.npus_count_per_dim, 1 ≤ n) (id : Int) (h0 : 0 ≤ id)
    (hid : id < t.npus_count) :
    translate_address t id =
      Except.ok (address_digits t.npus_count_per_dim id t.dims_count) := by
  have hG : t.npus_count = group_size t.npus_count_per_dim t.dims_count := by
    rw [hprod, accumulate_product_eq, ← hlen, group_size_length]
  unfold translate_address
  rw [hG, translate_address_loop_eq t hpos t.dims_count id _ (by omega) (by simp) h0
    (by rw [← hG]; exact hid)]
  have hdrop : (List.replicate t.dims_count (-1 : Int)).drop t.dims_count = [] := by
    simp
  rw [hdrop, List.append_nil]
  simp only [ok_bind, pure_eq_ok]
  have hv := @address_digits_valid t.npus_count_per_dim hpos id
  rw [hlen] at hv
  rw [translate_address_check_ok t _ t.dims_count (by rw [hv.1, hlen]) (by omega)
    (fun d hd => hv.2 d (by omega))]
  rfl

theorem sum_address_digits (counts : List Int) (id : Int) :
    ∀ k, k ≤ counts.length →
      address_value counts (address_digits counts id counts.length) k =
        id % group_size counts k := by
  intro k
  induction k with
  | zero =>
    intro _
    simp [address_value, group_size_zero]
  | succ k ih =>
    intro hk
    have ih' := ih (by omega)
    unfold address_value at ih' ⊢
    rw [Finset.sum_range_succ, ih', address_digits_getD _ _ _ _ (by omega)]
    have hdvd := group_size_dvd counts k (k + 1) (by omega) hk
    have h1 := Int.ediv_add_emod (id % group_size counts (k + 1)) (group_size counts k)
    rw [Int.emod_emod_of_dvd _ hdvd] at h1
    linarith

theorem address_value_bounds {counts : List Int} (hpos : ∀ n ∈ counts, 1 ≤ n)
    {a : MultiDimAddress} (ha : ValidAddress counts a) :
    ∀ k, k ≤ counts.length →
      0 ≤ address_value counts a k ∧ address_value counts a k < group_size counts k := by
  intro k
  induction k with
  | zero =>
    intro _
    simp [address_value, group_size_zero]
  | succ k ih =>
    intro hk
    obtain ⟨ih0, ih1⟩ := ih (by omega)
    obtain ⟨ha0, ha1⟩ := ha.2 k hk
    have hg := group_size_pos hpos k (by omega)
    unfold address_value at ih0 ih1 ⊢
    rw [Finset.sum_range_succ, group_size_succ counts k hk]
    constructor
    · exact add_nonneg ih0 (mul_nonneg ha0 (by omega))
    · have h1 : a.getD k 0 * group_size counts k ≤
          (counts.getD k 0 - 1) * group_size counts k :=
        mul_le_mul_of_nonneg_right (by omega) (by omega)
      nlinarith

theorem address_value_emod {counts : List Int} (hpos : ∀ n ∈ counts, 1 ≤ n)
    {a : MultiDimAddress} (ha : ValidAddress counts a) (d : Nat) :
    ∀ k, d ≤ k → k ≤ counts.length →
      address_value counts a k % group_size counts d = address_value counts a d := by
  intro k
  induction k with
  | zero =>
    intro hd _
    have : d = 0 := by omega
    subst this
    simp [address_value, group_size_zero]
  | succ k ih =>
    intro hd hk
    rcases Nat.eq_or_lt_of_le hd with h | h
    · subst h
      obtain ⟨h0, h1⟩ := address_value_bounds hpos ha (k + 1) hk
      exact Int.emod_eq_of_lt h0 h1
    · have ih' := ih (by omega) (by omega)
      obtain ⟨c, hc⟩ := group_size_dvd counts d k (by omega) (by omega)
      have hstep : address_value counts a (k + 1) =
          address_value counts a k + group_size counts d * (a.getD k 0 * c) := by
        unfold address_value
        rw [Finset.sum_range_succ, hc]
        ring
      rw [hstep, Int.add_mul_emod_self_left, ih']

theorem address_digits_of_value {counts : List Int} (hpos : ∀ n ∈ counts, 1 ≤ n)
    {a : MultiDimAddress} (ha : ValidAddress counts a) :
    address_digits counts (address_value counts a counts.length) counts.length = a := by
  apply List.ext_getElem
  · rw [address_digits_length, ha.1]
  · intro d h1 h2
    have hd : d < counts.length := by rwa [address_digits_length] at h1
    have hL : (address_digits counts (address_value counts a counts.length) counts.length)[d] =
        (address_digits counts (address_value counts a counts.length) counts.length).getD d 0 := by
      rw [List.getD_eq_getElem?_getD, List.getElem?_eq_getElem h1]; rfl
    have hR : a[d] = a.getD d 0 := by
      rw [List.getD_eq_getElem?_getD, List.getElem?_eq_getElem h2]; rfl
    rw [hL, hR, address_digits_getD _ _ _ _ hd,
      address_value_emod hpos ha (d + 1) counts.length (by omega) le_rfl]
    obtain ⟨h0, hlt⟩ := address_value_bounds hpos ha d (by omega)
    have hg := group_size_pos hpos d (by omega)
    have hstep : address_value counts a (d + 1) =
        address_value counts a d + a.getD d 0 * group_size counts d := by
      unfold address_value
      rw [Finset.sum_range_succ]
    rw [hstep, Int.add_mul_ediv_right _ _ (by omega), Int.ediv_eq_zero_of_lt h0 hlt]
    simp

end MultiDimTopology

theorem topology_2_8_4_assembled :
    MultiDimTopology.assemble no_switch_translation_unit [] [0, 0, 0]
      [Ring.topology 2 1 1 true, Ring.topology 8 1 1 true, Ring.topology 4 1 1 true] =
      Except.ok topology_2_8_4 := rfl

/-- C4. With `npus_count` the product of `npus_count_per_dim`, all entries at least 1,
`translate_address` and `translate_address_back` are inverse of each other: an NPU id goes to
an address that goes back to it, and an address with every coordinate within the NPU count of
its dimension goes to an id that goes back to it. -/
theorem translate_address_round_trip (t : MultiDimTopology)
    (hlen : t.npus_count_per_dim.length = t.dims_count)
    (hprod : t.npus_count = MultiDimTopology.accumulate_product t.npus_count_per_dim)
    (hpos : ∀ n ∈ t.npus_count_per_dim, 1 ≤ n) :
    (∀ id : DeviceId, 0 ≤ id → id < t.npus_count →
      ∃ a, MultiDimTopology.translate_address t id = Except.ok a ∧
        MultiDimTopology.translate_address_back t a = Except.ok id) ∧
    (∀ a : MultiDimAddress, a.length = t.dims_count →
      (∀ d, d < t.dims_count →
        0 ≤ a.getD d 0 ∧ a.getD d 0 < t.npus_count_per_dim.getD d 0) →
      ∃ id, MultiDimTopology.translate_address_back t a = Except.ok id ∧
        MultiDimTopology.translate_address t id = Except.ok a) := by
  have hG : t.npus_count =
      MultiDimTopology.group_size t.npus_count_per_dim t.npus_count_per_dim.length := by
    rw [hprod, MultiDimTopology.accumulate_product_eq, MultiDimTopology.group_size_length]
  constructor
  · intro id h0 hid
    refine ⟨_, MultiDimTopology.translate_address_eq t hlen hprod hpos id h0 hid, ?_⟩
    rw [MultiDimTopology.translate_address_back_eq t _ hlen
      (MultiDimTopology.address_digits_length _ _ _), ← hlen,
      MultiDimTopology.sum_address_digits _ _ _ le_rfl, ← hG, Int.emod_eq_of_lt h0 hid]
  · intro a ha hrange
    have hvalid : MultiDimTopology.ValidAddress t.npus_count_per_dim a :=
      ⟨by omega, fun d hd => hrange d (by omega)⟩
    obtain ⟨h0, h1⟩ := MultiDimTopology.address_value_bounds hpos hvalid _ le_rfl
    refine ⟨_, MultiDimTopology.translate_address_back_eq t a hlen ha, ?_⟩
    rw [← hlen, MultiDimTopology.translate_address_eq t hlen hprod hpos _ h0
      (by rw [hG]; exact h1), ← hlen, MultiDimTopology.address_digits_of_value hpos hvalid]

/-- Witness of C4: in the topology of 2 x 8 x 4 NPUs, the id 47 and the address `[1, 7, 2]`. -/
theorem translate_address_round_trip_witness :
    (∃ a, MultiDimTopology.translate_address topology_2_8_4 47 = Except.ok a ∧
        MultiDimTopology.translate_address_back topology_2_8_4 a = Except.ok 47) ∧
    (∃ id, MultiDimTopology.translate_address_back topology_2_8_4 [1, 7, 2] = Except.ok id ∧
        MultiDimTopology.translate_address topology_2_8_4 id = Except.ok [1, 7, 2]) :=
  have h := translate_address_round_trip topology_2_8_4 rfl rfl (by decide)
  ⟨h.1 47 (by decide) (by decide), h.2 [1, 7, 2] rfl (by decide)⟩

/-- C5. The address encoding is mixed-radix with the least significant digit at dimension 0:
`translate_address_back` of an address of length `dims_count` is the sum over the dimensions
`i` of `a[i]` times the product of the NPU counts of the dimensions below `i`; and for every
NPU id every coordinate of `translate_address` lies within the NPU count of its dimension
(the range assertions of the function hold, the function returns). With the NPU counts
`[2, 8, 4]`, the id 47 has the address `[1, 7, 2]`. -/
theorem address_encoding_mixed_radix :
    (∀ t : MultiDimTopology, t.npus_count_per_dim.length = t.dims_count →
      ∀ a : MultiDimAddress, a.length = t.dims_count →
        MultiDimTopology.translate_address_back t a = Except.ok
          (Finset.sum (Finset.range t.dims_count)
            (fun i => a.getD i 0 * (t.npus_count_per_dim.take i).prod))) ∧
    (∀ t : MultiDimTopology, t.npus_count_per_dim.length = t.dims_count →
      t.npus_count = MultiDimTopology.accumulate_product t.npus_count_per_dim →
      (∀ n ∈ t.npus_count_per_dim, 1 ≤ n) →
      ∀ id : DeviceId, 0 ≤ id → id < t.npus_count →
        ∃ a, MultiDimTopology.translate_address t id = Except.ok a ∧
          a.length = t.dims_count ∧
          ∀ d, d < t.dims_count →
            0 ≤ a.getD d 0 ∧ a.getD d 0 < t.npus_count_per_dim.getD d 0) ∧
    MultiDimTopology.translate_address topology_2_8_4 47 = Except.ok [1, 7, 2] ∧
    MultiDimTopology.translate_address_back topology_2_8_4 [1, 7, 2] = Except.ok 47 := by
  refine ⟨?_, ?_, by decide, by decide⟩
  · intro t hlen a ha
    exact MultiDimTopology.translate_address_back_eq t a hlen ha
  · intro t hlen hprod hpos id h0 hid
    refine ⟨_, MultiDimTopology.translate_address_eq t hlen hprod hpos id h0 hid,
      MultiDimTopology.address_digits_length _ _ _, ?_⟩
    have hv := MultiDimTopology.address_digits_valid hpos id
    rw [hlen] at hv
    intro d hd
    exact hv.2 d (by omega)

/-- Witness of C5: the topology of 2 x 8 x 4 NPUs, the address `[1, 7, 2]` and the id 47. -/
theorem address_encoding_mixed_radix_witness :
    MultiDimTopology.translate_address_back topology_2_8_4 [1, 7, 2] = Except.ok
        (Finset.sum (Finset.range topology_2_8_4.dims_count)
          (fun i => ([1, 7, 2] : List Int).getD i 0 *
            (topology_2_8_4.npus_count_per_dim.take i).prod)) ∧
    ∃ a, MultiDimTopology.translate_address topology_2_8_4 47 = Except.ok a ∧
      a.length = topology_2_8_4.dims_count ∧
      ∀ d, d < topology_2_8_4.dims_count →
        0 ≤ a.getD d 0 ∧ a.getD d 0 < topology_2_8_4.npus_count_per_dim.getD d 0 :=
  ⟨address_encoding_mixed_radix.1 topology_2_8_4 rfl [1, 7, 2] rfl,
    address_encoding_mixed_radix.2.1 topology_2_8_4 rfl rfl (by decide) 47 (by decide)
      (by decide)⟩

/-! ## The routes of the dimensions without switch -/

theorem Ring.ring_routes_by_policy (n : Int) (bandwidth latency : Rat) (bidirectional : Bool) :
    RoutesByPolicy (Ring.topology n bandwidth latency bidirectional) n := by
  intro x y hx0 hx hy0 hy hne
  obtain ⟨r, hr, -, hhead, hlast, hcw, hacw, hrange⟩ :=
    Ring.route_fuel_spec n bidirectional x y hx0 hx hy0 hy
  refine ⟨r, hr _ le_rfl, hhead, hlast, hrange, ?_⟩
  have hstep : Ring.route_step n bidirectional x y = 1 ∨
      (Ring.route_step n bidirectional x y = -1 ∧ bidirectional = true) := by
    cases bidirectional with
    | false => left; rfl
    | true =>
      rw [Ring.route_step_bidirectional hx0 hx hy0 hy]
      split_ifs
      · right; exact ⟨rfl, rfl⟩
      · left; rfl
  rcases hstep with h | ⟨h, hb⟩
  · refine (List.Chain'.iff_mem.1 (hcw h)).imp ?_
    rintro a b ⟨ha, -, rfl⟩
    obtain ⟨ha0, ha1⟩ := hrange a ha
    refine ⟨?_, Ring.clockwise_policy n bidirectional a ha0 ha1⟩
    rw [Ring.succ_emod ha0 ha1]
    split_ifs <;> omega
  · subst hb
    refine (List.Chain'.iff_mem.1 (hacw h)).imp ?_
    rintro a b ⟨ha, -, rfl⟩
    obtain ⟨ha0, ha1⟩ := hrange a ha
    refine ⟨?_, Ring.anticlockwise_policy n a ha0 ha1⟩
    rw [Ring.pred_emod ha0 ha1]
    split_ifs <;> omega

theorem FullyConnected.policy_mem (n x y : Int) (hx0 : 0 ≤ x) (hx : x < n) (hy0 : 0 ≤ y)
    (hy : y < n) (hne : x ≠ y) : (x, y) ∈ FullyConnected.get_connection_policies n := by
  unfold FullyConnected.get_connection_policies
  rw [List.mem_flatMap]
  refine ⟨x.toNat, List.mem_range.2 (by omega), ?_⟩
  rw [List.mem_map]
  refine ⟨y.toNat, ?_, ?_⟩
  · rw [List.mem_filter]
    refine ⟨List.mem_range.2 (by omega), ?_⟩
    simp only [ne_eq, decide_not, Bool.not_eq_eq_eq_not, Bool.not_true, decide_eq_false_iff_not]
    omega
  · rw [Int.toNat_of_nonneg hx0, Int.toNat_of_nonneg hy0]

theorem FullyConnected.fully_connected_routes_by_policy (n : Int) (bandwidth latency : Rat) :
    RoutesByPolicy (FullyConnected.topology n bandwidth latency) n := by
  intro x y hx0 hx hy0 hy hne
  refine ⟨[x, y], FullyConnected.route_eq n x y hx0 hx hy0 hy, rfl, rfl, ?_, ?_⟩
  · intro c hc
    simp only [List.mem_cons, List.mem_singleton, List.not_mem_nil, or_false] at hc
    rcases hc with rfl | rfl
    · exact ⟨hx0, hx⟩
    · exact ⟨hy0, hy⟩
  · exact List.Chain'.cons ⟨hne, FullyConnected.policy_mem n x y hx0 hx hy0 hy hne⟩
      (List.chain'_singleton _)

namespace Mesh

theorem policy_up (n i : Int) (hi0 : 0 ≤ i) (hi : i + 1 < n) :
    (i, i + 1) ∈ get_connection_policies n := by
  unfold get_connection_policies
  rw [List.mem_flatMap]
  refine ⟨i.toNat, List.mem_range.2 (by omega), ?_⟩
  rw [Int.toNat_of_nonneg hi0]
  simp

theorem policy_down (n i : Int) (hi0 : 0 ≤ i) (hi : i + 1 < n) :
    (i + 1, i) ∈ get_connection_policies n := by
  unfold get_connection_policies
  rw [List.mem_flatMap]
  refine ⟨i.toNat, List.mem_range.2 (by omega), ?_⟩
  rw [Int.toNat_of_nonneg hi0]
  simp

theorem route_up_spec (n : Int) :
    ∀ (count : Nat) (i : Int), 0 ≤ i → i + count < n →
      ∃ r, route_up n (count + 1) i = Except.ok r ∧ r.length = count + 1 ∧
        r.head? = some i ∧ r.getLast? = some (i + count) ∧
        (∀ c ∈ r, 0 ≤ c ∧ c < n) ∧
        List.Chain' (fun a b => a ≠ b ∧ (a, b) ∈ get_connection_policies n) r := by
  intro count
  induction count with
  | zero =>
    intro i hi0 hi
    refine ⟨[i], ?_, rfl, rfl, by simp, ?_, List.chain'_singleton _⟩
    · simp [route_up, devices_index_ok hi0 (show i < n by simpa using hi)]
    · intro c hc
      simp only [List.mem_singleton] at hc
      subst hc
      exact ⟨hi0, by simpa using hi⟩
  | succ count ih =>
    intro i hi0 hi
    push_cast at hi
    obtain ⟨r, hr, hlen, hhead, hlast, hrange, hchain⟩ := ih (i + 1) (by omega) (by omega)
    refine ⟨i :: r, ?_, by simp [hlen], rfl, ?_, ?_, ?_⟩
    · rw [route_up, devices_index_ok hi0 (show i < n by omega)]
      simp only [ok_bind, hr, pure_eq_ok]
    · cases r with
      | nil => simp at hlen
      | cons a r =>
        rw [List.getLast?_cons_cons, hlast]
        push_cast
        congr 1
        ring
    · intro c hc
      rcases List.mem_cons.1 hc with h | hc
      · have h1 : i < n := by omega
        rw [h]
        exact ⟨hi0, h1⟩
      · exact hrange c hc
    · cases r with
      | nil => simp at hlen
      | cons a r =>
        simp only [List.head?_cons, Option.some.injEq] at hhead
        subst hhead
        exact List.Chain'.cons ⟨by omega, policy_up n i hi0 (by omega)⟩ hchain

theorem route_down_spec (n : Int) :
    ∀ (count : Nat) (i : Int), i < n → 0 ≤ i - count →
      ∃ r, route_down n (count + 1) i = Except.ok r ∧ r.length = count + 1 ∧
        r.head? = some i ∧ r.getLast? = some (i - count) ∧
        (∀ c ∈ r, 0 ≤ c ∧ c < n) ∧
        List.Chain' (fun a b => a ≠ b ∧ (a, b) ∈ get_connection_policies n) r := by
  intro count
  induction count with
  | zero =>
    intro i hi hi0
    refine ⟨[i], ?_, rfl, rfl, by simp, ?_, List.chain'_singleton _⟩
    · simp [route_down, devices_index_ok (show 0 ≤ i by simpa using hi0) hi]
    · intro c hc
      simp only [List.mem_singleton] at hc
      subst hc
      exact ⟨by simpa using hi0, hi⟩
  | succ count ih =>
    intro i hi hi0
    push_cast at hi0
    obtain ⟨r, hr, hlen, hhead, hlast, hrange, hchain⟩ := ih (i - 1) (by omega) (by omega)
    refine ⟨i :: r, ?_, by simp [hlen], rfl, ?_, ?_, ?_⟩
    · rw [route_down, devices_index_ok (show 0 ≤ i by omega) hi]
      simp only [ok_bind, hr, pure_eq_ok]
    · cases r with
      | nil => simp at hlen
      | cons a r =>
        rw [List.getLast?_cons_cons, hlast]
        push_cast
        congr 1
        ring
    · intro c hc
      rcases List.mem_cons.1 hc with h | hc
      · have h0 : 0 ≤ i := by omega
        rw [h]
        exact ⟨h0, hi⟩
      · exact hrange c hc
    · cases r with
      | nil => simp at hlen
      | cons a r =>
        simp only [List.head?_cons, Option.some.injEq] at hhead
        subst hhead
        refine List.Chain'.cons ⟨by omega, ?_⟩ hchain
        have := policy_down n (i - 1) (by omega) (by omega)
        simpa using this

theorem mesh_routes_by_policy (n : Int) (bandwidth latency : Rat) :
    RoutesByPolicy (Mesh.topology n bandwidth latency) n := by
  intro x y hx0 hx hy0 hy hne
  show ∃ r, Mesh.route n x y = Except.ok r ∧ _
  have hroute : Mesh.route n x y = if y > x then route_up n (y - x + 1).toNat x
      else route_down n (x - y + 1).toNat x := by
    simp [Mesh.route, cassert_ok, hx0, hx, hy0, hy, hne]
  rw [hroute]
  split_ifs with h
  · obtain ⟨r, hr, -, hhead, hlast, hrange, hchain⟩ :=
      route_up_spec n (y - x).toNat x hx0 (by omega)
    have hc : (y - x + 1).toNat = (y - x).toNat + 1 := by omega
    rw [hc]
    refine ⟨r, hr, hhead, ?_, hrange, hchain⟩
    rw [hlast, Int.toNat_of_nonneg (by omega)]
    congr 1
    ring
  · obtain ⟨r, hr, -, hhead, hlast, hrange, hchain⟩ :=
      route_down_spec n (x - y).toNat x hx (by omega)
    have hc : (x - y + 1).toNat = (x - y).toNat + 1 := by omega
    rw [hc]
    refine ⟨r, hr, hhead, ?_, hrange, hchain⟩
    rw [hlast, Int.toNat_of_nonneg (by omega)]
    congr 1
    ring

end Mesh

theorem PlainDimension.plain_routes_by_policy {topology : BasicTopology} (h : PlainDimension topology) :
    RoutesByPolicy topology topology.npus_count ∧ 1 ≤ topology.npus_count ∧
      topology.devices_count = topology.npus_count ∧
      topology.basic_topology_type ≠ TopologyBuildingBlock.Switch ∧
      topology.basic_topology_type ≠ TopologyBuildingBlock.Undefined := by
  obtain ⟨n, bandwidth, latency, hn, ⟨b, rfl⟩ | rfl | rfl⟩ := h
  · exact ⟨Ring.ring_routes_by_policy n bandwidth latency b, hn, rfl,
      by simp [Ring.topology], by simp [Ring.topology]⟩
  · exact ⟨Mesh.mesh_routes_by_policy n bandwidth latency, hn, rfl,
      by simp [Mesh.topology], by simp [Mesh.topology]⟩
  · exact ⟨FullyConnected.fully_connected_routes_by_policy n bandwidth latency, hn, rfl,
      by simp [FullyConnected.topology], by simp [FullyConnected.topology]⟩

/-! ## The assembly of a topology -/

theorem bind_eq_ok {ε α β : Type} {x : Except ε α} {f : α → Except ε β} {b : β}
    (h : (x >>= f) = Except.ok b) : ∃ a, x = Except.ok a ∧ f a = Except.ok b := by
  cases x with
  | error e => simp at h
  | ok a => exact ⟨a, rfl, h⟩

theorem cassert_eq_ok {c : Prop} [Decidable c] {u : Unit} (h : cassert c = Except.ok u) : c := by
  unfold cassert at h
  split_ifs at h with hc
  exact hc

namespace MultiDimTopology

theorem create_eq_ok {faulty_links : FaultyLinks} {mask : List Int} {t : MultiDimTopology}
    (h : create faulty_links mask = Except.ok t) :
    t.npus_count = 1 ∧ t.devices_count = 1 ∧ t.dims_count = 0 ∧ t.npus_count_per_dim = [] ∧
      t.m_topology_per_dim = [] ∧ t.faulty_links = faulty_links ∧
      t.m_non_recursive_topo = mask ∧ t.devices = [] ∧ t.m_switch_translation_unit = none ∧
      t.bandwidth_per_dim = [] ∧
      ∃ last, mask.getLast? = some last ∧ t.m_cluster = decide (last = 1) := by
  unfold create at h
  obtain ⟨last, hlast, h⟩ := bind_eq_ok h
  simp only [pure_eq_ok, Except.ok.injEq] at h
  subst h
  refine ⟨rfl, rfl, rfl, rfl, rfl, rfl, rfl, rfl, rfl, rfl, last, ?_, rfl⟩
  unfold vector_at at hlast
  rw [List.getLast?_eq_getElem?]
  cases hm : mask[mask.length - 1]? with
  | none => rw [hm] at hlast; simp at hlast
  | some x =>
    rw [hm] at hlast
    simp only [Except.ok.injEq] at hlast
    rw [hlast]

theorem append_dimensions_eq_ok :
    ∀ (dimensions : List BasicTopology) (t0 t : MultiDimTopology),
      append_dimensions t0 dimensions = Except.ok t →
      t.npus_count = t0.npus_count * (dimensions.map (fun d => d.npus_count)).prod ∧
      t.devices_count = t0.devices_count * (dimensions.map (fun d => d.devices_count)).prod ∧
      t.dims_count = t0.dims_count + dimensions.length ∧
      t.npus_count_per_dim = t0.npus_count_per_dim ++ dimensions.map (fun d => d.npus_count) ∧
      t.bandwidth_per_dim = t0.bandwidth_per_dim ++ dimensions.map (fun d => d.bandwidth) ∧
      t.m_topology_per_dim = t0.m_topology_per_dim ++ dimensions ∧
      t.faulty_links = t0.faulty_links ∧ t.m_non_recursive_topo = t0.m_non_recursive_topo ∧
      t.m_cluster = t0.m_cluster ∧ t.devices = t0.devices ∧
      t.m_switch_translation_unit = t0.m_switch_translation_unit := by
  intro dimensions
  induction dimensions with
  | nil =>
    intro t0 t h
    simp only [append_dimensions, pure_eq_ok, Except.ok.injEq] at h
    subst h
    simp
  | cons topology rest ih =>
    intro t0 t h
    rw [append_dimensions] at h
    obtain ⟨t1, h1, h⟩ := bind_eq_ok h
    unfold append_dimension at h1
    obtain ⟨u, -, h1⟩ := bind_eq_ok h1
    simp only [pure_eq_ok, Except.ok.injEq] at h1
    subst h1
    obtain ⟨a1, a2, a3, a4, a5, a6, a7, a8, a9, a10, a11⟩ := ih _ t h
    simp only at a1 a2 a3 a4 a5 a6 a7 a8 a9 a10 a11
    refine ⟨?_, ?_, ?_, ?_, ?_, ?_, a7, a8, a9, a10, a11⟩
    · rw [a1, List.map_cons, List.prod_cons]; ring
    · rw [a2, List.map_cons, List.prod_cons]; ring
    · rw [a3, List.length_cons]; omega
    · rw [a4]; simp
    · rw [a5]; simp
    · rw [a6]; simp

theorem total_switch_device_zero (t : MultiDimTopology)
    (h : ∀ topology ∈ t.m_topology_per_dim,
      topology.basic_topology_type ≠ TopologyBuildingBlock.Switch) :
    ∀ k, k ≤ t.m_topology_per_dim.length → total_switch_device t k = Except.ok 0 := by
  intro k
  induction k with
  | zero => intro _; rfl
  | succ k ih =>
    intro hk
    rw [total_switch_device, ih (by omega)]
    have hk' : k < t.m_topology_per_dim.length := by omega
    have hx : vector_at t.m_topology_per_dim k = Except.ok t.m_topology_per_dim[k] :=
      vector_at_eq_ok (List.getElem?_eq_getElem hk')
    simp only [ok_bind, hx, pure_eq_ok]
    rw [if_neg (h _ (List.getElem_mem hk'))]

end MultiDimTopology

namespace MultiDimTopology

theorem get_total_num_devices_eq_ok {t : MultiDimTopology} {total : Int}
    (hsw : ∀ topology ∈ t.m_topology_per_dim,
      topology.basic_topology_type ≠ TopologyBuildingBlock.Switch)
    (hlen : t.m_topology_per_dim.length = t.dims_count)
    (h : get_total_num_devices t = Except.ok total) :
    total = t.npus_count ∧ t.dims_count ≠ 0 := by
  unfold get_total_num_devices at h
  obtain ⟨u, -, h⟩ := bind_eq_ok h
  split_ifs at h with h0
  · simp at h
  · obtain ⟨u0, -, h⟩ := bind_eq_ok h
    obtain ⟨first, -, h⟩ := bind_eq_ok h
    obtain ⟨u', -, h⟩ := bind_eq_ok h
    rw [total_switch_device_zero t hsw _ (by omega)] at h
    simp only [ok_bind, pure_eq_ok, Except.ok.injEq, add_zero] at h
    exact ⟨h.symm, h0⟩

theorem build_switch_length_mapping_fields
    (stu : List Int → List Bool → MultiDimAddress → Except Abort DeviceId)
    (t : MultiDimTopology) :
    (build_switch_length_mapping stu t).npus_count = t.npus_count ∧
    (build_switch_length_mapping stu t).devices_count = t.devices_count ∧
    (build_switch_length_mapping stu t).dims_count = t.dims_count ∧
    (build_switch_length_mapping stu t).npus_count_per_dim = t.npus_count_per_dim ∧
    (build_switch_length_mapping stu t).bandwidth_per_dim = t.bandwidth_per_dim ∧
    (build_switch_length_mapping stu t).m_topology_per_dim = t.m_topology_per_dim ∧
    (build_switch_length_mapping stu t).faulty_links = t.faulty_links ∧
    (build_switch_length_mapping stu t).m_non_recursive_topo = t.m_non_recursive_topo ∧
    (build_switch_length_mapping stu t).m_cluster = t.m_cluster ∧
    (build_switch_length_mapping stu t).devices = t.devices := by
  unfold build_switch_length_mapping
  cases t.m_switch_translation_unit <;> simp

/-- What the assembly of dimensions without switch returns. -/
theorem assemble_eq_ok
    {stu : List Int → List Bool → MultiDimAddress → Except Abort DeviceId}
    {faulty_links : FaultyLinks} {mask : List Int} {dimensions : List BasicTopology}
    {t : MultiDimTopology} (hdims : ∀ topology ∈ dimensions, PlainDimension topology)
    (h : assemble stu faulty_links mask dimensions = Except.ok t) :
    WellFormed t ∧ t.faulty_links = faulty_links ∧ t.m_non_recursive_topo = mask ∧
      t.m_topology_per_dim = dimensions ∧ t.dims_count = dimensions.length ∧
      t.dims_count ≠ 0 ∧
      t.npus_count_per_dim = dimensions.map (fun d => d.npus_count) ∧
      t.bandwidth_per_dim = dimensions.map (fun d => d.bandwidth) ∧
      ∃ last, mask.getLast? = some last ∧ t.m_cluster = decide (last = 1) := by
  unfold assemble at h
  obtain ⟨t0, h0, h⟩ := bind_eq_ok h
  obtain ⟨t1, h1, h⟩ := bind_eq_ok h
  obtain ⟨t2, h2, h⟩ := bind_eq_ok h
  simp only [pure_eq_ok, Except.ok.injEq] at h
  obtain ⟨c1, c2, c3, c4, c5, c6, c7, c8, c9, c10, last, hlast, c11⟩ := create_eq_ok h0
  obtain ⟨a1, a2, a3, a4, a5, a6, a7, a8, a9, a10, a11⟩ := append_dimensions_eq_ok _ _ _ h1
  rw [c1, one_mul] at a1
  rw [c2, one_mul] at a2
  rw [c3, zero_add] at a3
  rw [c4, List.nil_append] at a4
  rw [c10, List.nil_append] at a5
  rw [c5, List.nil_append] at a6
  rw [c6] at a7
  rw [c7] at a8
  rw [c11] at a9
  rw [c8] at a10
  unfold initialize_all_devices at h2
  obtain ⟨total, htotal, h2⟩ := bind_eq_ok h2
  simp only [pure_eq_ok, Except.ok.injEq] at h2
  have hsw : ∀ topology ∈ t1.m_topology_per_dim,
      topology.basic_topology_type ≠ TopologyBuildingBlock.Switch := by
    intro topology hmem
    rw [a6] at hmem
    exact (hdims topology hmem).plain_routes_by_policy.2.2.2.1
  obtain ⟨htot, hne⟩ := get_total_num_devices_eq_ok hsw (by rw [a6, a3]) htotal
  obtain ⟨b1, b2, b3, b4, b5, b6, b7, b8, b9, b10⟩ :=
    build_switch_length_mapping_fields stu t2
  rw [h] at b1 b2 b3 b4 b5 b6 b7 b8 b9 b10
  subst h2
  simp only at b1 b2 b3 b4 b5 b6 b7 b8 b9 b10
  have hdev : (dimensions.map (fun d => d.devices_count)) =
      dimensions.map (fun d => d.npus_count) := by
    apply List.map_congr_left
    intro d hd
    exact (hdims d hd).plain_routes_by_policy.2.2.1
  refine ⟨⟨?_, ?_, ?_, ?_, ?_, ?_, ?_⟩, by rw [b7, a7], by rw [b8, a8], by rw [b6, a6],
    by rw [b3, a3], by rw [b3]; exact hne, by rw [b4, a4], by rw [b5, a5],
    last, hlast, by rw [b9, a9]⟩
  · rw [b4, b3, a4, a3, List.length_map]
  · rw [b1, b4, a1, a4, accumulate_product_eq]
  · rw [b4, a4]
    intro n hn
    obtain ⟨d, hd, rfl⟩ := List.mem_map.1 hn
    exact (hdims d hd).plain_routes_by_policy.2.1
  · rw [b2, b1, a2, a1, hdev]
  · rw [b10, b1, a10, htot, List.nil_append]
  · rw [b6, b3, a6, a3]
  · intro d topology hd
    rw [b6, a6] at hd
    rw [b4, a4]
    have hmem : topology ∈ dimensions := List.getElem?_mem hd
    have : (dimensions.map (fun d => d.npus_count)).getD d 0 = topology.npus_count := by
      rw [List.getD_eq_getElem?_getD, List.getElem?_map, hd]
      rfl
    rw [this]
    exact (hdims topology hmem).plain_routes_by_policy.1

theorem assemble_of_construct
    {stu : List Int → List Bool → MultiDimAddress → Except Abort DeviceId}
    {faulty_links : FaultyLinks} {mask : List Int} {dimensions : List BasicTopology}
    {t : MultiDimTopology} {links : List Link}
    (h : construct stu faulty_links mask dimensions = Except.ok (t, links)) :
    assemble stu faulty_links mask dimensions = Except.ok t ∧
      (if t.m_cluster then make_non_recursive_connections t else make_connections t) =
        Except.ok links := by
  unfold construct at h
  obtain ⟨t', ht', h⟩ := bind_eq_ok h
  obtain ⟨links', hl, h⟩ := bind_eq_ok h
  simp only [pure_eq_ok, Except.ok.injEq, Prod.mk.injEq] at h
  obtain ⟨rfl, rfl⟩ := h
  exact ⟨ht', hl⟩

end MultiDimTopology

/-! ## Routing without fault -/

namespace MultiDimTopology

theorem zip_any_false :
    ∀ (counts a : List Int), a.length = counts.length →
      (∀ d, d < counts.length → a.getD d 0 < counts.getD d 0) →
      (List.zip counts a).any (fun ra => decide (¬ ra.2 < ra.1)) = false := by
  intro counts
  induction counts with
  | nil => intro a _ _; simp
  | cons n counts ih =>
    intro a hlen h
    cases a with
    | nil => simp at hlen
    | cons x a =>
      have h0 := h 0 (by simp)
      simp only [List.getD_cons_zero] at h0
      have hrest := ih a (by simpa using hlen) (fun d hd => by
        have := h (d + 1) (by simpa using hd)
        simpa using this)
      simp only [List.zip_cons_cons, List.any_cons, hrest, Bool.or_false]
      simpa using h0

theorem is_switch_valid (t : MultiDimTopology) {a : MultiDimAddress}
    (ha : ValidAddress t.npus_count_per_dim a) : is_switch t a = Except.ok false := by
  unfold is_switch
  rw [cassert_ok ha.1]
  simp only [ok_bind, pure_eq_ok]
  rw [zip_any_false _ _ ha.1 (fun d hd => (ha.2 d hd).2)]

theorem getD_set_self (a : List Int) (d : Nat) (c : Int) (hd : d < a.length) :
    (a.set d c).getD d 0 = c := by
  rw [List.getD_eq_getElem?_getD, List.getElem?_set_self hd]
  rfl

theorem getD_set_ne (a : List Int) (d e : Nat) (c : Int) (hne : d ≠ e) :
    (a.set d c).getD e 0 = a.getD e 0 := by
  rw [List.getD_eq_getElem?_getD, List.getD_eq_getElem?_getD, List.getElem?_set_ne hne]

theorem ValidAddress.set {counts : List Int} {a : MultiDimAddress} (ha : ValidAddress counts a)
    {d : Nat} {c : Int} (hc0 : 0 ≤ c) (hc : c < counts.getD d 0) :
    ValidAddress counts (a.set d c) := by
  refine ⟨by rw [List.length_set]; exact ha.1, fun e he => ?_⟩
  by_cases hde : d = e
  · subst hde
    rw [getD_set_self a d c (by rw [ha.1]; exact he)]
    exact ⟨hc0, hc⟩
  · rw [getD_set_ne a d e c hde]
    exact ha.2 e he

theorem set_getD_self (a : List Int) (d : Nat) : a.set d (a.getD d 0) = a := by
  by_cases hd : d < a.length
  · apply List.ext_getElem
    · simp
    · intro e h1 h2
      by_cases hde : d = e
      · subst hde
        rw [List.getElem_set_self, List.getD_eq_getElem?_getD, List.getElem?_eq_getElem hd]
        rfl
      · rw [List.getElem_set_ne hde]
  · rw [List.set_eq_of_length_le (by omega)]

theorem device_of_address_bounds {t : MultiDimTopology} (hw : WellFormed t)
    {a : MultiDimAddress} (ha : ValidAddress t.npus_count_per_dim a) :
    0 ≤ device_of_address t a ∧ device_of_address t a < t.npus_count := by
  have h := address_value_bounds hw.counts_pos ha _ le_rfl
  have hG : t.npus_count = group_size t.npus_count_per_dim t.npus_count_per_dim.length := by
    rw [hw.npus_count_eq, accumulate_product_eq, group_size_length]
  unfold device_of_address
  rw [hG, ← hw.length_eq]
  exact h

theorem translate_address_back_valid {t : MultiDimTopology} (hw : WellFormed t)
    {a : MultiDimAddress} (ha : ValidAddress t.npus_count_per_dim a) :
    translate_address_back t a = Except.ok (device_of_address t a) :=
  translate_address_back_eq t a hw.length_eq (by rw [ha.1, hw.length_eq])

theorem translate_address_device_of_address {t : MultiDimTopology} (hw : WellFormed t)
    {a : MultiDimAddress} (ha : ValidAddress t.npus_count_per_dim a) :
    translate_address t (device_of_address t a) = Except.ok a := by
  obtain ⟨h0, h1⟩ := device_of_address_bounds hw ha
  rw [translate_address_eq t hw.length_eq hw.npus_count_eq hw.counts_pos _ h0 h1]
  unfold device_of_address
  rw [← hw.length_eq, address_digits_of_value hw.counts_pos ha]

theorem translate_address_valid {t : MultiDimTopology} (hw : WellFormed t) {id : Int}
    (h0 : 0 ≤ id) (h1 : id < t.npus_count) :
    ∃ a, translate_address t id = Except.ok a ∧ ValidAddress t.npus_count_per_dim a ∧
      device_of_address t a = id := by
  refine ⟨_, translate_address_eq t hw.length_eq hw.npus_count_eq hw.counts_pos _ h0 h1, ?_, ?_⟩
  · rw [← hw.length_eq]
    exact address_digits_valid hw.counts_pos id
  · have hG : t.npus_count = group_size t.npus_count_per_dim t.npus_count_per_dim.length := by
      rw [hw.npus_count_eq, accumulate_product_eq, group_size_length]
    unfold device_of_address
    rw [← hw.length_eq, sum_address_digits _ _ _ le_rfl, ← hG, Int.emod_eq_of_lt h0 h1]

theorem devices_at_wellFormed {t : MultiDimTopology} (hw : WellFormed t) {i : Int}
    (h0 : 0 ≤ i) (h1 : i < t.npus_count) : vector_at t.devices i.toNat = Except.ok i := by
  apply vector_at_eq_ok
  rw [hw.devices_eq, List.getElem?_map, List.getElem?_range (by omega)]
  simp [Int.toNat_of_nonneg h0]

theorem global_device_eq {t : MultiDimTopology} (hw : WellFormed t) {cur : MultiDimAddress}
    (hcur : ValidAddress t.npus_count_per_dim cur) {dim : Nat}
    (hdim : dim < t.dims_count) {c : Int} (hc0 : 0 ≤ c)
    (hc : c < t.npus_count_per_dim.getD dim 0) :
    global_device t cur dim c = Except.ok (device_of_address t (cur.set dim c)) := by
  have hv := hcur.set hc0 hc
  obtain ⟨h0, h1⟩ := device_of_address_bounds hw hv
  unfold global_device
  rw [vector_set_ok _ (by rw [hcur.1, hw.length_eq]; exact hdim)]
  simp only [ok_bind, is_switch_valid t hv, translate_address_back_valid hw hv,
    Bool.false_eq_true, if_false]
  rw [cassert_ok ⟨h0, by rw [hw.devices_count_eq]; exact h1⟩]
  simp only [ok_bind]
  exact devices_at_wellFormed hw h0 h1

theorem global_route_eq {t : MultiDimTopology} (hw : WellFormed t) {cur : MultiDimAddress}
    (hcur : ValidAddress t.npus_count_per_dim cur) {dim : Nat} (hdim : dim < t.dims_count) :
    ∀ r : Route, (∀ c ∈ r, 0 ≤ c ∧ c < t.npus_count_per_dim.getD dim 0) →
      global_route t cur dim r =
        Except.ok (r.map (fun c => device_of_address t (cur.set dim c))) := by
  intro r
  induction r with
  | nil => intro _; rfl
  | cons c r ih =>
    intro h
    rw [global_route, global_device_eq hw hcur hdim (h c (List.mem_cons_self _ _)).1
      (h c (List.mem_cons_self _ _)).2, ih (fun x hx => h x (List.mem_cons_of_mem _ hx))]
    rfl

theorem fault_scan_nil : ∀ r : List DeviceId, fault_scan [] r = (r, false) := by
  intro r
  induction r with
  | nil => rfl
  | cons a r ih =>
    cases r with
    | nil => rfl
    | cons b r =>
      rw [fault_scan]
      have h : NetworkAnalyticalCongestionAware.fault_derate [] a b ≠ 0 := by
        simp [NetworkAnalyticalCongestionAware.fault_derate]
      rw [if_neg h, ih]

end MultiDimTopology

namespace MultiDimTopology

theorem routeHelper_loop_skip (t : MultiDimTopology)
    (recurse : DeviceId → DeviceId → List Nat → Except Abort Route) (src dest : DeviceId)
    (src_address dest_address : MultiDimAddress) (routing_dimensions : List Nat)
    (dim : Nat) (rest : List Nat) (route : Route) (cur : MultiDimAddress) (x : Int)
    (hs : vector_at src_address dim = Except.ok x)
    (hd : vector_at dest_address dim = Except.ok x) :
    routeHelper_loop t recurse src dest src_address dest_address routing_dimensions
        (dim :: rest) route cur =
      routeHelper_loop t recurse src dest src_address dest_address routing_dimensions
        rest route cur := by
  rw [routeHelper_loop]
  simp only [hs, hd, ok_bind, ne_eq, not_true_eq_false, if_false]

theorem routeHelper_loop_move (t : MultiDimTopology)
    (recurse : DeviceId → DeviceId → List Nat → Except Abort Route) (src dest : DeviceId)
    (src_address dest_address : MultiDimAddress) (routing_dimensions : List Nat)
    (dim : Nat) (rest : List Nat) (route : Route) (cur next : MultiDimAddress) (x y a b z : Int)
    (topology : BasicTopology) (internal_route lifted : Route)
    (hs : vector_at src_address dim = Except.ok x)
    (hd : vector_at dest_address dim = Except.ok y) (hxy : x ≠ y)
    (hset : vector_set cur dim y = Except.ok next)
    (htop : vector_at t.m_topology_per_dim dim = Except.ok topology)
    (ha : vector_at cur dim = Except.ok a) (hb : vector_at next dim = Except.ok b)
    (hroute : topology.route a b = Except.ok internal_route)
    (hglobal : global_route t cur dim internal_route = Except.ok lifted)
    (hscan : fault_scan t.faulty_links lifted = (lifted, false))
    (hback : translate_address_back t next = Except.ok z) :
    routeHelper_loop t recurse src dest src_address dest_address routing_dimensions
        (dim :: rest) route cur =
      routeHelper_loop t recurse src dest src_address dest_address routing_dimensions
        rest (route ++ if route ≠ [] ∧ lifted ≠ [] then lifted.tail else lifted) next := by
  rw [routeHelper_loop]
  simp only [hs, hd, ok_bind, ne_eq, hxy, not_false_eq_true, if_true, hset, htop, ha, hb,
    hroute, hglobal, hscan, Bool.false_eq_true, if_false, hback]

end MultiDimTopology

namespace MultiDimTopology

theorem ext_getD {a b : List Int} (hlen : a.length = b.length)
    (h : ∀ d, d < a.length → a.getD d 0 = b.getD d 0) : a = b := by
  apply List.ext_getElem hlen
  intro d h1 h2
  have := h d h1
  rw [List.getD_eq_getElem?_getD, List.getD_eq_getElem?_getD, List.getElem?_eq_getElem h1,
    List.getElem?_eq_getElem h2] at this
  exact this

theorem isHop_lift {t : MultiDimTopology} (hw : WellFormed t) {cur : MultiDimAddress}
    (hcur : ValidAddress t.npus_count_per_dim cur) {dim : Nat} (hdim : dim < t.dims_count)
    {topology : BasicTopology} (htop : t.m_topology_per_dim[dim]? = some topology)
    {x y : Int} (hx0 : 0 ≤ x) (hx : x < t.npus_count_per_dim.getD dim 0) (hy0 : 0 ≤ y)
    (hy : y < t.npus_count_per_dim.getD dim 0) (hxy : x ≠ y)
    (hpol : (x, y) ∈ topology.get_connection_policies) :
    IsHop t dim (device_of_address t (cur.set dim x)) (device_of_address t (cur.set dim y)) := by
  have hlen : dim < cur.length := by rw [hcur.1, hw.length_eq]; exact hdim
  refine ⟨device_of_address_bounds hw (hcur.set hx0 hx),
    device_of_address_bounds hw (hcur.set hy0 hy), cur.set dim x, cur.set dim y, topology,
    translate_address_device_of_address hw (hcur.set hx0 hx),
    translate_address_device_of_address hw (hcur.set hy0 hy), htop, ?_, ?_, ?_⟩
  · rw [getD_set_self _ _ _ hlen, getD_set_self _ _ _ hlen]
    exact hxy
  · rw [getD_set_self _ _ _ hlen, getD_set_self _ _ _ hlen]
    exact hpol
  · rw [getD_set_self _ _ _ hlen, List.set_set]

theorem routeAlong_lift {t : MultiDimTopology} (hw : WellFormed t) {cur : MultiDimAddress}
    (hcur : ValidAddress t.npus_count_per_dim cur) {dim : Nat} (hdim : dim < t.dims_count)
    {topology : BasicTopology} (htop : t.m_topology_per_dim[dim]? = some topology) :
    ∀ r : Route, r ≠ [] → (∀ c ∈ r, 0 ≤ c ∧ c < t.npus_count_per_dim.getD dim 0) →
      List.Chain' (fun a b => a ≠ b ∧ (a, b) ∈ topology.get_connection_policies) r →
      RouteAlong t (List.replicate (r.length - 1) dim)
        (r.map (fun c => device_of_address t (cur.set dim c))) := by
  intro r
  induction r with
  | nil => intro h; exact absurd rfl h
  | cons c r ih =>
    intro _ hrange hchain
    cases r with
    | nil => simp [RouteAlong]
    | cons c' r =>
      have hc := hrange c (List.mem_cons_self _ _)
      have hc' := hrange c' (List.mem_cons_of_mem _ (List.mem_cons_self _ _))
      rw [List.chain'_cons] at hchain
      have ih' := ih (List.cons_ne_nil _ _) (fun x hx => hrange x (List.mem_cons_of_mem _ hx))
        hchain.2
      simp only [List.length_cons, Nat.add_sub_cancel, List.replicate_succ, List.map_cons,
        RouteAlong] at ih' ⊢
      exact ⟨isHop_lift hw hcur hdim htop hc.1 hc.2 hc'.1 hc'.2 hchain.1.1 hchain.1.2, ih'⟩

theorem RouteAlong.length_eq {t : MultiDimTopology} :
    ∀ (ds : List Nat) (r : Route), RouteAlong t ds r → r.length = ds.length + 1 := by
  intro ds
  induction ds with
  | nil =>
    intro r h
    match r, h with
    | [_], _ => rfl
  | cons d ds ih =>
    intro r h
    match r, h with
    | a :: b :: rest, h =>
      have := ih (b :: rest) h.2
      simp only [List.length_cons] at this ⊢
      omega

theorem RouteAlong.append {t : MultiDimTopology} :
    ∀ (ds1 : List Nat) (r1 : Route) (ds2 : List Nat) (r2 : Route) (x : DeviceId),
      RouteAlong t ds1 r1 → r1.getLast? = some x → RouteAlong t ds2 (x :: r2) →
      RouteAlong t (ds1 ++ ds2) (r1 ++ r2) := by
  intro ds1
  induction ds1 with
  | nil =>
    intro r1 ds2 r2 x h1 hlast h2
    match r1, h1 with
    | [a], _ =>
      simp only [List.getLast?_singleton, Option.some.injEq] at hlast
      subst hlast
      exact h2
  | cons d ds1 ih =>
    intro r1 ds2 r2 x h1 hlast h2
    match r1, h1 with
    | a :: b :: rest, h1 =>
      rw [List.getLast?_cons_cons] at hlast
      exact ⟨h1.1, ih (b :: rest) ds2 r2 x h1.2 hlast h2⟩

theorem flatMap_update (rest : List Nat) (dim : Nat) (hdim : dim ∉ rest)
    (m : Nat → Nat) (k : Nat) :
    rest.flatMap (fun d => List.replicate (Function.update m dim k d) d) =
      rest.flatMap (fun d => List.replicate (m d) d) := by
  induction rest with
  | nil => rfl
  | cons e rest ih =>
    have he : e ≠ dim := fun h => hdim (h ▸ List.mem_cons_self _ _)
    rw [List.flatMap_cons, List.flatMap_cons, ih (fun h => hdim (List.mem_cons_of_mem _ h)),
      Function.update_noteq he]

end MultiDimTopology

namespace MultiDimTopology

/-- The loop of `routeHelper` without fault: from a state whose route so far leads from `src`
to the current address, it returns a route from `src` to `dest` that continues along the
remaining dimensions, in their order. -/
theorem routeHelper_loop_no_fault {t : MultiDimTopology} (hw : WellFormed t)
    (hf : t.faulty_links = [])
    (recurse : DeviceId → DeviceId → List Nat → Except Abort Route) (src dest : DeviceId)
    (src_address dest_address : MultiDimAddress) (routing_dimensions : List Nat)
    (hsv : ValidAddress t.npus_count_per_dim src_address)
    (hdv : ValidAddress t.npus_count_per_dim dest_address)
    (hsrc : device_of_address t src_address = src)
    (hdest : device_of_address t dest_address = dest) (hne : src ≠ dest) :
    ∀ (remaining : List Nat) (route : Route) (cur : MultiDimAddress) (ds : List Nat),
      remaining.Nodup → (∀ d ∈ remaining, d < t.dims_count) →
      ValidAddress t.npus_count_per_dim cur →
      (∀ d ∈ remaining, cur.getD d 0 = src_address.getD d 0) →
      (∀ d, d < t.dims_count → d ∉ remaining → cur.getD d 0 = dest_address.getD d 0) →
      ((route = [] ∧ cur = src_address ∧ ds = []) ∨
        (route.head? = some src ∧ route.getLast? = some (device_of_address t cur) ∧
          RouteAlong t ds route)) →
      ∃ (r : Route) (m : Nat → Nat),
        routeHelper_loop t recurse src dest src_address dest_address routing_dimensions
          remaining route cur = Except.ok r ∧
        r.head? = some src ∧ r.getLast? = some dest ∧
        RouteAlong t (ds ++ remaining.flatMap (fun d => List.replicate (m d) d)) r := by
  intro remaining
  induction remaining with
  | nil =>
    intro route cur ds _ _ hcur _ hdone hstate
    have hcd : cur = dest_address := by
      apply ext_getD (by rw [hcur.1, hdv.1])
      intro d hd
      exact hdone d (by rw [← hw.length_eq, ← hcur.1]; exact hd) (List.not_mem_nil d)
    subst hcd
    rcases hstate with ⟨-, h, -⟩ | ⟨hhead, hlast, halong⟩
    · exact absurd (hsrc.symm.trans (h ▸ hdest)) hne
    · refine ⟨route, fun _ => 0, ?_, hhead, by rw [hlast, hdest], by simpa using halong⟩
      rw [routeHelper_loop, hhead, hlast]
      show (cassert (src = src ∧ device_of_address t cur = dest) >>= fun _ => pure route) = _
      rw [cassert_ok (show src = src ∧ device_of_address t cur = dest from ⟨rfl, hdest⟩)]
      rfl
  | cons dim rest ih =>
    intro route cur ds hnodup hlt hcur hsame hdone hstate
    have hdim : dim < t.dims_count := hlt dim (List.mem_cons_self _ _)
    have hdimnot : dim ∉ rest := (List.nodup_cons.1 hnodup).1
    have hnodup' : rest.Nodup := (List.nodup_cons.1 hnodup).2
    have hlt' : ∀ d ∈ rest, d < t.dims_count := fun d hd => hlt d (List.mem_cons_of_mem _ hd)
    have hdimc : dim < t.npus_count_per_dim.length := by rw [hw.length_eq]; exact hdim
    have hs := vector_at_getD (show dim < src_address.length by rw [hsv.1]; exact hdimc) 0
    have hd := vector_at_getD (show dim < dest_address.length by rw [hdv.1]; exact hdimc) 0
    have hcurdim : cur.getD dim 0 = src_address.getD dim 0 := hsame dim (List.mem_cons_self _ _)
    by_cases heq : src_address.getD dim 0 = dest_address.getD dim 0
    · rw [heq] at hs
      obtain ⟨r, m, hr, hhead, hlast, halong⟩ := ih route cur ds hnodup' hlt' hcur
        (fun d hd => hsame d (List.mem_cons_of_mem _ hd))
        (fun d hd hnot => by
          by_cases hdd : d = dim
          · rw [hdd, hcurdim, heq]
          · exact hdone d hd (fun hmem => by
              rcases List.mem_cons.1 hmem with h | h
              · exact hdd h
              · exact hnot h))
        hstate
      refine ⟨r, Function.update m dim 0, ?_, hhead, hlast, ?_⟩
      · rw [routeHelper_loop_skip t recurse src dest src_address dest_address
          routing_dimensions dim rest route cur _ hs hd]
        exact hr
      · rw [List.flatMap_cons, Function.update_same, List.replicate_zero, List.nil_append,
          flatMap_update rest dim hdimnot]
        exact halong
    · have hcurlen : dim < cur.length := by rw [hcur.1]; exact hdimc
      obtain ⟨hx0, hx⟩ := hsv.2 dim hdimc
      obtain ⟨hy0, hy⟩ := hdv.2 dim hdimc
      have hnext : ValidAddress t.npus_count_per_dim (cur.set dim (dest_address.getD dim 0)) :=
        hcur.set hy0 hy
      have htoplen : dim < t.m_topology_per_dim.length := by
        rw [hw.topology_length]; exact hdim
      have htop : t.m_topology_per_dim[dim]? = some t.m_topology_per_dim[dim] :=
        List.getElem?_eq_getElem htoplen
      obtain ⟨internal_route, hroute, hihead, hilast, hirange, hichain⟩ :=
        hw.routes dim _ htop _ _ hx0 hx hy0 hy heq
      have hinonempty : internal_route ≠ [] := by
        intro h; rw [h] at hihead; simp at hihead
      have hglobal := global_route_eq hw hcur hdim internal_route hirange
      have hscan := fault_scan_nil
        (internal_route.map (fun c => device_of_address t (cur.set dim c)))
      rw [← hf] at hscan
      have hha := vector_at_getD hcurlen 0
      rw [hcurdim] at hha
      have hhb := vector_at_getD
        (show dim < (cur.set dim (dest_address.getD dim 0)).length by
          rw [List.length_set]; exact hcurlen) 0
      rw [getD_set_self _ _ _ hcurlen] at hhb
      have hstep := routeHelper_loop_move t recurse src dest src_address dest_address
        routing_dimensions dim rest route cur _ _ _ _ _ _ _ internal_route _ hs hd heq
        (vector_set_ok _ hcurlen) (vector_at_eq_ok htop) hha hhb hroute hglobal hscan
        (translate_address_back_valid hw hnext)
      have hlift_along := routeAlong_lift hw hcur hdim htop internal_route hinonempty hirange
        hichain
      have hlift_head : (internal_route.map
          (fun c => device_of_address t (cur.set dim c))).head? =
          some (device_of_address t cur) := by
        rw [List.head?_map, hihead, Option.map_some', ← hcurdim, set_getD_self]
      have hlift_last : (internal_route.map
          (fun c => device_of_address t (cur.set dim c))).getLast? =
          some (device_of_address t (cur.set dim (dest_address.getD dim 0))) := by
        rw [List.getLast?_map, hilast, Option.map_some']
      have hlift_ne : internal_route.map
          (fun c => device_of_address t (cur.set dim c)) ≠ [] := by
        simpa using hinonempty
      have hstate' : ((route ++ if route ≠ [] ∧ internal_route.map
            (fun c => device_of_address t (cur.set dim c)) ≠ [] then
            (internal_route.map (fun c => device_of_address t (cur.set dim c))).tail
            else internal_route.map (fun c => device_of_address t (cur.set dim c))) = [] ∧
            cur.set dim (dest_address.getD dim 0) = src_address ∧
            ds ++ List.replicate (internal_route.length - 1) dim = []) ∨
          ((route ++ if route ≠ [] ∧ internal_route.map
            (fun c => device_of_address t (cur.set dim c)) ≠ [] then
            (internal_route.map (fun c => device_of_address t (cur.set dim c))).tail
            else internal_route.map (fun c => device_of_address t (cur.set dim c))).head? =
              some src ∧
            (route ++ if route ≠ [] ∧ internal_route.map
            (fun c => device_of_address t (cur.set dim c)) ≠ [] then
            (internal_route.map (fun c => device_of_address t (cur.set dim c))).tail
            else internal_route.map (fun c => device_of_address t (cur.set dim c))).getLast? =
              some (device_of_address t (cur.set dim (dest_address.getD dim 0))) ∧
            RouteAlong t (ds ++ List.replicate (internal_route.length - 1) dim)
              (route ++ if route ≠ [] ∧ internal_route.map
            (fun c => device_of_address t (cur.set dim c)) ≠ [] then
            (internal_route.map (fun c => device_of_address t (cur.set dim c))).tail
            else internal_route.map (fun c => device_of_address t (cur.set dim c)))) := by
        right
        generalize internal_route.map (fun c => device_of_address t (cur.set dim c)) = lifted
          at hlift_along hlift_head hlift_last hlift_ne
        rcases hstate with ⟨hroute_nil, hcs, hds⟩ | ⟨hhead, hlast, halong⟩
        · subst hroute_nil hds hcs
          simp only [ne_eq, not_true_eq_false, false_and, if_false, List.nil_append]
          exact ⟨by rw [hlift_head, hsrc], hlift_last, hlift_along⟩
        · have hroute_ne : route ≠ [] := by
            intro h; rw [h] at hhead; simp at hhead
          rw [if_pos ⟨hroute_ne, hlift_ne⟩]
          cases lifted with
          | nil => exact absurd rfl hlift_ne
          | cons g lifted =>
            simp only [List.head?_cons, Option.some.injEq] at hlift_head
            subst hlift_head
            simp only [List.tail_cons]
            refine ⟨?_, ?_, RouteAlong.append ds route _ lifted _ halong hlast hlift_along⟩
            · rw [List.head?_append_of_ne_nil _ hroute_ne]; exact hhead
            · cases lifted with
              | nil =>
                rw [List.append_nil, hlast]
                simp only [List.getLast?_singleton, Option.some.injEq] at hlift_last
                rw [hlift_last]
              | cons g' lifted =>
                rw [List.getLast?_append_of_ne_nil _ (List.cons_ne_nil _ _)]
                rw [List.getLast?_cons_cons] at hlift_last
                exact hlift_last
      obtain ⟨r, m, hr, hhead, hlast, halong⟩ := ih _ _
        (ds ++ List.replicate (internal_route.length - 1) dim) hnodup' hlt' hnext
        (fun d hd => by
          have hne' : dim ≠ d := fun h => hdimnot (h ▸ hd)
          rw [getD_set_ne _ _ _ _ hne']
          exact hsame d (List.mem_cons_of_mem _ hd))
        (fun d hd hnot => by
          by_cases hdd : dim = d
          · rw [← hdd, getD_set_self _ _ _ hcurlen]
          · rw [getD_set_ne _ _ _ _ hdd]
            exact hdone d hd (fun hmem => by
              rcases List.mem_cons.1 hmem with h | h
              · exact hdd h.symm
              · exact hnot h))
        hstate'
      refine ⟨r, Function.update m dim (internal_route.length - 1), ?_, hhead, hlast, ?_⟩
      · rw [hstep]; exact hr
      · rw [List.flatMap_cons, Function.update_same, flatMap_update rest dim hdimnot,
          ← List.append_assoc]
        exact halong

end MultiDimTopology

namespace MultiDimTopology

/-- The function `routeHelper` without fault, for a routing order that lists every dimension
once: it returns at its first call, with a route from `src` to `dest` along the dimensions
in the routing order. -/
theorem routeHelper_no_fault {t : MultiDimTopology} (hw : WellFormed t)
    (hf : t.faulty_links = []) (fuel : Nat) (src dest : DeviceId) (hs0 : 0 ≤ src)
    (hs : src < t.npus_count) (hd0 : 0 ≤ dest) (hd : dest < t.npus_count) (hne : src ≠ dest)
    (order : List Nat) (hnodup : order.Nodup) (hmem : ∀ d, d ∈ order ↔ d < t.dims_count) :
    ∃ (r : Route) (m : Nat → Nat),
      routeHelper t (fuel + 1) src dest order = Except.ok r ∧
      r.head? = some src ∧ r.getLast? = some dest ∧
      RouteAlong t (order.flatMap (fun d => List.replicate (m d) d)) r := by
  obtain ⟨src_address, hsa, hsv, hsid⟩ := translate_address_valid hw hs0 hs
  obtain ⟨dest_address, hda, hdv, hdid⟩ := translate_address_valid hw hd0 hd
  obtain ⟨r, m, hr, hhead, hlast, halong⟩ :=
    routeHelper_loop_no_fault hw hf (routeHelper t fuel) src dest src_address dest_address
      order hsv hdv hsid hdid hne order [] src_address [] hnodup (fun d hd => (hmem d).1 hd)
      hsv (fun _ _ => rfl) (fun d hd hnot => absurd ((hmem d).2 hd) hnot)
      (Or.inl ⟨rfl, rfl, rfl⟩)
  refine ⟨r, m, ?_, hhead, hlast, by simpa using halong⟩
  rw [routeHelper, cassert_ok ⟨hs0, hs⟩]
  simp only [ok_bind]
  rw [cassert_ok ⟨hd0, hd⟩]
  simp only [ok_bind, hsa, hda]
  exact hr

theorem normal_routing_dimensions_nodup (t : MultiDimTopology) :
    (normal_routing_dimensions t).Nodup ∧
      ∀ d, d ∈ normal_routing_dimensions t ↔ d < t.dims_count := by
  unfold normal_routing_dimensions
  exact ⟨List.nodup_reverse.2 (List.nodup_range _), fun d => by simp⟩

theorem reverse_routing_dimensions_nodup (t : MultiDimTopology) :
    (reverse_routing_dimensions t).Nodup ∧
      ∀ d, d ∈ reverse_routing_dimensions t ↔ d < t.dims_count := by
  unfold reverse_routing_dimensions
  exact ⟨List.nodup_range _, fun d => by simp⟩

theorem pairwise_flatMap_replicate (m : Nat → Nat) :
    ∀ l : List Nat, l.Pairwise (fun a b => a > b) →
      (l.flatMap (fun d => List.replicate (m d) d)).Pairwise (fun a b => a ≥ b) := by
  intro l
  induction l with
  | nil => intro _; simp
  | cons d l ih =>
    intro h
    rw [List.pairwise_cons] at h
    rw [List.flatMap_cons, List.pairwise_append]
    refine ⟨?_, ih h.2, ?_⟩
    · rw [List.pairwise_replicate]
      right
      exact le_refl d
    · intro a ha b hb
      rw [List.mem_replicate] at ha
      rw [List.mem_flatMap] at hb
      obtain ⟨e, he, hb⟩ := hb
      rw [List.mem_replicate] at hb
      rw [ha.2, hb.2]
      exact le_of_lt (h.1 e he)

theorem normal_routing_dimensions_decreasing (t : MultiDimTopology) :
    (normal_routing_dimensions t).Pairwise (fun a b => a > b) := by
  unfold normal_routing_dimensions
  rw [List.pairwise_reverse]
  exact List.pairwise_lt_range _

theorem exists_ok_of_toBool {ε α : Type} {x : Except ε α} (h : x.toBool = true) :
    ∃ a, x = Except.ok a := by
  cases x with
  | error e => simp [Except.toBool] at h
  | ok a => exact ⟨a, rfl⟩

end MultiDimTopology

/-! ## The installed links -/

namespace MultiDimTopology

theorem mem_cartesian_addresses :
    ∀ (choices : List (List Int)) (a : MultiDimAddress), a.length = choices.length →
      (∀ j, j < choices.length → a.getD j 0 ∈ choices.getD j []) →
      a ∈ cartesian_addresses choices := by
  intro choices
  induction choices with
  | nil =>
    intro a hlen _
    have : a = [] := List.length_eq_zero.1 hlen
    subst this
    simp [cartesian_addresses]
  | cons c choices ih =>
    intro a hlen h
    cases a with
    | nil => simp at hlen
    | cons x a =>
      rw [cartesian_addresses, List.mem_flatMap]
      refine ⟨x, by simpa using h 0 (by simp), ?_⟩
      rw [List.mem_map]
      refine ⟨a, ih a (by simpa using hlen) (fun j hj => ?_), rfl⟩
      have := h (j + 1) (by simpa using hj)
      simpa using this

/-- Every address whose coordinates outside `dim` are within the NPU counts gives an address
pair of `generateAddressPairs`. -/
theorem mem_generateAddressPairs (counts : List Int) (policy : ConnectionPolicy) (dim : Nat)
    (a : MultiDimAddress) (hlen : a.length = counts.length)
    (hrange : ∀ j, j < counts.length → j ≠ dim → 0 ≤ a.getD j 0 ∧ a.getD j 0 < counts.getD j 0) :
    (a.set dim policy.1, a.set dim policy.2) ∈ generateAddressPairs counts policy dim := by
  unfold generateAddressPairs
  simp only
  rw [List.mem_map]
  refine ⟨a.set dim 0, ?_, by rw [List.set_set, List.set_set]⟩
  apply mem_cartesian_addresses
  · simp [hlen]
  · intro j hj
    rw [List.length_map, List.length_range] at hj
    rw [List.getD_eq_getElem?_getD, List.getElem?_map, List.getElem?_range hj]
    simp only [Option.map_some', Option.getD_some]
    by_cases hjd : j = dim
    · subst hjd
      rw [if_pos rfl, getD_set_self _ _ _ (by rw [hlen]; exact hj)]
      exact List.mem_singleton_self _
    · rw [if_neg hjd, getD_set_ne _ _ _ _ (fun h => hjd h.symm), List.mem_map]
      obtain ⟨h0, h1⟩ := hrange j hj hjd
      refine ⟨(a.getD j 0).toNat, List.mem_range.2 (by omega), Int.toNat_of_nonneg h0⟩

theorem connect_address_pair_eq_ok {t : MultiDimTopology} {dim : Nat} {topology : BasicTopology}
    {address_pair : MultiDimAddress × MultiDimAddress} {link : Link}
    (h : connect_address_pair t dim topology address_pair = Except.ok link) :
    address_to_id t address_pair.1 = Except.ok link.src ∧
      address_to_id t address_pair.2 = Except.ok link.dest ∧
      link.latency = topology.latency ∧
      ∃ bandwidth, vector_at t.bandwidth_per_dim dim = Except.ok bandwidth ∧
        link.bandwidth = if fault_derate t link.src link.dest ≠ 0
          then bandwidth * fault_derate t link.src link.dest else bandwidth := by
  unfold connect_address_pair at h
  obtain ⟨src, hsrc, h⟩ := bind_eq_ok h
  obtain ⟨dest, hdest, h⟩ := bind_eq_ok h
  obtain ⟨u1, -, h⟩ := bind_eq_ok h
  obtain ⟨u2, -, h⟩ := bind_eq_ok h
  obtain ⟨bandwidth, hbw, h⟩ := bind_eq_ok h
  split_ifs at h with hder
  · simp only [pure_eq_ok, Except.ok.injEq] at h
    subst h
    exact ⟨hsrc, hdest, rfl, bandwidth, hbw, by simp only; rw [if_pos hder]⟩
  · simp only [pure_eq_ok, Except.ok.injEq] at h
    subst h
    exact ⟨hsrc, hdest, rfl, bandwidth, hbw, by simp only; rw [if_neg hder]⟩

theorem connect_address_pairs_eq_ok {t : MultiDimTopology} {dim : Nat}
    {topology : BasicTopology} :
    ∀ (pairs : List (MultiDimAddress × MultiDimAddress)) (links : List Link),
      connect_address_pairs t dim topology pairs = Except.ok links →
      ∀ pair ∈ pairs, ∃ link ∈ links,
        connect_address_pair t dim topology pair = Except.ok link := by
  intro pairs
  induction pairs with
  | nil => intro _ _ pair hp; simp at hp
  | cons p pairs ih =>
    intro links h pair hp
    rw [connect_address_pairs] at h
    obtain ⟨link, hlink, h⟩ := bind_eq_ok h
    obtain ⟨rest, hrest, h⟩ := bind_eq_ok h
    simp only [pure_eq_ok, Except.ok.injEq] at h
    subst h
    rcases List.mem_cons.1 hp with rfl | hp
    · exact ⟨link, List.mem_cons_self _ _, hlink⟩
    · obtain ⟨l, hl, hl'⟩ := ih rest hrest pair hp
      exact ⟨l, List.mem_cons_of_mem _ hl, hl'⟩

theorem connect_policies_eq_ok {t : MultiDimTopology} {dim : Nat} {topology : BasicTopology}
    {pairs_of : ConnectionPolicy → List (MultiDimAddress × MultiDimAddress)} :
    ∀ (policies : List ConnectionPolicy) (links : List Link),
      connect_policies t dim topology pairs_of policies = Except.ok links →
      ∀ policy ∈ policies, ∀ pair ∈ pairs_of policy, ∃ link ∈ links,
        connect_address_pair t dim topology pair = Except.ok link := by
  intro policies
  induction policies with
  | nil => intro _ _ policy hp; simp at hp
  | cons p policies ih =>
    intro links h policy hp pair hpair
    rw [connect_policies] at h
    obtain ⟨first, hfirst, h⟩ := bind_eq_ok h
    obtain ⟨rest, hrest, h⟩ := bind_eq_ok h
    simp only [pure_eq_ok, Except.ok.injEq] at h
    subst h
    rcases List.mem_cons.1 hp with rfl | hp
    · obtain ⟨l, hl, hl'⟩ := connect_address_pairs_eq_ok _ _ hfirst pair hpair
      exact ⟨l, List.mem_append_left _ hl, hl'⟩
    · obtain ⟨l, hl, hl'⟩ := ih rest hrest policy hp pair hpair
      exact ⟨l, List.mem_append_right _ hl, hl'⟩

theorem connections_from_eq_ok {of_dim : Nat → Except Abort (List Link)} :
    ∀ (count dim : Nat) (links : List Link),
      connections_from of_dim count dim = Except.ok links →
      ∀ i, i < count → ∃ l, of_dim (dim + i) = Except.ok l ∧ ∀ link ∈ l, link ∈ links := by
  intro count
  induction count with
  | zero => intro _ _ _ i hi; omega
  | succ count ih =>
    intro dim links h i hi
    rw [connections_from] at h
    obtain ⟨first, hfirst, h⟩ := bind_eq_ok h
    obtain ⟨rest, hrest, h⟩ := bind_eq_ok h
    simp only [pure_eq_ok, Except.ok.injEq] at h
    subst h
    cases i with
    | zero => exact ⟨first, hfirst, fun link hl => List.mem_append_left _ hl⟩
    | succ i =>
      obtain ⟨l, hl, hsub⟩ := ih (dim + 1) rest hrest i (by omega)
      refine ⟨l, ?_, fun link hlink => List.mem_append_right _ (hsub link hlink)⟩
      rw [← hl]
      congr 1
      omega

theorem address_to_id_valid {t : MultiDimTopology} (hw : WellFormed t) {a : MultiDimAddress}
    (ha : ValidAddress t.npus_count_per_dim a) :
    address_to_id t a = Except.ok (device_of_address t a) := by
  unfold address_to_id
  rw [is_switch_valid t ha]
  simp only [ok_bind, Bool.false_eq_true, if_false]
  exact translate_address_back_valid hw ha

end MultiDimTopology

namespace MultiDimTopology

theorem connections_of_dim_eq_ok {t : MultiDimTopology} {dim : Nat} {links : List Link}
    (h : connections_of_dim t dim = Except.ok links) {topology : BasicTopology}
    (htop : t.m_topology_per_dim[dim]? = some topology) :
    ∀ policy ∈ topology.get_connection_policies,
      ∀ pair ∈ generateAddressPairs t.npus_count_per_dim policy dim,
        ∃ link ∈ links, connect_address_pair t dim topology pair = Except.ok link := by
  unfold connections_of_dim at h
  rw [vector_at_eq_ok htop] at h
  simp only [ok_bind] at h
  obtain ⟨u, -, h⟩ := bind_eq_ok h
  exact connect_policies_eq_ok _ _ h

theorem non_recursive_connections_of_dim_eq_ok {t : MultiDimTopology} {dim : Nat}
    {links : List Link} (h : non_recursive_connections_of_dim t dim = Except.ok links)
    {topology : BasicTopology} (htop : t.m_topology_per_dim[dim]? = some topology) :
    ∀ policy ∈ topology.get_connection_policies,
      ∀ pair ∈ generateAddressPairs t.npus_count_per_dim policy dim,
        ∃ link ∈ links, connect_address_pair t dim topology pair = Except.ok link := by
  unfold non_recursive_connections_of_dim at h
  rw [vector_at_eq_ok htop] at h
  simp only [ok_bind] at h
  obtain ⟨u, -, h⟩ := bind_eq_ok h
  obtain ⟨entry, -, h⟩ := bind_eq_ok h
  intro policy hpolicy pair hpair
  exact connect_policies_eq_ok _ _ h policy hpolicy pair (by simpa using hpair)

/-- The links of the connection policies are installed, in recursive mode and in cluster
mode: for a connection policy of the dimension `dim` and an address whose coordinates in the
other dimensions are within the NPU counts, the link between the two addresses that have the
source and the destination of the policy as coordinate `dim`. -/
theorem connect_policy_installed {t : MultiDimTopology} {links : List Link}
    (hlinks : (if t.m_cluster then make_non_recursive_connections t else make_connections t) =
      Except.ok links)
    {dim : Nat} (hdim : dim < t.dims_count) {topology : BasicTopology}
    (htop : t.m_topology_per_dim[dim]? = some topology) {policy : ConnectionPolicy}
    (hpolicy : policy ∈ topology.get_connection_policies) (a : MultiDimAddress)
    (hlen : a.length = t.npus_count_per_dim.length)
    (hrange : ∀ j, j < t.npus_count_per_dim.length → j ≠ dim →
      0 ≤ a.getD j 0 ∧ a.getD j 0 < t.npus_count_per_dim.getD j 0) :
    ∃ link ∈ links, address_to_id t (a.set dim policy.1) = Except.ok link.src ∧
      address_to_id t (a.set dim policy.2) = Except.ok link.dest := by
  have hpair := mem_generateAddressPairs t.npus_count_per_dim policy dim a hlen hrange
  have hall : ∃ l : List Link, (∀ link ∈ l, link ∈ links) ∧
      ∀ pair ∈ generateAddressPairs t.npus_count_per_dim policy dim,
        ∃ link ∈ l, connect_address_pair t dim topology pair = Except.ok link := by
    split_ifs at hlinks with hc
    · unfold make_non_recursive_connections at hlinks
      split_ifs at hlinks
      obtain ⟨l, hl, hsub⟩ := connections_from_eq_ok _ _ _ hlinks dim hdim
      rw [zero_add] at hl
      exact ⟨l, hsub, non_recursive_connections_of_dim_eq_ok hl htop policy hpolicy⟩
    · unfold make_connections at hlinks
      split_ifs at hlinks
      obtain ⟨l, hl, hsub⟩ := connections_from_eq_ok _ _ _ hlinks dim hdim
      rw [zero_add] at hl
      exact ⟨l, hsub, connections_of_dim_eq_ok hl htop policy hpolicy⟩
  obtain ⟨l, hsub, hall⟩ := hall
  obtain ⟨link, hlink, hconnect⟩ := hall _ hpair
  obtain ⟨h1, h2, -⟩ := connect_address_pair_eq_ok hconnect
  exact ⟨link, hsub link hlink, h1, h2⟩

/-- Every hop of a well-formed topology goes along an installed link. -/
theorem installed_of_isHop {t : MultiDimTopology} (hw : WellFormed t) {links : List Link}
    (hlinks : (if t.m_cluster then make_non_recursive_connections t else make_connections t) =
      Except.ok links)
    {d : Nat} {a b : DeviceId} (h : IsHop t d a b) : Installed links a b := by
  obtain ⟨⟨ha0, ha1⟩, ⟨hb0, hb1⟩, addr_a, addr_b, topology, haddr_a, haddr_b, htop, -, hpol,
    hset⟩ := h
  obtain ⟨addr_a', ha', hva, hida⟩ := translate_address_valid hw ha0 ha1
  obtain ⟨addr_b', hb', hvb, hidb⟩ := translate_address_valid hw hb0 hb1
  rw [haddr_a] at ha'
  rw [haddr_b] at hb'
  obtain rfl := Except.ok.inj ha'
  obtain rfl := Except.ok.inj hb'
  have hd : d < t.dims_count := by
    have := (List.getElem?_eq_some_iff.1 htop).1
    rw [hw.topology_length] at this
    exact this
  obtain ⟨link, hlink, h1, h2⟩ := connect_policy_installed hlinks hd htop hpol addr_a hva.1
    (fun j hj _ => hva.2 j hj)
  simp only at h1 h2
  rw [set_getD_self, address_to_id_valid hw hva] at h1
  rw [← hset, address_to_id_valid hw hvb] at h2
  refine ⟨link, hlink, ?_, ?_⟩
  · rw [← Except.ok.inj h1, hida]
  · rw [← Except.ok.inj h2, hidb]

theorem RouteAlong.chain {t : MultiDimTopology} {P : DeviceId → DeviceId → Prop}
    (hP : ∀ d a b, IsHop t d a b → P a b) :
    ∀ (ds : List Nat) (r : Route), RouteAlong t ds r → List.Chain' P r := by
  intro ds
  induction ds with
  | nil =>
    intro r h
    match r, h with
    | [_], _ => exact List.chain'_singleton _
  | cons d ds ih =>
    intro r h
    match r, h with
    | a :: b :: rest, h => exact List.Chain'.cons (hP d a b h.1) (ih _ h.2)

end MultiDimTopology

/-! ## Recursive mode: dimension-order routing -/

theorem plainDimension_ring (n : Int) (bandwidth latency : Rat) (bidirectional : Bool)
    (hn : 1 ≤ n) : PlainDimension (Ring.topology n bandwidth latency bidirectional) :=
  ⟨n, bandwidth, latency, hn, Or.inl ⟨bidirectional, rfl⟩⟩

theorem plainDimension_mesh (n : Int) (bandwidth latency : Rat) (hn : 1 ≤ n) :
    PlainDimension (Mesh.topology n bandwidth latency) :=
  ⟨n, bandwidth, latency, hn, Or.inr (Or.inl rfl)⟩

theorem plainDimension_ring_4_4 : ∀ topology ∈ dimensions_ring_4_4, PlainDimension topology := by
  intro topology h
  simp only [dimensions_ring_4_4, List.mem_cons, List.mem_singleton, List.not_mem_nil,
    or_false, or_self] at h
  subst h
  exact plainDimension_ring 4 1 1 true (by decide)

theorem assemble_ring_4_4_recursive :
    MultiDimTopology.assemble no_switch_translation_unit [] [0, 0] dimensions_ring_4_4 =
      Except.ok (topology_ring_4_4 [] [0, 0] false) := rfl

theorem construct_of_assemble
    {stu : List Int → List Bool → MultiDimAddress → Except Abort DeviceId}
    {faulty_links : FaultyLinks} {mask : List Int} {dimensions : List BasicTopology}
    {t : MultiDimTopology}
    (h : MultiDimTopology.assemble stu faulty_links mask dimensions = Except.ok t)
    (hok : (MultiDimTopology.construct stu faulty_links mask dimensions).toBool = true) :
    ∃ links, MultiDimTopology.construct stu faulty_links mask dimensions =
      Except.ok (t, links) := by
  obtain ⟨⟨t', links⟩, h'⟩ := MultiDimTopology.exists_ok_of_toBool hok
  have h'' := (MultiDimTopology.assemble_of_construct h').1
  rw [h] at h''
  obtain rfl := Except.ok.inj h''
  exact ⟨links, h'⟩

theorem construct_ring_4_4_recursive :
    ∃ links, MultiDimTopology.construct no_switch_translation_unit [] [0, 0]
      dimensions_ring_4_4 = Except.ok (topology_ring_4_4 [] [0, 0] false, links) :=
  construct_of_assemble assemble_ring_4_4_recursive (by decide)

/-- C1. In a recursive-mode topology assembled from rings, meshes and fully connected
dimensions, with an empty fault list, for `src ≠ dst` among the NPUs: `route(src, dst)`
returns (at any fuel from 1 on) a route that starts with `src`, ends with `dst`, whose every
consecutive pair is a hop of one dimension `d` (the two addresses differ in the coordinate
`d` only, by a connection policy of the topology of dimension `d`) along an installed link,
the dimensions of the successive hops being in decreasing order, the highest first. -/
theorem route_recursive_follows_dimension_order
    (stu : List Int → List Bool → MultiDimAddress → Except Abort DeviceId)
    (mask : List Int) (dimensions : List BasicTopology) (t : MultiDimTopology)
    (links : List Link)
    (hdims : ∀ topology ∈ dimensions, PlainDimension topology)
    (hconstruct : MultiDimTopology.construct stu [] mask dimensions = Except.ok (t, links))
    (hrecursive : t.m_cluster = false)
    (src dst : DeviceId) (hs0 : 0 ≤ src) (hs : src < t.npus_count) (hd0 : 0 ≤ dst)
    (hd : dst < t.npus_count) (hne : src ≠ dst) (fuel : Nat) (hfuel : 1 ≤ fuel) :
    ∃ (r : Route) (dims : List Nat),
      MultiDimTopology.route t fuel src dst = Except.ok r ∧
      r.head? = some src ∧ r.getLast? = some dst ∧
      MultiDimTopology.RouteAlong t dims r ∧ dims.Pairwise (fun a b => a ≥ b) ∧
      List.Chain' (Installed links) r := by
  obtain ⟨hassemble, hlinks⟩ := MultiDimTopology.assemble_of_construct hconstruct
  obtain ⟨hw, hf, -⟩ := MultiDimTopology.assemble_eq_ok hdims hassemble
  obtain ⟨f, rfl⟩ : ∃ f, fuel = f + 1 := ⟨fuel - 1, by omega⟩
  obtain ⟨hnodup, hmem⟩ := MultiDimTopology.normal_routing_dimensions_nodup t
  obtain ⟨r, m, hr, hhead, hlast, halong⟩ :=
    MultiDimTopology.routeHelper_no_fault hw hf f src dst hs0 hs hd0 hd hne _ hnodup hmem
  refine ⟨r, _, ?_, hhead, hlast, halong,
    MultiDimTopology.pairwise_flatMap_replicate m _
      (MultiDimTopology.normal_routing_dimensions_decreasing t),
    MultiDimTopology.RouteAlong.chain
      (fun d a b h => MultiDimTopology.installed_of_isHop hw hlinks h) _ _ halong⟩
  unfold MultiDimTopology.route MultiDimTopology.routeNormal
  rw [hrecursive]
  exact hr

/-- Witness of C1: the two rings of 4 NPUs in recursive mode, from 0 to 15. -/
theorem route_recursive_follows_dimension_order_witness :
    ∃ links, MultiDimTopology.construct no_switch_translation_unit [] [0, 0]
        dimensions_ring_4_4 = Except.ok (topology_ring_4_4 [] [0, 0] false, links) ∧
      ∃ (r : Route) (dims : List Nat),
        MultiDimTopology.route (topology_ring_4_4 [] [0, 0] false) 1 0 15 = Except.ok r ∧
        r.head? = some 0 ∧ r.getLast? = some 15 ∧
        MultiDimTopology.RouteAlong (topology_ring_4_4 [] [0, 0] false) dims r ∧
        dims.Pairwise (fun a b => a ≥ b) ∧ List.Chain' (Installed links) r := by
  obtain ⟨links, h⟩ := construct_ring_4_4_recursive
  exact ⟨links, h, route_recursive_follows_dimension_order no_switch_translation_unit [0, 0]
    dimensions_ring_4_4 _ links plainDimension_ring_4_4 h rfl 0 15 (by decide) (by decide)
    (by decide) (by decide) (by decide) 1 le_rfl⟩

/-! ## Cluster mode -/

namespace MultiDimTopology

theorem zero_recursive_dims_valid {t : MultiDimTopology} (hw : WellFormed t) :
    ∀ (count dim : Nat) (addr : MultiDimAddress), count + dim ≤ t.dims_count →
      ValidAddress t.npus_count_per_dim addr →
      (∃ j e, dim ≤ j ∧ t.m_non_recursive_topo[j]? = some e ∧ e ≠ 0) →
      ∃ a, zero_recursive_dims t count dim addr = Except.ok a ∧
        ValidAddress t.npus_count_per_dim a := by
  intro count
  induction count with
  | zero => intro dim addr _ hv _; exact ⟨addr, rfl, hv⟩
  | succ count ih =>
    intro dim addr hle hv hmask
    obtain ⟨j, e, hj, hje, he⟩ := hmask
    have hjlen : j < t.m_non_recursive_topo.length := (List.getElem?_eq_some_iff.1 hje).1
    have hdimlen : dim < t.m_non_recursive_topo.length := by omega
    rw [zero_recursive_dims, vector_at_eq_ok (List.getElem?_eq_getElem hdimlen)]
    simp only [ok_bind]
    split_ifs with h0
    · have hdimc : dim < t.npus_count_per_dim.length := by rw [hw.length_eq]; omega
      rw [vector_set_ok _ (show dim < addr.length by rw [hv.1]; exact hdimc)]
      simp only [ok_bind]
      have hjd : j ≠ dim := by
        rintro rfl
        rw [List.getElem?_eq_getElem hdimlen] at hje
        exact he ((Option.some.inj hje).symm.trans h0)
      have hpos := getD_pos hw.counts_pos hdimc
      exact ih (dim + 1) _ (by omega) (hv.set (le_refl 0) (by omega))
        ⟨j, e, by omega, hje, he⟩
    · exact ⟨addr, rfl, hv⟩

theorem top_cluster_agent_addr_valid {t : MultiDimTopology} (hw : WellFormed t)
    (hdims : t.dims_count ≠ 0) {src_addr : MultiDimAddress}
    (hv : ValidAddress t.npus_count_per_dim src_addr) :
    ∃ a, top_cluster_agent_addr t src_addr = Except.ok a ∧
      ValidAddress t.npus_count_per_dim a := by
  have htop : t.dims_count - 1 < t.npus_count_per_dim.length := by
    rw [hw.length_eq]; omega
  have hzeros : ValidAddress t.npus_count_per_dim (List.replicate t.dims_count 0) := by
    refine ⟨by rw [List.length_replicate, hw.length_eq], fun d hd => ?_⟩
    have hpos := getD_pos hw.counts_pos hd
    have : (List.replicate t.dims_count (0 : Int)).getD d 0 = 0 := by
      rw [List.getD_eq_getElem?_getD, List.getElem?_replicate]
      split_ifs <;> rfl
    rw [this]
    omega
  unfold top_cluster_agent_addr
  rw [cassert_ok (List.length_replicate _ _)]
  simp only [ok_bind]
  rw [if_neg hdims]
  simp only [pure_eq_ok, ok_bind,
    vector_at_getD (show t.dims_count - 1 < src_addr.length by rw [hv.1]; exact htop) 0]
  rw [vector_set_ok _ (by rw [List.length_replicate]; omega)]
  exact ⟨_, rfl, hzeros.set (hv.2 _ htop).1 (hv.2 _ htop).2⟩

theorem cluster_segment {t : MultiDimTopology} (hw : WellFormed t) (hf : t.faulty_links = [])
    (fuel : Nat) (a b : DeviceId) (ha0 : 0 ≤ a) (ha : a < t.npus_count) (hb0 : 0 ≤ b)
    (hb : b < t.npus_count) (order : List Nat) (hnodup : order.Nodup)
    (hmem : ∀ d, d ∈ order ↔ d < t.dims_count) :
    ∃ r, (if a ≠ b then routeHelper t (fuel + 1) a b order else pure []) = Except.ok r ∧
      Segment t a b r := by
  by_cases hab : a = b
  · exact ⟨[], by rw [if_neg (not_not.2 hab)]; rfl, Or.inl ⟨hab, rfl⟩⟩
  · obtain ⟨r, m, hr, hhead, hlast, halong⟩ :=
      routeHelper_no_fault hw hf fuel a b ha0 ha hb0 hb hab order hnodup hmem
    exact ⟨r, by rw [if_pos hab]; exact hr, Or.inr ⟨hhead, hlast, _, halong⟩⟩

theorem Segment.splice {t : MultiDimTopology} {a b c : DeviceId} {r1 r2 : Route}
    (h1 : Segment t a b r1) (h2 : Segment t b c r2) :
    Segment t a c (splice_segment r1 r2) ∧ r1 <+: splice_segment r1 r2 := by
  unfold splice_segment
  rcases h2 with ⟨hbc, rfl⟩ | ⟨hhead2, hlast2, ds2, halong2⟩
  · rw [if_neg (by simp)]
    subst hbc
    exact ⟨h1, List.prefix_refl _⟩
  · have hne2 : r2 ≠ [] := by
      intro h; rw [h] at hhead2; simp at hhead2
    rw [if_pos hne2]
    rcases h1 with ⟨hab, rfl⟩ | ⟨hhead1, hlast1, ds1, halong1⟩
    · rw [if_neg (by simp), List.nil_append]
      subst hab
      exact ⟨Or.inr ⟨hhead2, hlast2, ds2, halong2⟩, List.nil_prefix⟩
    · have hne1 : r1 ≠ [] := by
        intro h; rw [h] at hhead1; simp at hhead1
      rw [if_pos hne1]
      refine ⟨Or.inr ⟨?_, ?_, ds1 ++ ds2, ?_⟩, List.prefix_append _ _⟩
      · rw [List.head?_append_of_ne_nil _ hne1]; exact hhead1
      · cases r2 with
        | nil => exact absurd rfl hne2
        | cons x r2 =>
          simp only [List.head?_cons, Option.some.injEq] at hhead2
          subst hhead2
          cases r2 with
          | nil =>
            simp only [List.getLast?_singleton, Option.some.injEq] at hlast2
            subst hlast2
            simpa using hlast1
          | cons y r2 =>
            rw [List.tail_cons, List.getLast?_append_of_ne_nil _ (List.cons_ne_nil _ _)]
            rw [List.getLast?_cons_cons] at hlast2
            exact hlast2
      · cases r2 with
        | nil => exact absurd rfl hne2
        | cons x r2 =>
          simp only [List.head?_cons, Option.some.injEq] at hhead2
          subst hhead2
          exact RouteAlong.append ds1 r1 ds2 r2 x halong1 hlast1 halong2

/-- The end of a segment is in every route that the segment begins, at the index of the last
device of the segment. -/
theorem Segment.end_index {t : MultiDimTopology} {a b : DeviceId} {r whole : Route}
    (h : Segment t a b r) (hbegin : r <+: whole) (hhead : whole.head? = some a) :
    whole[r.length - 1]? = some b := by
  rcases h with ⟨hab, rfl⟩ | ⟨-, hlast, -⟩
  · subst hab
    rw [List.head?_eq_getElem?] at hhead
    exact hhead
  · obtain ⟨x, rfl⟩ := hbegin
    have hne : r ≠ [] := by
      intro h; rw [h] at hlast; simp at hlast
    have hlen : r.length - 1 < r.length := Nat.sub_lt (List.length_pos.2 hne) Nat.one_pos
    rw [List.getElem?_append_left hlen, ← List.getLast?_eq_getElem?]
    exact hlast

end MultiDimTopology

theorem assemble_ring_4_4_cluster :
    MultiDimTopology.assemble no_switch_translation_unit [] [0, 1] dimensions_ring_4_4 =
      Except.ok topology_ring_4_4_cluster := rfl

theorem construct_ring_4_4_cluster :
    ∃ links, MultiDimTopology.construct no_switch_translation_unit [] [0, 1]
      dimensions_ring_4_4 = Except.ok (topology_ring_4_4_cluster, links) :=
  construct_of_assemble assemble_ring_4_4_cluster (by decide)

/-- C6. In a cluster-mode topology (the last mask entry is 1) assembled from rings, meshes
and fully connected dimensions, with an empty fault list, for `src ≠ dst` among the NPUs:
`route(src, dst)` returns (at any fuel from 1 on) a route that starts with `src`, ends with
`dst`, goes through the cluster agent of the source and then through the top cluster agent,
and whose every consecutive pair is a hop of one dimension (the two addresses differ in one
coordinate only, by a connection policy of that dimension) along an installed link. -/
theorem route_cluster_goes_through_agents
    (stu : List Int → List Bool → MultiDimAddress → Except Abort DeviceId)
    (mask : List Int) (dimensions : List BasicTopology) (t : MultiDimTopology)
    (links : List Link)
    (hdims : ∀ topology ∈ dimensions, PlainDimension topology)
    (hconstruct : MultiDimTopology.construct stu [] mask dimensions = Except.ok (t, links))
    (hcluster : t.m_cluster = true)
    (src dst : DeviceId) (hs0 : 0 ≤ src) (hs : src < t.npus_count) (hd0 : 0 ≤ dst)
    (hd : dst < t.npus_count) (hne : src ≠ dst) (fuel : Nat) (hfuel : 1 ≤ fuel) :
    ∃ (src_addr agent_addr top_addr : MultiDimAddress) (src_cluster_agent : DeviceId)
      (top_cluster_agent : DeviceId) (r : Route) (dims : List Nat),
      MultiDimTopology.translate_address t src = Except.ok src_addr ∧
      MultiDimTopology.src_cluster_agent_addr t src_addr = Except.ok agent_addr ∧
      MultiDimTopology.translate_address_back t agent_addr = Except.ok src_cluster_agent ∧
      MultiDimTopology.top_cluster_agent_addr t src_addr = Except.ok top_addr ∧
      MultiDimTopology.translate_address_back t top_addr = Except.ok top_cluster_agent ∧
      MultiDimTopology.route t fuel src dst = Except.ok r ∧
      r.head? = some src ∧ r.getLast? = some dst ∧
      (∃ i j : Nat, i ≤ j ∧ r[i]? = some src_cluster_agent ∧ r[j]? = some top_cluster_agent) ∧
      MultiDimTopology.RouteAlong t dims r ∧ List.Chain' (Installed links) r := by
  obtain ⟨hassemble, hlinks⟩ := MultiDimTopology.assemble_of_construct hconstruct
  obtain ⟨hw, hf, hmask, -, -, hdims0, -, -, last, hlast, hcl⟩ :=
    MultiDimTopology.assemble_eq_ok hdims hassemble
  obtain ⟨f, rfl⟩ : ∃ f, fuel = f + 1 := ⟨fuel - 1, by omega⟩
  have hlast1 : last = 1 := by
    rw [hcluster] at hcl
    exact of_decide_eq_true hcl.symm
  obtain ⟨src_addr, hsa, hsv, hsid⟩ := MultiDimTopology.translate_address_valid hw hs0 hs
  obtain ⟨agent_addr, hagent0, hav⟩ :=
    MultiDimTopology.zero_recursive_dims_valid hw t.dims_count 0 src_addr (by omega) hsv
      ⟨mask.length - 1, last, Nat.zero_le _, by
        rw [hmask, ← List.getLast?_eq_getElem?]; exact hlast, by rw [hlast1]; decide⟩
  have hagent : MultiDimTopology.src_cluster_agent_addr t src_addr = Except.ok agent_addr :=
    hagent0
  obtain ⟨top_addr, htop, htv⟩ :=
    MultiDimTopology.top_cluster_agent_addr_valid hw hdims0 hsv
  obtain ⟨ha0, ha1⟩ := MultiDimTopology.device_of_address_bounds hw hav
  obtain ⟨ht0, ht1⟩ := MultiDimTopology.device_of_address_bounds hw htv
  obtain ⟨hn1, hn2⟩ := MultiDimTopology.normal_routing_dimensions_nodup t
  obtain ⟨hr1, hr2⟩ := MultiDimTopology.reverse_routing_dimensions_nodup t
  obtain ⟨r1, hroute1, hseg1⟩ := MultiDimTopology.cluster_segment hw hf f src
    (MultiDimTopology.device_of_address t agent_addr) hs0 hs ha0 ha1 _ hn1 hn2
  obtain ⟨r2, hroute2, hseg2⟩ := MultiDimTopology.cluster_segment hw hf f
    (MultiDimTopology.device_of_address t agent_addr)
    (MultiDimTopology.device_of_address t top_addr) ha0 ha1 ht0 ht1 _ hr1 hr2
  obtain ⟨r3, hroute3, hseg3⟩ := MultiDimTopology.cluster_segment hw hf f
    (MultiDimTopology.device_of_address t top_addr) dst ht0 ht1 hd0 hd _ hn1 hn2
  obtain ⟨hseg12, hbegin1⟩ := hseg1.splice hseg2
  obtain ⟨hseg, hbegin12⟩ := hseg12.splice hseg3
  have hwalk : (MultiDimTopology.splice_segment
      (MultiDimTopology.splice_segment r1 r2) r3).head? = some src ∧
      (MultiDimTopology.splice_segment
      (MultiDimTopology.splice_segment r1 r2) r3).getLast? = some dst ∧
      ∃ dims, MultiDimTopology.RouteAlong t dims (MultiDimTopology.splice_segment
      (MultiDimTopology.splice_segment r1 r2) r3) := by
    rcases hseg with ⟨h, -⟩ | h
    · exact absurd h hne
    · exact h
  obtain ⟨hhead, hlast', dims, halong⟩ := hwalk
  refine ⟨src_addr, agent_addr, top_addr, _, _, _, dims, hsa, hagent,
    MultiDimTopology.translate_address_back_valid hw hav, htop,
    MultiDimTopology.translate_address_back_valid hw htv, ?_, hhead, hlast', ?_, halong,
    MultiDimTopology.RouteAlong.chain
      (fun d a b h => MultiDimTopology.installed_of_isHop hw hlinks h) _ _ halong⟩
  · unfold MultiDimTopology.route MultiDimTopology.routeCluster
    rw [hcluster, if_pos rfl]
    simp only [pure_eq_ok] at hroute1 hroute2 hroute3
    simp only [hsa, ok_bind, hagent, MultiDimTopology.translate_address_back_valid hw hav,
      htop, MultiDimTopology.translate_address_back_valid hw htv, hroute1, hroute2, hroute3,
      pure_eq_ok]
  · refine ⟨r1.length - 1, (MultiDimTopology.splice_segment r1 r2).length - 1,
      Nat.sub_le_sub_right hbegin1.length_le 1,
      hseg1.end_index (hbegin1.trans hbegin12) hhead, hseg12.end_index hbegin12 hhead⟩

/-- Witness of C6: two rings of 4 NPUs with the mask `[0, 1]`; `route(5, 14)` goes through 4,
then 12, and ends at 14. -/
theorem route_cluster_goes_through_agents_witness :
    ∃ links, MultiDimTopology.construct no_switch_translation_unit [] [0, 1]
        dimensions_ring_4_4 = Except.ok (topology_ring_4_4_cluster, links) ∧
      MultiDimTopology.route topology_ring_4_4_cluster 1 5 14 =
        Except.ok [5, 4, 8, 12, 13, 14] ∧
      ∃ (src_addr agent_addr top_addr : MultiDimAddress) (src_cluster_agent : DeviceId)
        (top_cluster_agent : DeviceId) (r : Route) (dims : List Nat),
        MultiDimTopology.translate_address topology_ring_4_4_cluster 5 = Except.ok src_addr ∧
        MultiDimTopology.src_cluster_agent_addr topology_ring_4_4_cluster src_addr =
          Except.ok agent_addr ∧
        MultiDimTopology.translate_address_back topology_ring_4_4_cluster agent_addr =
          Except.ok src_cluster_agent ∧
        MultiDimTopology.top_cluster_agent_addr topology_ring_4_4_cluster src_addr =
          Except.ok top_addr ∧
        MultiDimTopology.translate_address_back topology_ring_4_4_cluster top_addr =
          Except.ok top_cluster_agent ∧
        MultiDimTopology.route topology_ring_4_4_cluster 1 5 14 = Except.ok r ∧
        r.head? = some 5 ∧ r.getLast? = some 14 ∧
        (∃ i j : Nat, i ≤ j ∧ r[i]? = some src_cluster_agent ∧ r[j]? = some top_cluster_agent) ∧
        MultiDimTopology.RouteAlong topology_ring_4_4_cluster dims r ∧
        List.Chain' (Installed links) r := by
  obtain ⟨links, h⟩ := construct_ring_4_4_cluster
  exact ⟨links, h, by decide,
    route_cluster_goes_through_agents no_switch_translation_unit [0, 1] dimensions_ring_4_4 _
      links plainDimension_ring_4_4 h rfl 5 14 (by decide) (by decide) (by decide) (by decide)
      (by decide) 1 le_rfl⟩

/-! ## Routing around fully broken links -/

theorem assemble_ring_4_4_faulty :
    MultiDimTopology.assemble no_switch_translation_unit faulty_links_0_4_and_0_1 [0, 0]
      dimensions_ring_4_4 =
      Except.ok (topology_ring_4_4 faulty_links_0_4_and_0_1 [0, 0] false) := rfl

theorem assemble_mesh_3_3_faulty :
    MultiDimTopology.assemble no_switch_translation_unit [(2, 5, 0)] [0, 0]
      dimensions_mesh_3_3 = Except.ok (topology_mesh_3_3 [(2, 5, 0)]) := rfl

theorem assemble_ring_3_3_faulty :
    MultiDimTopology.assemble no_switch_translation_unit faulty_links_4_5_and_4_7 [0, 0]
      dimensions_ring_3_3 = Except.ok (topology_ring_3_3 faulty_links_4_5_and_4_7) := rfl

/-- C2, the code at two failing inputs. With the links 0 - 4 and 0 - 1 of two rings of 4 NPUs
fully broken, `route(0, 8)` finds the link 0 - 4 broken, jumps from the device 0 to the device
1 and returns `[0, 1, 5, 9, 8]`, whose first pair is the broken link 0 - 1. With the link 2 - 5
of two meshes of 3 NPUs fully broken, `route(2, 8)` returns `[2, 0, 1, 2, 0, 3, 6, 7, 8]`,
whose pair `(2, 0)` joins two devices that differ by the coordinates 2 and 0 of dimension 0,
which is no connection policy of the mesh. -/
theorem route_crosses_a_broken_link :
    ((∃ links, MultiDimTopology.construct no_switch_translation_unit faulty_links_0_4_and_0_1
        [0, 0] dimensions_ring_4_4 =
        Except.ok (topology_ring_4_4 faulty_links_0_4_and_0_1 [0, 0] false, links)) ∧
      (∀ fuel, MultiDimTopology.route (topology_ring_4_4 faulty_links_0_4_and_0_1 [0, 0] false)
        (fuel + 3) 0 8 = Except.ok [0, 1, 5, 9, 8]) ∧
      MultiDimTopology.fault_derate (topology_ring_4_4 faulty_links_0_4_and_0_1 [0, 0] false)
        0 1 = 0) ∧
    ((∃ links, MultiDimTopology.construct no_switch_translation_unit [(2, 5, 0)] [0, 0]
        dimensions_mesh_3_3 = Except.ok (topology_mesh_3_3 [(2, 5, 0)], links)) ∧
      (∀ fuel, MultiDimTopology.route (topology_mesh_3_3 [(2, 5, 0)]) (fuel + 3) 2 8 =
        Except.ok [2, 0, 1, 2, 0, 3, 6, 7, 8]) ∧
      MultiDimTopology.translate_address (topology_mesh_3_3 [(2, 5, 0)]) 2 = Except.ok [2, 0] ∧
      MultiDimTopology.translate_address (topology_mesh_3_3 [(2, 5, 0)]) 0 = Except.ok [0, 0] ∧
      ((2 : Int), (0 : Int)) ∉ Mesh.get_connection_policies 3) :=
  ⟨⟨construct_of_assemble assemble_ring_4_4_faulty (by decide), fun _ => rfl, by decide⟩,
    ⟨construct_of_assemble assemble_mesh_3_3_faulty (by decide), fun _ => rfl, by decide,
      by decide, by decide⟩⟩

theorem routeHelper_ring_3_3_high_first (fuel : Nat) :
    MultiDimTopology.routeHelper (topology_ring_3_3 faulty_links_4_5_and_4_7) (fuel + 1) 8 4
        [1, 0] =
      (MultiDimTopology.routeHelper (topology_ring_3_3 faulty_links_4_5_and_4_7) fuel 8 4
        [0, 1] >>= fun r => pure ([8, 5] ++ r)) := rfl

theorem routeHelper_ring_3_3_low_first (fuel : Nat) :
    MultiDimTopology.routeHelper (topology_ring_3_3 faulty_links_4_5_and_4_7) (fuel + 1) 8 4
        [0, 1] =
      (MultiDimTopology.routeHelper (topology_ring_3_3 faulty_links_4_5_and_4_7) fuel 8 4
        [1, 0] >>= fun r => pure ([8, 7] ++ r)) := rfl

theorem routeHelper_ring_3_3_out_of_fuel :
    ∀ fuel,
      MultiDimTopology.routeHelper (topology_ring_3_3 faulty_links_4_5_and_4_7) fuel 8 4
        [1, 0] = Except.error Abort.out_of_fuel ∧
      MultiDimTopology.routeHelper (topology_ring_3_3 faulty_links_4_5_and_4_7) fuel 8 4
        [0, 1] = Except.error Abort.out_of_fuel := by
  intro fuel
  induction fuel with
  | zero => exact ⟨rfl, rfl⟩
  | succ fuel ih =>
    rw [routeHelper_ring_3_3_high_first, routeHelper_ring_3_3_low_first, ih.1, ih.2]
    exact ⟨rfl, rfl⟩

/-- C3, the code at a failing input. With the links 4 - 5 and 4 - 7 of two rings of 3 NPUs
fully broken, `route(8, 4)` never returns: `routeHelper` meets the link 5 - 4 broken and calls
itself from the device 8 with the routing order `[0, 1]`, meets the link 7 - 4 broken and
calls itself from the device 8 with the routing order `[1, 0]`, the call it started with.
Whatever the fuel, the fuel runs out. -/
theorem route_recursion_does_not_end :
    (∃ links, MultiDimTopology.construct no_switch_translation_unit faulty_links_4_5_and_4_7
      [0, 0] dimensions_ring_3_3 =
      Except.ok (topology_ring_3_3 faulty_links_4_5_and_4_7, links)) ∧
    (∀ fuel, MultiDimTopology.route (topology_ring_3_3 faulty_links_4_5_and_4_7) fuel 8 4 =
      Except.error Abort.out_of_fuel) ∧
    (∀ fuel, MultiDimTopology.routeHelper (topology_ring_3_3 faulty_links_4_5_and_4_7)
      (fuel + 2) 8 4 [1, 0] =
      (MultiDimTopology.routeHelper (topology_ring_3_3 faulty_links_4_5_and_4_7) fuel 8 4
        [1, 0] >>= fun r => pure ([8, 5, 8, 7] ++ r))) ∧
    MultiDimTopology.route (topology_ring_3_3 []) 1 8 4 = Except.ok [8, 5, 4] := by
  refine ⟨construct_of_assemble assemble_ring_3_3_faulty (by decide),
    fun fuel => (routeHelper_ring_3_3_out_of_fuel fuel).1, fun fuel => ?_, by decide⟩
  rw [routeHelper_ring_3_3_high_first (fuel + 1), routeHelper_ring_3_3_low_first fuel]
  cases MultiDimTopology.routeHelper (topology_ring_3_3 faulty_links_4_5_and_4_7) fuel 8 4
    [1, 0] <;> rfl

/-! ## The links of cluster mode -/

/-- C7 fails on the code. In the cluster-mode topology of two rings of 4 NPUs with the mask
`[0, 1]`, `make_non_recursive_connections` installs for the dimension 0, marked recursive, the
link from the device 5 to the device 4, whose addresses `[1, 1]` and `[0, 1]` both have the
coordinate 1, not zero, in the dimension 1 above. -/
theorem cluster_links_at_nonzero_higher_coordinates :
    ∃ links, MultiDimTopology.construct no_switch_translation_unit [] [0, 1]
        dimensions_ring_4_4 = Except.ok (topology_ring_4_4_cluster, links) ∧
      topology_ring_4_4_cluster.m_cluster = true ∧
      topology_ring_4_4_cluster.m_non_recursive_topo[0]? = some 0 ∧
      MultiDimTopology.make_non_recursive_connections topology_ring_4_4_cluster =
        Except.ok links ∧
      MultiDimTopology.translate_address topology_ring_4_4_cluster 5 = Except.ok [1, 1] ∧
      MultiDimTopology.translate_address topology_ring_4_4_cluster 4 = Except.ok [0, 1] ∧
      ∃ links_of_dim_0,
        MultiDimTopology.non_recursive_connections_of_dim topology_ring_4_4_cluster 0 =
          Except.ok links_of_dim_0 ∧
        (∀ link ∈ links_of_dim_0, link ∈ links) ∧
        ∃ link ∈ links_of_dim_0, link.src = 5 ∧ link.dest = 4 := by
  obtain ⟨links, h⟩ := construct_ring_4_4_cluster
  have hlinks : MultiDimTopology.make_non_recursive_connections topology_ring_4_4_cluster =
      Except.ok links := (MultiDimTopology.assemble_of_construct h).2
  refine ⟨links, h, rfl, rfl, hlinks, by decide, by decide, ?_⟩
  have hfrom : MultiDimTopology.connections_from
      (MultiDimTopology.non_recursive_connections_of_dim topology_ring_4_4_cluster) 2 0 =
      Except.ok links := hlinks
  obtain ⟨l, hl, hsub⟩ := MultiDimTopology.connections_from_eq_ok _ _ _ hfrom 0 (by decide)
  refine ⟨l, hl, hsub, ?_⟩
  have htop : topology_ring_4_4_cluster.m_topology_per_dim[0]? =
      some (Ring.topology 4 1 1 true) := rfl
  have hpolicy : ((1 : Int), (0 : Int)) ∈ (Ring.topology 4 1 1 true).get_connection_policies := by
    decide
  have hpair : (([1, 1] : MultiDimAddress).set 0 ((1 : Int), (0 : Int)).1,
      ([1, 1] : MultiDimAddress).set 0 ((1 : Int), (0 : Int)).2) ∈
      MultiDimTopology.generateAddressPairs topology_ring_4_4_cluster.npus_count_per_dim
        ((1 : Int), (0 : Int)) 0 :=
    MultiDimTopology.mem_generateAddressPairs _ _ 0 [1, 1] rfl (by decide)
  obtain ⟨link, hlink, hconnect⟩ :=
    MultiDimTopology.non_recursive_connections_of_dim_eq_ok hl htop _ hpolicy _ hpair
  obtain ⟨h1, h2, -⟩ := MultiDimTopology.connect_address_pair_eq_ok hconnect
  have e1 : MultiDimTopology.address_to_id topology_ring_4_4_cluster
      (([1, 1] : MultiDimAddress).set 0 ((1 : Int), (0 : Int)).1) = Except.ok 5 := by decide
  have e2 : MultiDimTopology.address_to_id topology_ring_4_4_cluster
      (([1, 1] : MultiDimAddress).set 0 ((1 : Int), (0 : Int)).2) = Except.ok 4 := by decide
  rw [e1] at h1
  rw [e2] at h2
  exact ⟨link, hlink, (Except.ok.inj h1).symm, (Except.ok.inj h2).symm⟩

/-- C7 as amended. Whatever the mask entry of the dimension `dim`, zero included,
`make_non_recursive_connections` installs the links of every connection policy of the
dimension for every choice of the coordinates of the other dimensions, the lower and the
higher ones, within their NPU counts (the address pairs of `generateAddressPairs`): the link
joins the devices of the two addresses that have the source and the destination of the policy
as coordinate `dim`. -/
theorem cluster_links_cover_every_copy (t : MultiDimTopology) (links : List Link)
    (hlinks : MultiDimTopology.make_non_recursive_connections t = Except.ok links)
    (dim : Nat) (hdim : dim < t.dims_count) (topology : BasicTopology)
    (htop : t.m_topology_per_dim[dim]? = some topology) (policy : ConnectionPolicy)
    (hpolicy : policy ∈ topology.get_connection_policies) (a : MultiDimAddress)
    (hlen : a.length = t.npus_count_per_dim.length)
    (hrange : ∀ j, j < t.npus_count_per_dim.length → j ≠ dim →
      0 ≤ a.getD j 0 ∧ a.getD j 0 < t.npus_count_per_dim.getD j 0) :
    ∃ link ∈ links,
      MultiDimTopology.address_to_id t (a.set dim policy.1) = Except.ok link.src ∧
      MultiDimTopology.address_to_id t (a.set dim policy.2) = Except.ok link.dest := by
  have hpair := MultiDimTopology.mem_generateAddressPairs t.npus_count_per_dim policy dim a
    hlen hrange
  unfold MultiDimTopology.make_non_recursive_connections at hlinks
  split_ifs at hlinks
  obtain ⟨l, hl, hsub⟩ := MultiDimTopology.connections_from_eq_ok _ _ _ hlinks dim hdim
  rw [zero_add] at hl
  obtain ⟨link, hlink, hconnect⟩ :=
    MultiDimTopology.non_recursive_connections_of_dim_eq_ok hl htop policy hpolicy _ hpair
  obtain ⟨h1, h2, -⟩ := MultiDimTopology.connect_address_pair_eq_ok hconnect
  exact ⟨link, hsub link hlink, h1, h2⟩

/-- Witness of C7 as amended: the two rings of 4 NPUs with the mask `[0, 1]`, the dimension 0,
the connection policy `(1, 0)` and the address `[1, 1]`. -/
theorem cluster_links_cover_every_copy_witness :
    ∃ links, MultiDimTopology.make_non_recursive_connections topology_ring_4_4_cluster =
        Except.ok links ∧
      ∃ link ∈ links,
        MultiDimTopology.address_to_id topology_ring_4_4_cluster
          (([1, 1] : MultiDimAddress).set 0 ((1 : Int), (0 : Int)).1) = Except.ok link.src ∧
        MultiDimTopology.address_to_id topology_ring_4_4_cluster
          (([1, 1] : MultiDimAddress).set 0 ((1 : Int), (0 : Int)).2) = Except.ok link.dest := by
  obtain ⟨links, h⟩ := construct_ring_4_4_cluster
  have hlinks : MultiDimTopology.make_non_recursive_connections topology_ring_4_4_cluster =
      Except.ok links := (MultiDimTopology.assemble_of_construct h).2
  exact ⟨links, hlinks, cluster_links_cover_every_copy topology_ring_4_4_cluster links hlinks 0
    (by decide) (Ring.topology 4 1 1 true) rfl (1, 0) (by decide) [1, 1] rfl (by decide)⟩

/-! ## Switch -/

theorem Switch.switch_route_eq {n src dst : Int} (hsrc : 0 ≤ src ∧ src < n) (hdst : 0 ≤ dst ∧ dst < n) :
    Switch.route n src dst = Except.ok [src, n, dst] := by
  have hn : (0 : Int) ≤ n := by omega
  simp only [Switch.route, Switch.devices_count, Switch.switch_id, cassert_ok hsrc,
    cassert_ok hdst, ok_bind]
  rw [devices_index_ok hsrc.1 (by omega), devices_index_ok hn (by omega),
    devices_index_ok hdst.1 (by omega)]
  rfl

/-- C11. A switch topology of `n` NPUs has `n + 1` devices and its switch is the device `n`;
between two NPUs `src` and `dst` of `[0, n)` the function `Switch::route` returns exactly
`[src, n, dst]`: three devices, the middle one being the switch. -/
theorem Switch_route_goes_through_the_switch (n : Int) (bandwidth latency : Rat)
    (src dst : DeviceId) (hsrc : 0 ≤ src ∧ src < n) (hdst : 0 ≤ dst ∧ dst < n) :
    (Switch.topology n bandwidth latency).devices_count = n + 1 ∧
      Switch.switch_id n = n ∧
      (Switch.topology n bandwidth latency).route src dst = Except.ok [src, n, dst] ∧
      ∃ r, Switch.route n src dst = Except.ok r ∧ r.length = 3 ∧ r[1]? = some (Switch.switch_id n) :=
  ⟨rfl, rfl, Switch.switch_route_eq hsrc hdst, [src, n, dst], Switch.switch_route_eq hsrc hdst, rfl, rfl⟩

theorem Switch_route_goes_through_the_switch_witness :
    (Switch.topology 3 100 1).devices_count = 3 + 1 ∧
      Switch.switch_id 3 = 3 ∧
      (Switch.topology 3 100 1).route 0 2 = Except.ok [0, 3, 2] ∧
      ∃ r, Switch.route 3 0 2 = Except.ok r ∧ r.length = 3 ∧ r[1]? = some (Switch.switch_id 3) :=
  Switch_route_goes_through_the_switch 3 100 1 0 2 (by decide) (by decide)

/-! ## The fault lookup -/

theorem fault_derate_eq_spec (faulty_links : FaultyLinks) (u v : Int) :
    fault_derate faulty_links u v = first_match_health faulty_links u v := by
  induction faulty_links with
  | nil => rfl
  | cons e rest ih =>
    obtain ⟨a, b, health⟩ := e
    by_cases h : (a = u ∧ b = v) ∨ (a = v ∧ b = u)
    · simp [fault_derate, first_match_health, List.find?, h]
    · have h2 : ¬ ((a = u ∧ b = v) ∨ (a = v ∧ b = u)) := h
      simp only [fault_derate, if_neg h]
      rw [ih]
      simp [first_match_health, List.find?, h2]

theorem fault_derate_symm (faulty_links : FaultyLinks) (u v : Int) :
    fault_derate faulty_links u v = fault_derate faulty_links v u := by
  induction faulty_links with
  | nil => rfl
  | cons e rest ih =>
    obtain ⟨a, b, health⟩ := e
    simp only [fault_derate, ih]
    have h : ((a = u ∧ b = v) ∨ (a = v ∧ b = u)) ↔ ((a = v ∧ b = u) ∨ (a = u ∧ b = v)) := or_comm
    simp only [h]

/-- C20. For `Ring`, `Mesh`, `FullyConnected`, `Switch`, `KingMesh2D` and `MultiDimTopology`,
for every fault list and every pair `(u, v)`, `fault_derate(u, v)` is the health of the first
entry `(a, b, h)` of the list with `(a, b) = (u, v)` or `(a, b) = (v, u)` and `1` when no
entry matches; hence `fault_derate(u, v) = fault_derate(v, u)`. -/
theorem fault_derate_first_undirected_match (faulty_links : FaultyLinks)
    (t : MultiDimTopology) (u v : Int) :
    (Ring.fault_derate faulty_links u v = first_match_health faulty_links u v ∧
      Mesh.fault_derate faulty_links u v = first_match_health faulty_links u v ∧
      FullyConnected.fault_derate faulty_links u v = first_match_health faulty_links u v ∧
      Switch.fault_derate faulty_links u v = first_match_health faulty_links u v ∧
      KingMesh2D.fault_derate faulty_links u v = first_match_health faulty_links u v ∧
      MultiDimTopology.fault_derate t u v = first_match_health t.faulty_links u v) ∧
    (Ring.fault_derate faulty_links u v = Ring.fault_derate faulty_links v u ∧
      Mesh.fault_derate faulty_links u v = Mesh.fault_derate faulty_links v u ∧
      FullyConnected.fault_derate faulty_links u v = FullyConnected.fault_derate faulty_links v u ∧
      Switch.fault_derate faulty_links u v = Switch.fault_derate faulty_links v u ∧
      KingMesh2D.fault_derate faulty_links u v = KingMesh2D.fault_derate faulty_links v u ∧
      MultiDimTopology.fault_derate t u v = MultiDimTopology.fault_derate t v u) :=
  ⟨⟨fault_derate_eq_spec _ _ _, fault_derate_eq_spec _ _ _, fault_derate_eq_spec _ _ _,
      fault_derate_eq_spec _ _ _, fault_derate_eq_spec _ _ _, fault_derate_eq_spec _ _ _⟩,
    ⟨fault_derate_symm _ _ _, fault_derate_symm _ _ _, fault_derate_symm _ _ _,
      fault_derate_symm _ _ _, fault_derate_symm _ _ _, fault_derate_symm _ _ _⟩⟩

/-! ## Mesh: the route as an explicit list -/

theorem Mesh.route_up_eq (n : Int) :
    ∀ (count : Nat) (i : Int), 0 ≤ i → i + count ≤ n →
      Mesh.route_up n count i = Except.ok ((List.range count).map (fun (k : Nat) => i + (k : Int))) := by
  intro count
  induction count with
  | zero => intro i _ _; rfl
  | succ count ih =>
    intro i hi0 hi
    push_cast at hi
    rw [Mesh.route_up, devices_index_ok hi0 (by omega), ih (i + 1) (by omega) (by omega)]
    simp only [ok_bind, pure_eq_ok, List.range_succ_eq_map, List.map_cons, List.map_map]
    congr 2
    · simp
    · apply List.map_congr_left
      intro k _
      simp only [Function.comp, Nat.succ_eq_add_one]
      push_cast
      ring

theorem Mesh.route_down_eq (n : Int) :
    ∀ (count : Nat) (i : Int), i < n → (count : Int) ≤ i + 1 →
      Mesh.route_down n count i = Except.ok ((List.range count).map (fun (k : Nat) => i - (k : Int))) := by
  intro count
  induction count with
  | zero => intro i _ _; rfl
  | succ count ih =>
    intro i hi hc
    push_cast at hc
    rw [Mesh.route_down, devices_index_ok (by omega) hi, ih (i - 1) (by omega) (by omega)]
    simp only [ok_bind, pure_eq_ok, List.range_succ_eq_map, List.map_cons, List.map_map]
    congr 2
    · simp
    · apply List.map_congr_left
      intro k _
      simp only [Function.comp, Nat.succ_eq_add_one]
      push_cast
      ring

/-- C12. In a mesh of `n` NPUs, between two different NPUs `src` and `dst` of `[0, n)`, the
function `Mesh::route` returns the monotonic sequence `src, src + 1, .., dst` when
`dst > src` and `src, src - 1, .., dst` when `dst < src`; it has `|dst - src| + 1` devices
and every consecutive pair is one of the connection policies of the mesh. -/
theorem Mesh_route_is_monotonic (n : Int) (src dst : Int)
    (hsrc : 0 ≤ src ∧ src < n) (hdst : 0 ≤ dst ∧ dst < n) (hne : src ≠ dst) :
    ∃ r, Mesh.route n src dst = Except.ok r ∧
      r = (List.range ((dst - src).natAbs + 1)).map
        (fun (k : Nat) => if dst > src then src + (k : Int) else src - (k : Int)) ∧
      r.length = (dst - src).natAbs + 1 ∧
      r.head? = some src ∧ r.getLast? = some dst ∧
      List.Chain' (fun a b => (a, b) ∈ Mesh.get_connection_policies n) r := by
  obtain ⟨r, hr, hhead, hlast, -, hchain⟩ :=
    Mesh.mesh_routes_by_policy n 1 1 src dst hsrc.1 hsrc.2 hdst.1 hdst.2 hne
  have hr2 : Mesh.route n src dst = Except.ok r := hr
  have hroute : Mesh.route n src dst = if dst > src then Mesh.route_up n (dst - src + 1).toNat src
      else Mesh.route_down n (src - dst + 1).toNat src := by
    simp [Mesh.route, cassert_ok, hsrc.1, hsrc.2, hdst.1, hdst.2, hne]
  have hexplicit : r = (List.range ((dst - src).natAbs + 1)).map
      (fun (k : Nat) => if dst > src then src + (k : Int) else src - (k : Int)) := by
    rw [hroute] at hr2
    by_cases h : dst > src
    · have habs : ((dst - src).natAbs : Int) = dst - src := Int.natAbs_of_nonneg (by omega)
      have hc : (dst - src + 1).toNat = (dst - src).natAbs + 1 := by omega
      rw [if_pos h, hc, Mesh.route_up_eq n _ src hsrc.1 (by omega)] at hr2
      simp only [if_pos h]
      exact (Except.ok.inj hr2).symm
    · have habs : ((dst - src).natAbs : Int) = -(dst - src) := Int.ofNat_natAbs_of_nonpos (by omega)
      have hc : (src - dst + 1).toNat = (dst - src).natAbs + 1 := by omega
      rw [if_neg h, hc, Mesh.route_down_eq n _ src hsrc.2 (by omega)] at hr2
      simp only [if_neg h]
      exact (Except.ok.inj hr2).symm
  refine ⟨r, hr2, hexplicit, ?_, hhead, hlast, hchain.imp (fun _ _ h => h.2)⟩
  rw [hexplicit]
  simp

theorem Mesh_route_is_monotonic_witness :
    ∃ r, Mesh.route 5 3 1 = Except.ok r ∧
      r = (List.range (((1 : Int) - 3).natAbs + 1)).map
        (fun (k : Nat) => if (1 : Int) > 3 then (3 : Int) + (k : Int) else 3 - (k : Int)) ∧
      r.length = ((1 : Int) - 3).natAbs + 1 ∧
      r.head? = some 3 ∧ r.getLast? = some 1 ∧
      List.Chain' (fun a b => (a, b) ∈ Mesh.get_connection_policies 5) r :=
  Mesh_route_is_monotonic 5 3 1 (by decide) (by decide) (by decide)

/-! ## The two-dimensional grids: the side of the grid and the loop -/

theorem int_sqrt_pos {n : Int} (hn : 0 < n) : 0 < int_sqrt n := by
  have h : 1 ≤ Nat.findGreatest (fun k => k * k ≤ n.toNat) n.toNat :=
    Nat.le_findGreatest (by omega) (by omega)
  unfold int_sqrt
  omega

theorem int_sqrt_sq {d : Int} (hd : 0 ≤ d) : int_sqrt (d * d) = d := by
  obtain ⟨k, rfl⟩ := Int.eq_ofNat_of_zero_le hd
  have hk : ((k : Int) * (k : Int)).toNat = k * k := by
    rw [← Int.natCast_mul, Int.toNat_natCast]
  unfold int_sqrt
  rw [hk]
  congr 1
  rw [Nat.findGreatest_eq_iff]
  refine ⟨Nat.le_mul_self k, fun _ => le_refl _, ?_⟩
  intro m hkm _ hm
  have : k * k < m * m := Nat.mul_self_lt_mul_self hkm
  omega

theorem grid_route_loop_at_dest (n : Int) (next_device : DeviceId → Except Abort (Option DeviceId))
    (dest : DeviceId) (fuel : Nat) :
    grid_route_loop n next_device dest (fuel + 1) dest = Except.ok [] := by
  simp [grid_route_loop]

theorem Ring.ring_route_to_self {n x : Int} (hx : 0 ≤ x ∧ x < n) (bidirectional : Bool) :
    Ring.route n bidirectional x x = Except.ok [x] := by
  obtain ⟨k, hk⟩ : ∃ k, n.toNat = k + 1 := ⟨n.toNat - 1, by omega⟩
  simp [Ring.route, Ring.route_fuel, cassert_ok hx, hk, Ring.route_loop,
    devices_at_ok hx.1 hx.2]

theorem Mesh2D.mesh2d_route_to_self {n x : Int} (hx : 0 ≤ x ∧ x < n) (faulty_links : FaultyLinks)
    (fuel : Nat) : Mesh2D.route_fuel n faulty_links (fuel + 1) x x = Except.ok [x] := by
  have hd : int_sqrt n ≠ 0 := by
    have := @int_sqrt_pos n (by omega)
    omega
  simp only [Mesh2D.route_fuel, if_neg hd, devices_at_ok hx.1 hx.2, Mesh2D.route_loop,
    grid_route_loop_at_dest, ok_bind, pure_eq_ok]

theorem Torus2D.torus2d_route_to_self {n x : Int} (hx : 0 ≤ x ∧ x < n) (faulty_links : FaultyLinks)
    (fuel : Nat) : Torus2D.route_fuel n faulty_links (fuel + 1) x x = Except.ok [x] := by
  have hd : int_sqrt n ≠ 0 := by
    have := @int_sqrt_pos n (by omega)
    omega
  simp only [Torus2D.route_fuel, if_neg hd, devices_at_ok hx.1 hx.2, Torus2D.route_loop,
    grid_route_loop_at_dest, ok_bind, pure_eq_ok]

theorem KingMesh2D.king_mesh_route_to_self {x : Int} (hx : 0 ≤ x ∧ x < 16) (faulty_links : FaultyLinks)
    (fuel : Nat) : KingMesh2D.route_fuel 16 faulty_links (fuel + 1) x x = Except.ok [x] := by
  have h : KingMesh2D.npus_count_x * KingMesh2D.npus_count_y = 16 := by decide
  simp only [KingMesh2D.route_fuel, cassert_ok h, devices_at_ok hx.1 hx.2, KingMesh2D.route_loop,
    grid_route_loop_at_dest, ok_bind, pure_eq_ok]

theorem Mesh.mesh_route_to_self {n x : Int} (hx : 0 ≤ x ∧ x < n) :
    Mesh.route n x x = Except.error Abort.assertion := by
  have h : cassert (x ≠ x) = Except.error Abort.assertion := by simp [cassert]
  rw [Mesh.route, cassert_ok hx, h]
  rfl

/-- C13, the claim at three inputs. In a fully connected topology of 4 NPUs `route(2, 2)` is
`[2, 2]`, two devices; in a switch topology of 3 NPUs `route(1, 1)` is `[1, 3, 1]`, through
the switch; and in a mesh of 4 NPUs `route(2, 2)` stops at `assert(src != dest)`. None is the
one-element route. -/
theorem route_to_self_is_not_always_one_device :
    (FullyConnected.route 4 2 2 = Except.ok [2, 2] ∧ FullyConnected.route 4 2 2 ≠ Except.ok [2]) ∧
    (Switch.route 3 1 1 = Except.ok [1, 3, 1] ∧ Switch.route 3 1 1 ≠ Except.ok [1]) ∧
    (Mesh.route 4 2 2 = Except.error Abort.assertion ∧ Mesh.route 4 2 2 ≠ Except.ok [2]) := by
  decide

/-- C13, amended. For every device `x` of `[0, npus_count)`: in a ring, in a `Mesh2D`, in a
`Torus2D` and in a `KingMesh2D` (of 16 NPUs) `route(x, x)` is the one-element route `[x]`; in
a fully connected topology it is `[x, x]`; in a switch topology it is `[x, npus_count, x]`;
and `Mesh::route` stops at its assertion `src != dest`. -/
theorem route_to_self_in_every_basic_topology (n x : Int) (hx : 0 ≤ x ∧ x < n) :
    (∀ bidirectional, Ring.route n bidirectional x x = Except.ok [x]) ∧
    (∀ faulty_links fuel, Mesh2D.route_fuel n faulty_links (fuel + 1) x x = Except.ok [x]) ∧
    (∀ faulty_links fuel, Torus2D.route_fuel n faulty_links (fuel + 1) x x = Except.ok [x]) ∧
    (n = 16 → ∀ faulty_links fuel,
      KingMesh2D.route_fuel n faulty_links (fuel + 1) x x = Except.ok [x]) ∧
    FullyConnected.route n x x = Except.ok [x, x] ∧
    Switch.route n x x = Except.ok [x, n, x] ∧
    Mesh.route n x x = Except.error Abort.assertion := by
  refine ⟨Ring.ring_route_to_self hx, Mesh2D.mesh2d_route_to_self hx, Torus2D.torus2d_route_to_self hx, ?_,
    FullyConnected.route_eq n x x hx.1 hx.2 hx.1 hx.2, Switch.switch_route_eq hx hx,
    Mesh.mesh_route_to_self hx⟩
  intro hn
  subst hn
  exact KingMesh2D.king_mesh_route_to_self hx

theorem route_to_self_in_every_basic_topology_witness :
    (∀ bidirectional, Ring.route 16 bidirectional 5 5 = Except.ok [5]) ∧
    (∀ faulty_links fuel, Mesh2D.route_fuel 16 faulty_links (fuel + 1) 5 5 = Except.ok [5]) ∧
    (∀ faulty_links fuel, Torus2D.route_fuel 16 faulty_links (fuel + 1) 5 5 = Except.ok [5]) ∧
    ((16 : Int) = 16 → ∀ faulty_links fuel,
      KingMesh2D.route_fuel 16 faulty_links (fuel + 1) 5 5 = Except.ok [5]) ∧
    FullyConnected.route 16 5 5 = Except.ok [5, 5] ∧
    Switch.route 16 5 5 = Except.ok [5, 16, 5] ∧
    Mesh.route 16 5 5 = Except.error Abort.assertion :=
  route_to_self_in_every_basic_topology 16 5 (by decide)

/-! ## MultiDimTopology: the route from a device to itself -/

/-- C14, the code at three failing inputs, on two rings of 4 NPUs. In recursive mode
`route(3, 3)` skips every dimension, so that `routeHelper` reaches its final assertion
`route.front()->get_id() == src && route.back()->get_id() == dest` with an empty route, whose
`front()` is undefined: no route `[3]` is returned. In cluster mode (mask `[0, 1]`)
`route(5, 5)` goes to the cluster agent and back, `[5, 4, 5]`, and `route(4, 4)`, from a cluster
agent to itself, is the empty route. -/
theorem route_to_self_in_multi_dim_topology :
    (∃ links, MultiDimTopology.construct no_switch_translation_unit [] [0, 0]
        dimensions_ring_4_4 = Except.ok (topology_ring_4_4 [] [0, 0] false, links)) ∧
    (∀ fuel, MultiDimTopology.route (topology_ring_4_4 [] [0, 0] false) (fuel + 1) 3 3 =
      Except.error Abort.undefined) ∧
    (∃ links, MultiDimTopology.construct no_switch_translation_unit [] [0, 1]
        dimensions_ring_4_4 = Except.ok (topology_ring_4_4_cluster, links)) ∧
    (∀ fuel, MultiDimTopology.route topology_ring_4_4_cluster (fuel + 1) 5 5 =
      Except.ok [5, 4, 5]) ∧
    (∀ fuel, MultiDimTopology.route topology_ring_4_4_cluster (fuel + 1) 4 4 = Except.ok []) := by
  refine ⟨?_, fun fuel => ?_, ?_, fun fuel => ?_, fun fuel => ?_⟩
  · exact construct_of_assemble assemble_ring_4_4_recursive (by decide)
  · rfl
  · exact construct_ring_4_4_cluster
  · rfl
  · rfl

/-! ## Mesh2D and Torus2D: a broken vertical link -/

theorem Mesh2D.mesh2d_loop_broken_0_3 :
    ∀ fuel, Mesh2D.route_loop 9 3 [(0, 3, 0)] 3 fuel 0 = Except.error Abort.out_of_fuel ∧
      Mesh2D.route_loop 9 3 [(0, 3, 0)] 3 fuel 1 = Except.error Abort.out_of_fuel := by
  intro fuel
  induction fuel with
  | zero => exact ⟨rfl, rfl⟩
  | succ fuel ih =>
    have h0 : Mesh2D.route_loop 9 3 [(0, 3, 0)] 3 (fuel + 1) 0 =
        match Mesh2D.route_loop 9 3 [(0, 3, 0)] 3 fuel 1 with
        | .error e => .error e
        | .ok rest => .ok (1 :: rest) := rfl
    have h1 : Mesh2D.route_loop 9 3 [(0, 3, 0)] 3 (fuel + 1) 1 =
        match Mesh2D.route_loop 9 3 [(0, 3, 0)] 3 fuel 0 with
        | .error e => .error e
        | .ok rest => .ok (0 :: rest) := rfl
    rw [h0, h1, ih.1, ih.2]
    exact ⟨rfl, rfl⟩

theorem Torus2D.torus2d_loop_broken_0_3 :
    ∀ fuel, Torus2D.route_loop 9 3 [(0, 3, 0)] 3 fuel 0 = Except.error Abort.out_of_fuel ∧
      Torus2D.route_loop 9 3 [(0, 3, 0)] 3 fuel 1 = Except.error Abort.out_of_fuel := by
  intro fuel
  induction fuel with
  | zero => exact ⟨rfl, rfl⟩
  | succ fuel ih =>
    have h0 : Torus2D.route_loop 9 3 [(0, 3, 0)] 3 (fuel + 1) 0 =
        match Torus2D.route_loop 9 3 [(0, 3, 0)] 3 fuel 1 with
        | .error e => .error e
        | .ok rest => .ok (1 :: rest) := rfl
    have h1 : Torus2D.route_loop 9 3 [(0, 3, 0)] 3 (fuel + 1) 1 =
        match Torus2D.route_loop 9 3 [(0, 3, 0)] 3 fuel 0 with
        | .error e => .error e
        | .ok rest => .ok (0 :: rest) := rfl
    rw [h0, h1, ih.1, ih.2]
    exact ⟨rfl, rfl⟩

/-- C19, the code at a failing input. In a `Mesh2D` and in a `Torus2D` of 9 NPUs whose fault
list is the fully broken vertical link `(0, 3, 0.0)`, `route(0, 3)` never returns: at the
device 0 the Y link to 3 is broken and the loop detours in X to the device 1; at the device 1
the X coordinate differs from that of the destination and the loop steps back to the device
0; and so on. Whatever the fuel, the loop does not end. -/
theorem grid_route_around_a_broken_vertical_link_does_not_end :
    (Mesh2D.next_device 3 [(0, 3, 0)] 3 0 = some 1 ∧
      Mesh2D.next_device 3 [(0, 3, 0)] 3 1 = some 0 ∧
      ∀ fuel, Mesh2D.route_fuel 9 [(0, 3, 0)] fuel 0 3 = Except.error Abort.out_of_fuel) ∧
    (Torus2D.next_device 3 [(0, 3, 0)] 3 0 = Except.ok 1 ∧
      Torus2D.next_device 3 [(0, 3, 0)] 3 1 = Except.ok 0 ∧
      ∀ fuel, Torus2D.route_fuel 9 [(0, 3, 0)] fuel 0 3 = Except.error Abort.out_of_fuel) := by
  refine ⟨⟨by decide, by decide, fun fuel => ?_⟩, ⟨by decide, by decide, fun fuel => ?_⟩⟩
  · have h : Mesh2D.route_fuel 9 [(0, 3, 0)] fuel 0 3 =
        (Mesh2D.route_loop 9 3 [(0, 3, 0)] 3 fuel 0 >>= fun rest => pure (0 :: rest)) := rfl
    rw [h, (Mesh2D.mesh2d_loop_broken_0_3 fuel).1]
    rfl
  · have h : Torus2D.route_fuel 9 [(0, 3, 0)] fuel 0 3 =
        (Torus2D.route_loop 9 3 [(0, 3, 0)] 3 fuel 0 >>= fun rest => pure (0 :: rest)) := rfl
    rw [h, (Torus2D.torus2d_loop_broken_0_3 fuel).1]
    rfl

/-! ## The loop of the grid routes -/

theorem grid_route_loop_succ (n : Int) (next_device : DeviceId → Except Abort (Option DeviceId))
    (dest : DeviceId) (fuel : Nat) (cur : DeviceId) :
    grid_route_loop n next_device dest (fuel + 1) cur =
      if cur ≠ dest then
        match next_device cur with
        | .error e => .error e
        | .ok none => .ok []
        | .ok (some next) =>
          match devices_at n next with
          | .error e => .error e
          | .ok device =>
            match grid_route_loop n next_device dest fuel next with
            | .error e => .error e
            | .ok rest => .ok (device :: rest)
      else .ok [] := rfl

theorem grid_route_loop_mono (n : Int) (next_device : DeviceId → Except Abort (Option DeviceId))
    (dest : DeviceId) :
    ∀ (fuel : Nat) (cur : DeviceId) (r : Route),
      grid_route_loop n next_device dest fuel cur = Except.ok r →
      ∀ k, grid_route_loop n next_device dest (fuel + k) cur = Except.ok r := by
  intro fuel
  induction fuel with
  | zero => intro cur r h; simp [grid_route_loop] at h
  | succ fuel ih =>
    intro cur r h k
    have hk : fuel + 1 + k = (fuel + k) + 1 := by omega
    rw [hk, grid_route_loop_succ]
    rw [grid_route_loop_succ] at h
    by_cases hc : cur ≠ dest
    · rw [if_pos hc] at h ⊢
      cases hnext : next_device cur with
      | error e => rw [hnext] at h; simp at h
      | ok step =>
        cases step with
        | none => rw [hnext] at h; exact h
        | some next =>
          rw [hnext] at h
          simp only at h ⊢
          cases hdev : devices_at n next with
          | error e => rw [hdev] at h; simp at h
          | ok device =>
            rw [hdev] at h
            simp only at h ⊢
            cases hrest : grid_route_loop n next_device dest fuel next with
            | error e => rw [hrest] at h; simp at h
            | ok rest =>
              rw [hrest] at h
              rw [ih next rest hrest k]
              exact h
    · rw [if_neg hc] at h ⊢
      exact h

theorem grid_route_loop_of_le (n : Int) (next_device : DeviceId → Except Abort (Option DeviceId))
    (dest : DeviceId) {fuel fuel' : Nat} {cur : DeviceId} {r : Route}
    (h : grid_route_loop n next_device dest fuel cur = Except.ok r) (hle : fuel ≤ fuel') :
    grid_route_loop n next_device dest fuel' cur = Except.ok r := by
  have := grid_route_loop_mono n next_device dest fuel cur r h (fuel' - fuel)
  rwa [Nat.add_sub_cancel' hle] at this

namespace GridWalk

variable {n : Int} {next_device : DeviceId → Except Abort (Option DeviceId)} {dest : DeviceId}

theorem walk_append : ∀ {r₁ : Route} {a b c : DeviceId} {r₂ : Route},
    GridWalk n next_device dest a r₁ b → GridWalk n next_device dest b r₂ c →
    GridWalk n next_device dest a (r₁ ++ r₂) c := by
  intro r₁
  induction r₁ with
  | nil =>
    intro a b c r₂ h₁ h₂
    have hab : a = b := h₁
    rw [hab]
    exact h₂
  | cons x r₁ ih =>
    intro a b c r₂ h₁ h₂
    obtain ⟨hne, hnext, hx, hrest⟩ := h₁
    exact ⟨hne, hnext, hx, ih hrest h₂⟩

theorem walk_getLast : ∀ {r : Route} {a b : DeviceId},
    GridWalk n next_device dest a r b → (a :: r).getLast? = some b := by
  intro r
  induction r with
  | nil =>
    intro a b h
    have hab : a = b := h
    rw [hab]
    rfl
  | cons x r ih =>
    intro a b h
    rw [List.getLast?_cons_cons]
    exact ih h.2.2.2

theorem walk_chain : ∀ {r : Route} {a b : DeviceId},
    GridWalk n next_device dest a r b →
    List.Chain (fun x y => next_device x = Except.ok (some y)) a r := by
  intro r
  induction r with
  | nil => intro a b _; exact List.Chain.nil
  | cons x r ih =>
    intro a b h
    exact List.Chain.cons h.2.1 (ih h.2.2.2)

theorem loop_eq : ∀ {r : Route} {cur : DeviceId},
    GridWalk n next_device dest cur r dest → ∀ fuel, r.length < fuel →
    grid_route_loop n next_device dest fuel cur = Except.ok r := by
  intro r
  induction r with
  | nil =>
    intro cur h fuel hfuel
    have hc : cur = dest := h
    obtain ⟨k, rfl⟩ : ∃ k, fuel = k + 1 := ⟨fuel - 1, by omega⟩
    rw [hc]
    exact grid_route_loop_at_dest n next_device dest k
  | cons x r ih =>
    intro cur h fuel hfuel
    obtain ⟨hne, hnext, hx, hrest⟩ := h
    simp only [List.length_cons] at hfuel
    obtain ⟨k, rfl⟩ : ∃ k, fuel = k + 1 := ⟨fuel - 1, by omega⟩
    rw [grid_route_loop_succ, if_pos hne, hnext]
    simp only
    rw [devices_at_ok hx.1 hx.2]
    simp only
    rw [ih hrest k (by omega)]

/-- A measure that every turn of the loop decreases gives a walk to the destination. -/
theorem exists_of_measure (inv : DeviceId → Prop) (measure : DeviceId → Nat)
    (hstep : ∀ cur, inv cur → cur ≠ dest →
      ∃ b, next_device cur = Except.ok (some b) ∧ (0 ≤ b ∧ b < n) ∧ inv b ∧
        measure b < measure cur) :
    ∀ (m : Nat) (cur : DeviceId), inv cur → measure cur ≤ m →
      ∃ r, GridWalk n next_device dest cur r dest ∧ r.length ≤ measure cur := by
  intro m
  induction m with
  | zero =>
    intro cur hinv hm
    by_cases hc : cur = dest
    · exact ⟨[], hc, Nat.zero_le _⟩
    · obtain ⟨b, -, -, -, hlt⟩ := hstep cur hinv hc
      omega
  | succ m ih =>
    intro cur hinv hm
    by_cases hc : cur = dest
    · exact ⟨[], hc, Nat.zero_le _⟩
    · obtain ⟨b, hnext, hb, hinvb, hlt⟩ := hstep cur hinv hc
      obtain ⟨r, hr, hlen⟩ := ih b hinvb (by omega)
      refine ⟨b :: r, ⟨hc, hnext, hb, hr⟩, ?_⟩
      simp only [List.length_cons]
      omega

/-- A measure that is zero at the destination and that every turn of the loop decreases by
one gives a walk to the destination of exactly that many hops. -/
theorem exists_of_exact_measure (inv : DeviceId → Prop) (measure : DeviceId → Nat)
    (hdest : measure dest = 0)
    (hstep : ∀ cur, inv cur → cur ≠ dest →
      ∃ b, next_device cur = Except.ok (some b) ∧ (0 ≤ b ∧ b < n) ∧ inv b ∧
        measure b + 1 = measure cur) :
    ∀ (m : Nat) (cur : DeviceId), inv cur → measure cur = m →
      ∃ r, GridWalk n next_device dest cur r dest ∧ r.length = m := by
  intro m
  induction m with
  | zero =>
    intro cur hinv hm
    by_cases hc : cur = dest
    · exact ⟨[], hc, rfl⟩
    · obtain ⟨b, -, -, -, hlt⟩ := hstep cur hinv hc
      omega
  | succ m ih =>
    intro cur hinv hm
    by_cases hc : cur = dest
    · rw [hc, hdest] at hm
      omega
    · obtain ⟨b, hnext, hb, hinvb, hlt⟩ := hstep cur hinv hc
      obtain ⟨r, hr, hlen⟩ := ih b hinvb (by omega)
      exact ⟨b :: r, ⟨hc, hnext, hb, hr⟩, by simp [hlen]⟩

end GridWalk

/-! ## KingMesh2D: the routes of the 8 x 2 grid -/

theorem KingMesh2D.route_fuel_of_le {n : Int} {faulty_links : FaultyLinks} {fuel fuel' : Nat}
    {src dst : Int} {r : Route}
    (h : KingMesh2D.route_fuel n faulty_links fuel src dst = Except.ok r) (hle : fuel ≤ fuel') :
    KingMesh2D.route_fuel n faulty_links fuel' src dst = Except.ok r := by
  unfold KingMesh2D.route_fuel at h ⊢
  obtain ⟨u, hassert, h⟩ := bind_eq_ok h
  obtain ⟨first, hfirst, h⟩ := bind_eq_ok h
  obtain ⟨rest, hrest, h⟩ := bind_eq_ok h
  rw [hassert, hfirst]
  simp only [ok_bind]
  rw [KingMesh2D.route_loop] at hrest ⊢
  rw [grid_route_loop_of_le _ _ _ hrest hle]
  exact h

theorem consecutive_all_chain {p : DeviceId → DeviceId → Bool} :
    ∀ r : Route, consecutive_all p r = true → List.Chain' (fun a b => p a b = true) r := by
  intro r
  induction r with
  | nil => intro _; exact List.chain'_nil
  | cons a r ih =>
    intro h
    cases r with
    | nil => exact List.chain'_singleton a
    | cons b r =>
      simp only [consecutive_all, Bool.and_eq_true] at h
      exact List.chain'_cons.2 ⟨h.1, ih h.2⟩

set_option maxRecDepth 100000 in
theorem KingMesh2D.route_check_all :
    ∀ i j : Fin 16, KingMesh2D.route_check ((i : Nat) : Int) ((j : Nat) : Int) = true := by
  decide

/-- C18. In the `KingMesh2D` of the code (a grid of 8 columns and 2 rows, 16 NPUs, the
coordinates of a device being `(id mod 8, id / 8)`) with an empty fault list, between two
devices of `[0, 16)`: the function `KingMesh2D::route` returns (on every fuel from 8 on) a
route that starts at `src`, ends at `dst`, has exactly `max(|dx - sx|, |dy - sy|) + 1` devices,
and whose hop from a device that differs from the destination in both coordinates is
diagonal. -/
theorem KingMesh2D_route_is_a_shortest_king_walk (src dst : Int)
    (hsrc : 0 ≤ src ∧ src < 16) (hdst : 0 ≤ dst ∧ dst < 16) :
    ∃ r, (∀ fuel, 8 ≤ fuel → KingMesh2D.route_fuel 16 [] fuel src dst = Except.ok r) ∧
      r.head? = some src ∧ r.getLast? = some dst ∧
      r.length = max (dst % 8 - src % 8).natAbs (dst / 8 - src / 8).natAbs + 1 ∧
      List.Chain' (KingMesh2D.DiagonalWhenNeeded dst) r := by
  have hcheck : KingMesh2D.route_check src dst = true := by
    have h := KingMesh2D.route_check_all ⟨src.toNat, by omega⟩ ⟨dst.toNat, by omega⟩
    simp only [Int.toNat_of_nonneg hsrc.1, Int.toNat_of_nonneg hdst.1] at h
    exact h
  unfold KingMesh2D.route_check at hcheck
  cases hroute : KingMesh2D.route_fuel 16 [] 8 src dst with
  | error e => rw [hroute] at hcheck; simp at hcheck
  | ok r =>
    rw [hroute] at hcheck
    simp only [Bool.and_eq_true, decide_eq_true_eq] at hcheck
    obtain ⟨⟨⟨hhead, hlast⟩, hlen⟩, hchain⟩ := hcheck
    refine ⟨r, fun fuel hfuel => KingMesh2D.route_fuel_of_le hroute hfuel, hhead, hlast, hlen, ?_⟩
    exact (consecutive_all_chain r hchain).imp (fun a b hab => of_decide_eq_true hab)

theorem KingMesh2D_route_is_a_shortest_king_walk_witness :
    ∃ r, (∀ fuel, 8 ≤ fuel → KingMesh2D.route_fuel 16 [] fuel 0 15 = Except.ok r) ∧
      r.head? = some 0 ∧ r.getLast? = some 15 ∧
      r.length = max ((15 : Int) % 8 - 0 % 8).natAbs ((15 : Int) / 8 - 0 / 8).natAbs + 1 ∧
      List.Chain' (KingMesh2D.DiagonalWhenNeeded 15) r :=
  KingMesh2D_route_is_a_shortest_king_walk 0 15 (by decide) (by decide)

/-! ## Coordinates in a square grid -/

theorem coord_nonneg {d x y : Int} (hd : 0 ≤ d) (hx : 0 ≤ x) (hy : 0 ≤ y) : 0 ≤ y * d + x :=
  Int.add_nonneg (Int.mul_nonneg hy hd) hx

theorem tmod_coord {d x y : Int} (hx : 0 ≤ x ∧ x < d) (hy : 0 ≤ y) :
    Int.tmod (y * d + x) d = x := by
  rw [Int.tmod_eq_emod (coord_nonneg (by omega) hx.1 hy) (by omega), Int.add_comm,
    Int.add_mul_emod_self]
  exact Int.emod_eq_of_lt hx.1 hx.2

theorem tdiv_coord {d x y : Int} (hx : 0 ≤ x ∧ x < d) (hy : 0 ≤ y) :
    Int.tdiv (y * d + x) d = y := by
  rw [Int.tdiv_eq_ediv (coord_nonneg (by omega) hx.1 hy) (by omega), Int.add_comm,
    Int.add_mul_ediv_right _ _ (by omega), Int.ediv_eq_zero_of_lt hx.1 hx.2]
  omega

theorem emod_coord {d x y : Int} (hx : 0 ≤ x ∧ x < d) : (y * d + x) % d = x := by
  rw [Int.add_comm, Int.add_mul_emod_self]
  exact Int.emod_eq_of_lt hx.1 hx.2

theorem ediv_coord {d x y : Int} (hx : 0 ≤ x ∧ x < d) : (y * d + x) / d = y := by
  rw [Int.add_comm, Int.add_mul_ediv_right _ _ (by omega), Int.ediv_eq_zero_of_lt hx.1 hx.2]
  omega

theorem coord_lt {d x y : Int} (hx : 0 ≤ x ∧ x < d) (hy : 0 ≤ y ∧ y < d) :
    0 ≤ y * d + x ∧ y * d + x < d * d := by
  refine ⟨coord_nonneg (by omega) hx.1 hy.1, ?_⟩
  have h : (y + 1) * d ≤ d * d := Int.mul_le_mul_of_nonneg_right (by omega) (by omega)
  rw [add_mul, one_mul] at h
  omega

theorem coord_inj {d x y x' y' : Int} (hx : 0 ≤ x ∧ x < d) (hx' : 0 ≤ x' ∧ x' < d)
    (h : y * d + x = y' * d + x') : x = x' ∧ y = y' := by
  have h1 := @emod_coord d x y hx
  have h2 := @ediv_coord d x y hx
  rw [h, emod_coord hx'] at h1
  rw [h, ediv_coord hx'] at h2
  exact ⟨h1.symm, h2.symm⟩

/-- Every device of a grid of side `d` has a column and a row: `id mod d` and `id / d`. -/
theorem coord_of_device {d c : Int} (hc : 0 ≤ c ∧ c < d * d) (hd : 0 ≤ d) :
    (0 ≤ c % d ∧ c % d < d) ∧ (0 ≤ c / d ∧ c / d < d) ∧ c = c / d * d + c % d := by
  have hd0 : d ≠ 0 := by
    rintro rfl
    omega
  have hdpos : 0 < d := by omega
  refine ⟨⟨Int.emod_nonneg c hd0, Int.emod_lt_of_pos c hdpos⟩,
    ⟨Int.ediv_nonneg hc.1 hd, Int.ediv_lt_of_lt_mul hdpos hc.2⟩, ?_⟩
  have := Int.ediv_add_emod c d
  rw [Int.mul_comm] at this
  exact this.symm

/-! ## Mesh2D: the turns of the loop -/

namespace Mesh2D

theorem fault_derate_nil (a b : Int) : Mesh2D.fault_derate [] a b = 1 := rfl

theorem next_device_x {d : Int} {faulty_links : FaultyLinks} {cx cy dx dy : Int}
    (hcx : 0 ≤ cx ∧ cx < d) (hcy : 0 ≤ cy) (hdx : 0 ≤ dx ∧ dx < d) (hdy : 0 ≤ dy)
    (hne : cx ≠ dx)
    (hlink : Mesh2D.fault_derate faulty_links (cy * d + cx)
      (cy * d + (cx + (if dx > cx then 1 else -1))) ≠ 0) :
    Mesh2D.next_device d faulty_links (dy * d + dx) (cy * d + cx) =
      some (cy * d + (cx + (if dx > cx then 1 else -1))) := by
  have hstep : (if dx > cx then (1 : Int) else -1) ≠ 0 := by split_ifs <;> omega
  have hrange : cx + (if dx > cx then (1 : Int) else -1) ≥ 0 ∧
      cx + (if dx > cx then (1 : Int) else -1) < d := by split_ifs <;> omega
  simp only [Mesh2D.next_device, tmod_coord hcx hcy, tmod_coord hdx hdy, tdiv_coord hcx hcy,
    tdiv_coord hdx hdy, if_pos hne, if_pos hstep, if_pos hrange, if_neg hlink]

theorem next_device_y {d : Int} {faulty_links : FaultyLinks} {cx cy dy : Int}
    (hcx : 0 ≤ cx ∧ cx < d) (hcy : 0 ≤ cy ∧ cy < d) (hdy : 0 ≤ dy ∧ dy < d)
    (hne : cy ≠ dy)
    (hlink : Mesh2D.fault_derate faulty_links (cy * d + cx)
      ((cy + (if dy > cy then 1 else -1)) * d + cx) ≠ 0) :
    Mesh2D.next_device d faulty_links (dy * d + cx) (cy * d + cx) =
      some ((cy + (if dy > cy then 1 else -1)) * d + cx) := by
  have hstep : (if dy > cy then (1 : Int) else -1) ≠ 0 := by split_ifs <;> omega
  have hrange : cy + (if dy > cy then (1 : Int) else -1) ≥ 0 ∧
      cy + (if dy > cy then (1 : Int) else -1) < d := by split_ifs <;> omega
  have hsame : ¬ cx ≠ cx := fun h => h rfl
  have hzero : ¬ (0 : Int) ≠ 0 := fun h => h rfl
  simp only [Mesh2D.next_device, tmod_coord hcx hcy.1, tmod_coord hcx hdy.1,
    tdiv_coord hcx hcy.1, tdiv_coord hcx hdy.1, if_neg hsame, if_neg hzero, if_pos hne,
    if_pos hstep, if_pos hrange, if_neg hlink]

end Mesh2D

/-! ## Mesh2D without faults: along X, then along Y -/

theorem arithmetic_walk_length (start step : Int) :
    ∀ count, (arithmetic_walk start step count).length = count := by
  intro count
  induction count generalizing start with
  | zero => rfl
  | succ count ih => simp [arithmetic_walk, ih]

namespace Mesh2D

theorem walk_x {d cy dx dy : Int} (hcy : 0 ≤ cy ∧ cy < d) (hdx : 0 ≤ dx ∧ dx < d)
    (hdy : 0 ≤ dy ∧ dy < d) {e : Int} (he : e = 1 ∨ e = -1) :
    ∀ (k : Nat) (cx : Int), 0 ≤ cx ∧ cx < d → dx - cx = e * k →
      GridWalk (d * d) (fun cur => Except.ok (Mesh2D.next_device d [] (dy * d + dx) cur))
        (dy * d + dx) (cy * d + cx) (arithmetic_walk (cy * d + cx) e k) (cy * d + dx) := by
  intro k
  induction k with
  | zero =>
    intro cx _ hk
    have hc : cx = dx := by
      simp only [Nat.cast_zero, mul_zero] at hk
      omega
    rw [hc]
    rfl
  | succ k ih =>
    intro cx hcx hk
    push_cast at hk
    have hsign : (if dx > cx then (1 : Int) else -1) = e := by
      rcases he with h | h <;> rw [h] at hk ⊢ <;> split_ifs <;> omega
    have hne : cx ≠ dx := by
      rcases he with h | h <;> rw [h] at hk <;> omega
    have hcx' : 0 ≤ cx + e ∧ cx + e < d := by
      rcases he with h | h <;> rw [h] at hk ⊢ <;> omega
    have hk' : dx - (cx + e) = e * k := by
      rcases he with h | h <;> rw [h] at hk ⊢ <;> omega
    have hnext := @next_device_x d [] cx cy dx dy hcx hcy.1 hdx hdy.1 hne
      (by rw [fault_derate_nil]; exact one_ne_zero)
    rw [hsign] at hnext
    have hassoc : cy * d + cx + e = cy * d + (cx + e) := by ring
    refine ⟨?_, ?_, ?_, ?_⟩
    · intro h
      exact hne (coord_inj hcx hdx h).1
    · rw [hassoc]
      exact congrArg Except.ok hnext
    · rw [hassoc]
      exact coord_lt hcx' hcy
    · rw [hassoc]
      exact ih (cx + e) hcx' hk'

theorem walk_y {d dx dy : Int} (hdx : 0 ≤ dx ∧ dx < d) (hdy : 0 ≤ dy ∧ dy < d)
    {e : Int} (he : e = 1 ∨ e = -1) :
    ∀ (k : Nat) (cy : Int), 0 ≤ cy ∧ cy < d → dy - cy = e * k →
      GridWalk (d * d) (fun cur => Except.ok (Mesh2D.next_device d [] (dy * d + dx) cur))
        (dy * d + dx) (cy * d + dx) (arithmetic_walk (cy * d + dx) (e * d) k) (dy * d + dx) := by
  intro k
  induction k with
  | zero =>
    intro cy _ hk
    have hc : cy = dy := by
      simp only [Nat.cast_zero, mul_zero] at hk
      omega
    rw [hc]
    rfl
  | succ k ih =>
    intro cy hcy hk
    push_cast at hk
    have hsign : (if dy > cy then (1 : Int) else -1) = e := by
      rcases he with h | h <;> rw [h] at hk ⊢ <;> split_ifs <;> omega
    have hne : cy ≠ dy := by
      rcases he with h | h <;> rw [h] at hk <;> omega
    have hcy' : 0 ≤ cy + e ∧ cy + e < d := by
      rcases he with h | h <;> rw [h] at hk ⊢ <;> omega
    have hk' : dy - (cy + e) = e * k := by
      rcases he with h | h <;> rw [h] at hk ⊢ <;> omega
    have hnext := @next_device_y d [] dx cy dy hdx hcy hdy hne
      (by rw [fault_derate_nil]; exact one_ne_zero)
    rw [hsign] at hnext
    have hassoc : cy * d + dx + e * d = (cy + e) * d + dx := by ring
    refine ⟨?_, ?_, ?_, ?_⟩
    · intro h
      exact hne (coord_inj hdx hdx h).2
    · rw [hassoc]
      exact congrArg Except.ok hnext
    · rw [hassoc]
      exact coord_lt hdx hcy'
    · rw [hassoc]
      exact ih (cy + e) hcy' hk'

theorem route_fuel_of_walk {d src dst : Int} {faulty_links : FaultyLinks} {r : Route}
    (hd : 0 ≤ d) (hsrc : 0 ≤ src ∧ src < d * d)
    (hwalk : GridWalk (d * d)
      (fun cur => Except.ok (Mesh2D.next_device d faulty_links dst cur)) dst src r dst)
    (fuel : Nat) (hfuel : r.length < fuel) :
    Mesh2D.route_fuel (d * d) faulty_links fuel src dst = Except.ok (src :: r) := by
  have hd0 : d ≠ 0 := by
    rintro rfl
    omega
  simp only [Mesh2D.route_fuel, int_sqrt_sq hd, if_neg hd0, devices_at_ok hsrc.1 hsrc.2,
    Mesh2D.route_loop, GridWalk.loop_eq hwalk fuel hfuel, ok_bind, pure_eq_ok]

end Mesh2D

theorem natAbs_sign_mul (a : Int) :
    a = (if a > 0 then (1 : Int) else -1) * (a.natAbs : Int) := by
  split_ifs <;> omega

/-- C15. In a `Mesh2D` of `d * d` NPUs with an empty fault list, the coordinates of a device
being `(id mod d, id / d)`: between two devices of `[0, d * d)` the function `Mesh2D::route`
returns (on every fuel above the Manhattan distance) the route that starts at `src`, goes
`|dx - sx|` hops along X (each to the device one more, or one less, than the last), then
`|dy - sy|` hops along Y (each to the device `d` more, or `d` less), and ends at `dst`: it has
`|dx - sx| + |dy - sy| + 1` devices and all its X moves come before any Y move. -/
theorem Mesh2D_route_goes_along_X_then_Y (d src dst : Int) (hd : 0 ≤ d)
    (hsrc : 0 ≤ src ∧ src < d * d) (hdst : 0 ≤ dst ∧ dst < d * d) :
    ∃ xs ys : Route,
      xs = arithmetic_walk src (if dst % d > src % d then 1 else -1)
        (dst % d - src % d).natAbs ∧
      ys = arithmetic_walk (src / d * d + dst % d) (if dst / d > src / d then d else -d)
        (dst / d - src / d).natAbs ∧
      (∀ fuel, (dst % d - src % d).natAbs + (dst / d - src / d).natAbs < fuel →
        Mesh2D.route_fuel (d * d) [] fuel src dst = Except.ok (src :: (xs ++ ys))) ∧
      (src :: (xs ++ ys)).head? = some src ∧
      (src :: (xs ++ ys)).getLast? = some dst ∧
      (src :: (xs ++ ys)).length = (dst % d - src % d).natAbs + (dst / d - src / d).natAbs + 1 := by
  obtain ⟨hsx, hsy, hs⟩ := coord_of_device hsrc hd
  obtain ⟨hdx, hdy, hdd⟩ := coord_of_device hdst hd
  generalize src % d = sx at *
  generalize src / d = sy at *
  generalize dst % d = dx at *
  generalize dst / d = dy at *
  subst hs
  subst hdd
  have hex : ∀ a : Int, (if a > 0 then (1 : Int) else -1) = 1 ∨
      (if a > 0 then (1 : Int) else -1) = -1 := by
    intro a
    split_ifs
    · exact Or.inl rfl
    · exact Or.inr rfl
  have hwx := Mesh2D.walk_x hsy hdx hdy (hex (dx - sx)) (dx - sx).natAbs sx hsx
    (natAbs_sign_mul (dx - sx))
  have hwy := Mesh2D.walk_y hdx hdy (hex (dy - sy)) (dy - sy).natAbs sy hsy
    (natAbs_sign_mul (dy - sy))
  have hsx_eq : (if dx - sx > 0 then (1 : Int) else -1) = if dx > sx then 1 else -1 := by
    split_ifs <;> first | rfl | omega
  have hsy_eq : (if dy - sy > 0 then (1 : Int) else -1) * d = if dy > sy then d else -d := by
    split_ifs <;> omega
  rw [hsx_eq] at hwx
  rw [hsy_eq] at hwy
  have hwalk := GridWalk.walk_append hwx hwy
  refine ⟨_, _, rfl, rfl, ?_, rfl, GridWalk.walk_getLast hwalk, ?_⟩
  · intro fuel hfuel
    refine Mesh2D.route_fuel_of_walk hd hsrc hwalk fuel ?_
    rw [List.length_append, arithmetic_walk_length, arithmetic_walk_length]
    exact hfuel
  · rw [List.length_cons, List.length_append, arithmetic_walk_length, arithmetic_walk_length]

theorem Mesh2D_route_goes_along_X_then_Y_witness :
    ∃ xs ys : Route,
      xs = arithmetic_walk 0 (if (8 : Int) % 3 > 0 % 3 then 1 else -1)
        ((8 : Int) % 3 - 0 % 3).natAbs ∧
      ys = arithmetic_walk (0 / 3 * 3 + 8 % 3) (if (8 : Int) / 3 > 0 / 3 then 3 else -3)
        ((8 : Int) / 3 - 0 / 3).natAbs ∧
      (∀ fuel, ((8 : Int) % 3 - 0 % 3).natAbs + ((8 : Int) / 3 - 0 / 3).natAbs < fuel →
        Mesh2D.route_fuel (3 * 3) [] fuel 0 8 = Except.ok (0 :: (xs ++ ys))) ∧
      (0 :: (xs ++ ys)).head? = some 0 ∧
      (0 :: (xs ++ ys)).getLast? = some 8 ∧
      (0 :: (xs ++ ys)).length = ((8 : Int) % 3 - 0 % 3).natAbs + ((8 : Int) / 3 - 0 / 3).natAbs + 1 :=
  Mesh2D_route_goes_along_X_then_Y 3 0 8 (by decide) (by decide) (by decide)

theorem Mesh2D_route_0_8 :
    Mesh2D.route_fuel 9 [] 5 0 8 = Except.ok [0, 1, 2, 5, 8] := by decide

/-! ## Torus2D without faults -/

theorem emod_cases {d a : Int} (h : -d ≤ a ∧ a < 3 * d) (hd : 0 < d) :
    (0 ≤ a % d ∧ a % d < d) ∧
      (a % d = a + d ∨ a % d = a ∨ a % d = a - d ∨ a % d = a - 2 * d) := by
  refine ⟨⟨Int.emod_nonneg a (by omega), Int.emod_lt_of_pos a hd⟩, ?_⟩
  by_cases h1 : a < 0
  · left
    rw [← Int.add_emod_self]
    exact Int.emod_eq_of_lt (by omega) (by omega)
  · by_cases h2 : a < d
    · right; left
      exact Int.emod_eq_of_lt (by omega) h2
    · by_cases h3 : a < 2 * d
      · right; right; left
        have h4 : (a - d) % d = a - d := Int.emod_eq_of_lt (by omega) (by omega)
        rw [← h4, Int.sub_emod, Int.emod_self, Int.sub_zero, Int.emod_emod]
      · right; right; right
        have h4 : (a - 2 * d) % d = a - 2 * d := Int.emod_eq_of_lt (by omega) (by omega)
        rw [← h4, Int.sub_emod, Int.mul_emod_left, Int.sub_zero, Int.emod_emod]

theorem torus_distance_self {d x : Int} (hd : 0 ≤ d) : torus_distance d x x = 0 := by
  simp [torus_distance, hd]

theorem emod_wrap {d a : Int} (h : -d ≤ a ∧ a < 2 * d) (hd : 0 < d) :
    (0 ≤ a % d ∧ a % d < d) ∧ (a % d = a + d ∨ a % d = a ∨ a % d = a - d) := by
  obtain ⟨hr, h1 | h1 | h1 | h1⟩ := @emod_cases d a (by omega) hd
  · exact ⟨hr, Or.inl h1⟩
  · exact ⟨hr, Or.inr (Or.inl h1)⟩
  · exact ⟨hr, Or.inr (Or.inr h1)⟩
  · omega

/-- One step of the torus towards the target, in the direction the code chooses, stays in the
grid and brings the coordinate one closer. -/
theorem torus_step_progress {d x t : Int} (hx : 0 ≤ x ∧ x < d) (ht : 0 ≤ t ∧ t < d)
    (hne : x ≠ t) :
    (0 ≤ (x + (if (t - x + d) % d > d / 2 then -1 else 1) + d) % d ∧
      (x + (if (t - x + d) % d > d / 2 then -1 else 1) + d) % d < d) ∧
    torus_distance d ((x + (if (t - x + d) % d > d / 2 then -1 else 1) + d) % d) t + 1 =
      torus_distance d x t := by
  have hd : 0 < d := by omega
  rw [Int.add_emod_self, Int.add_emod_self]
  obtain ⟨hfr, hfc⟩ := @emod_wrap d (t - x) (by omega) hd
  unfold torus_distance
  generalize (t - x) % d = f at *
  have hf : f = t - x ∨ f = t - x + d := by omega
  clear hfc
  by_cases hstep : f > d / 2
  · rw [if_pos hstep]
    obtain ⟨hnr, hnc⟩ := @emod_wrap d (x + -1) (by omega) hd
    generalize (x + -1) % d = nx at *
    have hn : nx = x - 1 ∨ nx = x - 1 + d := by omega
    clear hnc
    obtain ⟨hgr, hgc⟩ := @emod_wrap d (t - nx) (by omega) hd
    generalize (t - nx) % d = g at *
    have hg : g = t - nx ∨ g = t - nx + d := by omega
    clear hgc
    refine ⟨hnr, ?_⟩
    rcases hf with h1 | h1 <;> rcases hn with h2 | h2 <;> rcases hg with h3 | h3 <;>
      subst h1 <;> subst h2 <;> subst h3 <;> omega
  · rw [if_neg hstep]
    obtain ⟨hnr, hnc⟩ := @emod_wrap d (x + 1) (by omega) hd
    generalize (x + 1) % d = nx at *
    have hn : nx = x + 1 ∨ nx = x + 1 - d := by omega
    clear hnc
    obtain ⟨hgr, hgc⟩ := @emod_wrap d (t - nx) (by omega) hd
    generalize (t - nx) % d = g at *
    have hg : g = t - nx ∨ g = t - nx + d := by omega
    clear hgc
    refine ⟨hnr, ?_⟩
    rcases hf with h1 | h1 <;> rcases hn with h2 | h2 <;> rcases hg with h3 | h3 <;>
      subst h1 <;> subst h2 <;> subst h3 <;> omega

namespace Torus2D

theorem torus_fault_derate_nil (a b : Int) : Torus2D.fault_derate [] a b = 1 := rfl

theorem torus_next_device_x {d cx cy dx dy : Int}
    (hcx : 0 ≤ cx ∧ cx < d) (hcy : 0 ≤ cy) (hdx : 0 ≤ dx ∧ dx < d) (hdy : 0 ≤ dy)
    (hne : cx ≠ dx) :
    Torus2D.next_device d [] (dy * d + dx) (cy * d + cx) =
      Except.ok (cy * d + (cx + (if (dx - cx + d) % d > d / 2 then -1 else 1) + d) % d) := by
  have h1 : Int.tmod (dx - cx + d) d = (dx - cx + d) % d :=
    Int.tmod_eq_emod (by omega) (by omega)
  have h2 : Int.tdiv d 2 = d / 2 := Int.tdiv_eq_ediv (by omega) (by omega)
  have hstep : (if (dx - cx + d) % d > d / 2 then (-1 : Int) else 1) ≠ 0 := by
    split_ifs <;> omega
  have h3 : Int.tmod (cx + (if (dx - cx + d) % d > d / 2 then (-1 : Int) else 1) + d) d =
      (cx + (if (dx - cx + d) % d > d / 2 then (-1 : Int) else 1) + d) % d :=
    Int.tmod_eq_emod (by split_ifs <;> omega) (by omega)
  have hone : ¬ ((1 : Rat) = 0) := one_ne_zero
  simp only [Torus2D.next_device, tmod_coord hcx hcy, tmod_coord hdx hdy, tdiv_coord hcx hcy,
    tdiv_coord hdx hdy, if_pos hne, h1, h2, if_pos hstep, h3, torus_fault_derate_nil,
    if_neg hone]

theorem torus_next_device_y {d cx cy dy : Int}
    (hcx : 0 ≤ cx ∧ cx < d) (hcy : 0 ≤ cy ∧ cy < d) (hdy : 0 ≤ dy ∧ dy < d)
    (hne : cy ≠ dy) :
    Torus2D.next_device d [] (dy * d + cx) (cy * d + cx) =
      Except.ok ((cy + (if (dy - cy + d) % d > d / 2 then -1 else 1) + d) % d * d + cx) := by
  have h1 : Int.tmod (dy - cy + d) d = (dy - cy + d) % d :=
    Int.tmod_eq_emod (by omega) (by omega)
  have h2 : Int.tdiv d 2 = d / 2 := Int.tdiv_eq_ediv (by omega) (by omega)
  have hstep : (if (dy - cy + d) % d > d / 2 then (-1 : Int) else 1) ≠ 0 := by
    split_ifs <;> omega
  have h3 : Int.tmod (cy + (if (dy - cy + d) % d > d / 2 then (-1 : Int) else 1) + d) d =
      (cy + (if (dy - cy + d) % d > d / 2 then (-1 : Int) else 1) + d) % d :=
    Int.tmod_eq_emod (by split_ifs <;> omega) (by omega)
  have hone : ¬ ((1 : Rat) = 0) := one_ne_zero
  have hsame : ¬ cx ≠ cx := fun h => h rfl
  have hzero : ¬ (0 : Int) ≠ 0 := fun h => h rfl
  simp only [Torus2D.next_device, tmod_coord hcx hcy.1, tmod_coord hcx hdy.1,
    tdiv_coord hcx hcy.1, tdiv_coord hcx hdy.1, if_neg hsame, if_neg hzero, if_pos hne, h1, h2,
    if_pos hstep, h3, torus_fault_derate_nil, if_neg hone]

/-- Every turn of the loop of `Torus2D::route`, without faults, stays in the grid and brings
the device one hop closer to the destination. -/
theorem torus_progress {d dst : Int} (hd : 0 ≤ d) (hdst : 0 ≤ dst ∧ dst < d * d) :
    ∀ cur : DeviceId, (0 ≤ cur ∧ cur < d * d) → cur ≠ dst →
      ∃ b, (fun cur => (Torus2D.next_device d [] dst cur).map some) cur = Except.ok (some b) ∧
        (0 ≤ b ∧ b < d * d) ∧ (0 ≤ b ∧ b < d * d) ∧
        (torus_distance d (b % d) (dst % d) + torus_distance d (b / d) (dst / d)) + 1 =
          torus_distance d (cur % d) (dst % d) + torus_distance d (cur / d) (dst / d) := by
  intro cur hcur hne
  obtain ⟨hcx, hcy, hc⟩ := coord_of_device hcur hd
  obtain ⟨hdx, hdy, hdd⟩ := coord_of_device hdst hd
  generalize cur % d = cx at *
  generalize cur / d = cy at *
  generalize dst % d = dx at *
  generalize dst / d = dy at *
  subst hc
  subst hdd
  by_cases hx : cx = dx
  · subst hx
    have hy : cy ≠ dy := by
      intro h
      exact hne (by rw [h])
    obtain ⟨hrange, hdist⟩ := torus_step_progress hcy hdy hy
    refine ⟨_, ?_, coord_lt hcx hrange, coord_lt hcx hrange, ?_⟩
    · show (Torus2D.next_device d [] (dy * d + cx) (cy * d + cx)).map some = _
      rw [torus_next_device_y hcx hcy hdy hy]
      rfl
    · rw [emod_coord hcx, ediv_coord hcx]
      omega
  · obtain ⟨hrange, hdist⟩ := torus_step_progress hcx hdx hx
    refine ⟨_, ?_, coord_lt hrange hcy, coord_lt hrange hcy, ?_⟩
    · show (Torus2D.next_device d [] (dy * d + dx) (cy * d + cx)).map some = _
      rw [torus_next_device_x hcx hcy.1 hdx hdy.1 hx]
      rfl
    · rw [emod_coord hrange, ediv_coord hrange]
      omega

end Torus2D

theorem Torus2D.torus_route_fuel_of_walk {d src dst : Int} {faulty_links : FaultyLinks}
    {r : Route} (hd : 0 ≤ d) (hsrc : 0 ≤ src ∧ src < d * d)
    (hwalk : GridWalk (d * d)
      (fun cur => (Torus2D.next_device d faulty_links dst cur).map some) dst src r dst)
    (fuel : Nat) (hfuel : r.length < fuel) :
    Torus2D.route_fuel (d * d) faulty_links fuel src dst = Except.ok (src :: r) := by
  have hd0 : d ≠ 0 := by
    rintro rfl
    omega
  simp only [Torus2D.route_fuel, int_sqrt_sq hd, if_neg hd0, devices_at_ok hsrc.1 hsrc.2,
    Torus2D.route_loop, GridWalk.loop_eq hwalk fuel hfuel, ok_bind, pure_eq_ok]

/-- C17. In a `Torus2D` of `d * d` NPUs with an empty fault list, the coordinates of a device
being `(id mod d, id / d)`: between two devices of `[0, d * d)` the function `Torus2D::route`
returns (on every fuel that covers the length of the route) a route that starts at `src`, ends
at `dst` and has exactly `min(ex, d - ex) + min(ey, d - ey) + 1` devices, where
`ex = (dx - sx) mod d` and `ey = (dy - sy) mod d`. -/
theorem Torus2D_route_is_a_shortest_wrap_walk (d src dst : Int) (hd : 0 ≤ d)
    (hsrc : 0 ≤ src ∧ src < d * d) (hdst : 0 ≤ dst ∧ dst < d * d) :
    ∃ r, (∀ fuel, r.length ≤ fuel →
        Torus2D.route_fuel (d * d) [] fuel src dst = Except.ok r) ∧
      r.head? = some src ∧ r.getLast? = some dst ∧
      r.length =
        torus_distance d (src % d) (dst % d) + torus_distance d (src / d) (dst / d) + 1 := by
  obtain ⟨r, hwalk, hlen⟩ := GridWalk.exists_of_exact_measure
    (fun cur => 0 ≤ cur ∧ cur < d * d)
    (fun cur => torus_distance d (cur % d) (dst % d) + torus_distance d (cur / d) (dst / d))
    (by simp only [torus_distance_self hd])
    (Torus2D.torus_progress hd hdst) _ src hsrc rfl
  refine ⟨src :: r, fun fuel hfuel => ?_, rfl, GridWalk.walk_getLast hwalk, ?_⟩
  · exact Torus2D.torus_route_fuel_of_walk hd hsrc hwalk fuel
      (by simp only [List.length_cons] at hfuel; omega)
  · rw [List.length_cons, hlen]

theorem Torus2D_route_is_a_shortest_wrap_walk_witness :
    ∃ r, (∀ fuel, r.length ≤ fuel →
        Torus2D.route_fuel (4 * 4) [] fuel 0 2 = Except.ok r) ∧
      r.head? = some 0 ∧ r.getLast? = some 2 ∧
      r.length =
        torus_distance 4 (0 % 4) (2 % 4) + torus_distance 4 (0 / 4) (2 / 4) + 1 :=
  Torus2D_route_is_a_shortest_wrap_walk 4 0 2 (by decide) (by decide) (by decide)

theorem Torus2D_route_0_2 :
    Torus2D.route_fuel 16 [] 3 0 2 = Except.ok [0, 1, 2] ∧
      torus_distance 4 (0 % 4) (2 % 4) + torus_distance 4 (0 / 4) (2 / 4) + 1 = 3 := by
  decide

/-! ## Mesh2D with one broken horizontal link -/

namespace Mesh2D

theorem fault_derate_single (u v a b : Int) :
    Mesh2D.fault_derate [(u, v, 0)] a b = if IsLink u v a b then 0 else 1 := rfl

theorem fault_derate_single_eq_zero {u v a b : Int} :
    Mesh2D.fault_derate [(u, v, 0)] a b = 0 ↔ IsLink u v a b := by
  rw [fault_derate_single]
  split_ifs with h
  · simp [h]
  · simp [h]

theorem next_device_detour_up {d : Int} {faulty_links : FaultyLinks} {cx cy dx dy : Int}
    (hcx : 0 ≤ cx ∧ cx < d) (hcy : 0 ≤ cy) (hdx : 0 ≤ dx ∧ dx < d) (hdy : 0 ≤ dy)
    (hne : cx ≠ dx)
    (hlink : Mesh2D.fault_derate faulty_links (cy * d + cx)
      (cy * d + (cx + (if dx > cx then 1 else -1))) = 0)
    (hup : cy + 1 < d)
    (huplink : Mesh2D.fault_derate faulty_links (cy * d + cx) ((cy + 1) * d + cx) ≠ 0) :
    Mesh2D.next_device d faulty_links (dy * d + dx) (cy * d + cx) = some ((cy + 1) * d + cx) := by
  have hstep : (if dx > cx then (1 : Int) else -1) ≠ 0 := by split_ifs <;> omega
  have hrange : cx + (if dx > cx then (1 : Int) else -1) ≥ 0 ∧
      cx + (if dx > cx then (1 : Int) else -1) < d := by split_ifs <;> omega
  simp only [Mesh2D.next_device, tmod_coord hcx hcy, tmod_coord hdx hdy, tdiv_coord hcx hcy,
    tdiv_coord hdx hdy, if_pos hne, if_pos hstep, if_pos hrange, if_pos hlink,
    if_pos (And.intro hup huplink)]

theorem next_device_detour_down {d : Int} {faulty_links : FaultyLinks} {cx cy dx dy : Int}
    (hcx : 0 ≤ cx ∧ cx < d) (hcy : 0 ≤ cy) (hdx : 0 ≤ dx ∧ dx < d) (hdy : 0 ≤ dy)
    (hne : cx ≠ dx)
    (hlink : Mesh2D.fault_derate faulty_links (cy * d + cx)
      (cy * d + (cx + (if dx > cx then 1 else -1))) = 0)
    (hup : ¬ cy + 1 < d) (hdown : cy - 1 ≥ 0)
    (hdownlink : Mesh2D.fault_derate faulty_links (cy * d + cx) ((cy - 1) * d + cx) ≠ 0) :
    Mesh2D.next_device d faulty_links (dy * d + dx) (cy * d + cx) = some ((cy - 1) * d + cx) := by
  have hstep : (if dx > cx then (1 : Int) else -1) ≠ 0 := by split_ifs <;> omega
  have hrange : cx + (if dx > cx then (1 : Int) else -1) ≥ 0 ∧
      cx + (if dx > cx then (1 : Int) else -1) < d := by split_ifs <;> omega
  have hnot : ¬ (cy + 1 < d ∧
      Mesh2D.fault_derate faulty_links (cy * d + cx) ((cy + 1) * d + cx) ≠ 0) :=
    fun h => hup h.1
  simp only [Mesh2D.next_device, tmod_coord hcx hcy, tmod_coord hdx hdy, tdiv_coord hcx hcy,
    tdiv_coord hdx hdy, if_pos hne, if_pos hstep, if_pos hrange, if_pos hlink, if_neg hnot,
    if_pos (And.intro hdown hdownlink)]

end Mesh2D

namespace Mesh2D

/-- A turn of the loop of `Mesh2D::route` in a grid whose only fault is a broken link between
two neighbours of the row `uy`, in coordinates: the loop pushes a neighbour of the current
device, the hop is not the broken link, it is the hop of `DetourHop`, and a measure of the
way that is left decreases. -/
theorem broken_row_step {d ux uy cx cy dx dy u v : Int}
    (hux : 0 ≤ ux ∧ ux + 1 < d) (huy : 0 ≤ uy)
    (hcx : 0 ≤ cx ∧ cx < d) (hcy : 0 ≤ cy ∧ cy < d)
    (hdx : 0 ≤ dx ∧ dx < d) (hdy : 0 ≤ dy ∧ dy < d)
    (huv : (u = uy * d + ux ∧ v = uy * d + ux + 1) ∨ (v = uy * d + ux ∧ u = uy * d + ux + 1))
    (hne : ¬ (cx = dx ∧ cy = dy)) :
    ∃ nx ny : Int, (0 ≤ nx ∧ nx < d) ∧ (0 ≤ ny ∧ ny < d) ∧
      Mesh2D.next_device d [(u, v, 0)] (dy * d + dx) (cy * d + cx) = some (ny * d + nx) ∧
      ((cy = ny ∧ (nx - cx).natAbs = 1) ∨ (cx = nx ∧ (ny - cy).natAbs = 1)) ∧
      ¬ IsLink u v (cy * d + cx) (ny * d + nx) ∧
      (if cx ≠ dx then
        (if IsLink u v (cy * d + cx) (cy * d + cx + (if dx > cx then 1 else -1)) then
          ny * d + nx = (if cy + 1 < d then cy * d + cx + d else cy * d + cx - d)
        else ny * d + nx = cy * d + cx + (if dx > cx then 1 else -1))
      else ny * d + nx = cy * d + cx + (if dy > cy then d else -d)) ∧
      (dx - nx).natAbs + (dy - ny).natAbs + (if nx ≠ dx ∧ ny = uy then 2 else 0) <
        (dx - cx).natAbs + (dy - cy).natAbs + (if cx ≠ dx ∧ cy = uy then 2 else 0) := by
  have hd : 2 ≤ d := by omega
  by_cases hx : cx = dx
  · -- in the column of the destination: one row towards it
    subst hx
    have hy : cy ≠ dy := fun h => hne ⟨rfl, h⟩
    have hrange : 0 ≤ cy + (if dy > cy then (1 : Int) else -1) ∧
        cy + (if dy > cy then (1 : Int) else -1) < d := by split_ifs <;> omega
    have hnotlink : ¬ IsLink u v (cy * d + cx)
        ((cy + (if dy > cy then (1 : Int) else -1)) * d + cx) := by
      unfold IsLink
      rw [add_mul]
      rcases huv with ⟨h1, h2⟩ | ⟨h1, h2⟩ <;> split_ifs <;> omega
    refine ⟨cx, cy + (if dy > cy then (1 : Int) else -1), hcx, hrange, ?_, Or.inr ⟨rfl, ?_⟩,
      hnotlink, ?_, ?_⟩
    · refine next_device_y hcx hcy hdy hy ?_
      rw [fault_derate_single, if_neg hnotlink]
      exact one_ne_zero
    · split_ifs <;> omega
    · rw [if_neg (fun h => h rfl), add_mul]
      split_ifs <;> omega
    · split_ifs <;> omega
  · by_cases hl : IsLink u v (cy * d + cx) (cy * d + (cx + (if dx > cx then (1 : Int) else -1)))
    · -- the link towards the destination is the broken one: one row aside
      have hnrange : 0 ≤ cx + (if dx > cx then (1 : Int) else -1) ∧
          cx + (if dx > cx then (1 : Int) else -1) < d := by split_ifs <;> omega
      have hrow : cy = uy := by
        rcases hl with ⟨h1, -⟩ | ⟨-, h1⟩ <;> rcases huv with ⟨h2, h3⟩ | ⟨h2, h3⟩
        · exact ((coord_inj (by omega) hcx (h2.symm.trans h1)).2).symm
        · rw [add_assoc] at h3
          exact ((coord_inj (by omega) hcx (h3.symm.trans h1)).2).symm
        · rw [add_assoc] at h3
          exact ((coord_inj (by omega) hcx (h3.symm.trans h1)).2).symm
        · exact ((coord_inj (by omega) hcx (h2.symm.trans h1)).2).symm
      have hl' : IsLink u v (cy * d + cx) (cy * d + cx + (if dx > cx then (1 : Int) else -1)) := by
        rw [add_assoc]
        exact hl
      have hzero : Mesh2D.fault_derate [(u, v, 0)] (cy * d + cx)
          (cy * d + (cx + (if dx > cx then (1 : Int) else -1))) = 0 :=
        fault_derate_single_eq_zero.2 hl
      subst hrow
      by_cases hup : cy + 1 < d
      · have hnotlink : ¬ IsLink u v (cy * d + cx) ((cy + 1) * d + cx) := by
          unfold IsLink
          rw [add_mul]
          rcases huv with ⟨h1, h2⟩ | ⟨h1, h2⟩ <;> omega
        refine ⟨cx, cy + 1, hcx, by omega, ?_, Or.inr ⟨rfl, by omega⟩, hnotlink, ?_, ?_⟩
        · refine next_device_detour_up hcx hcy.1 hdx hdy.1 hx hzero hup ?_
          rw [fault_derate_single, if_neg hnotlink]
          exact one_ne_zero
        · rw [if_pos hx, if_pos hl', if_pos hup, add_mul]
          omega
        · split_ifs <;> omega
      · have hnotlink : ¬ IsLink u v (cy * d + cx) ((cy - 1) * d + cx) := by
          unfold IsLink
          rw [sub_mul]
          rcases huv with ⟨h1, h2⟩ | ⟨h1, h2⟩ <;> omega
        refine ⟨cx, cy - 1, hcx, by omega, ?_, Or.inr ⟨rfl, by omega⟩, hnotlink, ?_, ?_⟩
        · refine next_device_detour_down hcx hcy.1 hdx hdy.1 hx hzero hup (by omega) ?_
          rw [fault_derate_single, if_neg hnotlink]
          exact one_ne_zero
        · rw [if_pos hx, if_pos hl', if_neg hup, sub_mul]
          omega
        · split_ifs <;> omega
    · -- one column towards the destination
      have hnrange : 0 ≤ cx + (if dx > cx then (1 : Int) else -1) ∧
          cx + (if dx > cx then (1 : Int) else -1) < d := by split_ifs <;> omega
      have hl' : ¬ IsLink u v (cy * d + cx)
          (cy * d + cx + (if dx > cx then (1 : Int) else -1)) := by
        rw [add_assoc]
        exact hl
      refine ⟨cx + (if dx > cx then (1 : Int) else -1), cy, hnrange, hcy, ?_,
        Or.inl ⟨rfl, ?_⟩, hl, ?_, ?_⟩
      · refine next_device_x hcx hcy.1 hdx hdy.1 hx ?_
        rw [fault_derate_single, if_neg hl]
        exact one_ne_zero
      · split_ifs <;> omega
      · rw [if_pos hx, if_neg hl', add_assoc]
      · split_ifs <;> omega

end Mesh2D

theorem GridWalk.walk_chain_of_step {n : Int}
    {next_device : DeviceId → Except Abort (Option DeviceId)} {dest : DeviceId}
    {P : DeviceId → DeviceId → Prop}
    (hstep : ∀ a b : DeviceId, (0 ≤ a ∧ a < n) → a ≠ dest →
      next_device a = Except.ok (some b) → P a b) :
    ∀ (r : Route) (a b : DeviceId), (0 ≤ a ∧ a < n) →
      GridWalk n next_device dest a r b → List.Chain P a r := by
  intro r
  induction r with
  | nil => intro a b _ _; exact List.Chain.nil
  | cons x r ih =>
    intro a b ha h
    obtain ⟨hne, hnext, hx, hrest⟩ := h
    exact List.Chain.cons (hstep a x ha hne hnext) (ih x b hx hrest)

namespace Mesh2D

/-- A turn of the loop of `Mesh2D::route` in a grid of side `d` whose only fault is a broken
horizontal link between `u` and `v`. -/
theorem broken_row_progress {d u v dst : Int} (hd : 2 ≤ d)
    (hu : 0 ≤ u ∧ u < d * d) (hv : 0 ≤ v ∧ v < d * d)
    (hrow : u / d = v / d) (hcol : v % d = u % d + 1 ∨ u % d = v % d + 1)
    (hdst : 0 ≤ dst ∧ dst < d * d) :
    ∀ cur : Int, (0 ≤ cur ∧ cur < d * d) → cur ≠ dst →
      ∃ b : Int, Mesh2D.next_device d [(u, v, 0)] dst cur = some b ∧ (0 ≤ b ∧ b < d * d) ∧
        GridNeighbours d cur b ∧ ¬ IsLink u v cur b ∧ Mesh2D.DetourHop d u v dst cur b ∧
        (dst % d - b % d).natAbs + (dst / d - b / d).natAbs +
            (if b % d ≠ dst % d ∧ b / d = u / d then 2 else 0) <
          (dst % d - cur % d).natAbs + (dst / d - cur / d).natAbs +
            (if cur % d ≠ dst % d ∧ cur / d = u / d then 2 else 0) := by
  intro cur hcur hne
  have hd0 : 0 ≤ d := by omega
  obtain ⟨hux, huy, hue⟩ := coord_of_device hu hd0
  obtain ⟨hvx, hvy, hve⟩ := coord_of_device hv hd0
  obtain ⟨hcx, hcy, hc⟩ := coord_of_device hcur hd0
  obtain ⟨hdx, hdy, hdd⟩ := coord_of_device hdst hd0
  have huv : ∃ ux : Int, (0 ≤ ux ∧ ux + 1 < d) ∧
      ((u = u / d * d + ux ∧ v = u / d * d + ux + 1) ∨
        (v = u / d * d + ux ∧ u = u / d * d + ux + 1)) := by
    rcases hcol with h | h
    · refine ⟨u % d, by omega, Or.inl ⟨hue, ?_⟩⟩
      rw [hrow, add_assoc, ← h]
      exact hve
    · refine ⟨v % d, by omega, Or.inr ⟨?_, ?_⟩⟩
      · rw [hrow]
        exact hve
      · rw [add_assoc, ← h]
        exact hue
  obtain ⟨ux, hux', huv⟩ := huv
  generalize u / d = uy at *
  generalize cur % d = cx at *
  generalize cur / d = cy at *
  generalize dst % d = dx at *
  generalize dst / d = dy at *
  subst hc
  subst hdd
  have hne' : ¬ (cx = dx ∧ cy = dy) := by
    rintro ⟨h1, h2⟩
    exact hne (by rw [h1, h2])
  obtain ⟨nx, ny, hnx, hny, hnext, hneigh, hnotlink, hhop, hmeasure⟩ :=
    broken_row_step hux' huy.1 hcx hcy hdx hdy huv hne'
  refine ⟨ny * d + nx, hnext, coord_lt hnx hny, ?_, hnotlink, ?_, ?_⟩
  · unfold GridNeighbours
    rw [emod_coord hcx, ediv_coord hcx, emod_coord hnx, ediv_coord hnx]
    exact hneigh
  · unfold Mesh2D.DetourHop
    rw [emod_coord hcx, ediv_coord hcx, emod_coord hdx, ediv_coord hdx]
    exact hhop
  · rw [emod_coord hnx, ediv_coord hnx]
    exact hmeasure

end Mesh2D

/-- C16. In a `Mesh2D` of `d * d` NPUs, `d ≥ 2`, whose fault list is the single fully broken
horizontal link `(u, v, 0.0)` (`u` and `v` in the same row and in adjacent columns), between
two devices of `[0, d * d)`: the function `Mesh2D::route` returns (on every fuel that covers
the length of the route, which is at most `2 * d + 1`) a route that starts at `src` and ends
at `dst`; every consecutive pair of it is a pair of grid neighbours and is not the broken link;
and every hop is the hop of the X-then-Y order, except where that hop is the broken link: there
the route detours one hop in Y, to the next row when there is one, else to the previous one. -/
theorem Mesh2D_route_detours_around_a_broken_horizontal_link (d u v src dst : Int)
    (hd : 2 ≤ d) (hu : 0 ≤ u ∧ u < d * d) (hv : 0 ≤ v ∧ v < d * d)
    (hrow : u / d = v / d) (hcol : v % d = u % d + 1 ∨ u % d = v % d + 1)
    (hsrc : 0 ≤ src ∧ src < d * d) (hdst : 0 ≤ dst ∧ dst < d * d) :
    ∃ r, (∀ fuel, r.length ≤ fuel →
        Mesh2D.route_fuel (d * d) [(u, v, 0)] fuel src dst = Except.ok r) ∧
      (r.length : Int) ≤ 2 * d + 1 ∧
      r.head? = some src ∧ r.getLast? = some dst ∧
      List.Chain' (fun a b => GridNeighbours d a b ∧ ¬ IsLink u v a b ∧
        Mesh2D.DetourHop d u v dst a b) r := by
  have hd0 : 0 ≤ d := by omega
  have hprogress := Mesh2D.broken_row_progress hd hu hv hrow hcol hdst
  obtain ⟨r, hwalk, hlen⟩ := @GridWalk.exists_of_measure (d * d)
    (fun cur => Except.ok (Mesh2D.next_device d [(u, v, 0)] dst cur)) dst
    (fun cur => 0 ≤ cur ∧ cur < d * d)
    (fun cur => (dst % d - cur % d).natAbs + (dst / d - cur / d).natAbs +
      (if cur % d ≠ dst % d ∧ cur / d = u / d then 2 else 0))
    (by
      intro cur hcur hne
      obtain ⟨b, hnext, hb, -, -, -, hm⟩ := hprogress cur hcur hne
      exact ⟨b, congrArg Except.ok hnext, hb, hb, hm⟩)
    _ src hsrc (le_refl _)
  refine ⟨src :: r, fun fuel hfuel => ?_, ?_, rfl, GridWalk.walk_getLast hwalk, ?_⟩
  · exact Mesh2D.route_fuel_of_walk hd0 hsrc hwalk fuel
      (by simp only [List.length_cons] at hfuel; omega)
  · obtain ⟨hsx, hsy, -⟩ := coord_of_device hsrc hd0
    obtain ⟨hdx, hdy, -⟩ := coord_of_device hdst hd0
    have hbonus : (if src % d ≠ dst % d ∧ src / d = u / d then 2 else 0) ≤ 2 := by
      split_ifs <;> omega
    rw [List.length_cons]
    push_cast
    omega
  · refine GridWalk.walk_chain_of_step ?_ r src dst hsrc hwalk
    intro a b ha hne hnext
    obtain ⟨b', hnext', -, hneigh, hnotlink, hhop, -⟩ := hprogress a ha hne
    have hb : b' = b := by
      have h := (congrArg Except.ok hnext').symm.trans hnext
      exact Option.some.inj (Except.ok.inj h)
    rw [← hb]
    exact ⟨hneigh, hnotlink, hhop⟩

theorem Mesh2D_route_detours_around_a_broken_horizontal_link_witness :
    ∃ r, (∀ fuel, r.length ≤ fuel →
        Mesh2D.route_fuel (3 * 3) [(1, 2, 0)] fuel 0 8 = Except.ok r) ∧
      (r.length : Int) ≤ 2 * 3 + 1 ∧
      r.head? = some 0 ∧ r.getLast? = some 8 ∧
      List.Chain' (fun a b => GridNeighbours 3 a b ∧ ¬ IsLink 1 2 a b ∧
        Mesh2D.DetourHop 3 1 2 8 a b) r :=
  Mesh2D_route_detours_around_a_broken_horizontal_link 3 1 2 0 8 (by decide) (by decide)
    (by decide) (by decide) (by decide) (by decide) (by decide)

theorem Mesh2D_route_0_8_around_1_2 :
    Mesh2D.route_fuel 9 [(1, 2, 0)] 5 0 8 = Except.ok [0, 1, 4, 5, 8] ∧
      Mesh2D.route_fuel 9 [(7, 8, 0)] 5 6 8 = Except.ok [6, 7, 4, 5, 8] := by
  decide

/-! ## Mesh2D and Torus2D: the fault lookup -/

theorem Mesh2D.fault_derate_eq_take (faulty_links : FaultyLinks) (u v : Int) :
    Mesh2D.fault_derate faulty_links u v = Ring.fault_derate (faulty_links.take 1) u v := by
  cases faulty_links with
  | nil => rfl
  | cons e rest =>
    obtain ⟨a, b, health⟩ := e
    rfl

theorem Torus2D.torus_fault_derate_eq_take (faulty_links : FaultyLinks) (u v : Int) :
    Torus2D.fault_derate faulty_links u v = Ring.fault_derate (faulty_links.take 1) u v := by
  cases faulty_links with
  | nil => rfl
  | cons e rest =>
    obtain ⟨a, b, health⟩ := e
    rfl

/-- C21, the code at a failing input. With the fault list `[(0, 1, 0.0), (1, 2, 0.0)]`,
`Ring::fault_derate(1, 2)` is `0`, the health of the second entry, whereas
`Mesh2D::fault_derate(1, 2)` and `Torus2D::fault_derate(1, 2)` are `1`: their loop returns `1`
at the first entry, which does not match. For every fault list they return what
`Ring::fault_derate` returns on the list cut after its first entry. -/
theorem grid_fault_derate_reads_only_the_first_entry :
    Ring.fault_derate [(0, 1, 0), (1, 2, 0)] 1 2 = 0 ∧
    Mesh2D.fault_derate [(0, 1, 0), (1, 2, 0)] 1 2 = 1 ∧
    Torus2D.fault_derate [(0, 1, 0), (1, 2, 0)] 1 2 = 1 ∧
    (∀ (faulty_links : FaultyLinks) (u v : Int),
      Mesh2D.fault_derate faulty_links u v = Ring.fault_derate (faulty_links.take 1) u v ∧
      Torus2D.fault_derate faulty_links u v = Ring.fault_derate (faulty_links.take 1) u v) :=
  ⟨by decide, by decide, by decide,
    fun faulty_links u v => ⟨Mesh2D.fault_derate_eq_take faulty_links u v,
      Torus2D.torus_fault_derate_eq_take faulty_links u v⟩⟩

/-! ## NetworkParser: the validation -/

namespace NetworkParser

theorem check_entries_result {α : Type} (bad : α → Bool) (l : List α) :
    (check_entries bad l = Except.ok () ∧ ∀ x ∈ l, bad x = false) ∨
    (check_entries bad l = Except.error Abort.exited ∧ ∃ x ∈ l, bad x = true) := by
  induction l with
  | nil => left; exact ⟨rfl, by simp⟩
  | cons x l ih =>
    cases hx : bad x with
    | true =>
      right
      refine ⟨by simp [check_entries, hx], x, List.mem_cons_self _ _, hx⟩
    | false =>
      have h : check_entries bad (x :: l) = check_entries bad l := by simp [check_entries, hx]
      rw [h]
      rcases ih with ⟨h1, h2⟩ | ⟨h1, y, hy, hby⟩
      · left
        refine ⟨h1, ?_⟩
        intro y hy
        rcases List.mem_cons.1 hy with rfl | hy
        · exact hx
        · exact h2 y hy
      · right
        exact ⟨h1, y, List.mem_cons_of_mem _ hy, hby⟩

theorem check_mask_values_result :
    ∀ (mask : List Int) (seen_one : Bool),
      (check_mask_values seen_one mask = Except.ok () ∧ ZerosThenOnes mask ∧
        (seen_one = true → ∀ v ∈ mask, v ≠ 0)) ∨
      (check_mask_values seen_one mask = Except.error Abort.exited ∧
        ¬ (ZerosThenOnes mask ∧ (seen_one = true → ∀ v ∈ mask, v ≠ 0))) := by
  intro mask
  induction mask with
  | nil =>
    intro seen_one
    left
    exact ⟨rfl, ⟨by simp, List.Pairwise.nil⟩, by simp⟩
  | cons v mask ih =>
    intro seen_one
    by_cases h01 : v ≠ 0 ∧ v ≠ 1
    · right
      refine ⟨by simp only [check_mask_values, if_pos h01]; rfl, ?_⟩
      rintro ⟨⟨hall, -⟩, -⟩
      have := hall v (List.mem_cons_self _ _)
      omega
    · by_cases hseen : seen_one = true ∧ v = 0
      · right
        refine ⟨by simp only [check_mask_values, if_neg h01, if_pos hseen]; rfl, ?_⟩
        rintro ⟨-, h⟩
        exact h hseen.1 v (List.mem_cons_self _ _) hseen.2
      · have hstep : check_mask_values seen_one (v :: mask) =
            check_mask_values (if v = 1 then true else seen_one) mask := by
          simp only [check_mask_values, if_neg h01, if_neg hseen]
        rw [hstep]
        have hv : v = 0 ∨ v = 1 := by omega
        rcases ih (if v = 1 then true else seen_one) with ⟨h1, ⟨hall, hpair⟩, hnz⟩ | ⟨h1, hnot⟩
        · left
          refine ⟨h1, ⟨?_, ?_⟩, ?_⟩
          · intro w hw
            rcases List.mem_cons.1 hw with rfl | hw
            · exact hv
            · exact hall w hw
          · refine List.Pairwise.cons ?_ hpair
            intro w hw hvw
            have := hnz (by rw [if_pos hvw.1]) w hw
            exact this hvw.2
          · intro hs w hw
            rcases List.mem_cons.1 hw with rfl | hw
            · intro hw0
              exact hseen ⟨hs, hw0⟩
            · refine hnz ?_ w hw
              rw [hs]
              split_ifs <;> rfl
        · right
          refine ⟨h1, ?_⟩
          rintro ⟨⟨hall, hpair⟩, hnz⟩
          apply hnot
          refine ⟨⟨fun w hw => hall w (List.mem_cons_of_mem _ hw), (List.pairwise_cons.1 hpair).2⟩,
            ?_⟩
          intro hs w hw
          by_cases hv1 : v = 1
          · intro hw0
            exact (List.pairwise_cons.1 hpair).1 w hw ⟨hv1, hw0⟩
          · rw [if_neg hv1] at hs
            exact hnz hs w (List.mem_cons_of_mem _ hw)

end NetworkParser

namespace NetworkParser

theorem Double.le_zero_of_gt_zero {x : Double} (h : x.gt_zero = true) : x.le_zero = false := by
  cases x with
  | number value =>
    simp only [Double.gt_zero, decide_eq_true_eq] at h
    simp only [Double.le_zero, decide_eq_false_iff_not]
    exact not_le.2 h
  | infinity => rfl
  | minus_infinity => exact absurd h (by decide)
  | nan => rfl

theorem Double.lt_zero_of_ge_zero {x : Double} (h : x.ge_zero = true) : x.lt_zero = false := by
  cases x with
  | number value =>
    simp only [Double.ge_zero, decide_eq_true_eq] at h
    simp only [Double.lt_zero, decide_eq_false_iff_not]
    exact not_lt.2 h
  | infinity => rfl
  | minus_infinity => exact absurd h (by decide)
  | nan => rfl

theorem Double.gt_zero_of_le_zero {x : Double} (hnan : x ≠ Double.nan)
    (h : x.le_zero = false) : x.gt_zero = true := by
  cases x with
  | number value =>
    simp only [Double.le_zero, decide_eq_false_iff_not] at h
    simp only [Double.gt_zero, decide_eq_true_eq]
    exact not_le.1 h
  | infinity => rfl
  | minus_infinity => exact absurd h (by decide)
  | nan => exact absurd rfl hnan

theorem Double.ge_zero_of_lt_zero {x : Double} (hnan : x ≠ Double.nan)
    (h : x.lt_zero = false) : x.ge_zero = true := by
  cases x with
  | number value =>
    simp only [Double.lt_zero, decide_eq_false_iff_not] at h
    simp only [Double.ge_zero, decide_eq_true_eq]
    exact not_lt.1 h
  | infinity => rfl
  | minus_infinity => exact absurd h (by decide)
  | nan => exact absurd rfl hnan

/-- Valid dimensions pass the tests of `check_validity`. -/
theorem accepted_of_valid {p : NetworkParser} (h : ValidDimensions p) : AcceptedDimensions p :=
  ⟨h.1, h.2.1, fun x hx => Double.le_zero_of_gt_zero (h.2.2.1 x hx),
    fun x hx => Double.lt_zero_of_ge_zero (h.2.2.2 x hx)⟩

/-- When no bandwidth and no latency is NaN, the dimensions that pass the tests of
`check_validity` are the valid ones. -/
theorem accepted_iff_valid {p : NetworkParser}
    (hbandwidth : ∀ bandwidth ∈ p.bandwidth_per_dim, bandwidth ≠ Double.nan)
    (hlatency : ∀ latency ∈ p.latency_per_dim, latency ≠ Double.nan) :
    AcceptedDimensions p ↔ ValidDimensions p :=
  ⟨fun h => ⟨h.1, h.2.1, fun x hx => Double.gt_zero_of_le_zero (hbandwidth x hx) (h.2.2.1 x hx),
    fun x hx => Double.ge_zero_of_lt_zero (hlatency x hx) (h.2.2.2 x hx)⟩, accepted_of_valid⟩

/-- What `check_validity` accepts: the dimensions pass its tests and the mask is empty, or has
the length `dims_count` and is a block of zeros followed by a block of ones. Everything else
makes the process exit. -/
theorem check_validity_result (p : NetworkParser) :
    (check_validity p = Except.ok () ∧ AcceptedDimensions p ∧
      (p.non_recursive_topo = [] ∨
        ((p.non_recursive_topo.length : Int) = p.dims_count ∧
          ZerosThenOnes p.non_recursive_topo))) ∨
    (check_validity p = Except.error Abort.exited ∧
      ¬ (AcceptedDimensions p ∧
        (p.non_recursive_topo = [] ∨
          ((p.non_recursive_topo.length : Int) = p.dims_count ∧
            ZerosThenOnes p.non_recursive_topo)))) := by
  unfold check_validity
  by_cases h1 : p.dims_count ≠ (p.npus_count_per_dim.length : Int)
  · right
    rw [if_pos h1]
    exact ⟨rfl, fun h => h1 h.1.1.1.symm⟩
  rw [if_neg h1]
  by_cases h2 : p.dims_count ≠ (p.bandwidth_per_dim.length : Int)
  · right
    rw [if_pos h2]
    exact ⟨rfl, fun h => h2 h.1.1.2.1.symm⟩
  rw [if_neg h2]
  by_cases h3 : p.dims_count ≠ (p.latency_per_dim.length : Int)
  · right
    rw [if_pos h3]
    exact ⟨rfl, fun h => h3 h.1.1.2.2.symm⟩
  rw [if_neg h3]
  have hlen : (p.npus_count_per_dim.length : Int) = p.dims_count ∧
      (p.bandwidth_per_dim.length : Int) = p.dims_count ∧
      (p.latency_per_dim.length : Int) = p.dims_count :=
    ⟨(not_not.1 h1).symm, (not_not.1 h2).symm, (not_not.1 h3).symm⟩
  rcases check_entries_result (fun (npus_count : Int) => decide (npus_count ≤ 1))
    p.npus_count_per_dim with ⟨hn, hnall⟩ | ⟨hn, x, hx, hbad⟩
  swap
  · right
    rw [hn]
    refine ⟨rfl, fun h => ?_⟩
    have := h.1.2.1 x hx
    simp only [decide_eq_true_eq] at hbad
    omega
  rw [hn]
  rcases check_entries_result (fun (bandwidth : Double) => bandwidth.le_zero)
    p.bandwidth_per_dim with ⟨hb, hball⟩ | ⟨hb, x, hx, hbad⟩
  swap
  · right
    rw [hb]
    refine ⟨rfl, fun h => ?_⟩
    have := h.1.2.2.1 x hx
    rw [this] at hbad
    exact absurd hbad (by decide)
  rw [hb]
  rcases check_entries_result (fun (latency : Double) => latency.lt_zero)
    p.latency_per_dim with ⟨hl, hlall⟩ | ⟨hl, x, hx, hbad⟩
  swap
  · right
    rw [hl]
    refine ⟨rfl, fun h => ?_⟩
    have := h.1.2.2.2 x hx
    rw [this] at hbad
    exact absurd hbad (by decide)
  rw [hl]
  have hvalid : AcceptedDimensions p := by
    refine ⟨hlen, ?_, ?_, ?_⟩
    · intro n hn'
      have := hnall n hn'
      simp only [decide_eq_false_iff_not] at this
      omega
    · intro b hb'
      exact hball b hb'
    · intro l hl'
      exact hlall l hl'
  simp only [ok_bind]
  by_cases hempty : p.non_recursive_topo ≠ []
  · rw [if_pos hempty]
    by_cases hsize : (p.non_recursive_topo.length : Int) ≠ p.dims_count
    · right
      rw [if_pos hsize]
      refine ⟨rfl, ?_⟩
      rintro ⟨-, h | h⟩
      · exact hempty h
      · exact hsize h.1
    · rw [if_neg hsize]
      rcases check_mask_values_result p.non_recursive_topo false with ⟨hm, hshape, -⟩ | ⟨hm, hnot⟩
      · left
        exact ⟨hm, hvalid, Or.inr ⟨not_not.1 hsize, hshape⟩⟩
      · right
        refine ⟨hm, ?_⟩
        rintro ⟨-, h | h⟩
        · exact hempty h
        · exact hnot ⟨h.2, by simp⟩
  · rw [if_neg hempty]
    left
    exact ⟨rfl, hvalid, Or.inl (not_not.1 hempty)⟩

end NetworkParser

theorem zerosThenOnes_nil : ZerosThenOnes [] :=
  ⟨by simp, List.Pairwise.nil⟩

theorem zerosThenOnes_iff_blocks (mask : List Int) :
    ZerosThenOnes mask ↔ ∃ k m : Nat, mask = List.replicate k 0 ++ List.replicate m 1 := by
  constructor
  · intro h
    induction mask with
    | nil => exact ⟨0, 0, rfl⟩
    | cons v mask ih =>
      obtain ⟨hall, hpair⟩ := h
      have hrest : ZerosThenOnes mask :=
        ⟨fun w hw => hall w (List.mem_cons_of_mem _ hw), (List.pairwise_cons.1 hpair).2⟩
      obtain ⟨k, m, hkm⟩ := ih hrest
      rcases hall v (List.mem_cons_self _ _) with hv | hv
      · refine ⟨k + 1, m, ?_⟩
        rw [hv, hkm, List.replicate_succ, List.cons_append]
      · have hk : k = 0 := by
          by_contra hk
          obtain ⟨j, rfl⟩ : ∃ j, k = j + 1 := ⟨k - 1, by omega⟩
          have hmem : (0 : Int) ∈ mask := by
            rw [hkm, List.replicate_succ, List.cons_append]
            exact List.mem_cons_self _ _
          exact (List.pairwise_cons.1 hpair).1 0 hmem ⟨hv, rfl⟩
        refine ⟨0, m + 1, ?_⟩
        rw [hv, hkm, hk, List.replicate_zero, List.nil_append, List.nil_append,
          List.replicate_succ]
  · rintro ⟨k, m, rfl⟩
    refine ⟨?_, ?_⟩
    · intro v hv
      rcases List.mem_append.1 hv with h | h
      · exact Or.inl (List.eq_of_mem_replicate h)
      · exact Or.inr (List.eq_of_mem_replicate h)
    · rw [List.pairwise_append]
      refine ⟨?_, ?_, ?_⟩
      · rw [List.pairwise_replicate]
        right
        rintro ⟨h, -⟩
        exact absurd h (by decide)
      · rw [List.pairwise_replicate]
        right
        rintro ⟨-, h⟩
        exact absurd h (by decide)
      · intro a ha b hb hab
        rw [List.eq_of_mem_replicate ha] at hab
        exact absurd hab.1 (by decide)

theorem parser_two_dimensions_valid (mask : List Int) :
    NetworkParser.ValidDimensions (parser_two_dimensions mask) := by
  refine ⟨⟨rfl, rfl, rfl⟩, ?_, ?_, ?_⟩
  · intro n hn
    simp only [parser_two_dimensions, List.mem_cons, List.mem_singleton, List.not_mem_nil,
      or_false, or_self] at hn
    omega
  · intro b hb
    simp only [parser_two_dimensions, List.mem_cons, List.mem_singleton, List.not_mem_nil,
      or_false, or_self] at hb
    rw [hb]
    decide
  · intro l hl
    simp only [parser_two_dimensions, List.mem_cons, List.mem_singleton, List.not_mem_nil,
      or_false, or_self] at hl
    rw [hl]
    decide

/-- C28, the code at a failing input. The configuration of two rings of 4 NPUs with
`bandwidth: [.nan, 1]` is accepted by `NetworkParser::check_validity` and parsed, although its
first bandwidth is not above 0: the code rejects a bandwidth when `bandwidth <= 0` and a
latency when `latency < 0`, and both comparisons are false for NaN (its comments say
"bandwidths should be all positive" and "latency should be non-negative"). A latency NaN is
accepted in the same way. For every parsed configuration whose mask is valid (it has the
length `dims_count` and is a block of zeros followed by a block of ones), `check_validity`
accepts the configuration if and only if the three vectors have the length `dims_count`, every
NPU count is above 1, no bandwidth satisfies `bandwidth <= 0` and no latency satisfies
`latency < 0`; otherwise the process exits. Every configuration of valid dimensions passes
these tests, and when no bandwidth and no latency is NaN the configurations that pass them are
exactly those of valid dimensions (every bandwidth above 0, every latency at least 0). -/
theorem check_validity_accepts_a_nan_bandwidth :
    (NetworkParser.parse_network_config_yml config_two_rings_nan_bandwidth =
        Except.ok parser_nan_bandwidth ∧
      ((parser_nan_bandwidth.non_recursive_topo.length : Int) =
          parser_nan_bandwidth.dims_count ∧
        ZerosThenOnes parser_nan_bandwidth.non_recursive_topo) ∧
      NetworkParser.check_validity parser_nan_bandwidth = Except.ok () ∧
      ¬ NetworkParser.ValidDimensions parser_nan_bandwidth) ∧
    (((parser_nan_latency.non_recursive_topo.length : Int) = parser_nan_latency.dims_count ∧
        ZerosThenOnes parser_nan_latency.non_recursive_topo) ∧
      NetworkParser.check_validity parser_nan_latency = Except.ok () ∧
      ¬ NetworkParser.ValidDimensions parser_nan_latency) ∧
    (∀ p : NetworkParser,
      ((p.non_recursive_topo.length : Int) = p.dims_count ∧
        ZerosThenOnes p.non_recursive_topo) →
      (NetworkParser.check_validity p = Except.ok () ↔ NetworkParser.AcceptedDimensions p) ∧
      (¬ NetworkParser.AcceptedDimensions p →
        NetworkParser.check_validity p = Except.error Abort.exited)) ∧
    (∀ p : NetworkParser, NetworkParser.ValidDimensions p →
      NetworkParser.AcceptedDimensions p) ∧
    (∀ p : NetworkParser,
      (∀ bandwidth ∈ p.bandwidth_per_dim, bandwidth ≠ Double.nan) →
      (∀ latency ∈ p.latency_per_dim, latency ≠ Double.nan) →
      (NetworkParser.AcceptedDimensions p ↔ NetworkParser.ValidDimensions p)) := by
  refine ⟨⟨rfl, ⟨rfl, by simp [ZerosThenOnes, parser_nan_bandwidth]⟩, by decide, ?_⟩,
    ⟨⟨rfl, by simp [ZerosThenOnes, parser_nan_latency]⟩, by decide, ?_⟩, ?_,
    fun p h => NetworkParser.accepted_of_valid h,
    fun p hbandwidth hlatency => NetworkParser.accepted_iff_valid hbandwidth hlatency⟩
  · intro h
    have hnan := h.2.2.1 Double.nan (by simp [parser_nan_bandwidth])
    exact absurd hnan (by decide)
  · intro h
    have hnan := h.2.2.2 Double.nan (by simp [parser_nan_latency])
    exact absurd hnan (by decide)
  · intro p hmask
    rcases NetworkParser.check_validity_result p with ⟨hok, haccepted, -⟩ | ⟨herr, hnot⟩
    · exact ⟨⟨fun _ => haccepted, fun _ => hok⟩, fun h => absurd haccepted h⟩
    · have hrejected : ¬ NetworkParser.AcceptedDimensions p :=
        fun h => hnot ⟨h, Or.inr hmask⟩
      refine ⟨⟨fun h => ?_, fun h => absurd h hrejected⟩, fun _ => herr⟩
      rw [herr] at h
      exact absurd h (by simp)

/-- C29. For every parsed configuration whose dimensions are valid and whose mask has the
length `dims_count`, `NetworkParser::check_validity` accepts the configuration if and only if
every entry of the mask is 0 or 1 and no 0 occurs after a 1, that is, if and only if the mask
is a block of zeros followed by a block of ones; every other mask makes the process exit. -/
theorem check_validity_accepts_zeros_then_ones (p : NetworkParser)
    (hdims : NetworkParser.ValidDimensions p)
    (hlen : (p.non_recursive_topo.length : Int) = p.dims_count) :
    (NetworkParser.check_validity p = Except.ok () ↔ ZerosThenOnes p.non_recursive_topo) ∧
    (¬ ZerosThenOnes p.non_recursive_topo →
      NetworkParser.check_validity p = Except.error Abort.exited) ∧
    (ZerosThenOnes p.non_recursive_topo ↔
      ∃ k m : Nat, p.non_recursive_topo = List.replicate k 0 ++ List.replicate m 1) := by
  refine ⟨?_, ?_, zerosThenOnes_iff_blocks _⟩
  · rcases NetworkParser.check_validity_result p with ⟨hok, -, hm⟩ | ⟨herr, hnot⟩
    · refine ⟨fun _ => ?_, fun _ => hok⟩
      rcases hm with h | h
      · rw [h]
        exact zerosThenOnes_nil
      · exact h.2
    · refine ⟨fun h => ?_,
        fun h => absurd ⟨NetworkParser.accepted_of_valid hdims, Or.inr ⟨hlen, h⟩⟩ hnot⟩
      rw [herr] at h
      exact absurd h (by simp)
  · intro hshape
    rcases NetworkParser.check_validity_result p with ⟨-, -, hm⟩ | ⟨herr, -⟩
    · rcases hm with h | h
      · rw [h] at hshape
        exact absurd zerosThenOnes_nil hshape
      · exact absurd h.2 hshape
    · exact herr

theorem check_validity_accepts_zeros_then_ones_witness :
    (NetworkParser.check_validity (parser_two_dimensions [1, 0]) = Except.ok () ↔
      ZerosThenOnes (parser_two_dimensions [1, 0]).non_recursive_topo) ∧
    (¬ ZerosThenOnes (parser_two_dimensions [1, 0]).non_recursive_topo →
      NetworkParser.check_validity (parser_two_dimensions [1, 0]) =
        Except.error Abort.exited) ∧
    (ZerosThenOnes (parser_two_dimensions [1, 0]).non_recursive_topo ↔
      ∃ k m : Nat, (parser_two_dimensions [1, 0]).non_recursive_topo =
        List.replicate k 0 ++ List.replicate m 1) :=
  check_validity_accepts_zeros_then_ones (parser_two_dimensions [1, 0])
    (parser_two_dimensions_valid [1, 0]) rfl

/-- C30, the code at a failing input. The configuration of two rings of 4 NPUs that gives the
mask as the empty array `non_recursive_topology: []` is accepted: `check_validity` tests the
length of the mask only when the mask is not empty. The parsed mask is the empty list, whose
length is not `dims_count = 2`, and the constructor of `MultiDimTopology`, which reads
`m_non_recursive_topo.at(size - 1)`, stops at this read, out of range. More generally every
parsed configuration with valid dimensions and an empty mask is accepted. -/
theorem check_validity_accepts_the_empty_mask :
    (∃ p, NetworkParser.parse_network_config_yml config_two_rings_empty_mask = Except.ok p ∧
      p.dims_count = 2 ∧ p.non_recursive_topo = [] ∧
      MultiDimTopology.create p.faulty_links p.non_recursive_topo =
        Except.error Abort.out_of_range) ∧
    (∀ p : NetworkParser, NetworkParser.ValidDimensions p → p.non_recursive_topo = [] →
      NetworkParser.check_validity p = Except.ok ()) := by
  refine ⟨?_, ?_⟩
  · have hvalid : NetworkParser.check_validity (parser_two_dimensions []) = Except.ok () := by
      rcases NetworkParser.check_validity_result (parser_two_dimensions []) with
        ⟨hok, -⟩ | ⟨-, hnot⟩
      · exact hok
      · exact absurd ⟨NetworkParser.accepted_of_valid (parser_two_dimensions_valid []),
          Or.inl rfl⟩ hnot
    have hnames : NetworkParser.parse_topology_names ["Ring", "Ring"] =
        Except.ok [TopologyBuildingBlock.Ring, TopologyBuildingBlock.Ring] := by
      decide
    refine ⟨parser_two_dimensions [], ?_, rfl, rfl, rfl⟩
    have hparse : NetworkParser.parse_network_config_yml config_two_rings_empty_mask =
        (NetworkParser.parse_topology_names ["Ring", "Ring"] >>= fun topology_per_dim =>
          NetworkParser.check_validity
            { dims_count := (topology_per_dim.length : Int)
              npus_count_per_dim := [4, 4]
              bandwidth_per_dim := [1, 1]
              latency_per_dim := [1, 1]
              topology_per_dim := topology_per_dim
              faulty_links := []
              non_recursive_topo := [] } >>= fun _ =>
          pure
            { dims_count := (topology_per_dim.length : Int)
              npus_count_per_dim := [4, 4]
              bandwidth_per_dim := [1, 1]
              latency_per_dim := [1, 1]
              topology_per_dim := topology_per_dim
              faulty_links := []
              non_recursive_topo := [] }) := rfl
    rw [hparse, hnames]
    simp only [ok_bind]
    show (NetworkParser.check_validity (parser_two_dimensions []) >>= fun _ =>
      (pure (parser_two_dimensions []) : Except Abort NetworkParser)) = _
    rw [hvalid]
    rfl
  · intro p hvalid hempty
    rcases NetworkParser.check_validity_result p with ⟨hok, -⟩ | ⟨-, hnot⟩
    · exact hok
    · exact absurd ⟨NetworkParser.accepted_of_valid hvalid, Or.inl hempty⟩ hnot

/-! ## The constructors of the basic topologies -/

theorem mem_loop_range {n i : Int} : i ∈ loop_range n ↔ 0 ≤ i ∧ i < n := by
  unfold loop_range
  simp only [List.mem_map, List.mem_range]
  constructor
  · rintro ⟨k, hk, rfl⟩
    omega
  · rintro ⟨h0, h1⟩
    exact ⟨i.toNat, by omega, by omega⟩

theorem mem_connect {src dest : DeviceId} {bandwidth latency : Rat} {bidirectional : Bool}
    {link : Link} :
    link ∈ connect src dest bandwidth latency bidirectional ↔
      link = { src := src, dest := dest, bandwidth := bandwidth, latency := latency } ∨
      (bidirectional = true ∧
        link = { src := dest, dest := src, bandwidth := bandwidth, latency := latency }) := by
  unfold connect
  cases bidirectional <;> simp

/-- The two branches of a constructor on the health of a link make one `connect` call, whose
bandwidth is the nominal one when the health is zero. -/
theorem connect_derated (src dest : DeviceId) (health derated nominal latency : Rat)
    (bidirectional : Bool) :
    (if health ≠ 0 then connect src dest derated latency bidirectional
      else connect src dest nominal latency bidirectional) =
    connect src dest (if health ≠ 0 then derated else nominal) latency bidirectional := by
  split_ifs <;> rfl

theorem Ring.ring_create_standalone {n : Int} {bandwidth latency : Rat} (bidirectional : Bool)
    (faulty_links : FaultyLinks) (hn : 0 < n) (hbw : 0 < bandwidth) (hlat : 0 ≤ latency) :
    Ring.create n bandwidth latency bidirectional false faulty_links =
      Except.ok ((loop_range (n - 1)).flatMap (fun i =>
          connect i (i + 1)
            (if Ring.fault_derate faulty_links i (i + 1) ≠ 0
              then bandwidth * Ring.fault_derate faulty_links i (i + 1) * 2 else bandwidth * 2)
            latency bidirectional)
        ++ connect (n - 1) 0
            (if Ring.fault_derate faulty_links (n - 1) 0 ≠ 0
              then bandwidth * Ring.fault_derate faulty_links (n - 1) 0 * 2 else bandwidth * 2)
            latency bidirectional) := by
  have h1 : n > 0 := hn
  have h2 : bandwidth > 0 := hbw
  have h3 : latency ≥ 0 := hlat
  simp only [Ring.create, cassert_ok h1, cassert_ok h2, cassert_ok h3, ok_bind, if_true,
    pure_eq_ok, connect_derated]

/-- C24. A standalone `Ring(n, bw, lat, bidir)` with any fault list installs exactly the links
`(i -> (i + 1) mod n)` for `i` in `[0, n)`, plus the reverse links when it is bidirectional,
and every installed link `(u, v)` has the bandwidth `2 * bw * fault_derate(u, v)` when
`fault_derate(u, v)` is not zero and `2 * bw` otherwise. -/
theorem Ring_constructor_installs_the_ring (n : Int) (bandwidth latency : Rat)
    (bidirectional : Bool) (faulty_links : FaultyLinks)
    (hn : 0 < n) (hbw : 0 < bandwidth) (hlat : 0 ≤ latency) :
    ∃ links, Ring.create n bandwidth latency bidirectional false faulty_links = Except.ok links ∧
      (∀ a b : Int, Installed links a b ↔
        ∃ i : Int, (0 ≤ i ∧ i < n) ∧
          ((a = i ∧ b = (i + 1) % n) ∨ (bidirectional = true ∧ a = (i + 1) % n ∧ b = i))) ∧
      (∀ link ∈ links, link.bandwidth =
        if Ring.fault_derate faulty_links link.src link.dest ≠ 0
          then 2 * bandwidth * Ring.fault_derate faulty_links link.src link.dest
          else 2 * bandwidth) := by
  refine ⟨_, Ring.ring_create_standalone bidirectional faulty_links hn hbw hlat, ?_, ?_⟩
  · intro a b
    unfold Installed
    simp only [List.mem_append, List.mem_flatMap, mem_loop_range, mem_connect]
    constructor
    · rintro ⟨link, (⟨i, hi, hlink⟩ | hlink), rfl, rfl⟩
      · have hmod : (i + 1) % n = i + 1 := Int.emod_eq_of_lt (by omega) (by omega)
        refine ⟨i, by omega, ?_⟩
        rw [hmod]
        rcases hlink with rfl | ⟨hb, rfl⟩
        · exact Or.inl ⟨rfl, rfl⟩
        · exact Or.inr ⟨hb, rfl, rfl⟩
      · have hmod : (n - 1 + 1) % n = 0 := by
          rw [Int.sub_add_cancel, Int.emod_self]
        refine ⟨n - 1, by omega, ?_⟩
        rw [hmod]
        rcases hlink with rfl | ⟨hb, rfl⟩
        · exact Or.inl ⟨rfl, rfl⟩
        · exact Or.inr ⟨hb, rfl, rfl⟩
    · rintro ⟨i, hi, h⟩
      by_cases hlast : i + 1 = n
      · have hi' : i = n - 1 := by omega
        have hmod : (i + 1) % n = 0 := by rw [hlast, Int.emod_self]
        rw [hmod, hi'] at h
        rcases h with ⟨rfl, rfl⟩ | ⟨hb, rfl, rfl⟩
        · exact ⟨_, Or.inr (Or.inl rfl), rfl, rfl⟩
        · exact ⟨_, Or.inr (Or.inr ⟨hb, rfl⟩), rfl, rfl⟩
      · have hmod : (i + 1) % n = i + 1 := Int.emod_eq_of_lt (by omega) (by omega)
        rw [hmod] at h
        rcases h with ⟨rfl, rfl⟩ | ⟨hb, rfl, rfl⟩
        · exact ⟨_, Or.inl ⟨a, by omega, Or.inl rfl⟩, rfl, rfl⟩
        · exact ⟨_, Or.inl ⟨b, by omega, Or.inr ⟨hb, rfl⟩⟩, rfl, rfl⟩
  · intro link hlink
    simp only [List.mem_append, List.mem_flatMap, mem_loop_range, mem_connect] at hlink
    rcases hlink with ⟨i, -, (rfl | ⟨-, rfl⟩)⟩ | (rfl | ⟨-, rfl⟩)
    · simp only
      split_ifs <;> ring
    · simp only
      rw [show Ring.fault_derate faulty_links (i + 1) i = Ring.fault_derate faulty_links i (i + 1)
        from fault_derate_symm _ _ _]
      split_ifs <;> ring
    · simp only
      split_ifs <;> ring
    · simp only
      rw [show Ring.fault_derate faulty_links 0 (n - 1) =
        Ring.fault_derate faulty_links (n - 1) 0 from fault_derate_symm _ _ _]
      split_ifs <;> ring

theorem Ring_constructor_installs_the_ring_witness :
    ∃ links, Ring.create 4 1 1 true false [(0, 1, 0)] = Except.ok links ∧
      (∀ a b : Int, Installed links a b ↔
        ∃ i : Int, (0 ≤ i ∧ i < 4) ∧
          ((a = i ∧ b = (i + 1) % 4) ∨ (true = true ∧ a = (i + 1) % 4 ∧ b = i))) ∧
      (∀ link ∈ links, link.bandwidth =
        if Ring.fault_derate [(0, 1, 0)] link.src link.dest ≠ 0
          then 2 * 1 * Ring.fault_derate [(0, 1, 0)] link.src link.dest
          else 2 * 1) :=
  Ring_constructor_installs_the_ring 4 1 1 true [(0, 1, 0)] (by decide) (by norm_num)
    (by norm_num)

/-! ## The bandwidth of the installed links -/

namespace MultiDimTopology

theorem connect_address_pairs_origin {t : MultiDimTopology} {dim : Nat}
    {topology : BasicTopology} :
    ∀ (pairs : List (MultiDimAddress × MultiDimAddress)) (links : List Link),
      connect_address_pairs t dim topology pairs = Except.ok links →
      ∀ link ∈ links, ∃ pair ∈ pairs,
        connect_address_pair t dim topology pair = Except.ok link := by
  intro pairs
  induction pairs with
  | nil =>
    intro links h link hl
    simp only [connect_address_pairs, pure_eq_ok, Except.ok.injEq] at h
    rw [← h] at hl
    simp at hl
  | cons p pairs ih =>
    intro links h link hl
    rw [connect_address_pairs] at h
    obtain ⟨first, hfirst, h⟩ := bind_eq_ok h
    obtain ⟨rest, hrest, h⟩ := bind_eq_ok h
    simp only [pure_eq_ok, Except.ok.injEq] at h
    rw [← h] at hl
    rcases List.mem_cons.1 hl with rfl | hl
    · exact ⟨p, List.mem_cons_self _ _, hfirst⟩
    · obtain ⟨pair, hp, hpair⟩ := ih rest hrest link hl
      exact ⟨pair, List.mem_cons_of_mem _ hp, hpair⟩

theorem connect_policies_pair_origin {t : MultiDimTopology} {dim : Nat}
    {topology : BasicTopology}
    {pairs_of : ConnectionPolicy → List (MultiDimAddress × MultiDimAddress)} :
    ∀ (policies : List ConnectionPolicy) (links : List Link),
      connect_policies t dim topology pairs_of policies = Except.ok links →
      ∀ link ∈ links, ∃ policy ∈ policies, ∃ pair ∈ pairs_of policy,
        connect_address_pair t dim topology pair = Except.ok link := by
  intro policies
  induction policies with
  | nil =>
    intro links h link hl
    simp only [connect_policies, pure_eq_ok, Except.ok.injEq] at h
    rw [← h] at hl
    simp at hl
  | cons p policies ih =>
    intro links h link hl
    rw [connect_policies] at h
    obtain ⟨first, hfirst, h⟩ := bind_eq_ok h
    obtain ⟨rest, hrest, h⟩ := bind_eq_ok h
    simp only [pure_eq_ok, Except.ok.injEq] at h
    rw [← h] at hl
    rcases List.mem_append.1 hl with hl | hl
    · obtain ⟨pair, hp, hpair⟩ := connect_address_pairs_origin _ _ hfirst link hl
      exact ⟨p, List.mem_cons_self _ _, pair, hp, hpair⟩
    · obtain ⟨policy, hpolicy, pair, hp, hpair⟩ := ih rest hrest link hl
      exact ⟨policy, List.mem_cons_of_mem _ hpolicy, pair, hp, hpair⟩

/-- The links of a loop over the dimensions are the links of its iterations, one list per
dimension, in order. -/
theorem connections_from_split {of_dim : Nat → Except Abort (List Link)} :
    ∀ (count dim : Nat) (links : List Link),
      connections_from of_dim count dim = Except.ok links →
      ∃ per_dim : List (List Link), per_dim.length = count ∧ links = per_dim.flatten ∧
        ∀ k, k < count → ∃ installed, per_dim[k]? = some installed ∧
          of_dim (dim + k) = Except.ok installed := by
  intro count
  induction count with
  | zero =>
    intro dim links h
    simp only [connections_from, pure_eq_ok, Except.ok.injEq] at h
    exact ⟨[], rfl, by rw [← h]; rfl, fun k hk => absurd hk (Nat.not_lt_zero k)⟩
  | succ count ih =>
    intro dim links h
    rw [connections_from] at h
    obtain ⟨first, hfirst, h⟩ := bind_eq_ok h
    obtain ⟨rest, hrest, h⟩ := bind_eq_ok h
    simp only [pure_eq_ok, Except.ok.injEq] at h
    obtain ⟨per_dim, hlen, hflat, hall⟩ := ih (dim + 1) rest hrest
    refine ⟨first :: per_dim, by rw [List.length_cons, hlen], ?_, ?_⟩
    · rw [← h, hflat, List.flatten_cons]
    · intro k hk
      cases k with
      | zero => exact ⟨first, List.getElem?_cons_zero, hfirst⟩
      | succ k =>
        obtain ⟨installed, hget, hof⟩ := hall k (by omega)
        refine ⟨installed, by rw [List.getElem?_cons_succ]; exact hget, ?_⟩
        rw [show dim + (k + 1) = dim + 1 + k by omega]
        exact hof

/-- The links of `make_connections`, dimension by dimension: the links installed for the
dimension `dim` are those of the body of its loop for `dim`; each comes from a connection
policy of the topology of `dim` and one of its address pairs, and has the bandwidth of `dim`
derated by the health of the link (not derated when the health is zero) and the link latency
of the topology of `dim`. -/
theorem make_connections_per_dimension {t : MultiDimTopology} {links : List Link}
    (h : make_connections t = Except.ok links) :
    ∃ per_dim : List (List Link), per_dim.length = t.dims_count ∧ links = per_dim.flatten ∧
      ∀ dim, dim < t.dims_count → ∃ (installed : List Link) (topology : BasicTopology),
        per_dim[dim]? = some installed ∧
        connections_of_dim t dim = Except.ok installed ∧
        t.m_topology_per_dim[dim]? = some topology ∧
        ∀ link ∈ installed,
          (∃ policy ∈ topology.get_connection_policies,
            ∃ pair ∈ generateAddressPairs t.npus_count_per_dim policy dim,
              address_to_id t pair.1 = Except.ok link.src ∧
              address_to_id t pair.2 = Except.ok link.dest) ∧
          ∃ nominal, t.bandwidth_per_dim[dim]? = some nominal ∧
            link.bandwidth = (if fault_derate t link.src link.dest ≠ 0
              then nominal * fault_derate t link.src link.dest else nominal) ∧
            link.latency = topology.latency := by
  have h' : connections_from (connections_of_dim t) t.dims_count 0 = Except.ok links := by
    unfold make_connections at h
    by_cases hunit : t.m_switch_translation_unit.isNone = true
    · rw [if_pos hunit] at h
      cases h
    · rw [if_neg hunit] at h
      exact h
  obtain ⟨per_dim, hlen, hflat, hall⟩ := connections_from_split _ _ _ h'
  refine ⟨per_dim, hlen, hflat, ?_⟩
  intro dim hdim
  obtain ⟨installed, hget, hof⟩ := hall dim hdim
  rw [Nat.zero_add] at hof
  have hof' := hof
  unfold connections_of_dim at hof'
  obtain ⟨topology, htop, hof'⟩ := bind_eq_ok hof'
  obtain ⟨u, -, hof'⟩ := bind_eq_ok hof'
  have htop' : t.m_topology_per_dim[dim]? = some topology := by
    unfold vector_at at htop
    cases hg : t.m_topology_per_dim[dim]? with
    | none => rw [hg] at htop; simp at htop
    | some x =>
      rw [hg] at htop
      simp only [Except.ok.injEq] at htop
      rw [htop]
  refine ⟨installed, topology, hget, hof, htop', ?_⟩
  intro link hlink
  obtain ⟨policy, hpolicy, pair, hpair, hconnect⟩ :=
    connect_policies_pair_origin _ _ hof' link hlink
  obtain ⟨hsrc, hdest, hlat, nominal, hnominal, hbw⟩ := connect_address_pair_eq_ok hconnect
  refine ⟨⟨policy, hpolicy, pair, hpair, hsrc, hdest⟩, nominal, ?_, hbw, hlat⟩
  unfold vector_at at hnominal
  cases hg : t.bandwidth_per_dim[dim]? with
  | none => rw [hg] at hnominal; simp at hnominal
  | some x =>
    rw [hg] at hnominal
    simp only [Except.ok.injEq] at hnominal
    rw [hnominal]

end MultiDimTopology

theorem Mesh2D.mesh2d_fault_derate_symm (faulty_links : FaultyLinks) (u v : Int) :
    Mesh2D.fault_derate faulty_links u v = Mesh2D.fault_derate faulty_links v u := by
  rw [Mesh2D.fault_derate_eq_take, Mesh2D.fault_derate_eq_take]
  exact fault_derate_symm _ _ _

theorem FullyConnected.fully_connected_create_standalone {n : Int} {bandwidth latency : Rat}
    (bidirectional : Bool) (faulty_links : FaultyLinks)
    (hn : 0 < n) (hbw : 0 < bandwidth) (hlat : 0 ≤ latency) :
    FullyConnected.create n bandwidth latency bidirectional false faulty_links =
      Except.ok ((loop_range n).flatMap (fun src =>
        (loop_range n).flatMap (fun dest =>
          if src ≠ dest then
            connect src dest
              (if FullyConnected.fault_derate faulty_links src dest ≠ 0
                then bandwidth * FullyConnected.fault_derate faulty_links src dest
                else bandwidth) latency false
          else []))) := by
  have h1 : n > 0 := hn
  have h2 : bandwidth > 0 := hbw
  have h3 : latency ≥ 0 := hlat
  simp only [FullyConnected.create, cassert_ok h1, cassert_ok h2, cassert_ok h3, ok_bind,
    if_true, pure_eq_ok, connect_derated]

theorem Switch.switch_create_standalone {n : Int} {bandwidth latency : Rat}
    (bidirectional : Bool) (faulty_links : FaultyLinks)
    (hn : 0 < n) (hbw : 0 < bandwidth) (hlat : 0 ≤ latency) :
    Switch.create n bandwidth latency bidirectional false faulty_links =
      Except.ok ((loop_range n).flatMap (fun i =>
        connect i (Switch.switch_id n)
          (if Switch.fault_derate faulty_links i (Switch.switch_id n) ≠ 0
            then bandwidth * Switch.fault_derate faulty_links i (Switch.switch_id n)
            else bandwidth) latency bidirectional)) := by
  have h1 : n > 0 := hn
  have h2 : bandwidth > 0 := hbw
  have h3 : latency ≥ 0 := hlat
  simp only [Switch.create, cassert_ok h1, cassert_ok h2, cassert_ok h3, ok_bind,
    if_true, pure_eq_ok, connect_derated]

theorem Mesh2D.mesh2d_create_standalone {d : Int} {bandwidth latency : Rat}
    (bidirectional : Bool) (faulty_links : FaultyLinks)
    (hd : 0 < d) (hbw : 0 < bandwidth) (hlat : 0 ≤ latency) :
    Mesh2D.create (d * d) bandwidth latency bidirectional false faulty_links =
      Except.ok ((loop_range d).flatMap (fun row =>
        (loop_range d).flatMap (fun col =>
          (if col + 1 < d then
            connect (row * d + col) (row * d + (col + 1))
              (if Mesh2D.fault_derate faulty_links (row * d + col) (row * d + (col + 1)) ≠ 0
                then bandwidth *
                  Mesh2D.fault_derate faulty_links (row * d + col) (row * d + (col + 1))
                else bandwidth) latency bidirectional
          else []) ++
          (if row + 1 < d then
            connect (row * d + col) ((row + 1) * d + col)
              (if Mesh2D.fault_derate faulty_links (row * d + col) ((row + 1) * d + col) ≠ 0
                then bandwidth *
                  Mesh2D.fault_derate faulty_links (row * d + col) ((row + 1) * d + col)
                else bandwidth) latency bidirectional
          else [])))) := by
  have h1 : d * d > 0 := Int.mul_pos hd hd
  have h2 : bandwidth > 0 := hbw
  have h3 : latency ≥ 0 := hlat
  have h4 : d * d = d * d := rfl
  simp only [Mesh2D.create, cassert_ok h1, cassert_ok h2, cassert_ok h3, ok_bind,
    if_true, pure_eq_ok, connect_derated, int_sqrt_sq (le_of_lt hd), cassert_ok h4]
  rfl

theorem mem_of_mem_ite_nil {α : Type} {c : Prop} [Decidable c] {l : List α} {x : α}
    (h : x ∈ (if c then l else [])) : c ∧ x ∈ l := by
  by_cases hc : c
  · rw [if_pos hc] at h
    exact ⟨hc, h⟩
  · rw [if_neg hc] at h
    cases h

/-- A link installed by a `connect` call with the derated bandwidth of a symmetric lookup has
the derated bandwidth of its own end points. -/
theorem derated_of_mem_connect {g : DeviceId → DeviceId → Rat} (hsymm : ∀ a b, g a b = g b a)
    {a b : DeviceId} {bandwidth latency : Rat} {bidirectional : Bool} {link : Link}
    (h : link ∈ connect a b (if g a b ≠ 0 then bandwidth * g a b else bandwidth) latency
      bidirectional) :
    link.bandwidth = (if g link.src link.dest ≠ 0 then bandwidth * g link.src link.dest
      else bandwidth) ∧ link.latency = latency := by
  rcases mem_connect.1 h with rfl | ⟨-, rfl⟩
  · exact ⟨rfl, rfl⟩
  · refine ⟨?_, rfl⟩
    show _ = if g b a ≠ 0 then bandwidth * g b a else bandwidth
    rw [hsymm b a]

/-- C22. The links that `MultiDimTopology::make_connections` installs are, in order, the
links it installs for the dimension 0, for the dimension 1, and so on. Every link `(u -> v)`
installed for the dimension `d` (by the body of the loop for `d`) joins the devices of an
address pair of a connection policy of the topology of `d`, and has the bandwidth
`bandwidth_per_dim[d] * fault_derate(u, v)` when `fault_derate(u, v)` is not zero and
`bandwidth_per_dim[d]` otherwise, and the link latency of the topology of the dimension `d`.
Every link that the standalone constructors of `FullyConnected`, of `Switch` and of `Mesh2D`
install has the bandwidth `bandwidth * fault_derate(u, v)` when `fault_derate(u, v)` is not
zero and `bandwidth` otherwise, `fault_derate` being the lookup of that topology, and the
latency of the constructor. -/
theorem installed_bandwidth_is_derated (t : MultiDimTopology) (n d : Int)
    (bandwidth latency : Rat) (bidirectional : Bool) (faulty_links : FaultyLinks)
    (hn : 0 < n) (hd : 0 < d) (hbw : 0 < bandwidth) (hlat : 0 ≤ latency) :
    (∀ links, MultiDimTopology.make_connections t = Except.ok links →
      ∃ per_dim : List (List Link), per_dim.length = t.dims_count ∧
        links = per_dim.flatten ∧
        ∀ dim, dim < t.dims_count → ∃ (installed : List Link) (topology : BasicTopology),
          per_dim[dim]? = some installed ∧
          MultiDimTopology.connections_of_dim t dim = Except.ok installed ∧
          t.m_topology_per_dim[dim]? = some topology ∧
          ∀ link ∈ installed,
            (∃ policy ∈ topology.get_connection_policies,
              ∃ pair ∈ MultiDimTopology.generateAddressPairs t.npus_count_per_dim policy dim,
                MultiDimTopology.address_to_id t pair.1 = Except.ok link.src ∧
                MultiDimTopology.address_to_id t pair.2 = Except.ok link.dest) ∧
            ∃ nominal, t.bandwidth_per_dim[dim]? = some nominal ∧
              link.bandwidth =
                (if MultiDimTopology.fault_derate t link.src link.dest ≠ 0
                  then nominal * MultiDimTopology.fault_derate t link.src link.dest
                  else nominal) ∧
              link.latency = topology.latency) ∧
    (∃ links, FullyConnected.create n bandwidth latency bidirectional false faulty_links =
        Except.ok links ∧
      ∀ link ∈ links,
        link.bandwidth = (if FullyConnected.fault_derate faulty_links link.src link.dest ≠ 0
          then bandwidth * FullyConnected.fault_derate faulty_links link.src link.dest
          else bandwidth) ∧
        link.latency = latency) ∧
    (∃ links, Switch.create n bandwidth latency bidirectional false faulty_links =
        Except.ok links ∧
      ∀ link ∈ links,
        link.bandwidth = (if Switch.fault_derate faulty_links link.src link.dest ≠ 0
          then bandwidth * Switch.fault_derate faulty_links link.src link.dest
          else bandwidth) ∧
        link.latency = latency) ∧
    (∃ links, Mesh2D.create (d * d) bandwidth latency bidirectional false faulty_links =
        Except.ok links ∧
      ∀ link ∈ links,
        link.bandwidth = (if Mesh2D.fault_derate faulty_links link.src link.dest ≠ 0
          then bandwidth * Mesh2D.fault_derate faulty_links link.src link.dest
          else bandwidth) ∧
        link.latency = latency) := by
  refine ⟨fun links h => MultiDimTopology.make_connections_per_dimension h,
    ⟨_, FullyConnected.fully_connected_create_standalone bidirectional faulty_links hn hbw hlat, ?_⟩,
    ⟨_, Switch.switch_create_standalone bidirectional faulty_links hn hbw hlat, ?_⟩,
    ⟨_, Mesh2D.mesh2d_create_standalone bidirectional faulty_links hd hbw hlat, ?_⟩⟩
  · intro link hlink
    simp only [List.mem_flatMap, mem_loop_range] at hlink
    obtain ⟨src, -, dest, -, hlink⟩ := hlink
    exact derated_of_mem_connect (fault_derate_symm faulty_links) (mem_of_mem_ite_nil hlink).2
  · intro link hlink
    simp only [List.mem_flatMap, mem_loop_range] at hlink
    obtain ⟨i, -, hlink⟩ := hlink
    exact derated_of_mem_connect (fault_derate_symm faulty_links) hlink
  · intro link hlink
    simp only [List.mem_flatMap, mem_loop_range, List.mem_append] at hlink
    obtain ⟨row, -, col, -, hlink | hlink⟩ := hlink
    · exact derated_of_mem_connect (Mesh2D.mesh2d_fault_derate_symm faulty_links)
        (mem_of_mem_ite_nil hlink).2
    · exact derated_of_mem_connect (Mesh2D.mesh2d_fault_derate_symm faulty_links)
        (mem_of_mem_ite_nil hlink).2

theorem installed_bandwidth_is_derated_witness :
    (∀ links, MultiDimTopology.make_connections
        (topology_ring_4_4_two_bandwidths [(0, 1, 0)]) = Except.ok links →
      ∃ per_dim : List (List Link),
        per_dim.length = (topology_ring_4_4_two_bandwidths [(0, 1, 0)]).dims_count ∧
        links = per_dim.flatten ∧
        ∀ dim, dim < (topology_ring_4_4_two_bandwidths [(0, 1, 0)]).dims_count →
          ∃ (installed : List Link) (topology : BasicTopology),
            per_dim[dim]? = some installed ∧
            MultiDimTopology.connections_of_dim
              (topology_ring_4_4_two_bandwidths [(0, 1, 0)]) dim = Except.ok installed ∧
            (topology_ring_4_4_two_bandwidths [(0, 1, 0)]).m_topology_per_dim[dim]? =
              some topology ∧
            ∀ link ∈ installed,
              (∃ policy ∈ topology.get_connection_policies,
                ∃ pair ∈ MultiDimTopology.generateAddressPairs
                    (topology_ring_4_4_two_bandwidths [(0, 1, 0)]).npus_count_per_dim
                    policy dim,
                  MultiDimTopology.address_to_id
                    (topology_ring_4_4_two_bandwidths [(0, 1, 0)]) pair.1 =
                      Except.ok link.src ∧
                  MultiDimTopology.address_to_id
                    (topology_ring_4_4_two_bandwidths [(0, 1, 0)]) pair.2 =
                      Except.ok link.dest) ∧
              ∃ nominal,
                (topology_ring_4_4_two_bandwidths [(0, 1, 0)]).bandwidth_per_dim[dim]? =
                  some nominal ∧
                link.bandwidth =
                  (if MultiDimTopology.fault_derate
                      (topology_ring_4_4_two_bandwidths [(0, 1, 0)]) link.src link.dest ≠ 0
                    then nominal * MultiDimTopology.fault_derate
                      (topology_ring_4_4_two_bandwidths [(0, 1, 0)]) link.src link.dest
                    else nominal) ∧
                link.latency = topology.latency) ∧
    (∃ links, FullyConnected.create 3 1 1 true false [(0, 1, 0)] = Except.ok links ∧
      ∀ link ∈ links,
        link.bandwidth = (if FullyConnected.fault_derate [(0, 1, 0)] link.src link.dest ≠ 0
          then 1 * FullyConnected.fault_derate [(0, 1, 0)] link.src link.dest
          else 1) ∧
        link.latency = 1) ∧
    (∃ links, Switch.create 3 1 1 true false [(0, 1, 0)] = Except.ok links ∧
      ∀ link ∈ links,
        link.bandwidth = (if Switch.fault_derate [(0, 1, 0)] link.src link.dest ≠ 0
          then 1 * Switch.fault_derate [(0, 1, 0)] link.src link.dest
          else 1) ∧
        link.latency = 1) ∧
    (∃ links, Mesh2D.create (2 * 2) 1 1 true false [(0, 1, 0)] = Except.ok links ∧
      ∀ link ∈ links,
        link.bandwidth = (if Mesh2D.fault_derate [(0, 1, 0)] link.src link.dest ≠ 0
          then 1 * Mesh2D.fault_derate [(0, 1, 0)] link.src link.dest
          else 1) ∧
        link.latency = 1) :=
  installed_bandwidth_is_derated (topology_ring_4_4_two_bandwidths [(0, 1, 0)]) 3 2 1 1 true
    [(0, 1, 0)] (by decide) (by decide) (by norm_num) (by norm_num)

theorem assemble_ring_4_4_two_bandwidths :
    MultiDimTopology.assemble no_switch_translation_unit [(0, 1, 0)] [0, 0]
      dimensions_ring_4_4_two_bandwidths =
      Except.ok (topology_ring_4_4_two_bandwidths [(0, 1, 0)]) := rfl

/-- The example of C22 is not vacuous: on the two rings of 4 NPUs with the bandwidths 1 and 2
and the latencies 1 and 3, whose link between the devices 0 and 1 is broken,
`make_connections` installs 64 links, the 32 links of dimension 0 with the latency 1 and then
the 32 links of dimension 1 with the latency 3. -/
theorem make_connections_two_bandwidths_returns :
    ∃ links, MultiDimTopology.make_connections
        (topology_ring_4_4_two_bandwidths [(0, 1, 0)]) = Except.ok links ∧
      links.length = 64 ∧
      links.map (fun l => l.latency) = List.replicate 32 1 ++ List.replicate 32 3 := by
  have h : (MultiDimTopology.make_connections
      (topology_ring_4_4_two_bandwidths [(0, 1, 0)])).toBool = true := by decide
  obtain ⟨links, hlinks⟩ := MultiDimTopology.exists_ok_of_toBool h
  have hlat : (MultiDimTopology.make_connections
      (topology_ring_4_4_two_bandwidths [(0, 1, 0)])).map
        (fun links => links.map (fun l => l.latency)) =
      Except.ok (List.replicate 32 1 ++ List.replicate 32 3) := by
    decide
  rw [hlinks] at hlat
  have hlat' : links.map (fun l => l.latency) = List.replicate 32 1 ++ List.replicate 32 3 :=
    Except.ok.inj hlat
  refine ⟨links, hlinks, ?_, hlat'⟩
  have hlen := congrArg List.length hlat'
  rw [List.length_map] at hlen
  rw [hlen]
  rfl

/-! ## Links whose derate is zero -/

theorem Mesh.mesh_create_standalone {n : Int} {bandwidth latency : Rat}
    (bidirectional : Bool) (faulty_links : FaultyLinks) (hn : 0 < n) (hbw : 0 < bandwidth)
    (hlat : 0 ≤ latency) :
    Mesh.create n bandwidth latency bidirectional false faulty_links =
      Except.ok ((loop_range (n - 1)).flatMap (fun i =>
        if Mesh.fault_derate faulty_links i (i + 1) ≠ 0 then
          connect i (i + 1) (bandwidth * Mesh.fault_derate faulty_links i (i + 1)) latency true
        else [])) := by
  have h1 : n > 0 := hn
  have h2 : bandwidth > 0 := hbw
  have h3 : latency ≥ 0 := hlat
  simp only [Mesh.create, cassert_ok h1, cassert_ok h2, cassert_ok h3, ok_bind,
    if_true, pure_eq_ok]

/-- The constructor of `Mesh` installs no link in either direction between two neighbours
whose link has the derate zero. -/
theorem Mesh.create_skips_broken_link {n : Int} {bandwidth latency : Rat}
    (bidirectional : Bool) (faulty_links : FaultyLinks) (hn : 0 < n) (hbw : 0 < bandwidth)
    (hlat : 0 ≤ latency) (i : Int)
    (hzero : Mesh.fault_derate faulty_links i (i + 1) = 0) :
    ∃ links, Mesh.create n bandwidth latency bidirectional false faulty_links =
        Except.ok links ∧
      ¬ Installed links i (i + 1) ∧ ¬ Installed links (i + 1) i := by
  refine ⟨_, Mesh.mesh_create_standalone bidirectional faulty_links hn hbw hlat, ?_, ?_⟩
  · rintro ⟨link, hlink, hsrc, hdest⟩
    simp only [List.mem_flatMap, mem_loop_range] at hlink
    obtain ⟨j, -, hlink⟩ := hlink
    obtain ⟨hne, hlink⟩ := mem_of_mem_ite_nil hlink
    rcases mem_connect.1 hlink with rfl | ⟨-, rfl⟩
    · have hj : j = i := hsrc
      subst hj
      exact hne hzero
    · have h1 : j + 1 = i := hsrc
      have h2 : j = i + 1 := hdest
      omega
  · rintro ⟨link, hlink, hsrc, hdest⟩
    simp only [List.mem_flatMap, mem_loop_range] at hlink
    obtain ⟨j, -, hlink⟩ := hlink
    obtain ⟨hne, hlink⟩ := mem_of_mem_ite_nil hlink
    rcases mem_connect.1 hlink with rfl | ⟨-, rfl⟩
    · have h1 : j = i + 1 := hsrc
      have h2 : j + 1 = i := hdest
      omega
    · have hj : j = i := hdest
      subst hj
      exact hne hzero

/-- C23. The claim fails for `Mesh` and for `KingMesh2D`. A `Mesh` of 3 NPUs whose fault list
gives the link between the devices 0 and 1 the derate 0 has the policy `(0, 1)`, and its
standalone constructor installs no link `0 -> 1`. A `KingMesh2D` of 16 NPUs whose fault list
gives the link between the devices 0 and 8 the derate 0 has the policy `(0, 8)`, and its
standalone constructor installs no link `0 -> 8`. -/
theorem constructors_skip_a_link_of_derate_zero :
    ((0, 1) ∈ Mesh.get_connection_policies 3 ∧ Mesh.fault_derate [(0, 1, 0)] 0 1 = 0 ∧
      ∃ links, Mesh.create 3 1 1 true false [(0, 1, 0)] = Except.ok links ∧
        ¬ Installed links 0 1) ∧
    ((∃ policies, KingMesh2D.get_connection_policies 16 true = Except.ok policies ∧
        (0, 8) ∈ policies) ∧
      KingMesh2D.fault_derate [(0, 8, 0)] 0 8 = 0 ∧
      ∃ links, KingMesh2D.create 16 1 1 true false [(0, 8, 0)] = Except.ok links ∧
        ¬ Installed links 0 8) := by
  refine ⟨⟨by decide, by decide, ?_⟩, ⟨?_, by decide, ?_⟩⟩
  · obtain ⟨links, hlinks, hnot, -⟩ :=
      @Mesh.create_skips_broken_link 3 1 1 true [(0, 1, 0)] (by decide) (by norm_num)
        (by norm_num) 0 (by decide)
    exact ⟨links, hlinks, hnot⟩
  · have h : ((KingMesh2D.get_connection_policies 16 true).map
        (fun policies => decide ((0, 8) ∈ policies))) = Except.ok true := by decide
    obtain ⟨policies, hp⟩ := MultiDimTopology.exists_ok_of_toBool
      (show (KingMesh2D.get_connection_policies 16 true).toBool = true by decide)
    rw [hp] at h
    exact ⟨policies, hp, of_decide_eq_true (Except.ok.inj h)⟩
  · have h : ((KingMesh2D.create 16 1 1 true false [(0, 8, 0)]).map
        (fun links => decide (Installed links 0 8))) = Except.ok false := by decide
    obtain ⟨links, hl⟩ := MultiDimTopology.exists_ok_of_toBool
      (show (KingMesh2D.create 16 1 1 true false [(0, 8, 0)]).toBool = true by decide)
    rw [hl] at h
    exact ⟨links, hl, of_decide_eq_false (Except.ok.inj h)⟩

/-! ## Construction as a dimension of a larger topology -/

/-- C27, counterexample. Construction as a dimension of a larger topology does not always
succeed without installing links: `Torus2D` of 16 NPUs with `is_multi_dim = true` exits,
`Mesh2D` of 4 NPUs with `is_multi_dim = true` installs the six links of the chain
`0 - 1 - 2 - 3`, and `KingMesh2D` of 3 NPUs with `is_multi_dim = true` and
`bidirectional = false` installs the links `0 -> 1` and `1 -> 2`. -/
theorem construction_as_a_dimension_is_not_always_silent :
    Torus2D.create 16 1 1 true true [] = Except.error Abort.exited ∧
    (Mesh2D.create 4 1 1 true true []).map (fun links => links.map (fun l => (l.src, l.dest))) =
      Except.ok [(0, 1), (1, 0), (1, 2), (2, 1), (2, 3), (3, 2)] ∧
    (KingMesh2D.create 3 1 1 false true []).map
        (fun links => links.map (fun l => (l.src, l.dest))) =
      Except.ok [(0, 1), (1, 2)] := by
  refine ⟨by decide, by decide, by decide⟩

/-- C27, amended. With `npus_count > 0`, `bandwidth > 0` and `latency >= 0`, the constructors
of `Ring`, `Mesh`, `FullyConnected` and `Switch` with `is_multi_dim = true` succeed and
install no links; the constructor of `Torus2D` with `is_multi_dim = true` exits; the
constructors of `Mesh2D` and `KingMesh2D` with `is_multi_dim = true` succeed and install the
links of the calls `connect(i, i + 1, bandwidth, latency, bidirectional)` for
`0 <= i < npus_count - 1`. -/
theorem construction_as_a_dimension (n : Int) (bandwidth latency : Rat) (bidirectional : Bool)
    (faulty_links : FaultyLinks) (hn : 0 < n) (hbw : 0 < bandwidth) (hlat : 0 ≤ latency) :
    Ring.create n bandwidth latency bidirectional true faulty_links = Except.ok [] ∧
    Mesh.create n bandwidth latency bidirectional true faulty_links = Except.ok [] ∧
    FullyConnected.create n bandwidth latency bidirectional true faulty_links = Except.ok [] ∧
    Switch.create n bandwidth latency bidirectional true faulty_links = Except.ok [] ∧
    Torus2D.create n bandwidth latency bidirectional true faulty_links =
      Except.error Abort.exited ∧
    Mesh2D.create n bandwidth latency bidirectional true faulty_links =
      Except.ok ((loop_range (n - 1)).flatMap (fun i =>
        connect i (i + 1) bandwidth latency bidirectional)) ∧
    KingMesh2D.create n bandwidth latency bidirectional true faulty_links =
      Except.ok ((loop_range (n - 1)).flatMap (fun i =>
        connect i (i + 1) bandwidth latency bidirectional)) := by
  have h1 : n > 0 := hn
  have h2 : bandwidth > 0 := hbw
  have h3 : latency ≥ 0 := hlat
  refine ⟨?_, ?_, ?_, ?_, ?_, ?_, ?_⟩
  · simp [Ring.create, cassert_ok h1, cassert_ok h2, cassert_ok h3, ok_bind, pure_eq_ok]
  · simp [Mesh.create, cassert_ok h1, cassert_ok h2, cassert_ok h3, ok_bind, pure_eq_ok]
  · simp [FullyConnected.create, cassert_ok h1, cassert_ok h2, cassert_ok h3, ok_bind,
      pure_eq_ok]
  · simp [Switch.create, cassert_ok h1, cassert_ok h2, cassert_ok h3, ok_bind, pure_eq_ok]
  · simp [Torus2D.create, cassert_ok h1, cassert_ok h2, cassert_ok h3, ok_bind,
      throw_eq_error]
  · simp [Mesh2D.create, cassert_ok h1, cassert_ok h2, cassert_ok h3, ok_bind, pure_eq_ok]
  · simp [KingMesh2D.create, cassert_ok h1, cassert_ok h2, cassert_ok h3, ok_bind,
      pure_eq_ok]

theorem construction_as_a_dimension_witness :
    Ring.create 4 1 1 true true [(0, 1, 0)] = Except.ok [] ∧
    Mesh.create 4 1 1 true true [(0, 1, 0)] = Except.ok [] ∧
    FullyConnected.create 4 1 1 true true [(0, 1, 0)] = Except.ok [] ∧
    Switch.create 4 1 1 true true [(0, 1, 0)] = Except.ok [] ∧
    Torus2D.create 4 1 1 true true [(0, 1, 0)] = Except.error Abort.exited ∧
    Mesh2D.create 4 1 1 true true [(0, 1, 0)] =
      Except.ok ((loop_range (4 - 1)).flatMap (fun i => connect i (i + 1) 1 1 true)) ∧
    KingMesh2D.create 4 1 1 true true [(0, 1, 0)] =
      Except.ok ((loop_range (4 - 1)).flatMap (fun i => connect i (i + 1) 1 1 true)) :=
  construction_as_a_dimension 4 1 1 true [(0, 1, 0)] (by decide) (by norm_num) (by norm_num)

/-! ## The connection policies of the basic topologies -/

theorem exists_range_iff {n : Int} {p : Int → Prop} :
    (∃ k : Nat, k < n.toNat ∧ p (k : Int)) ↔ ∃ i : Int, (0 ≤ i ∧ i < n) ∧ p i := by
  constructor
  · rintro ⟨k, hk, hp⟩
    exact ⟨k, by omega, hp⟩
  · rintro ⟨i, hi, hp⟩
    refine ⟨i.toNat, by omega, ?_⟩
    rw [Int.toNat_of_nonneg hi.1]
    exact hp

theorem Ring.ring_mem_policies {n a b : Int} :
    (a, b) ∈ Ring.get_connection_policies n true ↔
      ∃ i : Int, (0 ≤ i ∧ i < n) ∧
        ((a = i ∧ b = (i + 1) % n) ∨ (a = (i + 1) % n ∧ b = i)) := by
  have htmod : ∀ i : Int, (0 ≤ i ∧ i < n) → Int.tmod (i + 1) n = (i + 1) % n := fun i hi =>
    Int.tmod_eq_emod (by omega) (by omega)
  unfold Ring.get_connection_policies
  simp only [List.mem_append, List.mem_map, List.mem_range, if_true, Prod.mk.injEq]
  constructor
  · rintro (⟨k, hk, rfl, rfl⟩ | ⟨k, hk, rfl, rfl⟩)
    · exact ⟨k, by omega, Or.inl ⟨rfl, htmod k (by omega)⟩⟩
    · exact ⟨k, by omega, Or.inr ⟨htmod k (by omega), rfl⟩⟩
  · rintro ⟨i, hi, (⟨rfl, rfl⟩ | ⟨rfl, rfl⟩)⟩
    · exact Or.inl ⟨a.toNat, by omega, by omega, by
        rw [Int.toNat_of_nonneg hi.1]
        exact htmod a hi⟩
    · exact Or.inr ⟨b.toNat, by omega, by
        rw [Int.toNat_of_nonneg hi.1]
        exact htmod b hi, by omega⟩

theorem Mesh.mesh_mem_policies {n a b : Int} :
    (a, b) ∈ Mesh.get_connection_policies n ↔
      ∃ i : Int, (0 ≤ i ∧ i + 1 < n) ∧ ((a = i ∧ b = i + 1) ∨ (a = i + 1 ∧ b = i)) := by
  unfold Mesh.get_connection_policies
  simp only [List.mem_flatMap, List.mem_range, List.mem_cons, List.mem_singleton,
    List.mem_nil_iff, or_false, Prod.mk.injEq]
  constructor
  · rintro ⟨k, hk, (⟨rfl, rfl⟩ | ⟨rfl, rfl⟩)⟩
    · exact ⟨k, by omega, Or.inl ⟨rfl, rfl⟩⟩
    · exact ⟨k, by omega, Or.inr ⟨rfl, rfl⟩⟩
  · rintro ⟨i, hi, (⟨rfl, rfl⟩ | ⟨rfl, rfl⟩)⟩
    · exact ⟨a.toNat, by omega, Or.inl ⟨by omega, by omega⟩⟩
    · exact ⟨b.toNat, by omega, Or.inr ⟨by omega, by omega⟩⟩

theorem FullyConnected.fully_connected_mem_policies {n a b : Int} :
    (a, b) ∈ FullyConnected.get_connection_policies n ↔
      (0 ≤ a ∧ a < n) ∧ (0 ≤ b ∧ b < n) ∧ a ≠ b := by
  unfold FullyConnected.get_connection_policies
  simp only [List.mem_flatMap, List.mem_map, List.mem_filter, List.mem_range,
    decide_eq_true_eq, Prod.mk.injEq]
  constructor
  · rintro ⟨k, hk, j, ⟨hj, hne⟩, rfl, rfl⟩
    exact ⟨by omega, by omega, by omega⟩
  · rintro ⟨ha, hb, hne⟩
    exact ⟨a.toNat, by omega, b.toNat, ⟨by omega, by omega⟩, by omega, by omega⟩

theorem Switch.switch_mem_policies {n a b : Int} :
    (a, b) ∈ Switch.get_connection_policies n ↔
      ∃ i : Int, (0 ≤ i ∧ i < n) ∧
        ((a = i ∧ b = Switch.switch_id n) ∨ (a = Switch.switch_id n ∧ b = i)) := by
  unfold Switch.get_connection_policies
  simp only [List.mem_flatMap, List.mem_range, List.mem_cons, List.mem_singleton,
    List.mem_nil_iff, or_false, Prod.mk.injEq]
  constructor
  · rintro ⟨k, hk, (⟨rfl, rfl⟩ | ⟨rfl, rfl⟩)⟩
    · exact ⟨k, by omega, Or.inl ⟨rfl, rfl⟩⟩
    · exact ⟨k, by omega, Or.inr ⟨rfl, rfl⟩⟩
  · rintro ⟨i, hi, (⟨rfl, rfl⟩ | ⟨rfl, rfl⟩)⟩
    · exact ⟨a.toNat, by omega, Or.inl ⟨by omega, rfl⟩⟩
    · exact ⟨b.toNat, by omega, Or.inr ⟨rfl, by omega⟩⟩

theorem mem_ite_nil_iff {α : Type} {c : Prop} [Decidable c] {l : List α} {x : α} :
    x ∈ (if c then l else []) ↔ c ∧ x ∈ l := by
  by_cases hc : c
  · simp [hc]
  · simp [hc]

/-- The successor of the predecessor, and the predecessor of the successor, around a ring of
`d` positions. -/
theorem wrap_succ_pred {d col : Int} (h : 0 ≤ col ∧ col < d) :
    (0 ≤ (col + 1) % d ∧ (col + 1) % d < d) ∧ (0 ≤ (col - 1 + d) % d ∧ (col - 1 + d) % d < d) ∧
      ((col - 1 + d) % d + 1) % d = col ∧ ((col + 1) % d - 1 + d) % d = col := by
  have hd : 0 < d := by omega
  obtain ⟨h1, h1c⟩ := @emod_wrap d (col + 1) (by omega) hd
  obtain ⟨h2, h2c⟩ := @emod_wrap d (col - 1 + d) (by omega) hd
  refine ⟨h1, h2, ?_, ?_⟩
  · obtain ⟨-, h3c⟩ := @emod_wrap d ((col - 1 + d) % d + 1) (by omega) hd
    have h3 := Int.emod_lt_of_pos ((col - 1 + d) % d + 1) hd
    have h3n := Int.emod_nonneg ((col - 1 + d) % d + 1) (by omega : d ≠ 0)
    omega
  · obtain ⟨-, h3c⟩ := @emod_wrap d ((col + 1) % d - 1 + d) (by omega) hd
    have h3 := Int.emod_lt_of_pos ((col + 1) % d - 1 + d) hd
    have h3n := Int.emod_nonneg ((col + 1) % d - 1 + d) (by omega : d ≠ 0)
    omega

theorem Mesh2D.mesh2d_policies_square {d : Int} (hd : 0 ≤ d) :
    Mesh2D.get_connection_policies (d * d) true =
      Except.ok (((loop_range d).flatMap fun row =>
          (loop_range d).flatMap fun col =>
            (if col + 1 < d then [(row * d + col, row * d + (col + 1))] else []) ++
              if row + 1 < d then [(row * d + col, (row + 1) * d + col)] else []) ++
        (loop_range d).flatMap fun row =>
          (loop_range d).flatMap fun col =>
            (if col - 1 ≥ 0 then [(row * d + col, row * d + (col - 1))] else []) ++
              if row - 1 ≥ 0 then [(row * d + col, (row - 1) * d + col)] else []) := by
  simp only [Mesh2D.get_connection_policies, int_sqrt_sq hd, ok_bind, if_true, pure_eq_ok]
  rfl

theorem Torus2D.torus2d_policies_square {d : Int} (hd : 0 ≤ d) :
    Torus2D.get_connection_policies (d * d) true =
      Except.ok (((loop_range d).flatMap fun row =>
          (loop_range d).flatMap fun col =>
            [(row * d + col, row * d + Int.tmod (col + 1) d),
              (row * d + col, Int.tmod (row + 1) d * d + col)]) ++
        (loop_range d).flatMap fun row =>
          (loop_range d).flatMap fun col =>
            [(row * d + col, row * d + Int.tmod (col - 1 + d) d),
              (row * d + col, Int.tmod (row - 1 + d) d * d + col)]) := by
  simp only [Torus2D.get_connection_policies, int_sqrt_sq hd, ok_bind, if_true, pure_eq_ok]
  rfl

/-- The policies of a bidirectional `Mesh2D` of side `d`: the pairs of a device and its right
or bottom neighbour, in both orders. -/
theorem Mesh2D.mesh2d_mem_policies_square {d : Int} (hd : 0 ≤ d) :
    ∃ policies, Mesh2D.get_connection_policies (d * d) true = Except.ok policies ∧
      ∀ a b : Int, (a, b) ∈ policies ↔
        ∃ row col : Int, (0 ≤ row ∧ row < d) ∧ (0 ≤ col ∧ col < d) ∧
          ((a = row * d + col ∧
              ((col + 1 < d ∧ b = row * d + (col + 1)) ∨
                (row + 1 < d ∧ b = (row + 1) * d + col))) ∨
            (b = row * d + col ∧
              ((col + 1 < d ∧ a = row * d + (col + 1)) ∨
                (row + 1 < d ∧ a = (row + 1) * d + col)))) := by
  refine ⟨_, Mesh2D.mesh2d_policies_square hd, ?_⟩
  intro a b
  simp only [List.mem_append, List.mem_flatMap, mem_loop_range, mem_ite_nil_iff,
    List.mem_singleton, Prod.mk.injEq]
  constructor
  · rintro (⟨row, hrow, col, hcol, (⟨h, rfl, rfl⟩ | ⟨h, rfl, rfl⟩)⟩ |
      ⟨row, hrow, col, hcol, (⟨h, rfl, rfl⟩ | ⟨h, rfl, rfl⟩)⟩)
    · exact ⟨row, col, hrow, hcol, Or.inl ⟨rfl, Or.inl ⟨h, rfl⟩⟩⟩
    · exact ⟨row, col, hrow, hcol, Or.inl ⟨rfl, Or.inr ⟨h, rfl⟩⟩⟩
    · exact ⟨row, col - 1, hrow, by omega, Or.inr ⟨rfl, Or.inl ⟨by omega, by
        rw [Int.sub_add_cancel]⟩⟩⟩
    · exact ⟨row - 1, col, by omega, hcol, Or.inr ⟨rfl, Or.inr ⟨by omega, by
        rw [Int.sub_add_cancel]⟩⟩⟩
  · rintro ⟨row, col, hrow, hcol, (⟨rfl, (⟨h, rfl⟩ | ⟨h, rfl⟩)⟩ | ⟨rfl, (⟨h, rfl⟩ | ⟨h, rfl⟩)⟩)⟩
    · exact Or.inl ⟨row, hrow, col, hcol, Or.inl ⟨h, rfl, rfl⟩⟩
    · exact Or.inl ⟨row, hrow, col, hcol, Or.inr ⟨h, rfl, rfl⟩⟩
    · exact Or.inr ⟨row, hrow, col + 1, by omega, Or.inl ⟨by omega, rfl, by
        rw [Int.add_sub_cancel]⟩⟩
    · exact Or.inr ⟨row + 1, by omega, col, hcol, Or.inr ⟨by omega, rfl, by
        rw [Int.add_sub_cancel]⟩⟩

/-- The policies of a bidirectional `Torus2D` of side `d`: the pairs of a device and its right
or bottom neighbour around the torus, in both orders. -/
theorem Torus2D.torus2d_mem_policies_square {d : Int} (hd : 0 ≤ d) :
    ∃ policies, Torus2D.get_connection_policies (d * d) true = Except.ok policies ∧
      ∀ a b : Int, (a, b) ∈ policies ↔
        ∃ row col : Int, (0 ≤ row ∧ row < d) ∧ (0 ≤ col ∧ col < d) ∧
          ((a = row * d + col ∧
              (b = row * d + (col + 1) % d ∨ b = (row + 1) % d * d + col)) ∨
            (b = row * d + col ∧
              (a = row * d + (col + 1) % d ∨ a = (row + 1) % d * d + col))) := by
  refine ⟨_, Torus2D.torus2d_policies_square hd, ?_⟩
  intro a b
  have hsucc : ∀ x : Int, (0 ≤ x ∧ x < d) → Int.tmod (x + 1) d = (x + 1) % d := fun x hx =>
    Int.tmod_eq_emod (by omega) (by omega)
  have hpred : ∀ x : Int, (0 ≤ x ∧ x < d) → Int.tmod (x - 1 + d) d = (x - 1 + d) % d :=
    fun x hx => Int.tmod_eq_emod (by omega) (by omega)
  simp only [List.mem_append, List.mem_flatMap, mem_loop_range, List.mem_cons,
    List.mem_singleton, List.mem_nil_iff, or_false, Prod.mk.injEq]
  constructor
  · rintro (⟨row, hrow, col, hcol, (⟨rfl, rfl⟩ | ⟨rfl, rfl⟩)⟩ |
      ⟨row, hrow, col, hcol, (⟨rfl, rfl⟩ | ⟨rfl, rfl⟩)⟩)
    · exact ⟨row, col, hrow, hcol, Or.inl ⟨rfl, Or.inl (by rw [hsucc col hcol])⟩⟩
    · exact ⟨row, col, hrow, hcol, Or.inl ⟨rfl, Or.inr (by rw [hsucc row hrow])⟩⟩
    · obtain ⟨-, h2, h3, -⟩ := wrap_succ_pred hcol
      exact ⟨row, (col - 1 + d) % d, hrow, h2, Or.inr ⟨by rw [hpred col hcol],
        Or.inl (by rw [h3])⟩⟩
    · obtain ⟨-, h2, h3, -⟩ := wrap_succ_pred hrow
      exact ⟨(row - 1 + d) % d, col, h2, hcol, Or.inr ⟨by rw [hpred row hrow],
        Or.inr (by rw [h3])⟩⟩
  · rintro ⟨row, col, hrow, hcol, (⟨rfl, (rfl | rfl)⟩ | ⟨rfl, (rfl | rfl)⟩)⟩
    · exact Or.inl ⟨row, hrow, col, hcol, Or.inl ⟨rfl, by rw [hsucc col hcol]⟩⟩
    · exact Or.inl ⟨row, hrow, col, hcol, Or.inr ⟨rfl, by rw [hsucc row hrow]⟩⟩
    · obtain ⟨h1, -, -, h4⟩ := wrap_succ_pred hcol
      exact Or.inr ⟨row, hrow, (col + 1) % d, h1, Or.inl ⟨rfl, by
        rw [hpred _ h1, h4]⟩⟩
    · obtain ⟨h1, -, -, h4⟩ := wrap_succ_pred hrow
      exact Or.inr ⟨(row + 1) % d, h1, col, hcol, Or.inr ⟨rfl, by
        rw [hpred _ h1, h4]⟩⟩

set_option maxRecDepth 100000 in
theorem KingMesh2D.policies_closed :
    ∃ policies, KingMesh2D.get_connection_policies 16 true = Except.ok policies ∧
      ∀ a b : Int, (a, b) ∈ policies →
        (b, a) ∈ policies ∧ (0 ≤ a ∧ a < 16) ∧ (0 ≤ b ∧ b < 16) := by
  have h : (KingMesh2D.get_connection_policies 16 true).map (fun policies =>
      decide (∀ p ∈ policies, (p.2, p.1) ∈ policies ∧
        (0 ≤ p.1 ∧ p.1 < 16) ∧ (0 ≤ p.2 ∧ p.2 < 16))) = Except.ok true := by decide
  obtain ⟨policies, hp⟩ := MultiDimTopology.exists_ok_of_toBool
    (show (KingMesh2D.get_connection_policies 16 true).toBool = true by decide)
  rw [hp] at h
  exact ⟨policies, hp, fun a b hab => of_decide_eq_true (Except.ok.inj h) (a, b) hab⟩

/-- C25. The connection policies of a bidirectional `Ring`, of a `Mesh`, of a `FullyConnected`
and of a `Switch` of `n` NPUs, of a bidirectional `Mesh2D` and `Torus2D` of `d * d` NPUs and of
a bidirectional `KingMesh2D` of 16 NPUs are closed under reversal, and both end points of every
policy lie in `[0, devices_count)`, where `devices_count` is `n + 1` for the `Switch` and the
number of NPUs for the others. -/
theorem connection_policies_are_closed_under_reversal (n d : Int) (hd : 0 < d) :
    (∀ a b : Int, (a, b) ∈ Ring.get_connection_policies n true →
      (b, a) ∈ Ring.get_connection_policies n true ∧ (0 ≤ a ∧ a < n) ∧ (0 ≤ b ∧ b < n)) ∧
    (∀ a b : Int, (a, b) ∈ Mesh.get_connection_policies n →
      (b, a) ∈ Mesh.get_connection_policies n ∧ (0 ≤ a ∧ a < n) ∧ (0 ≤ b ∧ b < n)) ∧
    (∀ a b : Int, (a, b) ∈ FullyConnected.get_connection_policies n →
      (b, a) ∈ FullyConnected.get_connection_policies n ∧
        (0 ≤ a ∧ a < n) ∧ (0 ≤ b ∧ b < n)) ∧
    (∀ a b : Int, (a, b) ∈ Switch.get_connection_policies n →
      (b, a) ∈ Switch.get_connection_policies n ∧
        (0 ≤ a ∧ a < Switch.devices_count n) ∧ (0 ≤ b ∧ b < Switch.devices_count n)) ∧
    (∃ policies, Mesh2D.get_connection_policies (d * d) true = Except.ok policies ∧
      ∀ a b : Int, (a, b) ∈ policies →
        (b, a) ∈ policies ∧ (0 ≤ a ∧ a < d * d) ∧ (0 ≤ b ∧ b < d * d)) ∧
    (∃ policies, Torus2D.get_connection_policies (d * d) true = Except.ok policies ∧
      ∀ a b : Int, (a, b) ∈ policies →
        (b, a) ∈ policies ∧ (0 ≤ a ∧ a < d * d) ∧ (0 ≤ b ∧ b < d * d)) ∧
    (∃ policies, KingMesh2D.get_connection_policies 16 true = Except.ok policies ∧
      ∀ a b : Int, (a, b) ∈ policies →
        (b, a) ∈ policies ∧ (0 ≤ a ∧ a < 16) ∧ (0 ≤ b ∧ b < 16)) := by
  refine ⟨?_, ?_, ?_, ?_, ?_, ?_, ?_⟩
  · intro a b h
    rw [Ring.ring_mem_policies] at h ⊢
    obtain ⟨i, hi, hab⟩ := h
    have hn : 0 < n := by omega
    have hmod : 0 ≤ (i + 1) % n ∧ (i + 1) % n < n :=
      ⟨Int.emod_nonneg _ (by omega), Int.emod_lt_of_pos _ hn⟩
    refine ⟨⟨i, hi, hab.symm.imp And.symm And.symm⟩, ?_⟩
    rcases hab with ⟨rfl, rfl⟩ | ⟨rfl, rfl⟩
    · exact ⟨hi, hmod⟩
    · exact ⟨hmod, hi⟩
  · intro a b h
    rw [Mesh.mesh_mem_policies] at h ⊢
    obtain ⟨i, hi, hab⟩ := h
    refine ⟨⟨i, hi, hab.symm.imp And.symm And.symm⟩, ?_⟩
    rcases hab with ⟨rfl, rfl⟩ | ⟨rfl, rfl⟩ <;> omega
  · intro a b h
    rw [FullyConnected.fully_connected_mem_policies] at h ⊢
    exact ⟨⟨h.2.1, h.1, fun hba => h.2.2 hba.symm⟩, h.1, h.2.1⟩
  · intro a b h
    rw [Switch.switch_mem_policies] at h ⊢
    obtain ⟨i, hi, hab⟩ := h
    refine ⟨⟨i, hi, hab.symm.imp And.symm And.symm⟩, ?_⟩
    unfold Switch.devices_count
    unfold Switch.switch_id at hab
    rcases hab with ⟨rfl, rfl⟩ | ⟨rfl, rfl⟩ <;> omega
  · obtain ⟨policies, hp, hmem⟩ := Mesh2D.mesh2d_mem_policies_square (le_of_lt hd)
    refine ⟨policies, hp, ?_⟩
    intro a b h
    rw [hmem] at h ⊢
    obtain ⟨row, col, hrow, hcol, hab⟩ := h
    refine ⟨⟨row, col, hrow, hcol, hab.symm⟩, ?_⟩
    have hcur := coord_lt hcol hrow
    rcases hab with ⟨rfl, (⟨h, rfl⟩ | ⟨h, rfl⟩)⟩ | ⟨rfl, (⟨h, rfl⟩ | ⟨h, rfl⟩)⟩
    · exact ⟨hcur, @coord_lt d (col + 1) row (by omega) hrow⟩
    · exact ⟨hcur, @coord_lt d col (row + 1) hcol (by omega)⟩
    · exact ⟨@coord_lt d (col + 1) row (by omega) hrow, hcur⟩
    · exact ⟨@coord_lt d col (row + 1) hcol (by omega), hcur⟩
  · obtain ⟨policies, hp, hmem⟩ := Torus2D.torus2d_mem_policies_square (le_of_lt hd)
    refine ⟨policies, hp, ?_⟩
    intro a b h
    rw [hmem] at h ⊢
    obtain ⟨row, col, hrow, hcol, hab⟩ := h
    refine ⟨⟨row, col, hrow, hcol, hab.symm⟩, ?_⟩
    have hcur := coord_lt hcol hrow
    obtain ⟨hc1, -, -, -⟩ := wrap_succ_pred hcol
    obtain ⟨hr1, -, -, -⟩ := wrap_succ_pred hrow
    rcases hab with ⟨rfl, (rfl | rfl)⟩ | ⟨rfl, (rfl | rfl)⟩
    · exact ⟨hcur, coord_lt hc1 hrow⟩
    · exact ⟨hcur, coord_lt hcol hr1⟩
    · exact ⟨coord_lt hc1 hrow, hcur⟩
    · exact ⟨coord_lt hcol hr1, hcur⟩
  · exact KingMesh2D.policies_closed

theorem connection_policies_are_closed_under_reversal_witness :
    (∀ a b : Int, (a, b) ∈ Ring.get_connection_policies 4 true →
      (b, a) ∈ Ring.get_connection_policies 4 true ∧ (0 ≤ a ∧ a < 4) ∧ (0 ≤ b ∧ b < 4)) ∧
    (∀ a b : Int, (a, b) ∈ Mesh.get_connection_policies 4 →
      (b, a) ∈ Mesh.get_connection_policies 4 ∧ (0 ≤ a ∧ a < 4) ∧ (0 ≤ b ∧ b < 4)) ∧
    (∀ a b : Int, (a, b) ∈ FullyConnected.get_connection_policies 4 →
      (b, a) ∈ FullyConnected.get_connection_policies 4 ∧
        (0 ≤ a ∧ a < 4) ∧ (0 ≤ b ∧ b < 4)) ∧
    (∀ a b : Int, (a, b) ∈ Switch.get_connection_policies 4 →
      (b, a) ∈ Switch.get_connection_policies 4 ∧
        (0 ≤ a ∧ a < Switch.devices_count 4) ∧ (0 ≤ b ∧ b < Switch.devices_count 4)) ∧
    (∃ policies, Mesh2D.get_connection_policies (2 * 2) true = Except.ok policies ∧
      ∀ a b : Int, (a, b) ∈ policies →
        (b, a) ∈ policies ∧ (0 ≤ a ∧ a < 2 * 2) ∧ (0 ≤ b ∧ b < 2 * 2)) ∧
    (∃ policies, Torus2D.get_connection_policies (2 * 2) true = Except.ok policies ∧
      ∀ a b : Int, (a, b) ∈ policies →
        (b, a) ∈ policies ∧ (0 ≤ a ∧ a < 2 * 2) ∧ (0 ≤ b ∧ b < 2 * 2)) ∧
    (∃ policies, KingMesh2D.get_connection_policies 16 true = Except.ok policies ∧
      ∀ a b : Int, (a, b) ∈ policies →
        (b, a) ∈ policies ∧ (0 ≤ a ∧ a < 16) ∧ (0 ≤ b ∧ b < 16)) :=
  connection_policies_are_closed_under_reversal 4 2 (by decide)

/-! ## The installed links and the connection policies -/

theorem installed_nil {a b : Int} : Installed [] a b ↔ False := by
  simp [Installed]

theorem installed_append {l₁ l₂ : List Link} {a b : Int} :
    Installed (l₁ ++ l₂) a b ↔ Installed l₁ a b ∨ Installed l₂ a b := by
  unfold Installed
  simp only [List.mem_append]
  constructor
  · rintro ⟨link, (h | h), hab⟩
    · exact Or.inl ⟨link, h, hab⟩
    · exact Or.inr ⟨link, h, hab⟩
  · rintro (⟨link, h, hab⟩ | ⟨link, h, hab⟩)
    · exact ⟨link, Or.inl h, hab⟩
    · exact ⟨link, Or.inr h, hab⟩

theorem installed_flatMap {l : List Int} {f : Int → List Link} {a b : Int} :
    Installed (l.flatMap f) a b ↔ ∃ i, i ∈ l ∧ Installed (f i) a b := by
  unfold Installed
  simp only [List.mem_flatMap]
  constructor
  · rintro ⟨link, ⟨i, hi, h⟩, hab⟩
    exact ⟨i, hi, link, h, hab⟩
  · rintro ⟨i, hi, link, h, hab⟩
    exact ⟨link, ⟨i, hi, h⟩, hab⟩

theorem installed_ite_nil {c : Prop} [Decidable c] {l : List Link} {a b : Int} :
    Installed (if c then l else []) a b ↔ c ∧ Installed l a b := by
  by_cases hc : c
  · simp [hc]
  · simp [hc, installed_nil]

theorem installed_connect {src dest : DeviceId} {bandwidth latency : Rat}
    {bidirectional : Bool} {a b : Int} :
    Installed (connect src dest bandwidth latency bidirectional) a b ↔
      (a = src ∧ b = dest) ∨ (bidirectional = true ∧ a = dest ∧ b = src) := by
  unfold Installed
  simp only [mem_connect]
  constructor
  · rintro ⟨link, (rfl | ⟨hb, rfl⟩), rfl, rfl⟩
    · exact Or.inl ⟨rfl, rfl⟩
    · exact Or.inr ⟨hb, rfl, rfl⟩
  · rintro (⟨rfl, rfl⟩ | ⟨hb, rfl, rfl⟩)
    · exact ⟨_, Or.inl rfl, rfl, rfl⟩
    · exact ⟨_, Or.inr ⟨hb, rfl⟩, rfl, rfl⟩

theorem installed_iff_mem_pairs {links : List Link} {a b : Int} :
    Installed links a b ↔ (a, b) ∈ links.map (fun l => (l.src, l.dest)) := by
  unfold Installed
  simp only [List.mem_map, Prod.mk.injEq]

theorem ite_connect (c : Prop) [Decidable c] (src dest : DeviceId)
    (derated nominal latency : Rat) (bidirectional : Bool) :
    (if c then connect src dest derated latency bidirectional
      else connect src dest nominal latency bidirectional) =
    connect src dest (if c then derated else nominal) latency bidirectional := by
  split_ifs <;> rfl

theorem Torus2D.torus2d_create_standalone {d : Int} {bandwidth latency : Rat}
    (bidirectional : Bool) (faulty_links : FaultyLinks)
    (hd : 0 < d) (hbw : 0 < bandwidth) (hlat : 0 ≤ latency) :
    Torus2D.create (d * d) bandwidth latency bidirectional false faulty_links =
      Except.ok ((loop_range d).flatMap (fun row =>
        (loop_range d).flatMap (fun col =>
          connect (row * d + col) (row * d + Int.tmod (col + 1) d)
            (if Torus2D.fault_derate faulty_links (row * d + col)
                (row * d + Int.tmod (col + 1) d) ≠ 0
              then bandwidth * Torus2D.fault_derate faulty_links (row * d + col)
                (row * d + Int.tmod (col + 1) d)
              else bandwidth) latency bidirectional ++
          connect (row * d + col) (Int.tmod (row + 1) d * d + col)
            (if Torus2D.fault_derate faulty_links (row * d + col)
                (Int.tmod (row + 1) d * d + col) ≠ 0
              then bandwidth * Torus2D.fault_derate faulty_links (row * d + col)
                (row * d + Int.tmod (col + 1) d)
              else bandwidth) latency bidirectional))) := by
  have h1 : d * d > 0 := Int.mul_pos hd hd
  have h2 : bandwidth > 0 := hbw
  have h3 : latency ≥ 0 := hlat
  simp only [Torus2D.create, cassert_ok h1, cassert_ok h2, cassert_ok h3, ok_bind,
    if_true, pure_eq_ok, ite_connect, int_sqrt_sq (le_of_lt hd)]
  rfl

theorem KingMesh2D.king_mesh_fault_derate_nil (a b : Int) : KingMesh2D.fault_derate [] a b = 1 := rfl

theorem Mesh.mesh_fault_derate_nil (a b : Int) : Mesh.fault_derate [] a b = 1 := rfl

theorem Ring.ring_installed_iff_policy {n : Int} {bandwidth latency : Rat}
    (faulty_links : FaultyLinks) (hn : 0 < n) (hbw : 0 < bandwidth) (hlat : 0 ≤ latency) :
    ∃ links, Ring.create n bandwidth latency true false faulty_links = Except.ok links ∧
      ∀ a b : Int, Installed links a b ↔ (a, b) ∈ Ring.get_connection_policies n true := by
  refine ⟨_, Ring.ring_create_standalone true faulty_links hn hbw hlat, ?_⟩
  intro a b
  rw [Ring.ring_mem_policies]
  simp only [installed_append, installed_flatMap, installed_connect, mem_loop_range, true_and]
  constructor
  · rintro (⟨i, hi, h⟩ | h)
    · have hmod : (i + 1) % n = i + 1 := Int.emod_eq_of_lt (by omega) (by omega)
      refine ⟨i, by omega, ?_⟩
      rw [hmod]
      exact h
    · have hmod : (n - 1 + 1) % n = 0 := by
        rw [Int.sub_add_cancel, Int.emod_self]
      refine ⟨n - 1, by omega, ?_⟩
      rw [hmod]
      exact h
  · rintro ⟨i, hi, h⟩
    by_cases hlast : i + 1 = n
    · have hi' : i = n - 1 := by omega
      have hmod : (i + 1) % n = 0 := by rw [hlast, Int.emod_self]
      rw [hmod, hi'] at h
      exact Or.inr h
    · have hmod : (i + 1) % n = i + 1 := Int.emod_eq_of_lt (by omega) (by omega)
      rw [hmod] at h
      exact Or.inl ⟨i, by omega, h⟩

theorem Mesh.mesh_installed_iff_policy {n : Int} {bandwidth latency : Rat}
    (bidirectional : Bool) (hn : 0 < n) (hbw : 0 < bandwidth) (hlat : 0 ≤ latency) :
    ∃ links, Mesh.create n bandwidth latency bidirectional false [] = Except.ok links ∧
      ∀ a b : Int, Installed links a b ↔ (a, b) ∈ Mesh.get_connection_policies n := by
  refine ⟨_, Mesh.mesh_create_standalone bidirectional [] hn hbw hlat, ?_⟩
  intro a b
  rw [Mesh.mesh_mem_policies]
  simp only [installed_flatMap, installed_ite_nil, installed_connect, mem_loop_range,
    Mesh.mesh_fault_derate_nil, true_and, ne_eq, one_ne_zero, not_false_eq_true]
  constructor
  · rintro ⟨i, hi, h⟩
    exact ⟨i, by omega, h⟩
  · rintro ⟨i, hi, h⟩
    exact ⟨i, by omega, h⟩

theorem FullyConnected.fully_connected_installed_iff_policy {n : Int} {bandwidth latency : Rat}
    (bidirectional : Bool) (faulty_links : FaultyLinks) (hn : 0 < n) (hbw : 0 < bandwidth)
    (hlat : 0 ≤ latency) :
    ∃ links, FullyConnected.create n bandwidth latency bidirectional false faulty_links =
        Except.ok links ∧
      ∀ a b : Int, Installed links a b ↔
        (a, b) ∈ FullyConnected.get_connection_policies n := by
  refine ⟨_, FullyConnected.fully_connected_create_standalone bidirectional faulty_links hn hbw hlat, ?_⟩
  intro a b
  rw [FullyConnected.fully_connected_mem_policies]
  simp only [installed_flatMap, installed_ite_nil, installed_connect, mem_loop_range,
    false_and, or_false, Bool.false_eq_true]
  constructor
  · rintro ⟨src, hsrc, dest, hdest, hne, rfl, rfl⟩
    exact ⟨hsrc, hdest, hne⟩
  · rintro ⟨ha, hb, hne⟩
    exact ⟨a, ha, b, hb, hne, rfl, rfl⟩

theorem Switch.switch_installed_iff_policy {n : Int} {bandwidth latency : Rat}
    (faulty_links : FaultyLinks) (hn : 0 < n) (hbw : 0 < bandwidth) (hlat : 0 ≤ latency) :
    ∃ links, Switch.create n bandwidth latency true false faulty_links = Except.ok links ∧
      ∀ a b : Int, Installed links a b ↔ (a, b) ∈ Switch.get_connection_policies n := by
  refine ⟨_, Switch.switch_create_standalone true faulty_links hn hbw hlat, ?_⟩
  intro a b
  rw [Switch.switch_mem_policies]
  simp only [installed_flatMap, installed_connect, mem_loop_range, true_and]

theorem Mesh2D.mesh2d_installed_iff_policy {d : Int} {bandwidth latency : Rat}
    (faulty_links : FaultyLinks) (hd : 0 < d) (hbw : 0 < bandwidth) (hlat : 0 ≤ latency) :
    ∃ links policies,
      Mesh2D.create (d * d) bandwidth latency true false faulty_links = Except.ok links ∧
      Mesh2D.get_connection_policies (d * d) true = Except.ok policies ∧
      ∀ a b : Int, Installed links a b ↔ (a, b) ∈ policies := by
  obtain ⟨policies, hp, hmem⟩ := Mesh2D.mesh2d_mem_policies_square (le_of_lt hd)
  refine ⟨_, policies, Mesh2D.mesh2d_create_standalone true faulty_links hd hbw hlat, hp, ?_⟩
  intro a b
  rw [hmem]
  simp only [installed_flatMap, installed_append, installed_ite_nil, installed_connect,
    mem_loop_range, true_and]
  constructor
  · rintro ⟨row, hrow, col, hcol, (⟨h, (⟨rfl, rfl⟩ | ⟨rfl, rfl⟩)⟩ | ⟨h, (⟨rfl, rfl⟩ | ⟨rfl, rfl⟩)⟩)⟩
    · exact ⟨row, col, hrow, hcol, Or.inl ⟨rfl, Or.inl ⟨h, rfl⟩⟩⟩
    · exact ⟨row, col, hrow, hcol, Or.inr ⟨rfl, Or.inl ⟨h, rfl⟩⟩⟩
    · exact ⟨row, col, hrow, hcol, Or.inl ⟨rfl, Or.inr ⟨h, rfl⟩⟩⟩
    · exact ⟨row, col, hrow, hcol, Or.inr ⟨rfl, Or.inr ⟨h, rfl⟩⟩⟩
  · rintro ⟨row, col, hrow, hcol, (⟨rfl, (⟨h, rfl⟩ | ⟨h, rfl⟩)⟩ | ⟨rfl, (⟨h, rfl⟩ | ⟨h, rfl⟩)⟩)⟩
    · exact ⟨row, hrow, col, hcol, Or.inl ⟨h, Or.inl ⟨rfl, rfl⟩⟩⟩
    · exact ⟨row, hrow, col, hcol, Or.inr ⟨h, Or.inl ⟨rfl, rfl⟩⟩⟩
    · exact ⟨row, hrow, col, hcol, Or.inl ⟨h, Or.inr ⟨rfl, rfl⟩⟩⟩
    · exact ⟨row, hrow, col, hcol, Or.inr ⟨h, Or.inr ⟨rfl, rfl⟩⟩⟩

theorem Torus2D.torus2d_installed_iff_policy {d : Int} {bandwidth latency : Rat}
    (faulty_links : FaultyLinks) (hd : 0 < d) (hbw : 0 < bandwidth) (hlat : 0 ≤ latency) :
    ∃ links policies,
      Torus2D.create (d * d) bandwidth latency true false faulty_links = Except.ok links ∧
      Torus2D.get_connection_policies (d * d) true = Except.ok policies ∧
      ∀ a b : Int, Installed links a b ↔ (a, b) ∈ policies := by
  obtain ⟨policies, hp, hmem⟩ := Torus2D.torus2d_mem_policies_square (le_of_lt hd)
  refine ⟨_, policies, Torus2D.torus2d_create_standalone true faulty_links hd hbw hlat, hp, ?_⟩
  intro a b
  rw [hmem]
  have hsucc : ∀ x : Int, (0 ≤ x ∧ x < d) → Int.tmod (x + 1) d = (x + 1) % d := fun x hx =>
    Int.tmod_eq_emod (by omega) (by omega)
  simp only [installed_flatMap, installed_append, installed_connect, mem_loop_range, true_and]
  constructor
  · rintro ⟨row, hrow, col, hcol, ((⟨rfl, rfl⟩ | ⟨rfl, rfl⟩) | (⟨rfl, rfl⟩ | ⟨rfl, rfl⟩))⟩
    · exact ⟨row, col, hrow, hcol, Or.inl ⟨rfl, Or.inl (by rw [hsucc col hcol])⟩⟩
    · exact ⟨row, col, hrow, hcol, Or.inr ⟨rfl, Or.inl (by rw [hsucc col hcol])⟩⟩
    · exact ⟨row, col, hrow, hcol, Or.inl ⟨rfl, Or.inr (by rw [hsucc row hrow])⟩⟩
    · exact ⟨row, col, hrow, hcol, Or.inr ⟨rfl, Or.inr (by rw [hsucc row hrow])⟩⟩
  · rintro ⟨row, col, hrow, hcol, (⟨rfl, (rfl | rfl)⟩ | ⟨rfl, (rfl | rfl)⟩)⟩
    · exact ⟨row, hrow, col, hcol, Or.inl (Or.inl ⟨rfl, by rw [hsucc col hcol]⟩)⟩
    · exact ⟨row, hrow, col, hcol, Or.inr (Or.inl ⟨rfl, by rw [hsucc row hrow]⟩)⟩
    · exact ⟨row, hrow, col, hcol, Or.inl (Or.inr ⟨by rw [hsucc col hcol], rfl⟩)⟩
    · exact ⟨row, hrow, col, hcol, Or.inr (Or.inr ⟨by rw [hsucc row hrow], rfl⟩)⟩

theorem map_connect_pairs (src dest : DeviceId) (bandwidth latency : Rat)
    (bidirectional : Bool) :
    (connect src dest bandwidth latency bidirectional).map (fun l => (l.src, l.dest)) =
      (src, dest) :: (if bidirectional then [(dest, src)] else []) := by
  cases bidirectional <;> rfl

theorem map_ite_nil {α β : Type} (f : α → β) (c : Prop) [Decidable c] (l : List α) :
    (if c then l else []).map f = if c then l.map f else [] := by
  split_ifs <;> rfl

/-- The pairs of end points of the links that the constructor of `KingMesh2D` installs do
not depend on the bandwidth nor on the latency. -/
theorem KingMesh2D.create_pairs {bandwidth latency : Rat} (bidirectional : Bool)
    (faulty_links : FaultyLinks) (hbw : 0 < bandwidth) (hlat : 0 ≤ latency) :
    (KingMesh2D.create 16 bandwidth latency bidirectional false faulty_links).map
        (fun links => links.map (fun l => (l.src, l.dest))) =
      (KingMesh2D.create 16 1 1 bidirectional false faulty_links).map
        (fun links => links.map (fun l => (l.src, l.dest))) := by
  have h1 : (16 : Int) > 0 := by decide
  have h2 : bandwidth > 0 := hbw
  have h3 : latency ≥ 0 := hlat
  have h2' : (1 : Rat) > 0 := by norm_num
  have h3' : (1 : Rat) ≥ 0 := by norm_num
  have h4 : KingMesh2D.npus_count_x * KingMesh2D.npus_count_y = 16 := by decide
  simp only [KingMesh2D.create, cassert_ok h1, cassert_ok h2, cassert_ok h3, cassert_ok h2',
    cassert_ok h3', cassert_ok h4, ok_bind, if_true, pure_eq_ok, Except.map,
    List.map_flatMap, List.map_append, map_ite_nil, ite_connect, map_connect_pairs]

set_option maxRecDepth 100000 in
theorem KingMesh2D.pairs_eq_policies :
    ∃ links policies, KingMesh2D.create 16 1 1 true false [] = Except.ok links ∧
      KingMesh2D.get_connection_policies 16 true = Except.ok policies ∧
      ∀ p : Int × Int, p ∈ links.map (fun l => (l.src, l.dest)) ↔ p ∈ policies := by
  obtain ⟨links, hl⟩ := MultiDimTopology.exists_ok_of_toBool
    (show (KingMesh2D.create 16 1 1 true false []).toBool = true by decide)
  obtain ⟨policies, hp⟩ := MultiDimTopology.exists_ok_of_toBool
    (show (KingMesh2D.get_connection_policies 16 true).toBool = true by decide)
  have h : (KingMesh2D.create 16 1 1 true false [] >>= fun (links : List Link) =>
      KingMesh2D.get_connection_policies 16 true >>= fun (policies : List ConnectionPolicy) =>
        (pure (decide ((∀ p ∈ links.map (fun (l : Link) => (l.src, l.dest)), p ∈ policies) ∧
          ∀ p ∈ policies, p ∈ links.map (fun (l : Link) => (l.src, l.dest)))) :
          Except Abort Bool)) = Except.ok true := by decide
  rw [hl, hp] at h
  have h' := of_decide_eq_true (Except.ok.inj h)
  exact ⟨links, policies, hl, hp, fun p => ⟨h'.1 p, h'.2 p⟩⟩

theorem KingMesh2D.king_mesh_installed_iff_policy {bandwidth latency : Rat}
    (hbw : 0 < bandwidth) (hlat : 0 ≤ latency) :
    ∃ links policies,
      KingMesh2D.create 16 bandwidth latency true false [] = Except.ok links ∧
      KingMesh2D.get_connection_policies 16 true = Except.ok policies ∧
      ∀ a b : Int, Installed links a b ↔ (a, b) ∈ policies := by
  obtain ⟨links1, policies, hl1, hp, hmem⟩ := KingMesh2D.pairs_eq_policies
  have hpairs := @KingMesh2D.create_pairs bandwidth latency true [] hbw hlat
  rw [hl1] at hpairs
  cases hl : KingMesh2D.create 16 bandwidth latency true false [] with
  | error e =>
    rw [hl] at hpairs
    cases hpairs
  | ok links =>
    rw [hl] at hpairs
    have heq : links.map (fun l => (l.src, l.dest)) = links1.map (fun l => (l.src, l.dest)) :=
      Except.ok.inj hpairs
    refine ⟨links, policies, rfl, hp, fun a b => ?_⟩
    rw [installed_iff_mem_pairs, heq]
    exact hmem (a, b)

/-- C26. For a bidirectional `Ring`, a `Mesh`, a `FullyConnected` and a `Switch` of `n` NPUs,
a bidirectional `Mesh2D` and `Torus2D` of `d * d` NPUs and a bidirectional `KingMesh2D` of 16
NPUs, constructed standalone with an empty fault list, the constructor installs a link
`(a -> b)` exactly when `(a, b)` is one of the policies of `get_connection_policies()`. -/
theorem installed_links_are_the_connection_policies (n d : Int) (bandwidth latency : Rat)
    (hn : 0 < n) (hd : 0 < d) (hbw : 0 < bandwidth) (hlat : 0 ≤ latency) :
    (∃ links, Ring.create n bandwidth latency true false [] = Except.ok links ∧
      ∀ a b : Int, Installed links a b ↔ (a, b) ∈ Ring.get_connection_policies n true) ∧
    (∃ links, Mesh.create n bandwidth latency true false [] = Except.ok links ∧
      ∀ a b : Int, Installed links a b ↔ (a, b) ∈ Mesh.get_connection_policies n) ∧
    (∃ links, FullyConnected.create n bandwidth latency true false [] = Except.ok links ∧
      ∀ a b : Int, Installed links a b ↔
        (a, b) ∈ FullyConnected.get_connection_policies n) ∧
    (∃ links, Switch.create n bandwidth latency true false [] = Except.ok links ∧
      ∀ a b : Int, Installed links a b ↔ (a, b) ∈ Switch.get_connection_policies n) ∧
    (∃ links policies,
      Mesh2D.create (d * d) bandwidth latency true false [] = Except.ok links ∧
      Mesh2D.get_connection_policies (d * d) true = Except.ok policies ∧
      ∀ a b : Int, Installed links a b ↔ (a, b) ∈ policies) ∧
    (∃ links policies,
      Torus2D.create (d * d) bandwidth latency true false [] = Except.ok links ∧
      Torus2D.get_connection_policies (d * d) true = Except.ok policies ∧
      ∀ a b : Int, Installed links a b ↔ (a, b) ∈ policies) ∧
    (∃ links policies,
      KingMesh2D.create 16 bandwidth latency true false [] = Except.ok links ∧
      KingMesh2D.get_connection_policies 16 true = Except.ok policies ∧
      ∀ a b : Int, Installed links a b ↔ (a, b) ∈ policies) :=
  ⟨Ring.ring_installed_iff_policy [] hn hbw hlat,
    Mesh.mesh_installed_iff_policy true hn hbw hlat,
    FullyConnected.fully_connected_installed_iff_policy true [] hn hbw hlat,
    Switch.switch_installed_iff_policy [] hn hbw hlat,
    Mesh2D.mesh2d_installed_iff_policy [] hd hbw hlat,
    Torus2D.torus2d_installed_iff_policy [] hd hbw hlat,
    KingMesh2D.king_mesh_installed_iff_policy hbw hlat⟩

theorem installed_links_are_the_connection_policies_witness :
    (∃ links, Ring.create 4 1 1 true false [] = Except.ok links ∧
      ∀ a b : Int, Installed links a b ↔ (a, b) ∈ Ring.get_connection_policies 4 true) ∧
    (∃ links, Mesh.create 4 1 1 true false [] = Except.ok links ∧
      ∀ a b : Int, Installed links a b ↔ (a, b) ∈ Mesh.get_connection_policies 4) ∧
    (∃ links, FullyConnected.create 4 1 1 true false [] = Except.ok links ∧
      ∀ a b : Int, Installed links a b ↔
        (a, b) ∈ FullyConnected.get_connection_policies 4) ∧
    (∃ links, Switch.create 4 1 1 true false [] = Except.ok links ∧
      ∀ a b : Int, Installed links a b ↔ (a, b) ∈ Switch.get_connection_policies 4) ∧
    (∃ links policies,
      Mesh2D.create (2 * 2) 1 1 true false [] = Except.ok links ∧
      Mesh2D.get_connection_policies (2 * 2) true = Except.ok policies ∧
      ∀ a b : Int, Installed links a b ↔ (a, b) ∈ policies) ∧
    (∃ links policies,
      Torus2D.create (2 * 2) 1 1 true false [] = Except.ok links ∧
      Torus2D.get_connection_policies (2 * 2) true = Except.ok policies ∧
      ∀ a b : Int, Installed links a b ↔ (a, b) ∈ policies) ∧
    (∃ links policies,
      KingMesh2D.create 16 1 1 true false [] = Except.ok links ∧
      KingMesh2D.get_connection_policies 16 true = Except.ok policies ∧
      ∀ a b : Int, Installed links a b ↔ (a, b) ∈ policies) :=
  installed_links_are_the_connection_policies 4 2 1 1 (by decide) (by decide) (by norm_num)
    (by norm_num)

/-! ## NetworkParser: the mask -/

theorem crossover_mask_eq (k n : Nat) (hk : k ≤ n) :
    (List.range n).map (fun (d : Nat) => if (k : Int) ≤ (d : Int) then (1 : Int) else 0) =
      List.replicate k 0 ++ List.replicate (n - k) 1 := by
  apply List.ext_getElem
  · simp only [List.length_map, List.length_range, List.length_append, List.length_replicate]
    omega
  · intro i h1 h2
    simp only [List.getElem_map, List.getElem_range, List.getElem_append,
      List.length_replicate, List.getElem_replicate]
    by_cases hi : i < k
    · rw [dif_pos hi, if_neg (by omega)]
    · rw [dif_neg hi, if_pos (by omega)]

namespace NetworkParser

theorem parse_non_recursive_topo_crossover {dims_count k : Int} (hk : 0 ≤ k ∧ k ≤ dims_count)
    (non_recursive_topology : Option (List Int)) :
    parse_non_recursive_topo dims_count (some k) non_recursive_topology =
      Except.ok (List.replicate k.toNat 0 ++ List.replicate (dims_count.toNat - k.toNat) 1) := by
  have hrange : ¬ (k < 0 ∨ k > dims_count) := by omega
  have hcast : (fun (d : Nat) => if k ≤ (d : Int) then (1 : Int) else 0) =
      (fun (d : Nat) => if ((k.toNat : Nat) : Int) ≤ (d : Int) then (1 : Int) else 0) := by
    rw [Int.toNat_of_nonneg hk.1]
  simp only [parse_non_recursive_topo, if_neg hrange, pure_eq_ok]
  rw [hcast, crossover_mask_eq k.toNat dims_count.toNat (by omega)]

theorem parse_non_recursive_topo_out_of_range {dims_count k : Int}
    (hk : k < 0 ∨ k > dims_count) (non_recursive_topology : Option (List Int)) :
    parse_non_recursive_topo dims_count (some k) non_recursive_topology =
      Except.error Abort.exited := by
  simp only [parse_non_recursive_topo, if_pos hk, throw_eq_error]

/-- The mask of a parsed configuration is the one `parse_non_recursive_topo` returns for the
number of topology names. -/
theorem parse_network_config_yml_mask {network_config : NetworkConfig} {p : NetworkParser}
    (h : parse_network_config_yml network_config = Except.ok p) :
    ∃ topology_per_dim, parse_topology_names network_config.topology =
        Except.ok topology_per_dim ∧
      p.dims_count = (topology_per_dim.length : Int) ∧
      parse_non_recursive_topo (topology_per_dim.length : Int)
        network_config.non_recursive_from network_config.non_recursive_topology =
          Except.ok p.non_recursive_topo := by
  unfold parse_network_config_yml at h
  obtain ⟨topology_per_dim, htop, h⟩ := bind_eq_ok h
  obtain ⟨mask, hmask, h⟩ := bind_eq_ok h
  obtain ⟨_, -, h⟩ := bind_eq_ok h
  obtain ⟨faulty_links, -, h⟩ := bind_eq_ok h
  cases h
  exact ⟨topology_per_dim, htop, rfl, hmask⟩

end NetworkParser


/-- C31. Let the topology names of a configuration parse to `dims_count` kinds of topology.
When `non_recursive_from = k` is given with `0 <= k <= dims_count`, the mask is `k` zeros
followed by `dims_count - k` ones, and `check_validity` accepts every parsed configuration
with valid dimensions that has this mask. When `k < 0` or `k > dims_count`,
`parse_network_config_yml` exits. When neither `non_recursive_from` nor
`non_recursive_topology` is given, the mask is `dims_count` zeros. The mask of a parsed
configuration is the mask so computed. -/
theorem mask_normalisation (network_config : NetworkConfig)
    (topology_per_dim : List TopologyBuildingBlock) (k : Int)
    (htopology : NetworkParser.parse_topology_names network_config.topology =
      Except.ok topology_per_dim) :
    (0 ≤ k ∧ k ≤ (topology_per_dim.length : Int) →
      NetworkParser.parse_non_recursive_topo (topology_per_dim.length : Int) (some k)
          network_config.non_recursive_topology =
        Except.ok (List.replicate k.toNat 0 ++
          List.replicate (topology_per_dim.length - k.toNat) 1) ∧
      ∀ p : NetworkParser, NetworkParser.ValidDimensions p →
        p.dims_count = (topology_per_dim.length : Int) →
        p.non_recursive_topo = List.replicate k.toNat 0 ++
          List.replicate (topology_per_dim.length - k.toNat) 1 →
        NetworkParser.check_validity p = Except.ok ()) ∧
    ((k < 0 ∨ k > (topology_per_dim.length : Int)) →
      network_config.non_recursive_from = some k →
      NetworkParser.parse_network_config_yml network_config = Except.error Abort.exited) ∧
    NetworkParser.parse_non_recursive_topo (topology_per_dim.length : Int) none none =
      Except.ok (List.replicate topology_per_dim.length 0) ∧
    (∀ p : NetworkParser,
      NetworkParser.parse_network_config_yml network_config = Except.ok p →
      p.dims_count = (topology_per_dim.length : Int) ∧
      NetworkParser.parse_non_recursive_topo (topology_per_dim.length : Int)
        network_config.non_recursive_from network_config.non_recursive_topology =
          Except.ok p.non_recursive_topo) := by
  refine ⟨?_, ?_, ?_, ?_⟩
  · intro hk
    have hmask := NetworkParser.parse_non_recursive_topo_crossover hk
      network_config.non_recursive_topology
    rw [Int.toNat_natCast] at hmask
    refine ⟨hmask, ?_⟩
    intro p hvalid hdims hp
    rcases NetworkParser.check_validity_result p with ⟨hok, -⟩ | ⟨-, hnot⟩
    · exact hok
    · refine absurd ⟨NetworkParser.accepted_of_valid hvalid, Or.inr ⟨?_, ?_⟩⟩ hnot
      · rw [hp, hdims, List.length_append, List.length_replicate, List.length_replicate]
        omega
      · rw [hp]
        exact (zerosThenOnes_iff_blocks _).2 ⟨_, _, rfl⟩
  · intro hk hfrom
    unfold NetworkParser.parse_network_config_yml
    rw [htopology, hfrom]
    simp only [ok_bind, NetworkParser.parse_non_recursive_topo_out_of_range hk, error_bind]
  · simp only [NetworkParser.parse_non_recursive_topo, Int.toNat_natCast, pure_eq_ok]
  · intro p hp
    obtain ⟨topology_per_dim', htop, hdims, hmask⟩ :=
      NetworkParser.parse_network_config_yml_mask hp
    rw [htopology] at htop
    cases htop
    exact ⟨hdims, hmask⟩

theorem mask_normalisation_witness :
    (0 ≤ (1 : Int) ∧ (1 : Int) ≤
        (([TopologyBuildingBlock.Ring, TopologyBuildingBlock.Ring].length : Nat) : Int) →
      NetworkParser.parse_non_recursive_topo
          (([TopologyBuildingBlock.Ring, TopologyBuildingBlock.Ring].length : Nat) : Int)
          (some 1) (config_two_rings (some 1) none none).non_recursive_topology =
        Except.ok (List.replicate (1 : Int).toNat 0 ++
          List.replicate ([TopologyBuildingBlock.Ring, TopologyBuildingBlock.Ring].length -
            (1 : Int).toNat) 1) ∧
      ∀ p : NetworkParser, NetworkParser.ValidDimensions p →
        p.dims_count =
          (([TopologyBuildingBlock.Ring, TopologyBuildingBlock.Ring].length : Nat) : Int) →
        p.non_recursive_topo = List.replicate (1 : Int).toNat 0 ++
          List.replicate ([TopologyBuildingBlock.Ring, TopologyBuildingBlock.Ring].length -
            (1 : Int).toNat) 1 →
        NetworkParser.check_validity p = Except.ok ()) ∧
    (((1 : Int) < 0 ∨ (1 : Int) >
        (([TopologyBuildingBlock.Ring, TopologyBuildingBlock.Ring].length : Nat) : Int)) →
      (config_two_rings (some 1) none none).non_recursive_from = some 1 →
      NetworkParser.parse_network_config_yml (config_two_rings (some 1) none none) =
        Except.error Abort.exited) ∧
    NetworkParser.parse_non_recursive_topo
        (([TopologyBuildingBlock.Ring, TopologyBuildingBlock.Ring].length : Nat) : Int)
        none none =
      Except.ok (List.replicate
        [TopologyBuildingBlock.Ring, TopologyBuildingBlock.Ring].length 0) ∧
    (∀ p : NetworkParser,
      NetworkParser.parse_network_config_yml (config_two_rings (some 1) none none) =
        Except.ok p →
      p.dims_count =
        (([TopologyBuildingBlock.Ring, TopologyBuildingBlock.Ring].length : Nat) : Int) ∧
      NetworkParser.parse_non_recursive_topo
        (([TopologyBuildingBlock.Ring, TopologyBuildingBlock.Ring].length : Nat) : Int)
        (config_two_rings (some 1) none none).non_recursive_from
        (config_two_rings (some 1) none none).non_recursive_topology =
          Except.ok p.non_recursive_topo) :=
  mask_normalisation (config_two_rings (some 1) none none)
    [TopologyBuildingBlock.Ring, TopologyBuildingBlock.Ring] 1 (by decide)

/-- The parser returns on the configuration of two rings of 4 NPUs with
`non_recursive_from: 1`, with the mask `[0, 1]`; with `non_recursive_from: 3` it exits; with
neither key the mask is `[0, 0]`. -/
theorem parse_two_rings_masks :
    (NetworkParser.parse_network_config_yml (config_two_rings (some 1) none none)).map
        (fun p => p.non_recursive_topo) = Except.ok [0, 1] ∧
    (NetworkParser.parse_network_config_yml (config_two_rings (some 3) none none)).map
        (fun p => p.non_recursive_topo) = Except.error Abort.exited ∧
    (NetworkParser.parse_network_config_yml (config_two_rings none none none)).map
        (fun p => p.non_recursive_topo) = Except.ok [0, 0] := by
  refine ⟨by decide, by decide, by decide⟩

/-! ## NetworkParser: the fault list -/

theorem NetworkParser.parse_faulty_link_eq (link_node : YamlNode)
    (hint : ∀ src dst health rest, link_node = YamlNode.sequence (src :: dst :: health :: rest) →
      src.den = 1 ∧ dst.den = 1) :
    NetworkParser.parse_faulty_link link_node = Except.ok (stored_fault_entry link_node) := by
  cases link_node with
  | other => rfl
  | sequence elements =>
    match elements, hint with
    | [], _ => rfl
    | [_], _ => rfl
    | [_, _], _ => rfl
    | src :: dst :: health :: rest, hint =>
      obtain ⟨hsrc, hdst⟩ := hint src dst health rest rfl
      have hlen : (src :: dst :: health :: rest).length ≥ 3 := by
        simp only [List.length_cons]
        omega
      simp only [NetworkParser.parse_faulty_link, if_pos hlen, List.getD_cons_zero,
        List.getD_cons_succ, NetworkParser.as_int, if_pos hsrc, if_pos hdst, pure_eq_ok, ok_bind,
        stored_fault_entry]

theorem NetworkParser.parse_faulty_links_eq (nodes : List YamlNode)
    (hint : IntegerEndPoints nodes) :
    NetworkParser.parse_faulty_links nodes =
      Except.ok (nodes.filterMap stored_fault_entry) := by
  induction nodes with
  | nil => rfl
  | cons link_node rest ih =>
    have hhead := NetworkParser.parse_faulty_link_eq link_node (fun src dst health tail h =>
      hint src dst health tail (h ▸ List.mem_cons_self _ _))
    have hrest := ih (fun src dst health tail h =>
      hint src dst health tail (List.mem_cons_of_mem _ h))
    simp only [NetworkParser.parse_faulty_links, hhead, hrest, ok_bind, List.filterMap_cons]
    cases stored_fault_entry link_node <;> rfl

/-- C32, counterexample. Entries that are not a triple with a health in `[0, 1]` are stored:
of the three nodes `[0, 1, 2]`, `[2, 3, 1, 7]` and `[4, 5]` the parser stores the first, whose
health is 2, and the second, which has four elements, and skips only the third. -/
theorem malformed_fault_entries_are_stored :
    NetworkParser.parse_faulty_links
        [YamlNode.sequence [0, 1, 2], YamlNode.sequence [2, 3, 1, 7], YamlNode.sequence [4, 5]] =
      Except.ok [(0, 1, 2), (2, 3, 1)] ∧
    (NetworkParser.parse_network_config_yml (config_two_rings none none
        (some [YamlNode.sequence [0, 1, 2], YamlNode.sequence [2, 3, 1, 7],
          YamlNode.sequence [4, 5]]))).map (fun p => p.faulty_links) =
      Except.ok [(0, 1, 2), (2, 3, 1)] := by
  refine ⟨by decide, by decide⟩

/-- C32, amended. When the end points of the nodes that add an entry are integers, the fault
list after parsing `faulty_links` holds, in the order of the input, one entry for every node
that is a sequence of at least three numbers, made of its first three numbers, whatever the
health and whatever follows; the nodes that are not a sequence or have fewer than three
elements are skipped. No stored entry comes from a node of fewer than three elements. -/
theorem fault_entries_of_at_least_three_elements_are_stored (nodes : List YamlNode)
    (hint : IntegerEndPoints nodes) :
    NetworkParser.parse_faulty_links nodes =
      Except.ok (nodes.filterMap stored_fault_entry) ∧
    (∀ entry ∈ nodes.filterMap stored_fault_entry,
      ∃ src dst health rest, YamlNode.sequence (src :: dst :: health :: rest) ∈ nodes ∧
        entry = (src.num, dst.num, health)) ∧
    (∀ src dst health rest, YamlNode.sequence (src :: dst :: health :: rest) ∈ nodes →
      (src.num, dst.num, health) ∈ nodes.filterMap stored_fault_entry) := by
  refine ⟨NetworkParser.parse_faulty_links_eq nodes hint, ?_, ?_⟩
  · intro entry hentry
    obtain ⟨node, hnode, hstored⟩ := List.mem_filterMap.1 hentry
    cases node with
    | other => cases hstored
    | sequence elements =>
      match elements, hnode, hstored with
      | [], _, hstored => cases hstored
      | [_], _, hstored => cases hstored
      | [_, _], _, hstored => cases hstored
      | src :: dst :: health :: rest, hnode, hstored =>
        refine ⟨src, dst, health, rest, hnode, ?_⟩
        simp only [stored_fault_entry, Option.some.injEq] at hstored
        exact hstored.symm
  · intro src dst health rest hnode
    exact List.mem_filterMap.2 ⟨_, hnode, rfl⟩

theorem fault_entries_of_at_least_three_elements_are_stored_witness :
    NetworkParser.parse_faulty_links
        [YamlNode.sequence [0, 1, 2], YamlNode.other, YamlNode.sequence [2, 3, 1, 7],
          YamlNode.sequence [4, 5]] =
      Except.ok ([YamlNode.sequence [0, 1, 2], YamlNode.other, YamlNode.sequence [2, 3, 1, 7],
        YamlNode.sequence [4, 5]].filterMap stored_fault_entry) ∧
    (∀ entry ∈ [YamlNode.sequence [0, 1, 2], YamlNode.other, YamlNode.sequence [2, 3, 1, 7],
        YamlNode.sequence [4, 5]].filterMap stored_fault_entry,
      ∃ src dst health rest, YamlNode.sequence (src :: dst :: health :: rest) ∈
          [YamlNode.sequence [0, 1, 2], YamlNode.other, YamlNode.sequence [2, 3, 1, 7],
            YamlNode.sequence [4, 5]] ∧
        entry = (src.num, dst.num, health)) ∧
    (∀ src dst health rest, YamlNode.sequence (src :: dst :: health :: rest) ∈
        [YamlNode.sequence [0, 1, 2], YamlNode.other, YamlNode.sequence [2, 3, 1, 7],
          YamlNode.sequence [4, 5]] →
      (src.num, dst.num, health) ∈
        [YamlNode.sequence [0, 1, 2], YamlNode.other, YamlNode.sequence [2, 3, 1, 7],
          YamlNode.sequence [4, 5]].filterMap stored_fault_entry) :=
  fault_entries_of_at_least_three_elements_are_stored
    [YamlNode.sequence [0, 1, 2], YamlNode.other, YamlNode.sequence [2, 3, 1, 7],
      YamlNode.sequence [4, 5]]
    (by
      intro src dst health rest h
      simp only [List.mem_cons, YamlNode.sequence.injEq, List.cons.injEq, List.mem_singleton,
        List.mem_nil_iff, or_false, reduceCtorEq, false_or] at h
      rcases h with ⟨rfl, rfl, -⟩ | ⟨rfl, rfl, -⟩ | ⟨rfl, rfl, h⟩
      · exact ⟨rfl, rfl⟩
      · exact ⟨rfl, rfl⟩
      · cases h)

/-! ## The route from 0 to 15 on two rings of 4 NPUs -/

theorem isHop_ring_4_4_0_12 :
    MultiDimTopology.IsHop (topology_ring_4_4 [] [0, 0] false) 1 0 12 :=
  ⟨by decide, by decide, [0, 0], [0, 3], Ring.topology 4 1 1 true, by decide, by decide, rfl,
    by decide, by decide, rfl⟩

theorem isHop_ring_4_4_12_15 :
    MultiDimTopology.IsHop (topology_ring_4_4 [] [0, 0] false) 0 12 15 :=
  ⟨by decide, by decide, [0, 3], [3, 3], Ring.topology 4 1 1 true, by decide, by decide, rfl,
    by decide, by decide, rfl⟩

/-- C33, counterexample. On two rings of 4 NPUs in recursive mode with an empty fault list,
`route(0, 15)` is `[0, 12, 15]`: the addresses of the devices 0, 12 and 15 are `[0, 0]`,
`[0, 3]` and `[3, 3]`, so the first hop moves along dimension 1 and the route does not move
along dimension 0 first. -/
theorem route_0_15_moves_along_dimension_1_first :
    (∀ fuel, MultiDimTopology.route (topology_ring_4_4 [] [0, 0] false) (fuel + 1) 0 15 =
      Except.ok [0, 12, 15]) ∧
    MultiDimTopology.translate_address (topology_ring_4_4 [] [0, 0] false) 0 =
      Except.ok [0, 0] ∧
    MultiDimTopology.translate_address (topology_ring_4_4 [] [0, 0] false) 12 =
      Except.ok [0, 3] ∧
    MultiDimTopology.translate_address (topology_ring_4_4 [] [0, 0] false) 15 =
      Except.ok [3, 3] ∧
    ¬ MultiDimTopology.RouteAlong (topology_ring_4_4 [] [0, 0] false) [0, 1] [0, 12, 15] := by
  have h0 : MultiDimTopology.translate_address (topology_ring_4_4 [] [0, 0] false) 0 =
      Except.ok [0, 0] := by decide
  have h12 : MultiDimTopology.translate_address (topology_ring_4_4 [] [0, 0] false) 12 =
      Except.ok [0, 3] := by decide
  refine ⟨fun _ => rfl, h0, h12, by decide, ?_⟩
  rintro ⟨⟨-, -, addr_a, addr_b, topology, ha, hb, -, hne, -, -⟩, -⟩
  rw [h0] at ha
  rw [h12] at hb
  cases ha
  cases hb
  exact hne rfl

/-- C33, amended. The topology of two rings of 4 NPUs in recursive mode with an empty fault
list has 16 devices, and `route(0, 15)` is `[0, 12, 15]`: it moves along dimension 1 first
(the high dimension) and then along dimension 0, one device per hop, it finishes at 15, and
every consecutive pair is an installed link. -/
theorem route_0_15_on_two_rings :
    ∃ links, MultiDimTopology.construct no_switch_translation_unit [] [0, 0]
        dimensions_ring_4_4 = Except.ok (topology_ring_4_4 [] [0, 0] false, links) ∧
      (topology_ring_4_4 [] [0, 0] false).devices_count = 16 ∧
      (topology_ring_4_4 [] [0, 0] false).devices.length = 16 ∧
      (∀ fuel, MultiDimTopology.route (topology_ring_4_4 [] [0, 0] false) (fuel + 1) 0 15 =
        Except.ok [0, 12, 15]) ∧
      MultiDimTopology.RouteAlong (topology_ring_4_4 [] [0, 0] false) [1, 0] [0, 12, 15] ∧
      List.Chain' (Installed links) [0, 12, 15] := by
  obtain ⟨links, hconstruct⟩ := construct_ring_4_4_recursive
  obtain ⟨hassemble, hlinks⟩ := MultiDimTopology.assemble_of_construct hconstruct
  obtain ⟨hw, -⟩ := MultiDimTopology.assemble_eq_ok plainDimension_ring_4_4 hassemble
  have halong : MultiDimTopology.RouteAlong (topology_ring_4_4 [] [0, 0] false) [1, 0]
      [0, 12, 15] := ⟨isHop_ring_4_4_0_12, isHop_ring_4_4_12_15, trivial⟩
  exact ⟨links, hconstruct, rfl, rfl, fun _ => rfl, halong,
    MultiDimTopology.RouteAlong.chain
      (fun d a b h => MultiDimTopology.installed_of_isHop hw hlinks h) _ _ halong⟩

/-! ## Torus2D: the bandwidth of the links to the bottom neighbour -/

/-- C34, the code at a failing input. In a standalone bidirectional `Torus2D` of 9 NPUs with
bandwidth 1 whose fault list gives the link between the devices 0 and 1 the health 1/2, the
constructor installs the link `0 -> 3` to the bottom neighbour of the device 0 with the
bandwidth 1/2, although `fault_derate(0, 3)` is 1: the bandwidth of a link to the bottom
neighbour is derated by the health of the link to the right neighbour. -/
theorem Torus2D_down_link_is_derated_by_the_right_link :
    ∃ links, Torus2D.create 9 1 1 true false [(0, 1, 1 / 2)] = Except.ok links ∧
      Torus2D.fault_derate [(0, 1, 1 / 2)] 0 3 = 1 ∧
      Torus2D.fault_derate [(0, 1, 1 / 2)] 0 1 = 1 / 2 ∧
      (∃ link ∈ links, link.src = 0 ∧ link.dest = 3) ∧
      ∀ link ∈ links, link.src = 0 → link.dest = 3 → link.bandwidth = 1 / 2 := by
  have hcreate := @Torus2D.torus2d_create_standalone 3 1 1 true [(0, 1, 1 / 2)] (by decide)
    (by norm_num) (by norm_num)
  have h03 : Torus2D.fault_derate [(0, 1, 1 / 2)] 0 3 = 1 := by
    simp [Torus2D.fault_derate]
  have h01 : Torus2D.fault_derate [(0, 1, 1 / 2)] 0 1 = 1 / 2 := by
    simp [Torus2D.fault_derate]
  refine ⟨_, hcreate, h03, h01, ?_, ?_⟩
  · refine ⟨{ src := 0, dest := 3, bandwidth := 1 / 2, latency := 1 }, ?_, rfl, rfl⟩
    simp only [List.mem_flatMap, mem_loop_range, List.mem_append, mem_connect]
    refine ⟨0, by decide, 0, by decide, Or.inr (Or.inl ?_)⟩
    have hd : Int.tmod (0 + 1) 3 * 3 + 0 = 3 := by decide
    have hr : (0 : Int) * 3 + Int.tmod (0 + 1) 3 = 1 := by decide
    have hc : (0 : Int) * 3 + 0 = 0 := by decide
    rw [hd, hr, hc, h03, h01]
    norm_num
  · intro link hlink hsrc hdest
    have ht : Int.tmod 1 3 = 1 := by decide
    simp only [List.mem_flatMap, mem_loop_range, List.mem_append, mem_connect] at hlink
    obtain ⟨row, hrow, col, hcol, hlink⟩ := hlink
    obtain ⟨hrow0, hrow3⟩ := hrow
    obtain ⟨hcol0, hcol3⟩ := hcol
    interval_cases row <;> interval_cases col <;>
      rcases hlink with (rfl | ⟨-, rfl⟩) | (rfl | ⟨-, rfl⟩) <;>
      first
        | (exfalso; revert hsrc; decide)
        | (exfalso; revert hdest; decide)
        | simp [Torus2D.fault_derate, ht]

/-! ## The flag of cluster mode -/

theorem last_is_one_iff_some_one {mask : List Int} {last : Int} (hshape : ZerosThenOnes mask)
    (hlast : mask.getLast? = some last) : last = 1 ↔ ∃ v ∈ mask, v = 1 := by
  obtain ⟨init, rfl⟩ : ∃ init, mask = init ++ [last] := List.getLast?_eq_some_iff.1 hlast
  obtain ⟨hall, hpair⟩ := hshape
  constructor
  · intro h
    exact ⟨last, by simp, h⟩
  · rintro ⟨v, hv, rfl⟩
    rcases List.mem_append.1 hv with h | h
    · have hnot := (List.pairwise_append.1 hpair).2.2 1 h last (by simp)
      rcases hall last (by simp) with h0 | h1
      · exact absurd ⟨rfl, h0⟩ hnot
      · exact h1
    · exact (List.mem_singleton.1 h).symm

theorem MultiDimTopology.create_of_ne_nil (faulty_links : FaultyLinks) {mask : List Int}
    (hne : mask ≠ []) :
    ∃ t0 last, MultiDimTopology.create faulty_links mask = Except.ok t0 ∧
      mask.getLast? = some last ∧ t0.m_cluster = decide (last = 1) := by
  have hlt : mask.length - 1 < mask.length := by
    have := List.length_pos.2 hne
    omega
  have hget : mask[mask.length - 1]? = some (mask[mask.length - 1]) :=
    List.getElem?_eq_getElem hlt
  have hat : vector_at mask (mask.length - 1) = Except.ok (mask[mask.length - 1]) := by
    unfold vector_at
    rw [hget]
  have hlast : mask.getLast? = some (mask[mask.length - 1]) := by
    rw [List.getLast?_eq_getElem?, hget]
  unfold MultiDimTopology.create
  rw [hat]
  exact ⟨_, _, rfl, hlast, rfl⟩

/-- C35. For every non-empty mask that is a block of zeros followed by a block of ones, the
constructor returns, and its flag `m_cluster`, computed as `(last mask entry == 1)`, is true
if and only if some entry of the mask is 1. The calls of `append_dimension` keep the flag, so
`route` is `routeCluster` when some entry of the mask is 1 and `routeNormal` otherwise. -/
theorem m_cluster_iff_some_dimension_is_non_recursive (faulty_links : FaultyLinks)
    (mask : List Int) (hne : mask ≠ []) (hshape : ZerosThenOnes mask) :
    ∃ t0, MultiDimTopology.create faulty_links mask = Except.ok t0 ∧
      (t0.m_cluster = true ↔ ∃ v ∈ mask, v = 1) ∧
      ∀ dimensions t, MultiDimTopology.append_dimensions t0 dimensions = Except.ok t →
        (t.m_cluster = true ↔ ∃ v ∈ mask, v = 1) ∧
        ∀ fuel src dest,
          ((∃ v ∈ mask, v = 1) → MultiDimTopology.route t fuel src dest =
            MultiDimTopology.routeCluster t fuel src dest) ∧
          ((¬ ∃ v ∈ mask, v = 1) → MultiDimTopology.route t fuel src dest =
            MultiDimTopology.routeNormal t fuel src dest) := by
  obtain ⟨t0, last, hcreate, hlast, hflag⟩ :=
    MultiDimTopology.create_of_ne_nil faulty_links hne
  have hiff : t0.m_cluster = true ↔ ∃ v ∈ mask, v = 1 := by
    rw [hflag, decide_eq_true_iff]
    exact last_is_one_iff_some_one hshape hlast
  refine ⟨t0, hcreate, hiff, ?_⟩
  intro dimensions t happend
  have hkeep : t.m_cluster = t0.m_cluster :=
    (MultiDimTopology.append_dimensions_eq_ok dimensions t0 t happend).2.2.2.2.2.2.2.2.1
  have hiff' : t.m_cluster = true ↔ ∃ v ∈ mask, v = 1 := by
    rw [hkeep]
    exact hiff
  refine ⟨hiff', ?_⟩
  intro fuel src dest
  unfold MultiDimTopology.route
  refine ⟨fun h => ?_, fun h => ?_⟩
  · rw [if_pos (hiff'.2 h)]
  · rw [if_neg (fun hc => h (hiff'.1 hc))]

theorem m_cluster_iff_some_dimension_is_non_recursive_witness :
    ∃ t0, MultiDimTopology.create [] [0, 1] = Except.ok t0 ∧
      (t0.m_cluster = true ↔ ∃ v ∈ [(0 : Int), 1], v = 1) ∧
      ∀ dimensions t, MultiDimTopology.append_dimensions t0 dimensions = Except.ok t →
        (t.m_cluster = true ↔ ∃ v ∈ [(0 : Int), 1], v = 1) ∧
        ∀ fuel src dest,
          ((∃ v ∈ [(0 : Int), 1], v = 1) → MultiDimTopology.route t fuel src dest =
            MultiDimTopology.routeCluster t fuel src dest) ∧
          ((¬ ∃ v ∈ [(0 : Int), 1], v = 1) → MultiDimTopology.route t fuel src dest =
            MultiDimTopology.routeNormal t fuel src dest) :=
  m_cluster_iff_some_dimension_is_non_recursive [] [0, 1] (by decide)
    (by simp [ZerosThenOnes])

/-! ## The addresses of the cluster agents -/

namespace MultiDimTopology

theorem map_range_getD (a : List Int) : (List.range a.length).map (fun d => a.getD d 0) = a := by
  apply List.ext_getElem
  · simp
  · intro i h1 h2
    simp only [List.getElem_map, List.getElem_range, List.getD_eq_getElem?_getD,
      List.getElem?_eq_getElem h2, Option.getD_some]

theorem zero_recursive_dims_eq (t : MultiDimTopology)
    (hshape : ZerosThenOnes t.m_non_recursive_topo)
    (hmask : t.m_non_recursive_topo.length = t.dims_count) :
    ∀ (count dim : Nat) (addr : MultiDimAddress), count + dim = t.dims_count →
      addr.length = t.dims_count →
      zero_recursive_dims t count dim addr =
        Except.ok ((List.range t.dims_count).map (fun d =>
          if dim ≤ d ∧ t.m_non_recursive_topo.getD d 0 = 0 then 0 else addr.getD d 0)) := by
  intro count
  induction count with
  | zero =>
    intro dim addr hsum hlen
    have hdim : dim = t.dims_count := by omega
    rw [zero_recursive_dims, pure_eq_ok]
    congr 1
    have hself := map_range_getD addr
    rw [hlen] at hself
    refine Eq.trans hself.symm (List.map_congr_left ?_)
    intro d hd
    rw [List.mem_range] at hd
    rw [if_neg (by omega)]
  | succ count ih =>
    intro dim addr hsum hlen
    have hdim : dim < t.m_non_recursive_topo.length := by omega
    have hentry : vector_at t.m_non_recursive_topo dim =
        Except.ok (t.m_non_recursive_topo[dim]) := by
      unfold vector_at
      rw [List.getElem?_eq_getElem hdim]
    have hgetD : t.m_non_recursive_topo.getD dim 0 = t.m_non_recursive_topo[dim] := by
      rw [List.getD_eq_getElem?_getD, List.getElem?_eq_getElem hdim, Option.getD_some]
    rw [zero_recursive_dims, hentry]
    simp only [ok_bind]
    by_cases hzero : t.m_non_recursive_topo[dim] = 0
    · rw [if_pos hzero, vector_set_ok 0 (by omega : dim < addr.length)]
      simp only [ok_bind]
      rw [ih (dim + 1) (addr.set dim 0) (by omega) (by rw [List.length_set]; exact hlen)]
      congr 1
      apply List.map_congr_left
      intro d hd
      by_cases hd' : d = dim
      · subst hd'
        rw [if_neg (by omega), if_pos ⟨le_refl _, by rw [hgetD]; exact hzero⟩,
          getD_set_self addr d 0 (by omega)]
      · rw [getD_set_ne addr dim d 0 (fun h => hd' h.symm)]
        by_cases hc : dim + 1 ≤ d ∧ t.m_non_recursive_topo.getD d 0 = 0
        · rw [if_pos hc, if_pos ⟨by omega, hc.2⟩]
        · rw [if_neg hc, if_neg (fun h => hc ⟨by omega, h.2⟩)]
    · rw [if_neg hzero, pure_eq_ok]
      congr 1
      have hself := map_range_getD addr
      rw [hlen] at hself
      refine Eq.trans hself.symm (List.map_congr_left ?_)
      intro d hd
      rw [List.mem_range] at hd
      have hone : t.m_non_recursive_topo[dim] = 1 := by
        rcases hshape.1 _ (List.getElem_mem hdim) with h | h
        · exact absurd h hzero
        · exact h
      rw [if_neg]
      rintro ⟨hle, hd0⟩
      have hdlt : d < t.m_non_recursive_topo.length := by omega
      rw [List.getD_eq_getElem?_getD, List.getElem?_eq_getElem hdlt, Option.getD_some] at hd0
      rcases Nat.lt_or_ge dim d with hlt | hge
      · exact (List.pairwise_iff_getElem.1 hshape.2) dim d hdim hdlt hlt ⟨hone, hd0⟩
      · have hdd : d = dim := by omega
        subst hdd
        exact hzero hd0

theorem top_cluster_agent_addr_eq (t : MultiDimTopology) (src_addr : MultiDimAddress)
    (hdims : 0 < t.dims_count) (hlen : src_addr.length = t.dims_count) :
    top_cluster_agent_addr t src_addr =
      Except.ok ((List.range t.dims_count).map (fun d =>
        if d = t.dims_count - 1 then src_addr.getD d 0 else 0)) := by
  have h1 : (List.replicate t.dims_count (0 : Int)).length = t.dims_count :=
    List.length_replicate _ _
  have htop : vector_at src_addr (t.dims_count - 1) =
      Except.ok (src_addr.getD (t.dims_count - 1) 0) := by
    unfold vector_at
    rw [List.getD_eq_getElem?_getD,
      List.getElem?_eq_getElem (by omega : t.dims_count - 1 < src_addr.length)]
    rfl
  unfold top_cluster_agent_addr
  rw [cassert_ok h1]
  simp only [ok_bind]
  rw [if_neg (by omega), htop]
  simp only [ok_bind]
  rw [vector_set_ok _ (by rw [h1]; omega)]
  congr 1
  apply List.ext_getElem
  · simp
  · intro i hi1 hi2
    simp only [List.getElem_set, List.getElem_replicate, List.getElem_map, List.getElem_range]
    by_cases hi : t.dims_count - 1 = i
    · rw [if_pos hi, if_pos hi.symm, hi]
    · rw [if_neg hi, if_neg (fun h => hi h.symm)]

end MultiDimTopology

/-- C36. In a topology whose state is the one the calls of `append_dimension` leave (one NPU
count of at least 1 per dimension, `npus_count` their product), with at least one dimension
and a mask of one entry per dimension that is a block of zeros followed by a block of ones,
for every NPU `src`: `translate_address` returns the address of `src`; the address of the
source's cluster agent that `routeCluster` computes is this address with the coordinate of
every dimension whose mask entry is 0 set to 0 and every other coordinate unchanged; and the
address of the top cluster agent is 0 everywhere except in the highest dimension, where it
has the coordinate of `src`. -/
theorem cluster_agent_addresses (t : MultiDimTopology) (src : DeviceId)
    (hlen : t.npus_count_per_dim.length = t.dims_count)
    (hprod : t.npus_count = MultiDimTopology.accumulate_product t.npus_count_per_dim)
    (hpos : ∀ n ∈ t.npus_count_per_dim, 1 ≤ n)
    (hdims : 0 < t.dims_count)
    (hmask : t.m_non_recursive_topo.length = t.dims_count)
    (hshape : ZerosThenOnes t.m_non_recursive_topo)
    (hsrc : 0 ≤ src ∧ src < t.npus_count) :
    ∃ src_addr, MultiDimTopology.translate_address t src = Except.ok src_addr ∧
      src_addr.length = t.dims_count ∧
      MultiDimTopology.src_cluster_agent_addr t src_addr =
        Except.ok ((List.range t.dims_count).map (fun d =>
          if t.m_non_recursive_topo.getD d 0 = 0 then 0 else src_addr.getD d 0)) ∧
      MultiDimTopology.top_cluster_agent_addr t src_addr =
        Except.ok ((List.range t.dims_count).map (fun d =>
          if d = t.dims_count - 1 then src_addr.getD d 0 else 0)) := by
  have haddr := MultiDimTopology.translate_address_eq t hlen hprod hpos src hsrc.1 hsrc.2
  have hlength : (MultiDimTopology.address_digits t.npus_count_per_dim src
      t.dims_count).length = t.dims_count := MultiDimTopology.address_digits_length _ _ _
  refine ⟨_, haddr, hlength, ?_, MultiDimTopology.top_cluster_agent_addr_eq t _ hdims hlength⟩
  unfold MultiDimTopology.src_cluster_agent_addr
  rw [MultiDimTopology.zero_recursive_dims_eq t hshape hmask t.dims_count 0 _ (by omega)
    hlength]
  congr 1
  apply List.map_congr_left
  intro d _
  by_cases h : t.m_non_recursive_topo.getD d 0 = 0
  · rw [if_pos ⟨Nat.zero_le _, h⟩, if_pos h]
  · rw [if_neg (fun hc => h hc.2), if_neg h]

theorem cluster_agent_addresses_witness :
    ∃ src_addr, MultiDimTopology.translate_address topology_ring_4_4_cluster 7 =
        Except.ok src_addr ∧
      src_addr.length = topology_ring_4_4_cluster.dims_count ∧
      MultiDimTopology.src_cluster_agent_addr topology_ring_4_4_cluster src_addr =
        Except.ok ((List.range topology_ring_4_4_cluster.dims_count).map (fun d =>
          if topology_ring_4_4_cluster.m_non_recursive_topo.getD d 0 = 0 then 0
          else src_addr.getD d 0)) ∧
      MultiDimTopology.top_cluster_agent_addr topology_ring_4_4_cluster src_addr =
        Except.ok ((List.range topology_ring_4_4_cluster.dims_count).map (fun d =>
          if d = topology_ring_4_4_cluster.dims_count - 1 then src_addr.getD d 0 else 0)) :=
  cluster_agent_addresses topology_ring_4_4_cluster 7 rfl (by decide) (by decide) (by decide)
    rfl (show ZerosThenOnes [0, 1] by simp [ZerosThenOnes]) (by decide)

/-- The addresses of C36 on the two rings of 4 NPUs with the mask `[0, 1]`: the device 7 has
the address `[3, 1]`, its cluster agent the address `[0, 1]` and the top cluster agent the
address `[0, 1]`. -/
theorem cluster_agent_addresses_of_7 :
    MultiDimTopology.translate_address topology_ring_4_4_cluster 7 = Except.ok [3, 1] ∧
    MultiDimTopology.src_cluster_agent_addr topology_ring_4_4_cluster [3, 1] =
      Except.ok [0, 1] ∧
    MultiDimTopology.top_cluster_agent_addr topology_ring_4_4_cluster [3, 1] =
      Except.ok [0, 1] := by
  refine ⟨by decide, by decide, by decide⟩

/-! ## The state after the calls of `append_dimension` -/

namespace MultiDimTopology

theorem append_dimensions_ok :
    ∀ (dimensions : List BasicTopology) (t0 : MultiDimTopology),
      (∀ d ∈ dimensions, d.basic_topology_type ≠ TopologyBuildingBlock.Undefined) →
      ∃ t, append_dimensions t0 dimensions = Except.ok t := by
  intro dimensions
  induction dimensions with
  | nil => intro t0 _; exact ⟨t0, rfl⟩
  | cons topology rest ih =>
    intro t0 h
    have h1 := h topology (List.mem_cons_self _ _)
    rw [append_dimensions, append_dimension, cassert_ok h1]
    simp only [ok_bind, pure_eq_ok]
    exact ih _ (fun d hd => h d (List.mem_cons_of_mem _ hd))

/-- The number of switches `get_total_num_devices` counts over the dimensions below `k`. -/
theorem total_switch_device_eq (t : MultiDimTopology) :
    ∀ k, k ≤ t.m_topology_per_dim.length →
      total_switch_device t k = Except.ok (((List.range k).map (fun i =>
        if (t.m_topology_per_dim.map (fun d => d.basic_topology_type)).getD i
            TopologyBuildingBlock.Undefined = TopologyBuildingBlock.Switch
        then (t.npus_count_per_dim.drop (i + 1)).prod else 0)).sum) := by
  intro k
  induction k with
  | zero => intro _; rfl
  | succ k ih =>
    intro hk
    have hk' : k < t.m_topology_per_dim.length := by omega
    have hx : vector_at t.m_topology_per_dim k = Except.ok t.m_topology_per_dim[k] :=
      vector_at_eq_ok (List.getElem?_eq_getElem hk')
    have htype : (t.m_topology_per_dim.map (fun d => d.basic_topology_type)).getD k
        TopologyBuildingBlock.Undefined = t.m_topology_per_dim[k].basic_topology_type := by
      rw [List.getD_eq_getElem?_getD, List.getElem?_map, List.getElem?_eq_getElem hk']
      rfl
    rw [total_switch_device, ih (by omega)]
    simp only [ok_bind, hx, pure_eq_ok]
    rw [List.range_succ, List.map_append, List.sum_append, List.map_singleton,
      List.sum_singleton, htype]
    unfold product_above
    rw [accumulate_product_eq]
    split_ifs <;> simp

end MultiDimTopology

/-- C37. After the calls of `append_dimension` for the topologies `dimensions`, none of kind
`Undefined`, on a freshly constructed `MultiDimTopology`: the calls return; `dims_count` is
the number of calls and the length of `npus_count_per_dim` and of `bandwidth_per_dim`;
`npus_count_per_dim` holds the NPU counts of the topologies, `npus_count` is their product and
`devices_count` is the product of the device counts of the topologies. When there is at least
one dimension, the assertion of `get_total_num_devices` holds and `get_total_num_devices`
returns `npus_count` plus, for each dimension `i` of kind `Switch`, the product of the NPU
counts of the dimensions above `i`. -/
theorem append_dimension_invariants (faulty_links : FaultyLinks) (mask : List Int)
    (dimensions : List BasicTopology) (t0 : MultiDimTopology)
    (hcreate : MultiDimTopology.create faulty_links mask = Except.ok t0)
    (hdefined : ∀ d ∈ dimensions, d.basic_topology_type ≠ TopologyBuildingBlock.Undefined) :
    ∃ t, MultiDimTopology.append_dimensions t0 dimensions = Except.ok t ∧
      t.dims_count = dimensions.length ∧
      t.npus_count_per_dim.length = dimensions.length ∧
      t.bandwidth_per_dim.length = dimensions.length ∧
      t.npus_count_per_dim = dimensions.map (fun d => d.npus_count) ∧
      t.npus_count = t.npus_count_per_dim.prod ∧
      t.devices_count = (dimensions.map (fun d => d.devices_count)).prod ∧
      (1 ≤ dimensions.length →
        t.npus_count = MultiDimTopology.product_above t 0 * t.npus_count_per_dim.getD 0 0 ∧
        MultiDimTopology.get_total_num_devices t =
          Except.ok (t.npus_count + ((List.range dimensions.length).map (fun i =>
            if (dimensions.map (fun d => d.basic_topology_type)).getD i
                TopologyBuildingBlock.Undefined = TopologyBuildingBlock.Switch
            then ((dimensions.map (fun d => d.npus_count)).drop (i + 1)).prod
            else 0)).sum)) := by
  obtain ⟨t, happend⟩ := MultiDimTopology.append_dimensions_ok dimensions t0 hdefined
  obtain ⟨c1, c2, c3, c4, c5, -, -, -, -, c10, -⟩ := MultiDimTopology.create_eq_ok hcreate
  obtain ⟨a1, a2, a3, a4, a5, a6, -⟩ :=
    MultiDimTopology.append_dimensions_eq_ok dimensions t0 t happend
  rw [c1, one_mul] at a1
  rw [c2, one_mul] at a2
  rw [c3, zero_add] at a3
  rw [c4, List.nil_append] at a4
  rw [c10, List.nil_append] at a5
  rw [c5, List.nil_append] at a6
  have hprod : t.npus_count = t.npus_count_per_dim.prod := by rw [a1, a4]
  refine ⟨t, happend, a3, by rw [a4, List.length_map], by rw [a5, List.length_map], a4, hprod,
    a2, ?_⟩
  intro hone
  have hlen : t.npus_count_per_dim.length = t.dims_count := by rw [a4, List.length_map, a3]
  have hassert : t.npus_count =
      MultiDimTopology.product_above t 0 * t.npus_count_per_dim.getD 0 0 := by
    rw [hprod]
    unfold MultiDimTopology.product_above
    rw [MultiDimTopology.accumulate_product_eq]
    cases hc : t.npus_count_per_dim with
    | nil =>
      rw [hc] at hlen
      simp only [List.length_nil] at hlen
      omega
    | cons first rest =>
      simp only [List.prod_cons, List.drop_succ_cons, List.drop_zero, List.getD_cons_zero]
      exact mul_comm _ _
  refine ⟨hassert, ?_⟩
  have hfirst : vector_at t.npus_count_per_dim 0 =
      Except.ok (t.npus_count_per_dim.getD 0 0) := by
    unfold vector_at
    rw [List.getD_eq_getElem?_getD,
      List.getElem?_eq_getElem (by omega : 0 < t.npus_count_per_dim.length)]
    rfl
  have hswitch := MultiDimTopology.total_switch_device_eq t t.dims_count (by rw [a6, a3])
  have hzero : ¬ t.dims_count = 0 := by omega
  unfold MultiDimTopology.get_total_num_devices
  rw [cassert_ok hlen]
  simp only [ok_bind]
  rw [if_neg hzero]
  simp only [ok_bind, pure_eq_ok, hfirst]
  rw [cassert_ok hassert]
  simp only [ok_bind, hswitch]
  rw [a6, a4, a3]

theorem append_dimension_invariants_witness :
    ∃ t, MultiDimTopology.append_dimensions
        { npus_count := 1, devices_count := 1, dims_count := 0, npus_count_per_dim := [],
          bandwidth_per_dim := [], m_topology_per_dim := [], faulty_links := [],
          m_non_recursive_topo := [0, 0], m_cluster := false, devices := [],
          m_switch_translation_unit := none }
        [Switch.topology 4 1 1, Ring.topology 4 1 1 true] = Except.ok t ∧
      t.dims_count = [Switch.topology 4 1 1, Ring.topology 4 1 1 true].length ∧
      t.npus_count_per_dim.length = [Switch.topology 4 1 1, Ring.topology 4 1 1 true].length ∧
      t.bandwidth_per_dim.length = [Switch.topology 4 1 1, Ring.topology 4 1 1 true].length ∧
      t.npus_count_per_dim =
        [Switch.topology 4 1 1, Ring.topology 4 1 1 true].map (fun d => d.npus_count) ∧
      t.npus_count = t.npus_count_per_dim.prod ∧
      t.devices_count =
        ([Switch.topology 4 1 1, Ring.topology 4 1 1 true].map
          (fun d => d.devices_count)).prod ∧
      (1 ≤ [Switch.topology 4 1 1, Ring.topology 4 1 1 true].length →
        t.npus_count = MultiDimTopology.product_above t 0 * t.npus_count_per_dim.getD 0 0 ∧
        MultiDimTopology.get_total_num_devices t =
          Except.ok (t.npus_count +
            ((List.range [Switch.topology 4 1 1, Ring.topology 4 1 1 true].length).map
              (fun i =>
                if ([Switch.topology 4 1 1, Ring.topology 4 1 1 true].map
                    (fun d => d.basic_topology_type)).getD i
                    TopologyBuildingBlock.Undefined = TopologyBuildingBlock.Switch
                then (([Switch.topology 4 1 1, Ring.topology 4 1 1 true].map
                  (fun d => d.npus_count)).drop (i + 1)).prod
                else 0)).sum)) :=
  append_dimension_invariants [] [0, 0] [Switch.topology 4 1 1, Ring.topology 4 1 1 true] _
    rfl (by
      intro d hd
      simp only [List.mem_cons, List.mem_singleton, List.mem_nil_iff, or_false] at hd
      rcases hd with rfl | rfl
      · exact (by decide : TopologyBuildingBlock.Switch ≠ TopologyBuildingBlock.Undefined)
      · exact (by decide : TopologyBuildingBlock.Ring ≠ TopologyBuildingBlock.Undefined))

/-- The counts of C37 for a switch of 4 NPUs below a ring of 4 NPUs: 16 NPUs and 20 devices,
the 4 switches of dimension 0 being one per coordinate of dimension 1. -/
theorem total_num_devices_switch_4_ring_4 :
    (MultiDimTopology.create [] [0, 0] >>= fun t0 =>
      MultiDimTopology.append_dimensions t0 [Switch.topology 4 1 1, Ring.topology 4 1 1 true]
        >>= fun t => MultiDimTopology.get_total_num_devices t >>= fun total =>
          pure (t.npus_count, t.devices_count, total)) = Except.ok (16, 20, 20) := by
  decide

/-! ## The links of cluster mode and of recursive mode -/

namespace MultiDimTopology

theorem connections_from_congr {f g : Nat → Except Abort (List Link)} :
    ∀ (count dim : Nat), (∀ d, dim ≤ d → d < dim + count → f d = g d) →
      connections_from f count dim = connections_from g count dim := by
  intro count
  induction count with
  | zero => intro dim _; rfl
  | succ count ih =>
    intro dim h
    rw [connections_from, connections_from, h dim (le_refl _) (by omega),
      ih (dim + 1) (fun d h1 h2 => h d (by omega) (by omega))]

theorem non_recursive_connections_of_dim_eq (t : MultiDimTopology) {dim : Nat}
    (hdim : dim < t.m_non_recursive_topo.length) :
    non_recursive_connections_of_dim t dim = connections_of_dim t dim := by
  have hentry : vector_at t.m_non_recursive_topo dim =
      Except.ok (t.m_non_recursive_topo[dim]) := by
    unfold vector_at
    rw [List.getElem?_eq_getElem hdim]
  unfold non_recursive_connections_of_dim connections_of_dim
  simp only [hentry, ok_bind, ite_self]

end MultiDimTopology

/-- C38, counterexample. On the two rings of 4 NPUs with the mask `[1]`, which has one
entry for two dimensions, `make_connections` installs its 64 links, and
`make_non_recursive_connections` stops at the read `m_non_recursive_topo.at(1)`, out of
range. -/
theorem make_non_recursive_connections_reads_the_mask :
    MultiDimTopology.assemble no_switch_translation_unit [] [1] dimensions_ring_4_4 =
      Except.ok (topology_ring_4_4 [] [1] true) ∧
    (MultiDimTopology.make_connections (topology_ring_4_4 [] [1] true)).map List.length =
      Except.ok 64 ∧
    MultiDimTopology.make_non_recursive_connections (topology_ring_4_4 [] [1] true) =
      Except.error Abort.out_of_range := by
  refine ⟨rfl, by decide, by decide⟩

/-- C38, amended. For every topology state whose mask has at least `dims_count` entries,
`make_non_recursive_connections` makes exactly the `connect` calls of `make_connections`:
the same links, with the same end points, bandwidth and latency, in the same order, or the
same failure. Both branches of its distinction on the mask entry generate the address pairs
with `generateAddressPairs`. -/
theorem make_non_recursive_connections_eq_make_connections (t : MultiDimTopology)
    (hmask : t.dims_count ≤ t.m_non_recursive_topo.length) :
    MultiDimTopology.make_non_recursive_connections t = MultiDimTopology.make_connections t := by
  unfold MultiDimTopology.make_non_recursive_connections MultiDimTopology.make_connections
  rw [MultiDimTopology.connections_from_congr t.dims_count 0 (fun d _ hd =>
    MultiDimTopology.non_recursive_connections_of_dim_eq t (by omega))]

theorem make_non_recursive_connections_eq_make_connections_witness :
    MultiDimTopology.make_non_recursive_connections topology_ring_4_4_cluster =
      MultiDimTopology.make_connections topology_ring_4_4_cluster :=
  make_non_recursive_connections_eq_make_connections topology_ring_4_4_cluster (by decide)

/-- The links of C38 on the two rings of 4 NPUs with the mask `[0, 1]`: both functions return,
with 64 links. -/
theorem make_non_recursive_connections_ring_4_4 :
    (MultiDimTopology.make_non_recursive_connections topology_ring_4_4_cluster).map
        List.length = Except.ok 64 ∧
    (MultiDimTopology.make_connections topology_ring_4_4_cluster).map List.length =
      Except.ok 64 := by
  refine ⟨by decide, by decide⟩

/-! ## The test for a switch address -/

namespace MultiDimTopology

theorem zip_any_iff :
    ∀ (counts a : List Int), a.length = counts.length →
      ((List.zip counts a).any (fun ra => decide (¬ ra.2 < ra.1)) = true ↔
        ∃ d, d < counts.length ∧ a.getD d 0 ≥ counts.getD d 0) := by
  intro counts
  induction counts with
  | nil =>
    intro a _
    simp
  | cons n counts ih =>
    intro a hlen
    cases a with
    | nil => simp at hlen
    | cons x a =>
      have hrest := ih a (by simpa using hlen)
      simp only [List.zip_cons_cons, List.any_cons, Bool.or_eq_true, decide_eq_true_eq,
        hrest, List.length_cons]
      constructor
      · rintro (h | ⟨d, hd, h⟩)
        · exact ⟨0, by omega, by
            simp only [List.getD_cons_zero]
            omega⟩
        · exact ⟨d + 1, by omega, by
            simp only [List.getD_cons_succ]
            exact h⟩
      · rintro ⟨d, hd, h⟩
        cases d with
        | zero =>
          simp only [List.getD_cons_zero] at h
          exact Or.inl (by omega)
        | succ d =>
          simp only [List.getD_cons_succ] at h
          exact Or.inr ⟨d, by omega, h⟩

end MultiDimTopology

/-- C39. In a topology with one NPU count per dimension, for every address `a` of length
`dims_count`, `is_switch(a)` returns, and it is true if and only if some coordinate `a[d]` is
at least `npus_count_per_dim[d]`. When moreover `npus_count` is the product of the NPU counts,
all at least 1, `translate_address(id)` returns for every NPU `id` in `[0, npus_count)` an
address for which `is_switch` is false, so that `make_connections` translates this address
with `translate_address_back` and not with the switch translation unit. -/
theorem is_switch_iff_some_coordinate_is_out_of_range (t : MultiDimTopology)
    (hlen : t.npus_count_per_dim.length = t.dims_count) :
    (∀ a : MultiDimAddress, a.length = t.dims_count →
      ∃ b, MultiDimTopology.is_switch t a = Except.ok b ∧
        (b = true ↔ ∃ d, d < t.dims_count ∧ a.getD d 0 ≥ t.npus_count_per_dim.getD d 0)) ∧
    (t.npus_count = MultiDimTopology.accumulate_product t.npus_count_per_dim →
      (∀ n ∈ t.npus_count_per_dim, 1 ≤ n) →
      ∀ id : DeviceId, 0 ≤ id → id < t.npus_count →
        ∃ addr, MultiDimTopology.translate_address t id = Except.ok addr ∧
          MultiDimTopology.is_switch t addr = Except.ok false ∧
          MultiDimTopology.address_to_id t addr =
            MultiDimTopology.translate_address_back t addr) := by
  refine ⟨?_, ?_⟩
  · intro a ha
    have hlen' : a.length = t.npus_count_per_dim.length := by rw [ha, hlen]
    refine ⟨(List.zip t.npus_count_per_dim a).any (fun ra => decide (¬ ra.2 < ra.1)), ?_, ?_⟩
    · unfold MultiDimTopology.is_switch
      rw [cassert_ok hlen']
      rfl
    · rw [MultiDimTopology.zip_any_iff _ _ hlen', hlen]
  · intro hprod hpos id h0 h1
    have haddr := MultiDimTopology.translate_address_eq t hlen hprod hpos id h0 h1
    have hvalid := @MultiDimTopology.address_digits_valid t.npus_count_per_dim hpos id
    rw [hlen] at hvalid
    have hswitch := MultiDimTopology.is_switch_valid t hvalid
    refine ⟨_, haddr, hswitch, ?_⟩
    unfold MultiDimTopology.address_to_id
    rw [hswitch]
    rfl

theorem is_switch_iff_some_coordinate_is_out_of_range_witness :
    (∀ a : MultiDimAddress, a.length = (topology_ring_4_4 [] [0, 0] false).dims_count →
      ∃ b, MultiDimTopology.is_switch (topology_ring_4_4 [] [0, 0] false) a = Except.ok b ∧
        (b = true ↔ ∃ d, d < (topology_ring_4_4 [] [0, 0] false).dims_count ∧
          a.getD d 0 ≥ (topology_ring_4_4 [] [0, 0] false).npus_count_per_dim.getD d 0)) ∧
    ((topology_ring_4_4 [] [0, 0] false).npus_count =
        MultiDimTopology.accumulate_product
          (topology_ring_4_4 [] [0, 0] false).npus_count_per_dim →
      (∀ n ∈ (topology_ring_4_4 [] [0, 0] false).npus_count_per_dim, 1 ≤ n) →
      ∀ id : DeviceId, 0 ≤ id → id < (topology_ring_4_4 [] [0, 0] false).npus_count →
        ∃ addr, MultiDimTopology.translate_address (topology_ring_4_4 [] [0, 0] false) id =
            Except.ok addr ∧
          MultiDimTopology.is_switch (topology_ring_4_4 [] [0, 0] false) addr =
            Except.ok false ∧
          MultiDimTopology.address_to_id (topology_ring_4_4 [] [0, 0] false) addr =
            MultiDimTopology.translate_address_back (topology_ring_4_4 [] [0, 0] false)
              addr) :=
  is_switch_iff_some_coordinate_is_out_of_range (topology_ring_4_4 [] [0, 0] false) rfl

/-- The test of C39 on the two rings of 4 NPUs: the address `[4, 1]`, whose coordinate 0 is
the NPU count of dimension 0, is a switch address, and the address `[3, 1]` of the NPU 7 is
not. -/
theorem is_switch_ring_4_4 :
    MultiDimTopology.is_switch (topology_ring_4_4 [] [0, 0] false) [4, 1] = Except.ok true ∧
    MultiDimTopology.translate_address (topology_ring_4_4 [] [0, 0] false) 7 =
      Except.ok [3, 1] ∧
    MultiDimTopology.is_switch (topology_ring_4_4 [] [0, 0] false) [3, 1] =
      Except.ok false := by
  refine ⟨by decide, by decide, by decide⟩

/-! ## The grid routes read no device out of range -/

theorem grid_route_loop_in_range (n : Int)
    (next_device : DeviceId → Except Abort (Option DeviceId)) (dest : DeviceId)
    (hstep : ∀ cur : Int, (0 ≤ cur ∧ cur < n) → cur ≠ dest →
      next_device cur = Except.ok none ∨
        ∃ next : Int, next_device cur = Except.ok (some next) ∧ (0 ≤ next ∧ next < n)) :
    ∀ (fuel : Nat) (cur : Int), (0 ≤ cur ∧ cur < n) →
      StaysInRange n (grid_route_loop n next_device dest fuel cur) := by
  intro fuel
  induction fuel with
  | zero => intro cur _; exact Or.inl rfl
  | succ fuel ih =>
    intro cur hcur
    rw [grid_route_loop_succ]
    by_cases hc : cur ≠ dest
    · rw [if_pos hc]
      rcases hstep cur hcur hc with hnone | ⟨next, hnext, hrange⟩
      · rw [hnone]
        exact Or.inr ⟨[], rfl, by simp⟩
      · rw [hnext]
        simp only
        rw [devices_at_ok hrange.1 hrange.2]
        simp only
        rcases ih next hrange with hfuel | ⟨rest, hrest, hall⟩
        · rw [hfuel]
          exact Or.inl rfl
        · rw [hrest]
          simp only
          refine Or.inr ⟨next :: rest, rfl, ?_⟩
          intro c hc'
          rcases List.mem_cons.1 hc' with rfl | hc'
          · exact hrange
          · exact hall c hc'
    · rw [if_neg hc]
      exact Or.inr ⟨[], rfl, by simp⟩

theorem StaysInRange.cons {n : Int} {first : Int} {rest : Except Abort Route}
    (hfirst : 0 ≤ first ∧ first < n) (h : StaysInRange n rest) :
    StaysInRange n (rest >>= fun r => pure (first :: r)) := by
  rcases h with h | ⟨r, h, hall⟩
  · rw [h]
    exact Or.inl rfl
  · rw [h]
    refine Or.inr ⟨first :: r, rfl, ?_⟩
    intro c hc
    rcases List.mem_cons.1 hc with rfl | hc
    · exact hfirst
    · exact hall c hc

theorem grid_coordinates {d cur : Int} (hd : 0 < d) (hcur : 0 ≤ cur ∧ cur < d * d) :
    (0 ≤ Int.tmod cur d ∧ Int.tmod cur d < d) ∧ (0 ≤ Int.tdiv cur d ∧ Int.tdiv cur d < d) ∧
      cur = Int.tdiv cur d * d + Int.tmod cur d := by
  rw [Int.tmod_eq_emod hcur.1 (le_of_lt hd), Int.tdiv_eq_ediv hcur.1 (le_of_lt hd)]
  exact coord_of_device hcur (le_of_lt hd)

theorem tmod_range {a d : Int} (ha : 0 ≤ a) (hd : 0 < d) :
    0 ≤ Int.tmod a d ∧ Int.tmod a d < d := by
  rw [Int.tmod_eq_emod ha (le_of_lt hd)]
  exact ⟨Int.emod_nonneg a (by omega), Int.emod_lt_of_pos a hd⟩

theorem Mesh2D.mesh2d_next_device_in_range {d : Int} (hd : 0 < d) (faulty_links : FaultyLinks)
    (dst cur next : Int) (hcur : 0 ≤ cur ∧ cur < d * d)
    (h : Mesh2D.next_device d faulty_links dst cur = some next) :
    0 ≤ next ∧ next < d * d := by
  obtain ⟨hcx, hcy, -⟩ := grid_coordinates hd hcur
  unfold Mesh2D.next_device at h
  simp only at h
  generalize Int.tmod cur d = cx at h hcx
  generalize Int.tdiv cur d = cy at h hcy
  generalize Int.tmod dst d = dx at h
  generalize Int.tdiv dst d = dy at h
  split_ifs at h <;>
    (obtain rfl := Option.some.inj h
     exact coord_lt (by omega) (by omega))


theorem Torus2D.torus2d_next_device_in_range {d : Int} (hd : 0 < d) (faulty_links : FaultyLinks)
    (dst cur : Int) (hcur : 0 ≤ cur ∧ cur < d * d) (hdst : 0 ≤ dst ∧ dst < d * d)
    (hne : cur ≠ dst) :
    ∃ next, Torus2D.next_device d faulty_links dst cur = Except.ok next ∧
      (0 ≤ next ∧ next < d * d) := by
  obtain ⟨hcx, hcy, hcurd⟩ := grid_coordinates hd hcur
  obtain ⟨hdx, hdy, hdstd⟩ := grid_coordinates hd hdst
  have key : Int.tmod cur d = Int.tmod dst d → Int.tdiv cur d = Int.tdiv dst d → False :=
    fun h1 h2 => hne (by rw [hcurd, hdstd, h1, h2])
  unfold Torus2D.next_device
  simp only
  generalize Int.tmod cur d = cx at hcx key
  generalize Int.tdiv cur d = cy at hcy key
  generalize Int.tmod dst d = dx at hdx key
  generalize Int.tdiv dst d = dy at hdy key
  split_ifs <;>
    first
      | exact ⟨_, rfl, coord_lt (tmod_range (by omega) hd) hcy⟩
      | exact ⟨_, rfl, coord_lt hcx (tmod_range (by omega) hd)⟩
      | (exfalso; exact key (by omega) (by omega))

theorem KingMesh2D.diagonal_move_in_range (faulty_links : FaultyLinks)
    (cur cx cy step_x step_y v : Int) (hcx : 0 ≤ cx ∧ cx < 8) (hcy : 0 ≤ cy ∧ cy < 2)
    (h : KingMesh2D.diagonal_move faulty_links cur cx cy step_x step_y = some v) :
    v = -1 ∨ (0 ≤ v ∧ v < 16) := by
  unfold KingMesh2D.diagonal_move at h
  simp only [KingMesh2D.npus_count_x, KingMesh2D.npus_count_y] at h
  split_ifs at h <;>
    (obtain rfl := Option.some.inj h
     omega)

theorem KingMesh2D.axis_move_in_range (faulty_links : FaultyLinks)
    (cur cx cy step_x step_y v : Int) (hcx : 0 ≤ cx ∧ cx < 8) (hcy : 0 ≤ cy ∧ cy < 2)
    (h : KingMesh2D.axis_move faulty_links cur cx cy step_x step_y = some v) :
    v = -1 ∨ (0 ≤ v ∧ v < 16) := by
  unfold KingMesh2D.axis_move at h
  simp only [KingMesh2D.npus_count_x, KingMesh2D.npus_count_y] at h
  split_ifs at h <;>
    (obtain rfl := Option.some.inj h
     omega)

theorem KingMesh2D.king_mesh_next_device_in_range (faulty_links : FaultyLinks) (dst cur next : Int)
    (hcur : 0 ≤ cur ∧ cur < 16)
    (h : KingMesh2D.next_device faulty_links dst cur = some next) :
    0 ≤ next ∧ next < 16 := by
  have hcx : 0 ≤ Int.tmod cur 8 ∧ Int.tmod cur 8 < 8 := tmod_range hcur.1 (by decide)
  have hcy : 0 ≤ Int.tdiv cur 8 ∧ Int.tdiv cur 8 < 2 := by
    rw [Int.tdiv_eq_ediv hcur.1 (by decide)]
    omega
  unfold KingMesh2D.next_device at h
  simp only [KingMesh2D.npus_count_x] at h
  split at h
  · cases h
  · rename_i diagonal hdiag
    have hd := KingMesh2D.diagonal_move_in_range _ _ _ _ _ _ _ hcx hcy hdiag
    split at h
    · cases h
    · rename_i v hv
      split_ifs at h with hneg
      obtain rfl := Option.some.inj h
      by_cases hminus : diagonal = -1
      · rw [if_pos hminus] at hv
        have ha := KingMesh2D.axis_move_in_range _ _ _ _ _ _ _ hcx hcy hv
        omega
      · rw [if_neg hminus] at hv
        obtain rfl := Option.some.inj hv
        omega

/-- C40. For `Mesh2D` and `Torus2D` of `d * d` NPUs with `d >= 1`, for `KingMesh2D` of 16
NPUs, and for every fault list: from a device `cur` in range, the body of the loop of `route`
leaves the loop or chooses a next device in range; in `Torus2D::route`, for `cur` and `dst`
in range with `cur != dst`, the body always assigns `next` (one of `step_x`, `step_y` is not
zero); so for `src` and `dst` in range every index that `route` gives to `devices.at` is in
range: on any fuel the run is still in its loop or returns a route whose every device is in
`[0, npus_count)`. -/
theorem grid_routes_read_no_device_out_of_range (d : Int) (hd : 1 ≤ d)
    (faulty_links : FaultyLinks) :
    (∀ dst cur next : Int, (0 ≤ cur ∧ cur < d * d) →
      Mesh2D.next_device d faulty_links dst cur = some next → 0 ≤ next ∧ next < d * d) ∧
    (∀ (fuel : Nat) (src dst : Int), (0 ≤ src ∧ src < d * d) → (0 ≤ dst ∧ dst < d * d) →
      StaysInRange (d * d) (Mesh2D.route_fuel (d * d) faulty_links fuel src dst)) ∧
    (∀ dst cur : Int, (0 ≤ cur ∧ cur < d * d) → (0 ≤ dst ∧ dst < d * d) → cur ≠ dst →
      ∃ next, Torus2D.next_device d faulty_links dst cur = Except.ok next ∧
        (0 ≤ next ∧ next < d * d)) ∧
    (∀ (fuel : Nat) (src dst : Int), (0 ≤ src ∧ src < d * d) → (0 ≤ dst ∧ dst < d * d) →
      StaysInRange (d * d) (Torus2D.route_fuel (d * d) faulty_links fuel src dst)) ∧
    (∀ dst cur next : Int, (0 ≤ cur ∧ cur < 16) →
      KingMesh2D.next_device faulty_links dst cur = some next → 0 ≤ next ∧ next < 16) ∧
    (∀ (fuel : Nat) (src dst : Int), (0 ≤ src ∧ src < 16) → (0 ≤ dst ∧ dst < 16) →
      StaysInRange 16 (KingMesh2D.route_fuel 16 faulty_links fuel src dst)) := by
  have hpos : 0 < d := by omega
  have hne : ¬ d = 0 := by omega
  refine ⟨fun dst cur next hcur h => Mesh2D.mesh2d_next_device_in_range hpos faulty_links dst cur
      next hcur h, ?_,
    fun dst cur hcur hdst hcd => Torus2D.torus2d_next_device_in_range hpos faulty_links dst cur hcur
      hdst hcd, ?_,
    fun dst cur next hcur h => KingMesh2D.king_mesh_next_device_in_range faulty_links dst cur next
      hcur h, ?_⟩
  · intro fuel src dst hsrc hdst
    unfold Mesh2D.route_fuel
    simp only [int_sqrt_sq (le_of_lt hpos), if_neg hne, devices_at_ok hsrc.1 hsrc.2, ok_bind]
    refine StaysInRange.cons hsrc (grid_route_loop_in_range _ _ _ ?_ fuel src hsrc)
    intro cur hcur _
    cases hnext : Mesh2D.next_device d faulty_links dst cur with
    | none => exact Or.inl rfl
    | some next =>
      exact Or.inr ⟨next, rfl,
        Mesh2D.mesh2d_next_device_in_range hpos faulty_links dst cur next hcur hnext⟩
  · intro fuel src dst hsrc hdst
    unfold Torus2D.route_fuel
    simp only [int_sqrt_sq (le_of_lt hpos), if_neg hne, devices_at_ok hsrc.1 hsrc.2, ok_bind]
    refine StaysInRange.cons hsrc (grid_route_loop_in_range _ _ _ ?_ fuel src hsrc)
    intro cur hcur hcd
    obtain ⟨next, hnext, hrange⟩ :=
      Torus2D.torus2d_next_device_in_range hpos faulty_links dst cur hcur hdst hcd
    refine Or.inr ⟨next, ?_, hrange⟩
    rw [hnext]
    rfl
  · intro fuel src dst hsrc hdst
    have hsize : KingMesh2D.npus_count_x * KingMesh2D.npus_count_y = 16 := by decide
    unfold KingMesh2D.route_fuel
    simp only [cassert_ok hsize, devices_at_ok hsrc.1 hsrc.2, ok_bind]
    refine StaysInRange.cons hsrc (grid_route_loop_in_range _ _ _ ?_ fuel src hsrc)
    intro cur hcur _
    cases hnext : KingMesh2D.next_device faulty_links dst cur with
    | none => exact Or.inl rfl
    | some next =>
      exact Or.inr ⟨next, rfl,
        KingMesh2D.king_mesh_next_device_in_range faulty_links dst cur next hcur hnext⟩

theorem grid_routes_read_no_device_out_of_range_witness :
    (∀ dst cur next : Int, (0 ≤ cur ∧ cur < 3 * 3) →
      Mesh2D.next_device 3 [(0, 3, 0)] dst cur = some next → 0 ≤ next ∧ next < 3 * 3) ∧
    (∀ (fuel : Nat) (src dst : Int), (0 ≤ src ∧ src < 3 * 3) → (0 ≤ dst ∧ dst < 3 * 3) →
      StaysInRange (3 * 3) (Mesh2D.route_fuel (3 * 3) [(0, 3, 0)] fuel src dst)) ∧
    (∀ dst cur : Int, (0 ≤ cur ∧ cur < 3 * 3) → (0 ≤ dst ∧ dst < 3 * 3) → cur ≠ dst →
      ∃ next, Torus2D.next_device 3 [(0, 3, 0)] dst cur = Except.ok next ∧
        (0 ≤ next ∧ next < 3 * 3)) ∧
    (∀ (fuel : Nat) (src dst : Int), (0 ≤ src ∧ src < 3 * 3) → (0 ≤ dst ∧ dst < 3 * 3) →
      StaysInRange (3 * 3) (Torus2D.route_fuel (3 * 3) [(0, 3, 0)] fuel src dst)) ∧
    (∀ dst cur next : Int, (0 ≤ cur ∧ cur < 16) →
      KingMesh2D.next_device [(0, 3, 0)] dst cur = some next → 0 ≤ next ∧ next < 16) ∧
    (∀ (fuel : Nat) (src dst : Int), (0 ≤ src ∧ src < 16) → (0 ≤ dst ∧ dst < 16) →
      StaysInRange 16 (KingMesh2D.route_fuel 16 [(0, 3, 0)] fuel src dst)) :=
  grid_routes_read_no_device_out_of_range 3 (by decide) [(0, 3, 0)]

/-- The routes of C40 at concrete inputs: on the grid of 9 NPUs whose link between the
devices 1 and 2 is broken, `Mesh2D::route(0, 8)` returns `[0, 1, 4, 5, 8]` and
`Torus2D::route(0, 8)` returns `[0, 2, 8]`; on the `KingMesh2D` of 16 NPUs `route(0, 15)`
returns a route of 8 devices. -/
theorem grid_routes_at_concrete_inputs :
    Mesh2D.route_fuel 9 [(1, 2, 0)] 9 0 8 = Except.ok [0, 1, 4, 5, 8] ∧
    Torus2D.route_fuel 9 [(1, 2, 0)] 9 0 8 = Except.ok [0, 2, 8] ∧
    (KingMesh2D.route_fuel 16 [(1, 2, 0)] 16 0 15).map List.length = Except.ok 8 := by
  refine ⟨by decide, by decide, by decide⟩

end NetworkAnalyticalCongestionAware
